import Mathlib

/-!
# Particle tracking: correlation, thresholding, component labelling, clustering, downlink

A shallow embedding of `mg_image.c`, `mg_threshold.c`, `mg_conncomp.c`, `mg_centroid.c`,
`mg_kmeans.c` and `mg_downlink.c`.

* A `PGMImage` is its header plus the rows of pixel bytes.  Reading a pixel
  applies the `& 0xFF` mask of the C code, so every pixel that is read lies in
  `[0, 255]`.
* `exit(0)` on an error path is an `Except.error`.
* The `double` accumulators of `corr2d` only ever hold integers far below
  `2^53`, so they are embedded as exact integers.  The one irrational step is
  `numerator / sqrt(sum1 * sum2)`; the embedding keeps the pair
  `(|numerator|, sum1 * sum2)`, which stands for the real number
  `|numerator| / sqrt(sum1 * sum2)`, and `CorrValue.toDouble` gives the `double` that
  `corr2d` returns for it.  The loop of `thresholdImageSequence` compares these doubles.
* In `calcClusterDensity` a read outside the centroid list or outside a `distances` array
  is `MgError.outOfBounds`.
* A centroid distance `sqrt(sum)` is kept as the integer `sum`; distances are compared
  through these integers, and a density keeps the list of them.
* The outputs of `rand()` are an argument of `kmeans`.  A `while` loop gets fuel, with a
  theorem that the fuel given suffices where one is claimed.
* In `downlinkData` a `double` is a rational number or NaN, and every product and sum is
  rounded to 53 significant bits (round to nearest, ties to even); the files it copies
  are left out, and an access outside its arrays ends the run with `outOfBounds`.
-/

namespace ParticleTracking

/-! ## Errors and images (`mg.h`, `mg_image.h`) -/

/-- Error exits of the program (`exit(0)` after an error message), loop divergence, and a
read outside an array (undefined in C). -/
inductive MgError where
  | dimensionMismatch
  | headerUndefined
  | tooManyComponents
  | diverges
  | outOfBounds
  deriving DecidableEq, Repr

deriving instance DecidableEq for Except

/-- The numeric part of `struct PGMHeader`. -/
structure PGMHeader where
  width : Nat
  height : Nat
  grayscale : Nat
  deriving DecidableEq, Repr

/-- The `struct PGMImage`: header and the rows `image[i]` of pixel bytes. -/
structure PGMImage where
  header : PGMHeader
  image : List (List Nat)
  deriving DecidableEq, Repr

/-- The `#define BLACKPIX 1` of `mg_image.h` (foreground). -/
def BLACKPIX : Nat := 1

/-- The `#define WHITEPIX 0` of `mg_image.h` (background). -/
def WHITEPIX : Nat := 0

/-- The read `tmpPix = image->image[i][j]; intPix = tmpPix & 0xFF`. -/
def getPix (img : PGMImage) (i j : Nat) : Nat :=
  ((img.image.getD i []).getD j 0) % 256

/-- The write `image[i][j] = v` on the rows of an image. -/
def setPix (rows : List (List Nat)) (i j v : Nat) : List (List Nat) :=
  rows.set i ((rows.getD i []).set j v)

/-! ## Arithmetic in `double` (binary64) -/

/-- The integer nearest to `p / q` (for `q > 0`), a tie going to the even one. -/
def roundHalfEven (p q : Nat) : Nat :=
  let m := p / q
  let r := p % q
  if 2 * r < q then m else if q < 2 * r then m + 1 else if m % 2 = 0 then m else m + 1

/-- The binary logarithm of `n`, rounded down, by halving at most `fuel` times. -/
def halvings : Nat → Nat → Nat
  | 0, _ => 0
  | fuel + 1, n => if 2 ≤ n then halvings fuel (n / 2) + 1 else 0

/-- The exponent `e` with `2 ^ e ≤ p / q < 2 ^ (e + 1)`, for `p, q > 0`. -/
def binaryExponent (p q : Nat) : Int :=
  let d : Int := (halvings p p : Int) - (halvings q q : Int)
  if 0 ≤ d then (if q * 2 ^ d.toNat ≤ p then d else d - 1)
  else (if q ≤ p * 2 ^ (-d).toNat then d else d - 1)

/-- The `double` nearest to the positive rational `p / q`: 53 significant bits, round to
nearest, ties to even.  The exponent range is taken as unbounded (no overflow, no
subnormal numbers). -/
def roundPos (p q : Nat) : ℚ :=
  let s : Int := binaryExponent p q - 52
  if 0 ≤ s then ((roundHalfEven p (q * 2 ^ s.toNat) * 2 ^ s.toNat : Nat) : ℚ)
  else ((roundHalfEven (p * 2 ^ (-s).toNat) q : Nat) : ℚ) / ((2 ^ (-s).toNat : Nat) : ℚ)

/-- The rounding of a real result to `double`. -/
def roundDouble (q : ℚ) : ℚ :=
  if q = 0 then 0
  else if 0 < q then roundPos q.num.natAbs q.den
  else -roundPos q.num.natAbs q.den

/-- The largest `m` with `m ^ 2 ≤ n` among the numbers `m0 + j`, `j < 2 ^ bits`, found bit
by bit from the top bit down. -/
def sqrtBits (n : Nat) : Nat → Nat → Nat
  | 0, m => m
  | b + 1, m => if (m + 2 ^ b) ^ 2 ≤ n then sqrtBits n b (m + 2 ^ b) else sqrtBits n b m

/-- The integer square root of `n`, rounded down. -/
def intSqrt (n : Nat) : Nat := sqrtBits n (halvings n n / 2 + 1) 0

/-- The `double` that `sqrt` returns for a `double` `q ≥ 0`: the square root rounded to
nearest, as IEEE 754 requires of `sqrt`.  The root is taken of `q * 4 ^ k` as an integer
`m`, with `k` so large that `m` has more than 54 bits; when the root is not exact, the
added half stands for the digits that follow, which do not change the rounding. -/
def dblSqrt (q : ℚ) : ℚ :=
  if q ≤ 0 then 0
  else
    let k := 55 + halvings q.den q.den
    let m := intSqrt ((q.num.natAbs * 4 ^ k) / q.den)
    if m * m * q.den = q.num.natAbs * 4 ^ k then roundDouble ((m : ℚ) / 2 ^ k)
    else roundDouble ((2 * m + 1 : ℚ) / 2 ^ (k + 1))

/-! ## Correlation and copying (`mg_image.c`) -/

/-- The nested loop `for i < height, for j < width: acc += f i j`, from `acc = 0`. -/
def sumLoop (height width : Nat) (f : Nat → Nat → Int) : Int :=
  (List.range height).foldl
    (fun acc i => (List.range width).foldl (fun acc j => acc + f i j) acc) 0

/-- The call `round(s / n)` for a non-negative integer sum `s` and a pixel count `n`:
the quotient rounded to the nearest integer, halves away from zero.  For `n = 0` the C
value is NaN; it is never used then, because no pixel is visited. -/
def roundDiv (s n : Nat) : Nat := (2 * s + n) / (2 * n)

/-- A correlation value, held as the sums that `corr2d` computes: `num` is the absolute
value of `numerator` and `den2` is `sum1 * sum2`, so that the correlation is the real number
`num / sqrt den2`. -/
structure CorrValue where
  num : Nat
  den2 : Nat
  deriving DecidableEq, Repr

/-- The `double` that `corr2d` returns for the sums of a correlation value:
`denominator = sqrt(sum1 * sum2)` and `result = numerator / denominator`, the product, the
root and the quotient each rounded.  The sums are whole numbers, exact in `double` as long
as they stay below `2 ^ 53`, and are taken to be exact. -/
def CorrValue.toDouble (c : CorrValue) : ℚ :=
  roundDouble ((c.num : ℚ) / dblSqrt (roundDouble (c.den2 : ℚ)))

/-- The comparison `a < b` of the `double` results of two calls of `corr2d`, as in the test
`r > r_max` of `thresholdImageSequence`. -/
def CorrValue.lt (a b : CorrValue) : Bool :=
  decide (a.toDouble < b.toDouble)

/-- The function `corr2d` of `mg_image.c`.  The result holds the sums `numerator` and
`sum1 * sum2`; the `double` returned is its `CorrValue.toDouble`. -/
def corr2d (image1 image2 : PGMImage) : Except MgError CorrValue :=
  let image1_width := image1.header.width
  let image2_width := image2.header.width
  let image1_height := image1.header.height
  let image2_height := image2.header.height
  let image1_numPix := image1_width * image1_height
  let image2_numPix := image2_width * image2_height
  if image1_width ≠ image2_width ∨ image1_height ≠ image2_height then
    Except.error MgError.dimensionMismatch
  else
    let total1 := sumLoop image1_height image1_width (fun i j => (getPix image1 i j : Int))
    let total2 := sumLoop image1_height image1_width (fun i j => (getPix image2 i j : Int))
    let image1Mean : Int := roundDiv total1.toNat image1_numPix
    let image2Mean : Int := roundDiv total2.toNat image2_numPix
    let numerator := sumLoop image1_height image1_width
      (fun i j => ((getPix image1 i j : Int) - image1Mean) * ((getPix image2 i j : Int) - image2Mean))
    let sum1 := sumLoop image1_height image1_width
      (fun i j => ((getPix image1 i j : Int) - image1Mean) * ((getPix image1 i j : Int) - image1Mean))
    let sum2 := sumLoop image1_height image1_width
      (fun i j => ((getPix image2 i j : Int) - image2Mean) * ((getPix image2 i j : Int) - image2Mean))
    -- `denominator = sqrt(sum1 * sum2)` is zero exactly when `sum1 * sum2` is
    if sum1 * sum2 = 0 then
      Except.ok ⟨0, 1⟩
    else
      -- `result = numerator / denominator`, negated when negative
      Except.ok ⟨numerator.natAbs, (sum1 * sum2).toNat⟩

/-- The function `allocatePGMImageArray`: fresh rows for a header with non-zero
dimensions, the error exit otherwise. -/
def allocatePGMImageArray (header : PGMHeader) : Except MgError (List (List Nat)) :=
  if header.height ≠ 0 ∧ header.width ≠ 0 then
    Except.ok (List.replicate header.height (List.replicate header.width 0))
  else
    Except.error MgError.headerUndefined

/-- The function `copyPGM`: copy the header, allocate, then `memcpy` every row. -/
def copyPGM (imageSource : PGMImage) : Except MgError PGMImage :=
  match allocatePGMImageArray imageSource.header with
  | Except.error e => Except.error e
  | Except.ok rows =>
    Except.ok
      { header := imageSource.header
        image := (List.range imageSource.header.height).foldl
          (fun acc i => acc.set i
            ((List.range imageSource.header.width).map
              (fun j => (imageSource.image.getD i []).getD j 0))) rows }

/-! ## Thresholding (`mg_threshold.c`) -/

/-- The two images `thresholdImage` works on: the source it reads and the result it writes. -/
structure ThresholdState where
  image : PGMImage
  result : PGMImage
  deriving DecidableEq, Repr

/-- The body of the inner loop of `thresholdImage` at position `(i, j)`. -/
def thresholdPixel (thresholdVal : Int) (i : Nat) (s : ThresholdState) (j : Nat) :
    ThresholdState :=
  let intPix : Int := getPix s.image i j
  if intPix > thresholdVal then
    { s with result := { s.result with image := setPix s.result.image i j WHITEPIX } }
  else
    { s with result := { s.result with image := setPix s.result.image i j BLACKPIX } }

/-- The function `thresholdImage` of `mg_threshold.c`, on the pair (source, result).  The
null-pointer exits have no counterpart: both images always exist here. -/
def thresholdImage (s : ThresholdState) (thresholdVal : Int) : ThresholdState :=
  let height := s.image.header.height
  let width := s.image.header.width
  let s1 := (List.range height).foldl
    (fun st i => (List.range width).foldl (thresholdPixel thresholdVal i) st) s
  { s1 with result := { s1.result with header := { s1.result.header with grayscale := 1 } } }

/-- The loop of `thresholdImageSequence` over the remaining thresholds, with the state
`(result, index, r_max)`. -/
def sequenceLoop (image : PGMImage) :
    List Nat → PGMImage → Nat → CorrValue → Except MgError Nat
  | [], _, index, _ => Except.ok index
  | i :: rest, result, index, r_max =>
    let s := thresholdImage ⟨image, result⟩ (i : Int)
    match corr2d s.image s.result with
    | Except.error e => Except.error e
    | Except.ok r =>
      if r_max.lt r then sequenceLoop s.image rest s.result i r
      else sequenceLoop s.image rest s.result index r_max

/-- The function `thresholdImageSequence` of `mg_threshold.c`. -/
def thresholdImageSequence (image : PGMImage) : Except MgError Nat :=
  match copyPGM image with
  | Except.error e => Except.error e
  | Except.ok result => sequenceLoop image (List.range 256) result 0 ⟨0, 1⟩

/-! ## Component labelling (`mg_centroid.h`, `mg_centroid.c`, `mg_conncomp.c`) -/

/-- The `struct Centroid` of `mg_centroid.h`; a distance is kept as the integer under
its square root. -/
structure Centroid where
  x : Int
  y : Int
  kGroup : Int
  distances : List Nat
  deriving DecidableEq, Repr

/-- The function `createCents`: `numCents` centroids, each with `k` distance slots. -/
def createCents (numCents k : Nat) : List Centroid :=
  List.replicate numCents { x := 0, y := 0, kGroup := 0, distances := List.replicate k 0 }

/-- The table `SearchDirection[8][2]` of `(dy, dx)` steps, clockwise from "right". -/
def SearchDirection : List (Int × Int) :=
  [(0, 1), (1, 1), (1, 0), (1, -1), (0, -1), (-1, -1), (-1, 0), (-1, 1)]

/-- The entry `rows[i][j]` of a grid of rows (0 outside the rows). -/
def rowsGet (rows : List (List Nat)) (i j : Nat) : Nat := (rows.getD i []).getD j 0

/-- The read `labelmap[y][x]`. -/
def getLabel (labelmap : List (List Int)) (y x : Nat) : Int :=
  (labelmap.getD y []).getD x 0

/-- The write `labelmap[y][x] = v`. -/
def setLabel (labelmap : List (List Int)) (y x : Nat) (v : Int) : List (List Int) :=
  labelmap.set y ((labelmap.getD y []).set x v)

/-- The function `validatePGM`: a zeroed `bitmap` with the interior pixels of the image
copied in (the border rows and columns stay 0), and a zeroed `labelmap`.  The
allocations are taken to succeed. -/
def validatePGM (image : PGMImage) : List (List Nat) × List (List Int) :=
  let pwidth := image.header.width
  let pheight := image.header.height
  let bitmap0 := List.replicate pheight (List.replicate pwidth 0)
  let labelmap := List.replicate pheight (List.replicate pwidth (0 : Int))
  let bitmap := (List.range' 1 (pheight - 2)).foldl
    (fun bm y => (List.range' 1 (pwidth - 2)).foldl
      (fun bm x => setPix bm y x (getPix image y x)) bm) bitmap0
  (bitmap, labelmap)

/-- The variables `Tracer` updates through its pointers, with the label map. -/
structure TraceState where
  labelmap : List (List Int)
  cy : Nat
  cx : Nat
  tracingdirection : Nat
  deriving DecidableEq, Repr

/-- The loop of `Tracer` with `n` probes left. -/
def tracerLoop (bitmap : List (List Nat)) : Nat → TraceState → TraceState
  | 0, s => s
  | n + 1, s =>
    let d := SearchDirection.getD s.tracingdirection (0, 0)
    let y := ((s.cy : Int) + d.1).toNat
    let x := ((s.cx : Int) + d.2).toNat
    if rowsGet bitmap y x = 0 then
      tracerLoop bitmap n
        { s with labelmap := setLabel s.labelmap y x (-1)
                 tracingdirection := (s.tracingdirection + 1) % 8 }
    else
      { s with cy := y, cx := x }

/-- The function `Tracer`: at most 7 probes. -/
def Tracer (bitmap : List (List Nat)) (s : TraceState) : TraceState :=
  tracerLoop bitmap 7 s

/-- The `while(SearchAgain)` loop of `ContourTracing`, `none` when the fuel runs out. -/
def contourLoop (bitmap : List (List Nat)) (labelindex : Int) (sy sx fy fx : Nat) :
    Nat → TraceState → Bool → Option (List (List Int))
  | 0, _, _ => none
  | fuel + 1, s, tracingstopflag =>
    let s1 : TraceState :=
      { s with tracingdirection := (s.tracingdirection + 6) % 8
               labelmap := setLabel s.labelmap s.cy s.cx labelindex }
    let s2 := Tracer bitmap s1
    if s2.cx = sx ∧ s2.cy = sy then
      contourLoop bitmap labelindex sy sx fy fx fuel s2 true
    else if tracingstopflag then
      if s2.cx = fx ∧ s2.cy = fy then some s2.labelmap
      else contourLoop bitmap labelindex sy sx fy fx fuel s2 false
    else contourLoop bitmap labelindex sy sx fy fx fuel s2 tracingstopflag

/-- The function `ContourTracing`; the loop gets `fuel` iterations. -/
def ContourTracing (bitmap : List (List Nat)) (labelmap : List (List Int)) (fuel : Nat)
    (cy cx : Nat) (labelindex : Int) (tracingdirection : Nat) : Option (List (List Int)) :=
  let sx := cx
  let sy := cy
  let s := Tracer bitmap ⟨labelmap, cy, cx, tracingdirection⟩
  if s.cx ≠ sx ∨ s.cy ≠ sy then
    contourLoop bitmap labelindex sy sx s.cy s.cx fuel s false
  else
    some s.labelmap

/-- The variables of the raster scan of `ConnectedComponentLabeling`. -/
structure ScanState where
  labelmap : List (List Int)
  labelindex : Int
  ConnectedComponentsCount : Nat
  count : Nat
  pointbuff : List (Nat × Nat)
  deriving DecidableEq, Repr

/-- The body of the inner `for` loop of `ConnectedComponentLabeling` at `(cy, cx)`. -/
def labelPixel (bitmap : List (List Nat)) (fuel cy : Nat) (st : ScanState) (cx : Nat) :
    Except MgError ScanState :=
  if rowsGet bitmap cy cx = BLACKPIX then
    if st.labelindex ≠ 0 then
      Except.ok { st with labelmap := setLabel st.labelmap cy cx st.labelindex }
    else
      let labelindex := getLabel st.labelmap cy cx
      if labelindex = 0 then
        let ccCount := st.ConnectedComponentsCount + 1
        match ContourTracing bitmap st.labelmap fuel cy cx (ccCount : Int) 0 with
        | none => Except.error MgError.diverges
        | some labelmap =>
          let count := st.count + 1
          if count ≥ 500 then Except.error MgError.tooManyComponents
          else
            Except.ok
              { labelmap := setLabel labelmap cy cx (ccCount : Int)
                labelindex := (ccCount : Int)
                ConnectedComponentsCount := ccCount
                count := count
                pointbuff := st.pointbuff ++ [(cx, cy)] }
      else Except.ok { st with labelindex := labelindex }
  else if st.labelindex ≠ 0 then
    if getLabel st.labelmap cy cx = 0 then
      match ContourTracing bitmap st.labelmap fuel cy (cx - 1) st.labelindex 1 with
      | none => Except.error MgError.diverges
      | some labelmap => Except.ok { st with labelmap := labelmap, labelindex := 0 }
    else Except.ok { st with labelindex := 0 }
  else Except.ok st

/-- The inner loop of `ConnectedComponentLabeling` over the columns `cxs` of row `cy`. -/
def scanRow (bitmap : List (List Nat)) (fuel cy : Nat) :
    List Nat → ScanState → Except MgError ScanState
  | [], st => Except.ok st
  | cx :: rest, st =>
    match labelPixel bitmap fuel cy st cx with
    | Except.error e => Except.error e
    | Except.ok st1 => scanRow bitmap fuel cy rest st1

/-- The outer loop of `ConnectedComponentLabeling` over the rows `cys`; `labelindex` is
reset at the start of each row. -/
def scanRows (bitmap : List (List Nat)) (fuel width : Nat) :
    List Nat → ScanState → Except MgError ScanState
  | [], st => Except.ok st
  | cy :: rest, st =>
    match scanRow bitmap fuel cy (List.range' 1 (width - 2)) { st with labelindex := 0 } with
    | Except.error e => Except.error e
    | Except.ok st1 => scanRows bitmap fuel width rest st1

/-- What `ConnectedComponentLabeling` hands back: the centroid array, `*ccCount`, `*k`. -/
structure LabelResult where
  cents : List Centroid
  ccCount : Nat
  k : Nat
  deriving DecidableEq, Repr

/-- The function `ConnectedComponentLabeling`.  A contour trace is a deterministic walk
over at most `height * width * 8 * 2` states (position, direction, stop flag), so a trace
that is still running after `16 * height * width + 16` iterations never stops: that case
is `MgError.diverges`. -/
def ConnectedComponentLabeling (image : PGMImage) : Except MgError LabelResult :=
  let width := image.header.width
  let height := image.header.height
  let maps := validatePGM image
  let fuel := 16 * height * width + 16
  match scanRows maps.1 fuel width (List.range' 1 (height - 2)) ⟨maps.2, 0, 0, 0, []⟩ with
  | Except.error e => Except.error e
  | Except.ok st =>
    let ccCount := st.ConnectedComponentsCount
    let k := Nat.sqrt (ccCount / 2)
    let cents := (createCents ccCount k).zipWith
      (fun c p => { c with x := (p.1 : Int), y := (p.2 : Int) }) st.pointbuff
    Except.ok ⟨cents, ccCount, k⟩

/-- What a read of `centList[i]` past the end of the list returns in the embedding. -/
def noCentroid : Centroid := ⟨0, 0, 0, []⟩

/-- A `double` mean of distances: the real number `(Σ √root) / count` over the listed
integers, and the NaN of `0.0 / 0` when `count = 0`. -/
structure Density where
  roots : List Nat
  count : Nat
  deriving DecidableEq, Repr

/-- The function `calcClusterDensity` of `mg_conncomp.c`: the sum of
`distances[kGroup]` over the first `ccCount` centroids, divided by `ccCount`.  It has no
error exit of its own; a read of `centList[i]` past the list, or of `distances[kGroup]`
outside the `distances` array, is `MgError.outOfBounds`. -/
def calcClusterDensity (ccCount : Nat) (centList : List Centroid) : Except MgError Density :=
  let distanceSum := (List.range ccCount).foldl
    (fun (acc : Except MgError (List Nat)) i =>
      match acc with
      | Except.error e => Except.error e
      | Except.ok roots =>
        if i < centList.length ∧ 0 ≤ (centList.getD i noCentroid).kGroup ∧
            (centList.getD i noCentroid).kGroup.toNat <
              (centList.getD i noCentroid).distances.length then
          Except.ok (roots ++ [((centList.getD i noCentroid).distances).getD
            (centList.getD i noCentroid).kGroup.toNat 0])
        else Except.error MgError.outOfBounds) (Except.ok [])
  match distanceSum with
  | Except.error e => Except.error e
  | Except.ok roots => Except.ok ⟨roots, ccCount⟩

/-- The `struct Shift` of `mg_centroid.h`: each component is a quotient of two integers,
`none` standing for the NaN of `0.0 / 0`. -/
structure Shift where
  x : Option ℚ
  y : Option ℚ
  deriving DecidableEq, Repr

/-- The function `detectShift` of `mg_centroid.c`.  The loop assigns `diffX`, `diffY`
at every index; with `smallCent = 0` it does not run and the quotients are `0.0 / 0`. -/
def detectShift (centList1 : List Centroid) (centList1Len : Nat)
    (centList2 : List Centroid) (centList2Len : Nat) : Shift :=
  let smallCent := if centList1Len ≤ centList2Len then centList1Len else centList2Len
  let diff : Int × Int := (List.range smallCent).foldl
    (fun _ i =>
      ((centList2.getD i noCentroid).x - (centList1.getD i noCentroid).x,
       (centList2.getD i noCentroid).y - (centList1.getD i noCentroid).y)) (0, 0)
  if smallCent = 0 then ⟨none, none⟩
  else ⟨some ((diff.1 : ℚ) / (smallCent : ℚ)), some ((diff.2 : ℚ) / (smallCent : ℚ))⟩

/-! ## Clustering (`mg_kmeans.c`) -/

/-- The `struct RandomCentroid` of `mg_centroid.h`: a cluster centre. -/
structure RandomCentroid where
  x : Int
  y : Int
  deriving DecidableEq, Repr

/-- The function `ValueInArray`: whether `val` occurs among the first `arrSize` entries. -/
def ValueInArray (val : Int) (arr : List Int) (arrSize : Nat) : Bool :=
  (List.range arrSize).any (fun i => arr.getD i 0 == val)

/-- The function `calcDist`, as the integer `sum` under the square root: the distance
returned is `sqrt(sum)`.  The `int` products are taken not to overflow. -/
def calcDist (x1 y1 x2 y2 : Int) : Nat :=
  let xDist := x2 - x1
  let yDist := y2 - y1
  ((xDist * xDist) + (yDist * yDist)).natAbs

/-- The function `compareCents`: count the index pairs with equal coordinates and
compare the count with `k`. -/
def compareCents (rCents1 rCents2 : List RandomCentroid) (k : Nat) : Bool :=
  let count := (List.range k).foldl
    (fun count i => (List.range k).foldl
      (fun count j =>
        if (rCents1.getD i ⟨0, 0⟩).x = (rCents2.getD j ⟨0, 0⟩).x ∧
            (rCents1.getD i ⟨0, 0⟩).y = (rCents2.getD j ⟨0, 0⟩).y then count + 1
        else count) count) 0
  decide (count = k)

/-- The inner loop of `sortCentroids` over `b < k` on one distance array, from the
running `minIndex`.  Distances are compared through the integers under the root. -/
def minScan (distances : List Nat) (k minIndex : Nat) : Nat :=
  (List.range k).foldl
    (fun minIndex b => if distances.getD b 0 < distances.getD minIndex 0 then b else minIndex)
    minIndex

/-- The loop of `sortCentroids` over the centroids `a < numCent`, with the state
`(cents, minIndex)`: `minIndex` is set to 0 once, before the loop. -/
def sortLoop (numCent k : Nat) (cents : List Centroid) : List Centroid × Nat :=
  (List.range numCent).foldl
    (fun (st : List Centroid × Nat) (a : Nat) =>
      let minIndex := minScan (st.1.getD a noCentroid).distances k st.2
      (st.1.set a { st.1.getD a noCentroid with kGroup := (minIndex : Int) }, minIndex))
    (cents, 0)

/-- The function `sortCentroids` of `mg_kmeans.c`. -/
def sortCentroids (numCent k : Nat) (cents : List Centroid) : List Centroid :=
  (sortLoop numCent k cents).1

/-- The function `adjustRandomCentroid` of `mg_kmeans.c`, with the state
`(rCent, xSum, ySum)`.  The sums are set to 0 once, before the loops; the braceless `if`
guards `xSum += ...` only; the means divide by `numCents` (C integer division, taken
with `numCents ≠ 0`). -/
def adjustRandomCentroid (numCents k : Nat) (cents : List Centroid)
    (rCent : List RandomCentroid) : List RandomCentroid :=
  ((List.range k).foldl
    (fun (st : List RandomCentroid × (Int × Int)) (curK : Nat) =>
      let sums := (List.range numCents).foldl
        (fun (s : Int × Int) (i : Nat) =>
          let xSum := if (cents.getD i noCentroid).kGroup = (curK : Int)
            then s.1 + (cents.getD i noCentroid).x else s.1
          let ySum := s.2 + (cents.getD i noCentroid).y
          (xSum, ySum)) st.2
      let xMean := Int.tdiv sums.1 (numCents : Int)
      let yMean := Int.tdiv sums.2 (numCents : Int)
      (st.1.set curK ⟨xMean, yMean⟩, sums))
    (rCent, ((0 : Int), (0 : Int)))).1

/-- The variables of the convergence loop of `kmeans`. -/
structure KmeansState where
  cents : List Centroid
  rCent : List RandomCentroid
  tmpCent : List RandomCentroid
  equivilent : Bool
  loopCount : Nat
  deriving DecidableEq, Repr

/-- The copy loop `tmpCent[i] = rCent[i]` for `i < k`. -/
def copyCents (k : Nat) (rCent tmpCent : List RandomCentroid) : List RandomCentroid :=
  (List.range k).foldl (fun t i => t.set i (rCent.getD i ⟨0, 0⟩)) tmpCent

/-- The body of the `while(equivilent == false)` loop of `kmeans`. -/
def kmeansBody (numCents k : Nat) (st : KmeansState) : KmeansState :=
  let cents := sortCentroids numCents k st.cents
  let tmpCent := copyCents k st.rCent st.tmpCent
  let rCent := adjustRandomCentroid numCents k cents st.rCent
  let equivilent := compareCents tmpCent rCent k
  let loopCount := st.loopCount + 1
  { cents := cents
    rCent := rCent
    tmpCent := tmpCent
    equivilent := if loopCount ≥ 500 then true else equivilent
    loopCount := loopCount }

/-- The `while(equivilent == false)` loop of `kmeans`, `none` when the fuel runs out. -/
def kmeansWhile (numCents k : Nat) : Nat → KmeansState → Option KmeansState
  | 0, _ => none
  | fuel + 1, st =>
    if st.equivilent = false then kmeansWhile numCents k fuel (kmeansBody numCents k st)
    else some st

/-- The loops of `kmeans` that fill `cents[j].distances[i]` with the distance from
centre `i` to centroid `j`. -/
def fillDistances (numCents k : Nat) (rCent : List RandomCentroid) (cents : List Centroid) :
    List Centroid :=
  (List.range k).foldl
    (fun cents i => (List.range numCents).foldl
      (fun cents j =>
        cents.set j
          { cents.getD j noCentroid with
            distances := (cents.getD j noCentroid).distances.set i
              (calcDist (rCent.getD i ⟨0, 0⟩).x (rCent.getD i ⟨0, 0⟩).y
                (cents.getD j noCentroid).x (cents.getD j noCentroid).y) }) cents) cents

/-- The state of `kmeans` on entry to the convergence loop, from the seeded centres. -/
def kmeansEntry (numCents k : Nat) (cents : List Centroid) (rCent : List RandomCentroid) :
    KmeansState :=
  let cents1 := sortCentroids numCents k (fillDistances numCents k rCent cents)
  let tmpCent := copyCents k rCent (List.replicate k ⟨0, 0⟩)
  let rCent1 := adjustRandomCentroid numCents k cents1 rCent
  { cents := cents1
    rCent := rCent1
    tmpCent := tmpCent
    equivilent := compareCents tmpCent rCent1 k
    loopCount := 0 }

/-- The part of `kmeans` after the centres are seeded: distances, first assignment and
the convergence loop, which gets 501 units of fuel. -/
def kmeansSeeded (numCents k : Nat) (cents : List Centroid) (rCent : List RandomCentroid) :
    Option KmeansState :=
  kmeansWhile numCents k 501 (kmeansEntry numCents k cents rCent)

/-- The `while(answer == true)` loop of `kmeans`: take outputs of `rand()` until one,
reduced modulo `k + 1`, is not in `randCentInd`; `none` when the outputs run out. -/
def drawIndex (k : Nat) (randCentInd : List Int) : List Nat → Option (Int × List Nat)
  | [] => none
  | r :: rest =>
    if ValueInArray ((r % (k + 1) : Nat) : Int) randCentInd k = true then
      drawIndex k randCentInd rest
    else some (((r % (k + 1) : Nat) : Int), rest)

/-- The seeding loop of `kmeans` over the slots `i` of `randCentInd`. -/
def seedLoop (k : Nat) : List Nat → List Int → List Nat → Option (List Int)
  | [], randCentInd, _ => some randCentInd
  | i :: slots, randCentInd, rands =>
    match drawIndex k randCentInd rands with
    | none => none
    | some (random, rest) => seedLoop k slots (randCentInd.set i random) rest

/-- The function `kmeans` of `mg_kmeans.c`.  The outputs of `rand()` are the list
`rands`, the uninitialised `randCentInd` array is `randCentInd0`, and a read of
`cents[index]` past the end returns `past`.  The result is the centroid array as the
function leaves it; `none` when `rands` runs out. -/
def kmeans (k : Nat) (cents : List Centroid) (numCents : Nat) (rands : List Nat)
    (randCentInd0 : List Int) (past : Centroid) : Option (List Centroid) :=
  match seedLoop k (List.range k) randCentInd0 rands with
  | none => none
  | some randCentInd =>
    let rCent := (List.range k).foldl
      (fun (rCent : List RandomCentroid) i =>
        rCent.set i
          ⟨(cents.getD (randCentInd.getD i 0).toNat past).x,
           (cents.getD (randCentInd.getD i 0).toNat past).y⟩)
      (List.replicate k ⟨0, 0⟩)
    (kmeansSeeded numCents k cents rCent).map (fun st => st.cents)

/-! ## Downlink selection (`mg_downlink.c`) -/

/-- The quota `images2Downlink = (numImages * (downlinkPercentage * .01))` of
`downlinkData`: two `double` products and the conversion to `int`, which truncates. -/
def images2Downlink (numImages : Nat) (downlinkPercentage : Int) : Int :=
  let pct := roundDouble ((downlinkPercentage : ℚ) * roundDouble (1 / 100))
  let prod := roundDouble ((numImages : ℚ) * pct)
  Int.tdiv prod.num (prod.den : Int)

/-- The `double` product `a * b`; `none` is NaN. -/
def dblMul (a b : Option ℚ) : Option ℚ :=
  match a, b with
  | some x, some y => some (roundDouble (x * y))
  | _, _ => none

/-- The `double` sum `a + b`; `none` is NaN. -/
def dblAdd (a b : Option ℚ) : Option ℚ :=
  match a, b with
  | some x, some y => some (roundDouble (x + y))
  | _, _ => none

/-- The `double` difference `a - b`; `none` is NaN. -/
def dblSub (a b : Option ℚ) : Option ℚ :=
  match a, b with
  | some x, some y => some (roundDouble (x - y))
  | _, _ => none

/-- The variables of `downlinkData` that its selection loop reads and writes.  The
transmit set is `downlinked`; the files that `downlinkImage` copies are left out. -/
structure DownlinkState where
  score : List (Option ℚ)
  downlinked : List Bool
  downlinkCount : Nat
  index : Nat
  maxTries : Nat
  deriving DecidableEq, Repr

/-- How a run of `downlinkData` can end without returning: an access outside
`downlinked[0 .. numImages - 1]` (undefined behaviour in C), or no fuel left. -/
inductive DownlinkError where
  | outOfBounds
  | outOfFuel
  deriving DecidableEq, Repr

/-- The function `downlinkImage`, on an index inside the arrays: mark the frame as
transmitted, count it, and set its score to 0. -/
def downlinkImage (index : Nat) (st : DownlinkState) : DownlinkState :=
  { st with
    downlinked := st.downlinked.set index true
    downlinkCount := st.downlinkCount + 1
    score := st.score.set index (some 0) }

/-- The search loop `for(i=1; i<(numImages-1); i++)` of `downlinkData`, with the state
`(maxScore, index)`: `maxScore` starts at 0 and `index` keeps its value when no score is
greater.  A comparison with NaN is false. -/
def scoreSearch (numImages : Nat) (score : List (Option ℚ)) (index : Nat) : ℚ × Nat :=
  (List.range' 1 (numImages - 2)).foldl
    (fun (s : ℚ × Nat) (i : Nat) =>
      match score.getD i none with
      | some v => if v > s.1 then (v, i) else s
      | none => s)
    (0, index)

/-- One statement `if(downlinked[i] == false) downlinkImage(.., i, ..)` of the loop body,
for a C index `i`. -/
def downlinkIfNew (numImages : Nat) (i : Int) (st : DownlinkState) :
    Except DownlinkError DownlinkState :=
  if 0 ≤ i ∧ i < (numImages : Int) then
    if st.downlinked.getD i.toNat false = false then Except.ok (downlinkImage i.toNat st)
    else Except.ok st
  else Except.error DownlinkError.outOfBounds

/-- The body of the `while` loop of `downlinkData`: one attempt. -/
def downlinkAttempt (numImages : Nat) (st : DownlinkState) :
    Except DownlinkError DownlinkState :=
  let index := (scoreSearch numImages st.score st.index).2
  let st0 : DownlinkState := { st with index := index, maxTries := st.maxTries + 1 }
  match downlinkIfNew numImages ((index : Int) - 1) st0 with
  | Except.error e => Except.error e
  | Except.ok st1 =>
    match downlinkIfNew numImages (index : Int) st1 with
    | Except.error e => Except.error e
    | Except.ok st2 => downlinkIfNew numImages ((index : Int) + 1) st2

/-- The condition `(downlinkCount < images2Downlink) && (maxTries < 1000)`. -/
def downlinkGuard (quota : Int) (st : DownlinkState) : Bool :=
  decide ((st.downlinkCount : Int) < quota) && decide (st.maxTries < 1000)

/-- The `while` loop of `downlinkData`, `outOfFuel` when the fuel runs out. -/
def downlinkWhile (numImages : Nat) (quota : Int) :
    Nat → DownlinkState → Except DownlinkError DownlinkState
  | 0, _ => Except.error DownlinkError.outOfFuel
  | fuel + 1, st =>
    if downlinkGuard quota st = true then
      match downlinkAttempt numImages st with
      | Except.error e => Except.error e
      | Except.ok st1 => downlinkWhile numImages quota fuel st1
    else Except.ok st

/-- The score `(kDistances[i]*c1)+((acceleration[i].x + acceleration[i].y)*c2)` with
`c1 = c2 = 0.5`; a read past the end of an input array returns `pastDist`, `pastAcc`. -/
def frameScore (acceleration : List Shift) (kDistances : List (Option ℚ))
    (pastAcc : Shift) (pastDist : Option ℚ) (i : Nat) : Option ℚ :=
  dblAdd (dblMul (kDistances.getD i pastDist) (some (1 / 2)))
    (dblMul (dblAdd (acceleration.getD i pastAcc).x (acceleration.getD i pastAcc).y)
      (some (1 / 2)))

/-- The state of `downlinkData` on entry to its `while` loop: the first and the last
frame transmitted with score 0, and the interior frames scored.  `numImages ≥ 1` is
taken for granted (the arrays have `numImages` entries). -/
def downlinkEntry (acceleration : List Shift) (kDistances : List (Option ℚ))
    (numImages : Nat) (pastAcc : Shift) (pastDist : Option ℚ) : DownlinkState :=
  let downlinked := ((List.replicate numImages false).set 0 true).set (numImages - 1) true
  let score0 := ((List.replicate numImages (none : Option ℚ)).set 0 (some 0)).set
    (numImages - 1) (some 0)
  let score := (List.range' 1 (numImages - 2)).foldl
    (fun (score : List (Option ℚ)) (i : Nat) =>
      score.set i (frameScore acceleration kDistances pastAcc pastDist i)) score0
  ⟨score, downlinked, 2, 0, 0⟩

/-- The function `downlinkData` of `mg_downlink.c`; the loop gets 1001 units of fuel.
The result is the state at the exit of the loop (the function then clears `maxTries` and
returns nothing).  The parameter `startImg` only names the files and is left out. -/
def downlinkData (downlinkPercentage : Int) (acceleration : List Shift)
    (kDistances : List (Option ℚ)) (numImages : Nat) (pastAcc : Shift)
    (pastDist : Option ℚ) : Except DownlinkError DownlinkState :=
  downlinkWhile numImages (images2Downlink numImages downlinkPercentage) 1001
    (downlinkEntry acceleration kDistances numImages pastAcc pastDist)

/-! ## Frame loop (`test_run.c`) -/

/-- The acceleration bookkeeping of the frame loop of `SciAnalysis` (`test_run.c`), over
the shifts of the consecutive frame pairs (`shifts[idx]` is the shift found in the pass
`i = startImg + 1 + idx`), with the state `(accList, shiftPrev)`; `accIndex` is the number
of entries written.  An entry `shiftPrev - shift` is written in every pass but the first,
while `accIndex < numImages - 2`. -/
def accList (numImages : Nat) (shifts : List Shift) (shiftPrev : Shift) : List Shift :=
  (shifts.foldl
    (fun (st : (List Shift × Shift) × Nat) (shift : Shift) =>
      let acc :=
        if 0 < st.2 ∧ st.1.1.length < numImages - 2 then
          st.1.1 ++ [⟨dblSub st.1.2.x shift.x, dblSub st.1.2.y shift.y⟩]
        else st.1.1
      ((acc, shift), st.2 + 1))
    (([], shiftPrev), 0)).1.1

/-! ## Auxiliary notions used in the proofs -/

/-- The deviation sum `Σ (p1 - m1) * (p2 - m2)` of the second loop of `corr2d`. -/
def devSum (height width : Nat) (image1 image2 : PGMImage) (m1 m2 : Int) : Int :=
  sumLoop height width
    (fun i j => ((getPix image1 i j : Int) - m1) * ((getPix image2 i j : Int) - m2))

/-- The rounded mean `round(Σ p / numPix)` of the first loop of `corr2d`. -/
def pixMean (height width : Nat) (img : PGMImage) : Int :=
  (roundDiv (sumLoop height width (fun i j => (getPix img i j : Int))).toNat (width * height) : Nat)

/-- The number of positions `(i, j)` of the grid whose pixel is `v`, counted by the
double loop. -/
def countPix (h w : Nat) (A : PGMImage) (v : Nat) : Int :=
  sumLoop h w (fun i j => if getPix A i j = v then 1 else 0)

/-- A grid of rows holds `h` rows of `w` entries each. -/
def Shaped (rows : List (List Nat)) (h w : Nat) : Prop :=
  rows.length = h ∧ ∀ row ∈ rows, row.length = w

/-- The pixel `thresholdImage` writes for source pixel value `p` at threshold `t`. -/
def thresholdValue (p : Nat) (t : Int) : Nat :=
  if (p : Int) > t then WHITEPIX else BLACKPIX

/-- The state reached from `s0` has the source untouched, the result header untouched,
the result rows still `h × w`, and `P i j` marks the result entries already written. -/
structure ThresholdInv (t : Int) (s0 s : ThresholdState) (h w : Nat)
    (P : Nat → Nat → Prop) : Prop where
  image_eq : s.image = s0.image
  header_eq : s.result.header = s0.result.header
  shaped : Shaped s.result.image h w
  written : ∀ i j, P i j → rowsGet s.result.image i j = thresholdValue (getPix s0.image i j) t
  kept : ∀ i j, ¬ P i j → rowsGet s.result.image i j = rowsGet s0.result.image i j

/-- A result buffer allocated with the dimensions of `image`. -/
def GoodBuf (image result : PGMImage) : Prop :=
  result.header.width = image.header.width ∧ result.header.height = image.header.height ∧
    Shaped result.image image.header.height image.header.width

/-- The correlation of `image` with its binarisation at threshold `t`, written into the
buffer `result`. -/
def corrAt (image result : PGMImage) (t : Nat) : CorrValue :=
  match corr2d image (thresholdImage ⟨image, result⟩ (t : Int)).result with
  | Except.ok c => c
  | Except.error _ => ⟨0, 1⟩

/-- The loop of `thresholdImageSequence` on the list of correlation values: the state
`(index, r_max)` after the thresholds `ts`. -/
def scanPure (c : Nat → CorrValue) : List Nat → Nat → CorrValue → Nat × CorrValue
  | [], index, r_max => (index, r_max)
  | i :: rest, index, r_max =>
    if r_max.lt (c i) then scanPure c rest i (c i) else scanPure c rest index r_max

/-- Raster order on `(x, y)` positions: by row `y`, then by column `x`. -/
def rasterLt (p q : Nat × Nat) : Prop := p.2 < q.2 ∨ (p.2 = q.2 ∧ p.1 < q.1)

/-- What the scan keeps true before it visits `(cy, cx)`: both counters equal the number
of recorded points, fewer than 500; the points are in raster order, lie before `(cy, cx)`,
and are foreground pixels of the scanned interior. -/
structure ScanInv (bitmap : List (List Nat)) (height width : Nat) (st : ScanState)
    (cy cx : Nat) : Prop where
  count_eq : st.count = st.pointbuff.length
  cc_eq : st.ConnectedComponentsCount = st.pointbuff.length
  lt_cap : st.pointbuff.length < 500
  sorted : st.pointbuff.Pairwise rasterLt
  before : ∀ p ∈ st.pointbuff, rasterLt p (cx, cy)
  fg : ∀ p ∈ st.pointbuff, rowsGet bitmap p.2 p.1 = BLACKPIX ∧
    1 ≤ p.2 ∧ p.2 < 1 + (height - 2) ∧ 1 ≤ p.1 ∧ p.1 < 1 + (width - 2)

/-- All eight neighbours of `(cy, cx)` are background in the bitmap. -/
def Isolated (bitmap : List (List Nat)) (cy cx : Nat) : Prop :=
  ∀ d ∈ SearchDirection,
    rowsGet bitmap ((cy : Int) + d.1).toNat ((cx : Int) + d.2).toNat = 0

/-- Every non-background pixel of the bitmap is isolated. -/
def Sparse (bitmap : List (List Nat)) : Prop :=
  ∀ y x, rowsGet bitmap y x ≠ 0 → Isolated bitmap y x

/-- The bitmap holds only the values 0 and `BLACKPIX`. -/
def Binary (bitmap : List (List Nat)) : Prop :=
  ∀ y x, rowsGet bitmap y x ≠ BLACKPIX → rowsGet bitmap y x = 0

/-- The number of foreground pixels of row `cy` among the columns `cxs`. -/
def fgIn (bitmap : List (List Nat)) (cy : Nat) (cxs : List Nat) : Nat :=
  (cxs.filter (fun cx => decide (rowsGet bitmap cy cx = BLACKPIX))).length

/-- The number of foreground pixels among the rows `cys` and columns `cxs`. -/
def fgTotal (bitmap : List (List Nat)) (cys cxs : List Nat) : Nat :=
  (cys.map (fun cy => fgIn bitmap cy cxs)).sum

/-- What the scan of a sparse bitmap keeps true before it visits `(cy, cx)`: no pixel at
or after `(cy, cx)` is labelled, a run label is only carried right after a foreground
pixel, and the count is below the capacity. -/
structure SparseInv (bitmap : List (List Nat)) (st : ScanState) (cy cx : Nat) : Prop where
  ahead : ∀ y x, rowsGet bitmap y x ≠ 0 → ¬ rasterLt (x, y) (cx, cy) →
    getLabel st.labelmap y x = 0
  prev : st.labelindex ≠ 0 → rowsGet bitmap cy (cx - 1) ≠ 0
  below : st.count < 500

/-- What the scan of a sparse bitmap keeps true before it starts row `cy`. -/
structure SparseRowInv (bitmap : List (List Nat)) (st : ScanState) (cy : Nat) : Prop where
  ahead : ∀ y x, rowsGet bitmap y x ≠ 0 → cy ≤ y → getLabel st.labelmap y x = 0
  below : st.count < 500

/-- The state after the first `n` passes through the `while` loop of `downlinkData`
(fewer when the loop has ended before). -/
def downlinkPasses (numImages : Nat) (quota : Int) :
    Nat → DownlinkState → Except DownlinkError DownlinkState
  | 0, st => Except.ok st
  | n + 1, st =>
    if downlinkGuard quota st = true then
      match downlinkAttempt numImages st with
      | Except.error e => Except.error e
      | Except.ok st1 => downlinkPasses numImages quota n st1
    else Except.ok st

/-- What the search loop of `downlinkData` has found after the indices `1 .. m`: either
no score above 0, the pair `(maxScore, index)` being untouched, or the first index of
the greatest score, which is positive. -/
def SearchInv (score : List (Option ℚ)) (index m : Nat) (r : ℚ × Nat) : Prop :=
  (r = (0, index) ∧ ∀ j, 1 ≤ j → j ≤ m → ∀ v, score.getD j none = some v → v ≤ 0) ∨
  (1 ≤ r.2 ∧ r.2 ≤ m ∧ score.getD r.2 none = some r.1 ∧ 0 < r.1 ∧
    (∀ j, 1 ≤ j → j ≤ m → ∀ v, score.getD j none = some v → v ≤ r.1) ∧
    (∀ j, 1 ≤ j → j < r.2 → ∀ v, score.getD j none = some v → v < r.1))

/-- What holds of the arrays of `downlinkData` at every point of its loop: both have
`numImages` entries, and a transmitted frame has score 0. -/
structure DownlinkInv (numImages : Nat) (st : DownlinkState) : Prop where
  len_flags : st.downlinked.length = numImages
  len_score : st.score.length = numImages
  zeroed : ∀ i, st.downlinked.getD i false = true → st.score.getD i none = some 0

/-- The first and the last frame are transmitted and have score 0. -/
def EndpointsPinned (numImages : Nat) (st : DownlinkState) : Prop :=
  st.downlinked.getD 0 false = true ∧ st.downlinked.getD (numImages - 1) false = true ∧
  st.score.getD 0 none = some 0 ∧ st.score.getD (numImages - 1) none = some 0

/-- What the seeding loop of `kmeans` has established when it reaches slot `a`: the slots
before `a` hold pairwise distinct values between 0 and `k`. -/
structure SeedInv (k : Nat) (randCentInd : List Int) (a : Nat) : Prop where
  len : randCentInd.length = k
  range : ∀ i, i < a → 0 ≤ randCentInd.getD i 0 ∧ randCentInd.getD i 0 ≤ (k : Int)
  distinct : ∀ i j, i < j → j < a → randCentInd.getD i 0 ≠ randCentInd.getD j 0

/-- The value of `minIndex` when the loop of `sortCentroids` reaches centroid `a`: 0 for
the first centroid, then the result of the previous centroid's scan. -/
def carriedIndex (k : Nat) (cents : List Centroid) : Nat → Nat
  | 0 => 0
  | a + 1 => minScan (cents.getD a noCentroid).distances k (carriedIndex k cents a)

/-- The centroid list `c2` is `c1` up to the `kGroup` fields. -/
def SameDistances (c1 c2 : List Centroid) : Prop :=
  c2.length = c1.length ∧ ∀ j, (c2.getD j noCentroid).x = (c1.getD j noCentroid).x ∧
    (c2.getD j noCentroid).y = (c1.getD j noCentroid).y ∧
    (c2.getD j noCentroid).distances = (c1.getD j noCentroid).distances

/-- The count of `downlinkData` is the number of frames in the transmit set. -/
structure DownlinkCountInv (numImages : Nat) (st : DownlinkState) : Prop where
  inv : DownlinkInv numImages st
  count : st.downlinkCount = st.downlinked.count true

/-- Whether `(y, x)` is a position of the `height × width` grid. -/
def inGrid (height width : Nat) (y x : Int) : Bool :=
  decide (0 ≤ y ∧ y < (height : Int) ∧ 0 ≤ x ∧ x < (width : Int))

/-- Whether the pixel `(cy, cx)` lies in the interior of the grid (off the border). -/
def inInterior (height width cy cx : Nat) : Bool :=
  decide (1 ≤ cy ∧ cy + 1 < height ∧ 1 ≤ cx ∧ cx + 1 < width)

/-- Whether the loop of `Tracer`, run as `tracerLoop` runs it, keeps inside the grid: the
current pixel is in the interior, every probed position `bitmap[y][x]`, `labelmap[y][x]`
is a position of the grid, and the pixel moved to is in the interior. -/
def tracerLoopInside (bitmap : List (List Nat)) (height width : Nat) :
    Nat → TraceState → Bool
  | 0, _ => true
  | n + 1, s =>
    let d := SearchDirection.getD s.tracingdirection (0, 0)
    let y := (s.cy : Int) + d.1
    let x := (s.cx : Int) + d.2
    inInterior height width s.cy s.cx && inGrid height width y x &&
      (if rowsGet bitmap y.toNat x.toNat = 0 then
        tracerLoopInside bitmap height width n
          { s with labelmap := setLabel s.labelmap y.toNat x.toNat (-1)
                   tracingdirection := (s.tracingdirection + 1) % 8 }
      else inInterior height width y.toNat x.toNat)

/-- Whether the `while` loop of `ContourTracing`, run as `contourLoop` runs it, keeps
inside the grid: the write `labelmap[cy][cx] = labelindex` and every call of `Tracer`. -/
def contourLoopInside (bitmap : List (List Nat)) (height width : Nat) (labelindex : Int)
    (sy sx fy fx : Nat) : Nat → TraceState → Bool → Bool
  | 0, _, _ => true
  | fuel + 1, s, tracingstopflag =>
    let s1 : TraceState :=
      { s with tracingdirection := (s.tracingdirection + 6) % 8
               labelmap := setLabel s.labelmap s.cy s.cx labelindex }
    let s2 := Tracer bitmap s1
    inGrid height width (s.cy : Int) (s.cx : Int) &&
      tracerLoopInside bitmap height width 7 s1 &&
      (if s2.cx = sx ∧ s2.cy = sy then
        contourLoopInside bitmap height width labelindex sy sx fy fx fuel s2 true
      else if tracingstopflag then
        if s2.cx = fx ∧ s2.cy = fy then true
        else contourLoopInside bitmap height width labelindex sy sx fy fx fuel s2 false
      else contourLoopInside bitmap height width labelindex sy sx fy fx fuel s2
        tracingstopflag)

/-- Whether a call of `ContourTracing` keeps inside the grid. -/
def ContourTracingInside (bitmap : List (List Nat)) (height width : Nat)
    (labelmap : List (List Int)) (fuel cy cx : Nat) (labelindex : Int)
    (tracingdirection : Nat) : Bool :=
  let s := Tracer bitmap ⟨labelmap, cy, cx, tracingdirection⟩
  tracerLoopInside bitmap height width 7 ⟨labelmap, cy, cx, tracingdirection⟩ &&
    (if s.cx ≠ cx ∨ s.cy ≠ cy then
      contourLoopInside bitmap height width labelindex cy cx s.cy s.cx fuel s false
    else true)

/-- Whether the calls of `ContourTracing` made by `labelPixel` at `(cy, cx)` keep inside
the grid. -/
def labelPixelInside (bitmap : List (List Nat)) (height width fuel cy : Nat)
    (st : ScanState) (cx : Nat) : Bool :=
  if rowsGet bitmap cy cx = BLACKPIX then
    if st.labelindex ≠ 0 then true
    else if getLabel st.labelmap cy cx = 0 then
      ContourTracingInside bitmap height width st.labelmap fuel cy cx
        ((st.ConnectedComponentsCount + 1 : Nat) : Int) 0
    else true
  else if st.labelindex ≠ 0 then
    if getLabel st.labelmap cy cx = 0 then
      decide (1 ≤ cx) &&
        ContourTracingInside bitmap height width st.labelmap fuel cy (cx - 1) st.labelindex 1
    else true
  else true

/-- Whether the traces started while `scanRow` runs keep inside the grid. -/
def scanRowInside (bitmap : List (List Nat)) (height width fuel cy : Nat) :
    List Nat → ScanState → Bool
  | [], _ => true
  | cx :: rest, st =>
    labelPixelInside bitmap height width fuel cy st cx &&
      (match labelPixel bitmap fuel cy st cx with
      | Except.error _ => true
      | Except.ok st1 => scanRowInside bitmap height width fuel cy rest st1)

/-- Whether the traces started while `scanRows` runs keep inside the grid. -/
def scanRowsInside (bitmap : List (List Nat)) (height width fuel : Nat) :
    List Nat → ScanState → Bool
  | [], _ => true
  | cy :: rest, st =>
    scanRowInside bitmap height width fuel cy (List.range' 1 (width - 2))
        { st with labelindex := 0 } &&
      (match scanRow bitmap fuel cy (List.range' 1 (width - 2)) { st with labelindex := 0 } with
      | Except.error _ => true
      | Except.ok st1 => scanRowsInside bitmap height width fuel rest st1)

/-- Whether every position that `Tracer` and `ContourTracing` read or write during
`ConnectedComponentLabeling image` is a position of the grid, with the traced pixel in
the interior. -/
def tracingInside (image : PGMImage) : Bool :=
  scanRowsInside (validatePGM image).1 image.header.height image.header.width
    (16 * image.header.height * image.header.width + 16)
    (List.range' 1 (image.header.height - 2)) ⟨(validatePGM image).2, 0, 0, 0, []⟩

/-- Every pixel of the bitmap that is not 0 lies in the interior of the grid. -/
def ZeroBorder (bitmap : List (List Nat)) (height width : Nat) : Prop :=
  ∀ y x, rowsGet bitmap y x ≠ 0 → 1 ≤ y ∧ y + 1 < height ∧ 1 ≤ x ∧ x + 1 < width

/-- The neighbour of `(cy, cx)` in the direction `dir`, as `Tracer` computes it. -/
def neighbour (cy cx dir : Nat) : Nat × Nat :=
  (((cy : Int) + (SearchDirection.getD dir (0, 0)).1).toNat,
    ((cx : Int) + (SearchDirection.getD dir (0, 0)).2).toNat)

/-- The bitmap value at a position given as a pair. -/
def pixelAt (bitmap : List (List Nat)) (p : Nat × Nat) : Nat := rowsGet bitmap p.1 p.2

/-- The part of a `TraceState` that steers a trace: the pixel and the direction. -/
def TraceState.ctrl (s : TraceState) : Nat × Nat × Nat := (s.cy, s.cx, s.tracingdirection)

/-- Up to `n` probes from direction `dir`: the number of background probes before the
first pixel that is not 0 (`n` when there is none). -/
def firstHit (bitmap : List (List Nat)) (cy cx dir : Nat) : Nat → Nat
  | 0 => 0
  | n + 1 =>
    if pixelAt bitmap (neighbour cy cx (dir % 8)) = 0 then
      firstHit bitmap cy cx (dir + 1) n + 1
    else 0

/-- The pixel and the direction after the seven probes of `Tracer` from `(cy, cx)` and
the direction `dir`. -/
def tracerCtrl (bitmap : List (List Nat)) (cy cx dir : Nat) : Nat × Nat × Nat :=
  let k := firstHit bitmap cy cx dir 7
  if k < 7 then
    ((neighbour cy cx ((dir + k) % 8)).1, (neighbour cy cx ((dir + k) % 8)).2, (dir + k) % 8)
  else (cy, cx, (dir + 7) % 8)

/-- One pass of the loop of `ContourTracing`: label the current pixel, turn the
direction back by two and call `Tracer`. -/
def traceStep (bitmap : List (List Nat)) (labelindex : Int) (s : TraceState) : TraceState :=
  Tracer bitmap { s with
    tracingdirection := (s.tracingdirection + 6) % 8,
    labelmap := setLabel s.labelmap s.cy s.cx labelindex }

/-- The state after `n` passes of the loop of `ContourTracing` from the state `s`. -/
def tracedState (bitmap : List (List Nat)) (labelindex : Int) (s : TraceState) (n : Nat) :
    TraceState :=
  (traceStep bitmap labelindex)^[n] s

/-- The trace from `s` with the stop flag `flag` is back at the start `(sy, sx)` before
pass `j + 1` and that pass reaches the pixel `(fy, fx)`. -/
def ReturnedAt (bitmap : List (List Nat)) (labelindex : Int) (sy sx fy fx : Nat)
    (s : TraceState) (flag : Bool) (j : Nat) : Prop :=
  (if j = 0 then flag = true
    else (tracedState bitmap labelindex s j).cx = sx ∧
      (tracedState bitmap labelindex s j).cy = sy) ∧
  (tracedState bitmap labelindex s (j + 1)).cx = fx ∧
  (tracedState bitmap labelindex s (j + 1)).cy = fy

/-- One pass of the loop of `ContourTracing` on the pixel and the direction alone. -/
def ctrlStep (bitmap : List (List Nat)) (c : Nat × Nat × Nat) : Nat × Nat × Nat :=
  tracerCtrl bitmap c.1 c.2.1 ((c.2.2 + 6) % 8)

/-- The trace has arrived at the foreground pixel `(c.1, c.2.1)` by a move in the direction
`c.2.2`: the pixel it came from is foreground, the neighbour one step clockwise from that
pixel is background, and after a move along a row or a column so is the next one. -/
def Arrived (bitmap : List (List Nat)) (c : Nat × Nat × Nat) : Prop :=
  c.2.2 < 8 ∧ pixelAt bitmap (c.1, c.2.1) ≠ 0 ∧
  pixelAt bitmap (neighbour c.1 c.2.1 ((c.2.2 + 4) % 8)) ≠ 0 ∧
  pixelAt bitmap (neighbour c.1 c.2.1 ((c.2.2 + 5) % 8)) = 0 ∧
  (c.2.2 % 2 = 0 → pixelAt bitmap (neighbour c.1 c.2.1 ((c.2.2 + 6) % 8)) = 0)

/-- After `j` passes of the loop of `ContourTracing` from the state `s0`, the trace is at
the start pixel `(cy, cx)`, and pass `j + 1` reaches the pixel of `s0`, the first pixel
visited after the start. -/
def BackAtStart (bitmap : List (List Nat)) (labelindex : Int) (cy cx : Nat) (s0 : TraceState)
    (j : Nat) : Prop :=
  (tracedState bitmap labelindex s0 j).cx = cx ∧
  (tracedState bitmap labelindex s0 j).cy = cy ∧
  (tracedState bitmap labelindex s0 (j + 1)).cx = s0.cx ∧
  (tracedState bitmap labelindex s0 (j + 1)).cy = s0.cy

/-! ## Sample inputs -/

/-- A 1 × 2 two-level grid. -/
def imgA : PGMImage := ⟨⟨2, 1, 255⟩, [[10, 200]]⟩

/-- A second 1 × 2 grid. -/
def imgB : PGMImage := ⟨⟨2, 1, 255⟩, [[3, 7]]⟩

/-- A uniform 1 × 2 grid. -/
def imgU : PGMImage := ⟨⟨2, 1, 255⟩, [[7, 7]]⟩

/-- A 4 × 4 mask without foreground. -/
def zeroMask : PGMImage :=
  ⟨⟨4, 4, 1⟩, [[0, 0, 0, 0], [0, 0, 0, 0], [0, 0, 0, 0], [0, 0, 0, 0]]⟩

/-- A 10 × 10 mask with two separate 2 × 2 foreground blocks. -/
def twoBlockMask : PGMImage := ⟨⟨10, 10, 1⟩,
  [[0, 0, 0, 0, 0, 0, 0, 0, 0, 0],
   [0, 0, 0, 0, 0, 0, 0, 0, 0, 0],
   [0, 0, 1, 1, 0, 0, 0, 0, 0, 0],
   [0, 0, 1, 1, 0, 0, 0, 0, 0, 0],
   [0, 0, 0, 0, 0, 0, 0, 0, 0, 0],
   [0, 0, 0, 0, 0, 0, 0, 0, 0, 0],
   [0, 0, 0, 0, 0, 0, 1, 1, 0, 0],
   [0, 0, 0, 0, 0, 0, 1, 1, 0, 0],
   [0, 0, 0, 0, 0, 0, 0, 0, 0, 0],
   [0, 0, 0, 0, 0, 0, 0, 0, 0, 0]]⟩

/-- A 3 × 3 mask with a single foreground pixel, at its centre. -/
def oneDotMask : PGMImage := ⟨⟨3, 3, 1⟩, [[0, 0, 0], [0, 1, 0], [0, 0, 0]]⟩

/-- A `height × width` mask with an isolated foreground pixel at every odd row and odd
column. -/
def dotMask (height width : Nat) : PGMImage :=
  ⟨⟨width, height, 1⟩,
    (List.range height).map (fun y => (List.range width).map (fun x => (y % 2) * (x % 2)))⟩

/-- Two centroids, at (0, 0) and (10, 10), with two distance slots each. -/
def centsA : List Centroid := [⟨0, 0, 0, [0, 0]⟩, ⟨10, 10, 0, [0, 0]⟩]

/-- The centroids of `centsA`, assigned to the clusters 0 and 1. -/
def centsSplit : List Centroid := [⟨0, 0, 0, [0, 0]⟩, ⟨10, 10, 1, [0, 0]⟩]

/-- Two centroid lists for the shift: the first pair differs by (2, 2), the second by
(0, 0). -/
def shiftFrom : List Centroid := [⟨0, 0, 0, []⟩, ⟨0, 0, 0, []⟩]

/-- The second list of the shift example. -/
def shiftTo : List Centroid := [⟨2, 2, 0, []⟩, ⟨0, 0, 0, []⟩]

/-- The densities of three frames without particles spread: all 0. -/
def flatDist : List (Option ℚ) := [some 0, some 0, some 0]

/-- Accelerations for three frames: all (0, 0). -/
def flatAcc : List Shift := [⟨some 0, some 0⟩, ⟨some 0, some 0⟩, ⟨some 0, some 0⟩]

/-- The densities of five frames. -/
def fiveDist : List (Option ℚ) := [some 1, some 2, some 3, some 8, some 5]

/-- Accelerations for five frames. -/
def fiveAcc : List Shift :=
  [⟨some 0, some 0⟩, ⟨some 1, some 0⟩, ⟨some 0, some 0⟩, ⟨some 0, some 0⟩, ⟨some 0, some 0⟩]

/-- The state of the five sample frames after one pass of the selection loop: the frames
2, 3 and 4 around the best score are transmitted. -/
def fiveAfterOne : DownlinkState :=
  ⟨[some 0, some (3 / 2), some 0, some 0, some 0], [true, false, true, true, true], 4, 3, 1⟩

/-- The state of the five sample frames after two passes: all frames transmitted. -/
def fiveAfterTwo : DownlinkState :=
  ⟨[some 0, some 0, some 0, some 0, some 0], [true, true, true, true, true], 5, 1, 2⟩

/-- The 3 × 3 mask of `oneDotMask` with its border pixels set to foreground. -/
def oneDotBorder : PGMImage := ⟨⟨3, 3, 1⟩, [[1, 1, 1], [1, 1, 1], [1, 1, 1]]⟩

/-- Two centroids, at (0, 0) and (10, 10), with one distance slot each. -/
def centsOne : List Centroid := [⟨0, 0, 0, [0]⟩, ⟨10, 10, 0, [0]⟩]

/-- Two centroids with two distance slots: the first is nearest to cluster 1, the second
is as far from cluster 0 as from cluster 1. -/
def tieCents : List Centroid := [⟨0, 0, 0, [25, 1]⟩, ⟨0, 0, 0, [9, 9]⟩]

/-- Shifts of the two consecutive frame pairs of three frames. -/
def threeShifts : List Shift := [⟨some 1, some 2⟩, ⟨some 3, some 5⟩]

/-- A mask of three foreground pixels in the shape of an L. -/
def cornerMask : List (List Nat) := [[0, 0, 0, 0], [0, 1, 1, 0], [0, 1, 0, 0], [0, 0, 0, 0]]

/-- The label map of a 4 × 4 grid before any pixel is labelled. -/
def cornerLabels : List (List Int) := List.replicate 4 (List.replicate 4 0)

/-- A mask of three foreground pixels, the start pixel below the top one. -/
def stairMask : List (List Nat) := [[0, 0, 0, 0], [0, 1, 0, 0], [0, 1, 1, 0], [0, 0, 0, 0]]

/-- A 1 × 19 grid with the values 0, 3 (eight times) and 5 (ten times). -/
def tieImage : PGMImage :=
  ⟨⟨19, 1, 255⟩, [[0, 3, 3, 3, 3, 3, 3, 3, 3, 5, 5, 5, 5, 5, 5, 5, 5, 5, 5]]⟩

/-! ## Correlation: `corr2d` -/

theorem foldl_add_range (f : Nat → Int) (a : Int) (n : Nat) :
    (List.range n).foldl (fun acc j => acc + f j) a = a + ∑ j in Finset.range n, f j := by
  induction n with
  | zero => simp
  | succ n ih =>
    rw [List.range_succ, List.foldl_append, ih, Finset.sum_range_succ]
    simp [add_assoc]

theorem sumLoop_eq_sum (h w : Nat) (f : Nat → Nat → Int) :
    sumLoop h w f = ∑ i in Finset.range h, ∑ j in Finset.range w, f i j := by
  have key : ∀ a : Int, (List.range h).foldl
      (fun acc i => (List.range w).foldl (fun acc j => acc + f i j) acc) a
        = a + ∑ i in Finset.range h, ∑ j in Finset.range w, f i j := by
    induction h with
    | zero => simp
    | succ n ih =>
      intro a
      rw [List.range_succ, List.foldl_append, ih, Finset.sum_range_succ]
      simp [foldl_add_range, add_assoc]
  simpa [sumLoop] using key 0

theorem sumLoop_eq_prod (h w : Nat) (f : Nat → Nat → Int) :
    sumLoop h w f = ∑ p in Finset.range h ×ˢ Finset.range w, f p.1 p.2 := by
  rw [sumLoop_eq_sum, Finset.sum_product]

theorem corr2d_of_dims (A B : PGMImage) (hw : A.header.width = B.header.width)
    (hh : A.header.height = B.header.height) :
    corr2d A B =
      if devSum A.header.height A.header.width A A
            (pixMean A.header.height A.header.width A) (pixMean A.header.height A.header.width A)
          * devSum A.header.height A.header.width B B
            (pixMean A.header.height A.header.width B) (pixMean A.header.height A.header.width B) = 0
      then Except.ok ⟨0, 1⟩
      else Except.ok
        ⟨(devSum A.header.height A.header.width A B
            (pixMean A.header.height A.header.width A)
            (pixMean A.header.height A.header.width B)).natAbs,
         (devSum A.header.height A.header.width A A
            (pixMean A.header.height A.header.width A) (pixMean A.header.height A.header.width A)
          * devSum A.header.height A.header.width B B
            (pixMean A.header.height A.header.width B)
            (pixMean A.header.height A.header.width B)).toNat⟩ := by
  unfold corr2d
  simp only [← hw, ← hh, ne_eq, not_true_eq_false, or_self, ↓reduceIte, devSum, pixMean]

theorem devSum_self_nonneg (h w : Nat) (A : PGMImage) (m : Int) : 0 ≤ devSum h w A A m m := by
  unfold devSum
  rw [sumLoop_eq_sum]
  exact Finset.sum_nonneg fun i _ => Finset.sum_nonneg fun j _ => mul_self_nonneg _

theorem devSum_comm (h w : Nat) (A B : PGMImage) (m1 m2 : Int) :
    devSum h w A B m1 m2 = devSum h w B A m2 m1 := by
  unfold devSum
  congr 1
  funext i j
  ring

theorem devSum_sq_le (h w : Nat) (A B : PGMImage) (m1 m2 : Int) :
    devSum h w A B m1 m2 ^ 2 ≤ devSum h w A A m1 m1 * devSum h w B B m2 m2 := by
  unfold devSum
  simp only [sumLoop_eq_prod]
  have := Finset.sum_mul_sq_le_sq_mul_sq (Finset.range h ×ˢ Finset.range w)
    (fun p => ((getPix A p.1 p.2 : Int) - m1)) (fun p => ((getPix B p.1 p.2 : Int) - m2))
  simpa [sq] using this

theorem devSum_self_eq_zero_iff (h w : Nat) (A : PGMImage) (m : Int) :
    devSum h w A A m m = 0 ↔ ∀ i < h, ∀ j < w, (getPix A i j : Int) = m := by
  unfold devSum
  rw [sumLoop_eq_sum, Finset.sum_eq_zero_iff_of_nonneg
    (fun i _ => Finset.sum_nonneg fun j _ => mul_self_nonneg _)]
  constructor
  · intro H i hi j hj
    have h1 := H i (Finset.mem_range.2 hi)
    rw [Finset.sum_eq_zero_iff_of_nonneg (fun j _ => mul_self_nonneg _)] at h1
    have h2 := h1 j (Finset.mem_range.2 hj)
    have h3 := mul_self_eq_zero.1 h2
    linarith
  · intro H i hi
    apply Finset.sum_eq_zero
    intro j hj
    rw [H i (Finset.mem_range.1 hi) j (Finset.mem_range.1 hj)]
    simp

theorem roundDiv_const (v n : Nat) (hn : 0 < n) : roundDiv (v * n) n = v := by
  unfold roundDiv
  have : 2 * (v * n) + n = n + (2 * n) * v := by ring
  rw [this, Nat.add_mul_div_left _ _ (by omega : 0 < 2 * n)]
  rw [Nat.div_eq_of_lt (by omega)]
  simp

theorem pixMean_uniform (h w : Nat) (A : PGMImage) (v : Nat)
    (hu : ∀ i < h, ∀ j < w, getPix A i j = v) (hpos : 0 < w * h) :
    pixMean h w A = v := by
  unfold pixMean
  have hs : sumLoop h w (fun i j => (getPix A i j : Int)) = ((v * (w * h) : Nat) : Int) := by
    rw [sumLoop_eq_sum]
    rw [Finset.sum_congr rfl (fun i hi => Finset.sum_congr rfl
      (fun j hj => by rw [hu i (Finset.mem_range.1 hi) j (Finset.mem_range.1 hj)]))]
    simp
    ring
  rw [hs, Int.toNat_ofNat, roundDiv_const _ _ hpos]

theorem devSum_uniform_zero (h w : Nat) (A : PGMImage) (v : Nat)
    (hu : ∀ i < h, ∀ j < w, getPix A i j = v) :
    devSum h w A A (pixMean h w A) (pixMean h w A) = 0 := by
  rw [devSum_self_eq_zero_iff]
  intro i hi j hj
  have hpos : 0 < w * h := Nat.mul_pos (by omega) (by omega)
  rw [pixMean_uniform h w A v hu hpos, hu i hi j hj]

theorem corr2d_value_sq_le (A B : PGMImage) (c : CorrValue) (h : corr2d A B = Except.ok c) :
    0 < c.den2 ∧ c.num ^ 2 ≤ c.den2 := by
  by_cases hd : A.header.width = B.header.width ∧ A.header.height = B.header.height
  · rw [corr2d_of_dims A B hd.1 hd.2] at h
    split at h
    · cases h; simp
    · rename_i hne
      cases h
      have hle := devSum_sq_le A.header.height A.header.width A B
        (pixMean A.header.height A.header.width A) (pixMean A.header.height A.header.width B)
      have h1 := devSum_self_nonneg A.header.height A.header.width A
        (pixMean A.header.height A.header.width A)
      have h2 := devSum_self_nonneg A.header.height A.header.width B
        (pixMean A.header.height A.header.width B)
      have hpos : 0 < devSum A.header.height A.header.width A A
            (pixMean A.header.height A.header.width A) (pixMean A.header.height A.header.width A)
          * devSum A.header.height A.header.width B B
            (pixMean A.header.height A.header.width B) (pixMean A.header.height A.header.width B) :=
        lt_of_le_of_ne (mul_nonneg h1 h2) (Ne.symm hne)
      refine ⟨by simpa using hpos, ?_⟩
      zify
      rw [Int.toNat_of_nonneg hpos.le, sq_abs]
      exact hle
  · unfold corr2d at h
    rw [if_pos (by simp only [ne_eq]; tauto)] at h
    cases h

theorem corrValue_real_bounds (c : CorrValue) (hpos : 0 < c.den2) (hle : c.num ^ 2 ≤ c.den2) :
    0 ≤ (c.num : ℝ) / Real.sqrt (c.den2 : ℝ) ∧ (c.num : ℝ) / Real.sqrt (c.den2 : ℝ) ≤ 1 := by
  have hs : 0 < Real.sqrt (c.den2 : ℝ) := Real.sqrt_pos.2 (by exact_mod_cast hpos)
  refine ⟨div_nonneg (Nat.cast_nonneg _) hs.le, ?_⟩
  rw [div_le_one hs, Real.le_sqrt (Nat.cast_nonneg _) (Nat.cast_nonneg _)]
  exact_mod_cast hle

theorem corr2d_ok_of_dims (A B : PGMImage) (hw : A.header.width = B.header.width)
    (hh : A.header.height = B.header.height) : ∃ c : CorrValue, corr2d A B = Except.ok c := by
  rw [corr2d_of_dims A B hw hh]
  split
  · exact ⟨_, rfl⟩
  · exact ⟨_, rfl⟩

/-- C1: for two grids of identical width and height, `corr2d` returns a value `r`, read
as the real number `num / sqrt den2`, with `0 ≤ r ≤ 1`. -/
theorem corr2d_range (A B : PGMImage) (hw : A.header.width = B.header.width)
    (hh : A.header.height = B.header.height) :
    ∃ c : CorrValue, corr2d A B = Except.ok c ∧
      0 ≤ (c.num : ℝ) / Real.sqrt (c.den2 : ℝ) ∧ (c.num : ℝ) / Real.sqrt (c.den2 : ℝ) ≤ 1 := by
  obtain ⟨c, hc⟩ := corr2d_ok_of_dims A B hw hh
  obtain ⟨h1, h2⟩ := corr2d_value_sq_le A B c hc
  exact ⟨c, hc, corrValue_real_bounds c h1 h2⟩

/-- C2: for a grid `A` in which two pixels differ, `corr2d A A` is exactly 1. -/
theorem corr2d_self (A : PGMImage) (i j i2 j2 : Nat)
    (hi : i < A.header.height) (hj : j < A.header.width)
    (hi2 : i2 < A.header.height) (hj2 : j2 < A.header.width)
    (hne : getPix A i j ≠ getPix A i2 j2) :
    ∃ c : CorrValue, corr2d A A = Except.ok c ∧
      (c.num : ℝ) / Real.sqrt (c.den2 : ℝ) = 1 := by
  rw [corr2d_of_dims A A rfl rfl]
  set S := devSum A.header.height A.header.width A A
    (pixMean A.header.height A.header.width A) (pixMean A.header.height A.header.width A) with hS
  have hS0 : 0 ≤ S := devSum_self_nonneg _ _ _ _
  have hSne : S ≠ 0 := by
    intro h0
    rw [hS, devSum_self_eq_zero_iff] at h0
    have e1 := h0 i hi j hj
    have e2 := h0 i2 hi2 j2 hj2
    exact hne (by exact_mod_cast e1.trans e2.symm)
  have hSpos : 0 < S := lt_of_le_of_ne hS0 (Ne.symm hSne)
  rw [if_neg (mul_ne_zero hSne hSne)]
  refine ⟨_, rfl, ?_⟩
  have e1 : ((S.natAbs : Nat) : ℝ) = ((S : Int) : ℝ) := by
    rw [Nat.cast_natAbs, abs_of_nonneg hS0]
  have e2 : (((S * S).toNat : Nat) : ℝ) = ((S : Int) : ℝ) * ((S : Int) : ℝ) := by
    have : (((S * S).toNat : Nat) : Int) = S * S := Int.toNat_of_nonneg (mul_nonneg hS0 hS0)
    exact_mod_cast congrArg (fun z : Int => (z : ℝ)) this
  simp only []
  rw [e1, e2, Real.sqrt_mul_self (by exact_mod_cast hS0)]
  exact div_self (by exact_mod_cast hSne)

theorem corr2d_zero_of_uniform (A B : PGMImage) (hw : A.header.width = B.header.width)
    (hh : A.header.height = B.header.height)
    (hu : (∃ v, ∀ i < A.header.height, ∀ j < A.header.width, getPix A i j = v) ∨
          (∃ v, ∀ i < A.header.height, ∀ j < A.header.width, getPix B i j = v)) :
    devSum A.header.height A.header.width A A
        (pixMean A.header.height A.header.width A) (pixMean A.header.height A.header.width A)
      * devSum A.header.height A.header.width B B
        (pixMean A.header.height A.header.width B) (pixMean A.header.height A.header.width B) = 0 ∧
    corr2d A B = Except.ok ⟨0, 1⟩ := by
  have hz : devSum A.header.height A.header.width A A
        (pixMean A.header.height A.header.width A) (pixMean A.header.height A.header.width A)
      * devSum A.header.height A.header.width B B
        (pixMean A.header.height A.header.width B)
        (pixMean A.header.height A.header.width B) = 0 := by
    rcases hu with ⟨v, hv⟩ | ⟨v, hv⟩
    · rw [devSum_uniform_zero _ _ A v hv, zero_mul]
    · rw [devSum_uniform_zero _ _ B v hv, mul_zero]
  refine ⟨hz, ?_⟩
  rw [corr2d_of_dims A B hw hh, if_pos hz]

/-- C3: when two equally-sized grids are correlated and one of them is uniform, the
product `sum1 * sum2` under the square root is 0, so `corr2d` takes the zero-denominator
branch and returns exactly 0. -/
theorem corr2d_uniform (A B : PGMImage) (hw : A.header.width = B.header.width)
    (hh : A.header.height = B.header.height)
    (hu : (∃ v, ∀ i < A.header.height, ∀ j < A.header.width, getPix A i j = v) ∨
          (∃ v, ∀ i < A.header.height, ∀ j < A.header.width, getPix B i j = v)) :
    devSum A.header.height A.header.width A A
        (pixMean A.header.height A.header.width A) (pixMean A.header.height A.header.width A)
      * devSum A.header.height A.header.width B B
        (pixMean A.header.height A.header.width B) (pixMean A.header.height A.header.width B) = 0 ∧
    corr2d A B = Except.ok ⟨0, 1⟩ ∧
      ((⟨0, 1⟩ : CorrValue).num : ℝ) / Real.sqrt ((⟨0, 1⟩ : CorrValue).den2 : ℝ) = 0 := by
  obtain ⟨h1, h2⟩ := corr2d_zero_of_uniform A B hw hh hu
  exact ⟨h1, h2, by simp⟩

/-- C4: for two grids of identical width and height, `corr2d A B` and `corr2d B A` return
the same value. -/
theorem corr2d_symm (A B : PGMImage) (hw : A.header.width = B.header.width)
    (hh : A.header.height = B.header.height) :
    ∃ c : CorrValue, corr2d A B = Except.ok c ∧ corr2d B A = Except.ok c := by
  rw [corr2d_of_dims A B hw hh, corr2d_of_dims B A hw.symm hh.symm, ← hw, ← hh]
  rw [devSum_comm _ _ B A, mul_comm (devSum _ _ B B _ _)]
  split
  · exact ⟨_, rfl, rfl⟩
  · exact ⟨_, rfl, rfl⟩

/-- C5: `corr2d` takes the dimension-mismatch exit, returning no correlation value,
exactly when the two grids differ in width or in height. -/
theorem corr2d_error_iff (A B : PGMImage) :
    (corr2d A B = Except.error MgError.dimensionMismatch ↔
      (A.header.width ≠ B.header.width ∨ A.header.height ≠ B.header.height)) ∧
    ((∀ c, corr2d A B ≠ Except.ok c) ↔
      (A.header.width ≠ B.header.width ∨ A.header.height ≠ B.header.height)) := by
  by_cases hd : A.header.width = B.header.width ∧ A.header.height = B.header.height
  · obtain ⟨c, hc⟩ := corr2d_ok_of_dims A B hd.1 hd.2
    constructor
    · rw [hc]; simp [hd.1, hd.2]
    · constructor
      · intro h; exact absurd hc (h c)
      · intro h; rcases h with h | h
        · exact absurd hd.1 h
        · exact absurd hd.2 h
  · have he : corr2d A B = Except.error MgError.dimensionMismatch := by
      unfold corr2d
      rw [if_pos (by simp only [ne_eq]; tauto)]
    have hd2 : A.header.width ≠ B.header.width ∨ A.header.height ≠ B.header.height := by tauto
    constructor
    · simp [he, hd2]
    · simp [he, hd2]

/-! ## Thresholding: `thresholdImage` -/

theorem getD_set_list (l : List Nat) (j j2 v : Nat) :
    (l.set j v).getD j2 0 = if j2 = j ∧ j < l.length then v else l.getD j2 0 := by
  simp only [List.getD_eq_getElem?_getD, List.getElem?_set]
  by_cases h : j = j2
  · subst h
    by_cases h2 : j < l.length
    · simp [h2]
    · simp [h2, List.getElem?_eq_none (Nat.le_of_not_lt h2)]
  · have : ¬ j2 = j := fun e => h e.symm
    simp [h, this]

theorem getD_set_rows (l : List (List Nat)) (i i2 : Nat) (r : List Nat) :
    (l.set i r).getD i2 [] = if i2 = i ∧ i < l.length then r else l.getD i2 [] := by
  simp only [List.getD_eq_getElem?_getD, List.getElem?_set]
  by_cases h : i = i2
  · subst h
    by_cases h2 : i < l.length
    · simp [h2]
    · simp [h2, List.getElem?_eq_none (Nat.le_of_not_lt h2)]
  · have : ¬ i2 = i := fun e => h e.symm
    simp [h, this]

theorem shaped_getD_length {rows : List (List Nat)} {h w : Nat} (hs : Shaped rows h w)
    {i : Nat} (hi : i < h) : (rows.getD i []).length = w := by
  have hi2 : i < rows.length := by rw [hs.1]; exact hi
  rw [List.getD_eq_getElem _ _ hi2]
  exact hs.2 _ (List.getElem_mem _)

theorem setPix_shaped {rows : List (List Nat)} {h w : Nat} (hs : Shaped rows h w)
    (i j v : Nat) : Shaped (setPix rows i j v) h w := by
  unfold setPix
  refine ⟨by rw [List.length_set]; exact hs.1, ?_⟩
  intro row hrow
  by_cases hi : i < h
  · rcases List.mem_or_eq_of_mem_set hrow with hm | he
    · exact hs.2 row hm
    · rw [he, List.length_set]
      exact shaped_getD_length hs hi
  · have hi2 : rows.length ≤ i := by rw [hs.1]; omega
    rw [List.set_eq_of_length_le hi2] at hrow
    exact hs.2 row hrow

theorem rowsGet_setPix {rows : List (List Nat)} {h w : Nat} (hs : Shaped rows h w)
    {i j : Nat} (hi : i < h) (hj : j < w) (v i2 j2 : Nat) :
    rowsGet (setPix rows i j v) i2 j2 = if i2 = i ∧ j2 = j then v else rowsGet rows i2 j2 := by
  unfold rowsGet setPix
  rw [getD_set_rows]
  have hlen : i < rows.length := by rw [hs.1]; exact hi
  by_cases h1 : i2 = i
  · subst h1
    rw [if_pos ⟨rfl, hlen⟩, getD_set_list, shaped_getD_length hs hi]
    by_cases h2 : j2 = j
    · simp [h2, hj]
    · simp [h2]
  · simp [h1]

theorem thresholdPixel_eq (t : Int) (i j : Nat) (s : ThresholdState) :
    thresholdPixel t i s j =
      { image := s.image
        result :=
          { header := s.result.header
            image := setPix s.result.image i j (thresholdValue (getPix s.image i j) t) } } := by
  by_cases hc : (getPix s.image i j : Int) > t <;> simp [thresholdPixel, thresholdValue, hc]

theorem thresholdPixel_inv (t : Int) (s0 s : ThresholdState) (h w : Nat)
    (P : Nat → Nat → Prop) (inv : ThresholdInv t s0 s h w P) {i j : Nat}
    (hi : i < h) (hj : j < w) :
    ThresholdInv t s0 (thresholdPixel t i s j) h w (fun i2 j2 => P i2 j2 ∨ (i2 = i ∧ j2 = j)) := by
  rw [thresholdPixel_eq]
  have hval : ∀ i2 j2, rowsGet
      (setPix s.result.image i j (thresholdValue (getPix s.image i j) t)) i2 j2 =
      if i2 = i ∧ j2 = j then thresholdValue (getPix s0.image i j) t
      else rowsGet s.result.image i2 j2 := by
    intro i2 j2
    rw [inv.image_eq]
    exact rowsGet_setPix inv.shaped hi hj _ _ _
  refine ⟨inv.image_eq, inv.header_eq, setPix_shaped inv.shaped _ _ _, ?_, ?_⟩
  · intro i2 j2 hP
    show rowsGet (setPix _ _ _ _) _ _ = _
    rw [hval]
    by_cases hc : i2 = i ∧ j2 = j
    · rw [if_pos hc, hc.1, hc.2]
    · rw [if_neg hc]
      rcases hP with hP | hP
      · exact inv.written _ _ hP
      · exact absurd hP hc
  · intro i2 j2 hP
    show rowsGet (setPix _ _ _ _) _ _ = _
    rw [hval]
    have hc : ¬ (i2 = i ∧ j2 = j) := fun hc => hP (Or.inr hc)
    rw [if_neg hc]
    exact inv.kept _ _ (fun hp => hP (Or.inl hp))

theorem ThresholdInv.congr {t : Int} {s0 s : ThresholdState} {h w : Nat}
    {P Q : Nat → Nat → Prop} (inv : ThresholdInv t s0 s h w P) (hPQ : ∀ i j, P i j ↔ Q i j) :
    ThresholdInv t s0 s h w Q :=
  ⟨inv.image_eq, inv.header_eq, inv.shaped,
    fun i j hq => inv.written i j ((hPQ i j).2 hq),
    fun i j hq => inv.kept i j (fun hp => hq ((hPQ i j).1 hp))⟩

theorem thresholdRow_inv (t : Int) (s0 : ThresholdState) (h w : Nat) {i : Nat} (hi : i < h)
    (n : Nat) (hn : n ≤ w) (s : ThresholdState) (P : Nat → Nat → Prop)
    (inv : ThresholdInv t s0 s h w P) :
    ThresholdInv t s0 ((List.range n).foldl (thresholdPixel t i) s) h w
      (fun i2 j2 => P i2 j2 ∨ (i2 = i ∧ j2 < n)) := by
  induction n with
  | zero => exact inv.congr (fun i2 j2 => by simp)
  | succ n ih =>
    rw [List.range_succ, List.foldl_append]
    have h1 := ih (by omega)
    have h2 := thresholdPixel_inv t s0 _ h w _ h1 hi (by omega : n < w)
    simp only [List.foldl_cons, List.foldl_nil]
    exact h2.congr (fun i2 j2 => by
      constructor
      · rintro ((hp | ⟨e1, e2⟩) | ⟨e1, e2⟩)
        · exact Or.inl hp
        · exact Or.inr ⟨e1, by omega⟩
        · exact Or.inr ⟨e1, by omega⟩
      · rintro (hp | ⟨e1, e2⟩)
        · exact Or.inl (Or.inl hp)
        · by_cases e3 : j2 = n
          · exact Or.inr ⟨e1, e3⟩
          · exact Or.inl (Or.inr ⟨e1, by omega⟩))

theorem thresholdRows_inv (t : Int) (s0 : ThresholdState) (h w : Nat)
    (hs : Shaped s0.result.image h w) (m : Nat) (hm : m ≤ h) :
    ThresholdInv t s0 ((List.range m).foldl
      (fun st i => (List.range w).foldl (thresholdPixel t i) st) s0) h w
      (fun i2 j2 => i2 < m ∧ j2 < w) := by
  induction m with
  | zero =>
    exact ⟨rfl, rfl, hs, fun i j hP => absurd hP.1 (Nat.not_lt_zero _), fun _ _ _ => rfl⟩
  | succ m ih =>
    rw [List.range_succ, List.foldl_append]
    have h1 := ih (by omega)
    have h2 := thresholdRow_inv t s0 h w (by omega : m < h) w le_rfl _ _ h1
    simp only [List.foldl_cons, List.foldl_nil]
    exact h2.congr (fun i2 j2 => by
      constructor
      · rintro (⟨e1, e2⟩ | ⟨e1, e2⟩)
        · exact ⟨by omega, e2⟩
        · exact ⟨by omega, e2⟩
      · rintro ⟨e1, e2⟩
        by_cases e3 : i2 = m
        · exact Or.inr ⟨e3, e2⟩
        · exact Or.inl ⟨by omega, e2⟩)

theorem getPix_eq_rowsGet (img : PGMImage) (i j : Nat) :
    getPix img i j = rowsGet img.image i j % 256 := rfl

theorem thresholdImage_inv (s : ThresholdState) (t : Int)
    (hs : Shaped s.result.image s.image.header.height s.image.header.width) :
    (thresholdImage s t).image = s.image ∧
    (thresholdImage s t).result.header = { s.result.header with grayscale := 1 } ∧
    Shaped (thresholdImage s t).result.image s.image.header.height s.image.header.width ∧
    ∀ i < s.image.header.height, ∀ j < s.image.header.width,
      rowsGet (thresholdImage s t).result.image i j = thresholdValue (getPix s.image i j) t := by
  have inv := thresholdRows_inv t s s.image.header.height s.image.header.width hs
    s.image.header.height le_rfl
  unfold thresholdImage
  refine ⟨inv.image_eq, ?_, inv.shaped, fun i hi j hj => inv.written i j ⟨hi, hj⟩⟩
  simp only [inv.header_eq]

theorem thresholdValue_cases (p : Nat) (t : Int) :
    thresholdValue p t = 0 ∨ thresholdValue p t = 1 := by
  unfold thresholdValue WHITEPIX BLACKPIX
  split
  · exact Or.inl rfl
  · exact Or.inr rfl

theorem shaped_mem_rowsGet {rows : List (List Nat)} {h w : Nat} (hs : Shaped rows h w)
    {row : List Nat} (hrow : row ∈ rows) {v : Nat} (hv : v ∈ row) :
    ∃ i j, i < h ∧ j < w ∧ rowsGet rows i j = v := by
  obtain ⟨i, hi, rfl⟩ := List.getElem_of_mem hrow
  obtain ⟨j, hj, rfl⟩ := List.getElem_of_mem hv
  refine ⟨i, j, by rw [← hs.1]; exact hi, by rw [← hs.2 _ hrow]; exact hj, ?_⟩
  unfold rowsGet
  rw [List.getD_eq_getElem _ _ hi, List.getD_eq_getElem _ _ hj]

/-- C6: on a result buffer of the source's dimensions, `thresholdImage` writes at every
position `(i, j)` the background value 0 when `image[i][j] > t` and the foreground value 1
otherwise, so every result pixel is 0 or 1, and the source image is left unchanged. -/
theorem thresholdImage_spec (s : ThresholdState) (t : Int)
    (hs : Shaped s.result.image s.image.header.height s.image.header.width) :
    (∀ i < s.image.header.height, ∀ j < s.image.header.width,
      getPix (thresholdImage s t).result i j = if (getPix s.image i j : Int) > t then 0 else 1) ∧
    (∀ row ∈ (thresholdImage s t).result.image, ∀ v ∈ row, v = 0 ∨ v = 1) ∧
    (thresholdImage s t).image = s.image := by
  obtain ⟨h1, _, h3, h4⟩ := thresholdImage_inv s t hs
  refine ⟨?_, ?_, h1⟩
  · intro i hi j hj
    rw [getPix_eq_rowsGet, h4 i hi j hj]
    by_cases hc : (getPix s.image i j : Int) > t <;>
      simp [thresholdValue, hc, WHITEPIX, BLACKPIX]
  · intro row hrow v hv
    obtain ⟨i, j, hi, hj, e⟩ := shaped_mem_rowsGet h3 hrow hv
    rw [← e, h4 i hi j hj]
    exact thresholdValue_cases _ _

/-! ## Arithmetic in `double`: rounding keeps the sign -/

theorem halvings_spec (fuel : Nat) :
    ∀ n, 1 ≤ n → n < 2 ^ (fuel + 1) →
      2 ^ halvings fuel n ≤ n ∧ n < 2 ^ (halvings fuel n + 1) := by
  induction fuel with
  | zero =>
    intro n h1 h2
    have : n = 1 := by
      have : n < 2 := by simpa using h2
      omega
    subst this
    exact ⟨le_refl _, by decide⟩
  | succ fuel ih =>
    intro n h1 h2
    unfold halvings
    by_cases h : 2 ≤ n
    · rw [if_pos h]
      have h3 : n / 2 < 2 ^ (fuel + 1) := by
        rw [pow_succ] at h2
        omega
      obtain ⟨a, b⟩ := ih (n / 2) (by omega) h3
      rw [pow_succ, pow_succ]
      rw [pow_succ] at b
      constructor <;> omega
    · rw [if_neg h]
      have : n = 1 := by omega
      subst this
      exact ⟨le_refl _, by decide⟩

theorem halvings_self (n : Nat) (h : 1 ≤ n) :
    2 ^ halvings n n ≤ n ∧ n < 2 ^ (halvings n n + 1) :=
  halvings_spec n n h (by
    have := Nat.lt_two_pow n
    rw [pow_succ]
    omega)

/-- The exponent found by `binaryExponent` is not too large: `2 ^ e ≤ p / q`. -/
theorem binaryExponent_le (p q : Nat) (hp : 0 < p) (hq : 0 < q) :
    (0 ≤ binaryExponent p q → q * 2 ^ (binaryExponent p q).toNat ≤ p) ∧
    (binaryExponent p q < 0 → q ≤ p * 2 ^ (-binaryExponent p q).toNat) := by
  obtain ⟨p1, p2⟩ := halvings_self p hp
  obtain ⟨q1, q2⟩ := halvings_self q hq
  unfold binaryExponent
  simp only []
  generalize halvings p p = a at p1 p2
  generalize halvings q q = b at q1 q2
  by_cases hd : (0 : Int) ≤ (a : Int) - (b : Int)
  · have hba : b ≤ a := by omega
    obtain ⟨d, rfl⟩ : ∃ d, a = b + d := ⟨a - b, by omega⟩
    have e1 : ((b + d : Nat) : Int) - (b : Int) = (d : Int) := by push_cast; ring
    rw [e1] at hd ⊢
    rw [if_pos hd]
    by_cases ht : q * 2 ^ (d : Int).toNat ≤ p
    · rw [if_pos ht]
      exact ⟨fun _ => ht, fun h => absurd h (by omega)⟩
    · rw [if_neg ht]
      cases d with
      | zero =>
        refine ⟨fun h => absurd h (by decide), fun _ => ?_⟩
        have : (-(((0 : Nat) : Int) - 1)).toNat = 1 := by decide
        rw [this]
        rw [Nat.add_zero] at p1
        rw [pow_succ] at q2
        omega
      | succ d =>
        refine ⟨fun _ => ?_, fun h => absurd h (by push_cast; omega)⟩
        have : (((d + 1 : Nat) : Int) - 1).toNat = d := by push_cast; omega
        rw [this]
        have h2 : q * 2 ^ d < 2 ^ (b + 1) * 2 ^ d :=
          Nat.mul_lt_mul_of_pos_right q2 (Nat.pow_pos (by decide))
        rw [← pow_add] at h2
        rw [show b + 1 + d = b + (d + 1) by omega] at h2
        omega
  · have hab : a < b := by omega
    obtain ⟨d, rfl⟩ : ∃ d, b = a + d + 1 := ⟨b - a - 1, by omega⟩
    rw [if_neg hd]
    have e1 : (-((a : Int) - ((a + d + 1 : Nat) : Int))).toNat = d + 1 := by
      push_cast; omega
    rw [e1]
    by_cases ht : q ≤ p * 2 ^ (d + 1)
    · rw [if_pos ht]
      refine ⟨fun h => absurd h (by push_cast; omega), fun _ => ?_⟩
      rw [e1]
      exact ht
    · rw [if_neg ht]
      refine ⟨fun h => absurd h (by push_cast; omega), fun _ => ?_⟩
      have e2 : (-((a : Int) - ((a + d + 1 : Nat) : Int) - 1)).toNat = d + 2 := by
        push_cast; omega
      rw [e2]
      have h2 : 2 ^ a * 2 ^ (d + 2) ≤ p * 2 ^ (d + 2) :=
        Nat.mul_le_mul_right _ p1
      rw [← pow_add] at h2
      rw [show a + d + 1 + 1 = a + (d + 2) by omega] at q2
      omega

theorem roundHalfEven_pos (p q : Nat) (hq : 0 < q) (h : q ≤ p) : 0 < roundHalfEven p q := by
  have hm : 0 < p / q := Nat.div_pos h hq
  unfold roundHalfEven
  simp only []
  split
  · exact hm
  · split
    · omega
    · split <;> omega

theorem roundPos_pos (p q : Nat) (hp : 0 < p) (hq : 0 < q) : 0 < roundPos p q := by
  obtain ⟨h1, h2⟩ := binaryExponent_le p q hp hq
  unfold roundPos
  simp only []
  generalize binaryExponent p q = e at h1 h2
  by_cases hs : (0 : Int) ≤ e - 52
  · rw [if_pos hs]
    have he : (0 : Int) ≤ e := by omega
    have hle : q * 2 ^ (e - 52).toNat ≤ p := by
      have := h1 he
      have hpow : 2 ^ (e - 52).toNat ≤ 2 ^ e.toNat :=
        Nat.pow_le_pow_right (by decide) (by omega)
      exact le_trans (Nat.mul_le_mul_left q hpow) this
    have := roundHalfEven_pos p (q * 2 ^ (e - 52).toNat)
      (Nat.mul_pos hq (Nat.pow_pos (by decide))) hle
    exact_mod_cast Nat.mul_pos this (Nat.pow_pos (by decide))
  · rw [if_neg hs]
    have hle : q ≤ p * 2 ^ (-(e - 52)).toNat := by
      by_cases he : (0 : Int) ≤ e
      · have := h1 he
        have h3 : q ≤ q * 2 ^ e.toNat := Nat.le_mul_of_pos_right q (Nat.pow_pos (by decide))
        have h4 : p ≤ p * 2 ^ (-(e - 52)).toNat :=
          Nat.le_mul_of_pos_right p (Nat.pow_pos (by decide))
        omega
      · have := h2 (by omega)
        have hpow : 2 ^ (-e).toNat ≤ 2 ^ (-(e - 52)).toNat :=
          Nat.pow_le_pow_right (by decide) (by omega)
        exact le_trans this (Nat.mul_le_mul_left p hpow)
    have := roundHalfEven_pos (p * 2 ^ (-(e - 52)).toNat) q hq hle
    apply div_pos
    · exact_mod_cast this
    · exact_mod_cast Nat.pow_pos (by decide)

theorem roundDouble_pos (x : ℚ) (hx : 0 < x) : 0 < roundDouble x := by
  unfold roundDouble
  rw [if_neg hx.ne', if_pos hx]
  apply roundPos_pos
  · exact Int.natAbs_pos.2 (Rat.num_ne_zero.2 hx.ne')
  · exact x.den_pos

theorem dblSqrt_pos (x : ℚ) (hx : 0 < x) : 0 < dblSqrt x := by
  unfold dblSqrt
  rw [if_neg (not_le.2 hx)]
  simp only []
  split
  · rename_i h
    apply roundDouble_pos
    have hnum : 0 < x.num.natAbs := Int.natAbs_pos.2 (Rat.num_ne_zero.2 hx.ne')
    have hm : intSqrt (x.num.natAbs * 4 ^ (55 + halvings x.den x.den) / x.den) ≠ 0 := by
      intro h0
      rw [h0] at h
      have : 0 < x.num.natAbs * 4 ^ (55 + halvings x.den x.den) :=
        Nat.mul_pos hnum (Nat.pow_pos (by decide))
      omega
    apply div_pos
    · exact_mod_cast Nat.pos_of_ne_zero hm
    · positivity
  · apply roundDouble_pos
    positivity

theorem toDouble_pos (c : CorrValue) (hn : 0 < c.num) (hd : 0 < c.den2) : 0 < c.toDouble := by
  unfold CorrValue.toDouble
  apply roundDouble_pos
  apply div_pos
  · exact_mod_cast hn
  · exact dblSqrt_pos _ (roundDouble_pos _ (by exact_mod_cast hd))

theorem toDouble_zero (c : CorrValue) (hn : c.num = 0) : c.toDouble = 0 := by
  unfold CorrValue.toDouble
  rw [hn]
  simp [roundDouble]

theorem sqrtBits_spec (n : Nat) (b : Nat) :
    ∀ m, m ^ 2 ≤ n → n < (m + 2 ^ b) ^ 2 →
      sqrtBits n b m ^ 2 ≤ n ∧ n < (sqrtBits n b m + 1) ^ 2 := by
  induction b with
  | zero =>
    intro m h1 h2
    exact ⟨h1, h2⟩
  | succ b ih =>
    intro m h1 h2
    unfold sqrtBits
    by_cases h : (m + 2 ^ b) ^ 2 ≤ n
    · rw [if_pos h]
      apply ih _ h
      rw [show m + 2 ^ b + 2 ^ b = m + 2 ^ (b + 1) by rw [pow_succ]; omega]
      exact h2
    · rw [if_neg h]
      exact ih m h1 (by omega)

/-- The function `intSqrt` returns the square root rounded down. -/
theorem intSqrt_spec (n : Nat) : intSqrt n ^ 2 ≤ n ∧ n < (intSqrt n + 1) ^ 2 := by
  unfold intSqrt
  apply sqrtBits_spec n _ 0 (Nat.zero_le n)
  rw [Nat.zero_add, ← pow_mul]
  rcases Nat.eq_zero_or_pos n with h0 | hpos
  · rw [h0]
    exact Nat.pow_pos (by decide)
  · obtain ⟨_, h2⟩ := halvings_self n hpos
    refine lt_of_lt_of_le h2 (Nat.pow_le_pow_right (by decide) ?_)
    omega

set_option maxRecDepth 100000 in
/-- Values of `dblSqrt`, as `sqrt` returns them in binary64. -/
theorem dblSqrt_samples :
    dblSqrt 2 = 6369051672525773 / 4503599627370496 ∧
    dblSqrt 34 = 3282534097605073 / 562949953421312 ∧
    dblSqrt 306 = 4923801146407609 / 281474976710656 ∧
    dblSqrt 4 = 2 ∧
    dblSqrt (1 / 4) = 1 / 2 ∧
    dblSqrt (2 ^ 53 + 2) = 6369051672525773 / 67108864 ∧
    dblSqrt 0 = 0 := by
  refine ⟨by decide!, by decide!, by decide!, by decide!, by decide!, by decide!, by decide!⟩

theorem toDouble_nonneg (c : CorrValue) (hd : 0 < c.den2) : 0 ≤ c.toDouble := by
  rcases Nat.eq_zero_or_pos c.num with h | h
  · rw [toDouble_zero c h]
  · exact (toDouble_pos c h hd).le

/-! ## Threshold selection: `thresholdImageSequence` -/

theorem sumLoop_congr (h w : Nat) (f g : Nat → Nat → Int)
    (hfg : ∀ i < h, ∀ j < w, f i j = g i j) : sumLoop h w f = sumLoop h w g := by
  rw [sumLoop_eq_sum, sumLoop_eq_sum]
  exact Finset.sum_congr rfl (fun i hi => Finset.sum_congr rfl
    (fun j hj => hfg i (Finset.mem_range.1 hi) j (Finset.mem_range.1 hj)))

theorem pixMean_congr (h w : Nat) (B C : PGMImage)
    (hp : ∀ i < h, ∀ j < w, getPix B i j = getPix C i j) : pixMean h w B = pixMean h w C := by
  unfold pixMean
  rw [sumLoop_congr h w _ (fun i j => (getPix C i j : Int))
    (fun i hi j hj => by rw [hp i hi j hj])]

theorem devSum_congr_right (h w : Nat) (A B C : PGMImage) (m1 m2 : Int)
    (hp : ∀ i < h, ∀ j < w, getPix B i j = getPix C i j) :
    devSum h w A B m1 m2 = devSum h w A C m1 m2 := by
  unfold devSum
  exact sumLoop_congr h w _ _ (fun i hi j hj => by rw [hp i hi j hj])

theorem devSum_congr_self (h w : Nat) (B C : PGMImage) (m : Int)
    (hp : ∀ i < h, ∀ j < w, getPix B i j = getPix C i j) :
    devSum h w B B m m = devSum h w C C m m := by
  unfold devSum
  exact sumLoop_congr h w _ _ (fun i hi j hj => by rw [hp i hi j hj])

theorem corr2d_congr_right (A B C : PGMImage) (hw : B.header.width = C.header.width)
    (hh : B.header.height = C.header.height)
    (hp : ∀ i < A.header.height, ∀ j < A.header.width, getPix B i j = getPix C i j) :
    corr2d A B = corr2d A C := by
  by_cases hd : A.header.width = B.header.width ∧ A.header.height = B.header.height
  · rw [corr2d_of_dims A B hd.1 hd.2, corr2d_of_dims A C (hd.1.trans hw) (hd.2.trans hh)]
    rw [pixMean_congr _ _ B C hp, devSum_congr_right _ _ A B C _ _ hp,
      devSum_congr_self _ _ B C _ hp]
  · have hd2 : A.header.width ≠ C.header.width ∨ A.header.height ≠ C.header.height := by
      rw [← hw, ← hh]; tauto
    have hd1 : A.header.width ≠ B.header.width ∨ A.header.height ≠ B.header.height := by tauto
    unfold corr2d
    rw [if_pos hd1, if_pos hd2]

theorem thresholdImage_goodBuf (image R : PGMImage) (t : Int) (hR : GoodBuf image R) :
    (thresholdImage ⟨image, R⟩ t).image = image ∧
      GoodBuf image (thresholdImage ⟨image, R⟩ t).result := by
  obtain ⟨h1, h2, h3, _⟩ := thresholdImage_inv ⟨image, R⟩ t hR.2.2
  refine ⟨h1, ?_, ?_, h3⟩
  · rw [h2]; exact hR.1
  · rw [h2]; exact hR.2.1

theorem corr2d_threshold_buf (image R R2 : PGMImage) (t : Int) (hR : GoodBuf image R)
    (hR2 : GoodBuf image R2) :
    corr2d image (thresholdImage ⟨image, R⟩ t).result =
      corr2d image (thresholdImage ⟨image, R2⟩ t).result := by
  obtain ⟨_, h2, _, h4⟩ := thresholdImage_inv ⟨image, R⟩ t hR.2.2
  obtain ⟨_, k2, _, k4⟩ := thresholdImage_inv ⟨image, R2⟩ t hR2.2.2
  apply corr2d_congr_right
  · rw [h2, k2]; exact hR.1.trans hR2.1.symm
  · rw [h2, k2]; exact hR.2.1.trans hR2.2.1.symm
  · intro i hi j hj
    rw [getPix_eq_rowsGet, getPix_eq_rowsGet, h4 i hi j hj, k4 i hi j hj]

theorem corrAt_spec (image R : PGMImage) (t : Nat) (hR : GoodBuf image R) :
    corr2d image (thresholdImage ⟨image, R⟩ (t : Int)).result = Except.ok (corrAt image R t) ∧
      0 < (corrAt image R t).den2 ∧ (corrAt image R t).num ^ 2 ≤ (corrAt image R t).den2 := by
  obtain ⟨_, hg⟩ := thresholdImage_goodBuf image R t hR
  obtain ⟨c, hc⟩ := corr2d_ok_of_dims image (thresholdImage ⟨image, R⟩ (t : Int)).result
    hg.1.symm hg.2.1.symm
  have e : corrAt image R t = c := by unfold corrAt; rw [hc]
  rw [e]
  exact ⟨hc, corr2d_value_sq_le _ _ c hc⟩

theorem sequenceLoop_eq_scan (image R0 : PGMImage) (hR0 : GoodBuf image R0) (ts : List Nat) :
    ∀ (R : PGMImage) (index : Nat) (r_max : CorrValue), GoodBuf image R →
      sequenceLoop image ts R index r_max =
        Except.ok (scanPure (corrAt image R0) ts index r_max).1 := by
  induction ts with
  | nil => intro R index r_max _; rfl
  | cons i rest ih =>
    intro R index r_max hR
    obtain ⟨h1, h2⟩ := thresholdImage_goodBuf image R (i : Int) hR
    have hc := (corrAt_spec image R0 i hR0).1
    rw [← corr2d_threshold_buf image R R0 i hR hR0] at hc
    unfold sequenceLoop scanPure
    simp only [h1, hc]
    split
    · exact ih _ _ _ h2
    · exact ih _ _ _ h2

theorem scanPure_inv {α : Type} [LinearOrder α] (key : CorrValue → α) (c : Nat → CorrValue)
    (hkey : ∀ a b : CorrValue, 0 < a.den2 → 0 < b.den2 → (a.lt b = true ↔ key a < key b))
    (hpos : ∀ i, 0 < (c i).den2) (k : Nat) :
    ∀ (m index : Nat) (r_max : CorrValue), 0 < r_max.den2 →
      (∀ i < m, key (c i) ≤ key r_max) →
      ((index = 0 ∧ key r_max = key ⟨0, 1⟩) ∨
        (index < m ∧ key r_max = key (c index) ∧ ∀ i < index, key (c i) < key r_max)) →
      0 < (scanPure c (List.range' m k) index r_max).2.den2 ∧
      (∀ i < m + k, key (c i) ≤ key (scanPure c (List.range' m k) index r_max).2) ∧
      (((scanPure c (List.range' m k) index r_max).1 = 0 ∧
          key (scanPure c (List.range' m k) index r_max).2 = key ⟨0, 1⟩) ∨
        ((scanPure c (List.range' m k) index r_max).1 < m + k ∧
          key (scanPure c (List.range' m k) index r_max).2 =
            key (c (scanPure c (List.range' m k) index r_max).1) ∧
          ∀ i < (scanPure c (List.range' m k) index r_max).1,
            key (c i) < key (scanPure c (List.range' m k) index r_max).2)) := by
  induction k with
  | zero =>
    intro m index r_max h0 h1 h2
    simpa [scanPure] using ⟨h0, h1, h2⟩
  | succ k ih =>
    intro m index r_max h0 h1 h2
    rw [List.range'_succ]
    unfold scanPure
    have e : m + (k + 1) = (m + 1) + k := by omega
    rw [e]
    by_cases hlt : r_max.lt (c m) = true
    · rw [if_pos hlt]
      have hk := (hkey _ _ h0 (hpos m)).1 hlt
      apply ih (m + 1) m (c m) (hpos m)
      · intro i hi
        rcases Nat.lt_succ_iff_lt_or_eq.1 hi with h | h
        · exact (lt_of_le_of_lt (h1 i h) hk).le
        · rw [h]
      · exact Or.inr ⟨Nat.lt_succ_self m, rfl, fun i hi => lt_of_le_of_lt (h1 i hi) hk⟩
    · rw [if_neg hlt]
      have hk : ¬ key r_max < key (c m) := fun h => hlt ((hkey _ _ h0 (hpos m)).2 h)
      apply ih (m + 1) index r_max h0
      · intro i hi
        rcases Nat.lt_succ_iff_lt_or_eq.1 hi with h | h
        · exact h1 i h
        · rw [h]; exact not_lt.1 hk
      · rcases h2 with h2 | ⟨h2, h3, h4⟩
        · exact Or.inl h2
        · exact Or.inr ⟨Nat.lt_succ_of_lt h2, h3, h4⟩

theorem scanPure_first_max {α : Type} [LinearOrder α] (key : CorrValue → α)
    (c : Nat → CorrValue)
    (hkey : ∀ a b : CorrValue, 0 < a.den2 → 0 < b.den2 → (a.lt b = true ↔ key a < key b))
    (hpos : ∀ i, 0 < (c i).den2) (hmin : ∀ i, key ⟨0, 1⟩ ≤ key (c i)) (n : Nat) (hn : 0 < n) :
    (scanPure c (List.range n) 0 ⟨0, 1⟩).1 < n ∧
    (∀ i < n, key (c i) ≤ key (c (scanPure c (List.range n) 0 ⟨0, 1⟩).1)) ∧
    (∀ i < (scanPure c (List.range n) 0 ⟨0, 1⟩).1,
      key (c i) < key (c (scanPure c (List.range n) 0 ⟨0, 1⟩).1)) := by
  have h := scanPure_inv key c hkey hpos n 0 0 ⟨0, 1⟩ (by decide)
    (fun i hi => absurd hi (Nat.not_lt_zero i)) (Or.inl ⟨rfl, rfl⟩)
  rw [← List.range_eq_range', Nat.zero_add] at h
  obtain ⟨_, h2, h3⟩ := h
  rcases h3 with ⟨h3, h4⟩ | ⟨h3, h4, h5⟩
  · rw [h3]
    have h0 : key (c 0) = key ⟨0, 1⟩ := le_antisymm (h4 ▸ h2 0 hn) (hmin 0)
    refine ⟨hn, fun i hi => ?_, fun i hi => absurd hi (Nat.not_lt_zero i)⟩
    rw [h0, ← h4]
    exact h2 i hi
  · exact ⟨h3, fun i hi => h4 ▸ h2 i hi, fun i hi => h4 ▸ h5 i hi⟩

theorem corrValue_lt_iff (a b : CorrValue) : a.lt b = true ↔ a.toDouble < b.toDouble := by
  unfold CorrValue.lt
  exact decide_eq_true_iff

theorem foldl_set_shaped (h w : Nat) (g : Nat → List Nat) (hg : ∀ i, (g i).length = w)
    (n : Nat) : ∀ rows : List (List Nat), Shaped rows h w →
      Shaped ((List.range n).foldl (fun acc i => acc.set i (g i)) rows) h w := by
  induction n with
  | zero => intro rows hs; exact hs
  | succ n ih =>
    intro rows hs
    rw [List.range_succ, List.foldl_append]
    have h1 := ih rows hs
    simp only [List.foldl_cons, List.foldl_nil]
    refine ⟨by rw [List.length_set]; exact h1.1, ?_⟩
    intro row hrow
    rcases List.mem_or_eq_of_mem_set hrow with hm | he
    · exact h1.2 row hm
    · rw [he]; exact hg n

theorem copyPGM_goodBuf (image : PGMImage) (hh : image.header.height ≠ 0)
    (hw : image.header.width ≠ 0) :
    ∃ result, copyPGM image = Except.ok result ∧ GoodBuf image result := by
  unfold copyPGM allocatePGMImageArray
  rw [if_pos ⟨hh, hw⟩]
  refine ⟨_, rfl, rfl, rfl, ?_⟩
  apply foldl_set_shaped
  · intro i; simp
  · refine ⟨by simp, ?_⟩
    intro row hrow
    rw [List.eq_of_mem_replicate hrow]
    simp

theorem sequence_first_max (image : PGMImage) (hh : image.header.height ≠ 0)
    (hw : image.header.width ≠ 0) :
    ∃ (result : PGMImage) (t : Nat), copyPGM image = Except.ok result ∧ GoodBuf image result ∧
      thresholdImageSequence image = Except.ok t ∧ t < 256 ∧
      (∀ u < 256, (corrAt image result u).toDouble ≤ (corrAt image result t).toDouble) ∧
      (∀ u < t, (corrAt image result u).toDouble < (corrAt image result t).toDouble) := by
  obtain ⟨result, hcopy, hgood⟩ := copyPGM_goodBuf image hh hw
  have hscan := scanPure_first_max CorrValue.toDouble
    (corrAt image result) (fun a b _ _ => corrValue_lt_iff a b)
    (fun i => (corrAt_spec image result i hgood).2.1)
    (fun i => by
      rw [toDouble_zero ⟨0, 1⟩ rfl]
      exact toDouble_nonneg _ (corrAt_spec image result i hgood).2.1) 256 (by decide)
  have hseq : thresholdImageSequence image =
      Except.ok (scanPure (corrAt image result) (List.range 256) 0 ⟨0, 1⟩).1 := by
    unfold thresholdImageSequence
    rw [hcopy]
    exact sequenceLoop_eq_scan image result hgood _ result 0 ⟨0, 1⟩ hgood
  obtain ⟨h1, h2, h3⟩ := hscan
  exact ⟨result, _, hcopy, hgood, hseq, h1, h2, h3⟩

/-- C7 (amended): for an image of non-zero width and height, `thresholdImageSequence`
returns a threshold `t ≤ 255` whose correlation with the binarised image, as `corr2d`
computes it in `double` arithmetic, is the maximum over all 256 thresholds; every smaller
threshold scores strictly less, and `t = 0` when every threshold scores 0. -/
theorem thresholdImageSequence_spec (image : PGMImage) (hh : image.header.height ≠ 0)
    (hw : image.header.width ≠ 0) :
    ∃ (result : PGMImage) (c : Nat → CorrValue) (t : Nat),
      copyPGM image = Except.ok result ∧
      (∀ u : Nat, corr2d image (thresholdImage ⟨image, result⟩ (u : Int)).result =
        Except.ok (c u)) ∧
      thresholdImageSequence image = Except.ok t ∧ t ≤ 255 ∧
      (∀ u ≤ 255, (c u).toDouble ≤ (c t).toDouble) ∧
      (∀ u < t, (c u).toDouble < (c t).toDouble) ∧
      ((∀ u ≤ 255, (c u).toDouble = 0) → t = 0) := by
  obtain ⟨result, t, hcopy, hgood, hseq, h1, h2, h3⟩ := sequence_first_max image hh hw
  refine ⟨result, corrAt image result, t, hcopy,
    fun u => (corrAt_spec image result u hgood).1, hseq, by omega,
    fun u hu => h2 u (by omega), h3, ?_⟩
  intro hz
  by_contra hne
  have hlt := h3 0 (Nat.pos_of_ne_zero hne)
  rw [hz 0 (by omega), hz _ (by omega)] at hlt
  exact lt_irrefl _ hlt

/-! ## Two-level images -/

theorem roundDiv_small {a c : Nat} (h : a < c) : roundDiv a (a + c) = 0 := by
  unfold roundDiv
  exact Nat.div_eq_of_lt (by omega)

theorem roundDiv_large {a c : Nat} (h : c ≤ a) (hc : 0 < c) : roundDiv a (a + c) = 1 := by
  unfold roundDiv
  apply Nat.div_eq_of_lt_le
  · omega
  · omega

theorem roundDiv_mean_lt {a c : Nat} (h : c ≤ a) (ha : 0 < a) :
    roundDiv (10 * a + 200 * c) (a + c) < 200 := by
  unfold roundDiv
  rw [Nat.div_lt_iff_lt_mul (by omega)]
  omega

theorem roundDiv_mean_ge {a c : Nat} (h : a < c) :
    11 ≤ roundDiv (10 * a + 200 * c) (a + c) := by
  unfold roundDiv
  rw [Nat.le_div_iff_mul_le (by omega)]
  omega

theorem sumLoop_two_level (h w : Nat) (A : PGMImage) (g : Nat → Int)
    (hpix : ∀ i < h, ∀ j < w, getPix A i j = 10 ∨ getPix A i j = 200) :
    sumLoop h w (fun i j => g (getPix A i j)) =
      countPix h w A 10 * g 10 + countPix h w A 200 * g 200 := by
  unfold countPix
  simp only [sumLoop_eq_sum, Finset.sum_mul, ← Finset.sum_add_distrib]
  apply Finset.sum_congr rfl
  intro i hi
  apply Finset.sum_congr rfl
  intro j hj
  rcases hpix i (Finset.mem_range.1 hi) j (Finset.mem_range.1 hj) with e | e <;> simp [e]

theorem countPix_nonneg (h w : Nat) (A : PGMImage) (v : Nat) : 0 ≤ countPix h w A v := by
  unfold countPix
  rw [sumLoop_eq_sum]
  exact Finset.sum_nonneg fun i _ => Finset.sum_nonneg fun j _ => by split <;> simp

theorem countPix_pos (h w : Nat) (A : PGMImage) (v : Nat)
    (hex : ∃ i < h, ∃ j < w, getPix A i j = v) : 0 < countPix h w A v := by
  obtain ⟨i, hi, j, hj, e⟩ := hex
  refine lt_of_le_of_ne (countPix_nonneg h w A v) (fun h0 => ?_)
  unfold countPix at h0
  rw [sumLoop_eq_sum] at h0
  have h1 := (Finset.sum_eq_zero_iff_of_nonneg
    (fun i _ => Finset.sum_nonneg fun j _ => by split <;> simp)).1 h0.symm i (Finset.mem_range.2 hi)
  have h2 := (Finset.sum_eq_zero_iff_of_nonneg
    (fun j _ => by split <;> simp)).1 h1 j (Finset.mem_range.2 hj)
  simp [e] at h2

theorem countPix_total (h w : Nat) (A : PGMImage)
    (hpix : ∀ i < h, ∀ j < w, getPix A i j = 10 ∨ getPix A i j = 200) :
    countPix h w A 10 + countPix h w A 200 = ((w * h : Nat) : Int) := by
  have := sumLoop_two_level h w A (fun _ => 1) hpix
  simp only [mul_one] at this
  rw [← this, sumLoop_eq_sum]
  simp [mul_comm]

theorem two_level_means (h w : Nat) (A B : PGMImage)
    (hpix : ∀ i < h, ∀ j < w, getPix A i j = 10 ∨ getPix A i j = 200)
    (h10 : ∃ i < h, ∃ j < w, getPix A i j = 10)
    (h200 : ∃ i < h, ∃ j < w, getPix A i j = 200)
    (hB : ∀ i < h, ∀ j < w, getPix B i j = if getPix A i j = 10 then 1 else 0) :
    ∃ a c : Nat, 0 < a ∧ 0 < c ∧
      pixMean h w A = (roundDiv (10 * a + 200 * c) (a + c) : Nat) ∧
      pixMean h w B = (roundDiv a (a + c) : Nat) ∧
      devSum h w A B (pixMean h w A) (pixMean h w B) =
        (a : Int) * ((10 - pixMean h w A) * (1 - pixMean h w B)) +
        (c : Int) * ((200 - pixMean h w A) * (0 - pixMean h w B)) := by
  have ha := countPix_pos h w A 10 h10
  have hc := countPix_pos h w A 200 h200
  have hn := countPix_total h w A hpix
  obtain ⟨a, ea⟩ := Int.eq_ofNat_of_zero_le ha.le
  obtain ⟨c, ec⟩ := Int.eq_ofNat_of_zero_le hc.le
  rw [ea, ec] at hn
  have hn2 : a + c = w * h := by exact_mod_cast hn
  refine ⟨a, c, by rw [ea] at ha; exact_mod_cast ha, by rw [ec] at hc; exact_mod_cast hc,
    ?_, ?_, ?_⟩
  · unfold pixMean
    have := sumLoop_two_level h w A (fun p => (p : Int)) hpix
    simp only at this
    rw [this, ea, ec, ← hn2]
    have e : ((a : Int) * ((10 : Nat) : Int) + (c : Int) * ((200 : Nat) : Int)).toNat
        = 10 * a + 200 * c := by
      have : ((a : Int) * ((10 : Nat) : Int) + (c : Int) * ((200 : Nat) : Int))
          = ((10 * a + 200 * c : Nat) : Int) := by push_cast; ring
      rw [this, Int.toNat_ofNat]
    rw [e]
  · unfold pixMean
    have e1 : sumLoop h w (fun i j => (getPix B i j : Int)) =
        countPix h w A 10 * (fun p : Nat => if p = 10 then (1 : Int) else 0) 10 +
        countPix h w A 200 * (fun p : Nat => if p = 10 then (1 : Int) else 0) 200 :=
      (sumLoop_congr h w _ _ (fun i hi j hj => by
        rw [hB i hi j hj]
        by_cases e : getPix A i j = 10 <;> simp [e])).trans
        (sumLoop_two_level h w A (fun p : Nat => if p = 10 then (1 : Int) else 0) hpix)
    rw [e1, ea, ec, ← hn2]
    simp
  · unfold devSum
    have e1 : sumLoop h w (fun i j => ((getPix A i j : Int) - pixMean h w A) *
          ((getPix B i j : Int) - pixMean h w B)) =
        countPix h w A 10 * (fun p : Nat => ((p : Int) - pixMean h w A) *
          ((if p = 10 then (1 : Int) else 0) - pixMean h w B)) 10 +
        countPix h w A 200 * (fun p : Nat => ((p : Int) - pixMean h w A) *
          ((if p = 10 then (1 : Int) else 0) - pixMean h w B)) 200 :=
      (sumLoop_congr h w _ _ (fun i hi j hj => by
        rw [hB i hi j hj]
        by_cases e : getPix A i j = 10 <;> simp [e])).trans
        (sumLoop_two_level h w A (fun p : Nat => ((p : Int) - pixMean h w A) *
          ((if p = 10 then (1 : Int) else 0) - pixMean h w B)) hpix)
    rw [e1, ea, ec]
    simp

theorem two_level_corr_pos (A B : PGMImage) (hw : A.header.width = B.header.width)
    (hh : A.header.height = B.header.height)
    (hpix : ∀ i < A.header.height, ∀ j < A.header.width,
      getPix A i j = 10 ∨ getPix A i j = 200)
    (h10 : ∃ i < A.header.height, ∃ j < A.header.width, getPix A i j = 10)
    (h200 : ∃ i < A.header.height, ∃ j < A.header.width, getPix A i j = 200)
    (hB : ∀ i < A.header.height, ∀ j < A.header.width,
      getPix B i j = if getPix A i j = 10 then 1 else 0) :
    ∃ c : CorrValue, corr2d A B = Except.ok c ∧ 0 < c.num := by
  obtain ⟨a, c, ha, hc, hmA, hmB, hdev⟩ :=
    two_level_means A.header.height A.header.width A B hpix h10 h200 hB
  have hAA : devSum A.header.height A.header.width A A
      (pixMean A.header.height A.header.width A) (pixMean A.header.height A.header.width A) ≠ 0 := by
    intro h0
    rw [devSum_self_eq_zero_iff] at h0
    obtain ⟨i, hi, j, hj, e⟩ := h10
    obtain ⟨i2, hi2, j2, hj2, e2⟩ := h200
    have k1 := h0 i hi j hj
    have k2 := h0 i2 hi2 j2 hj2
    rw [e] at k1
    rw [e2] at k2
    have : ((10 : Nat) : Int) = ((200 : Nat) : Int) := k1.trans k2.symm
    omega
  have hBB : devSum A.header.height A.header.width B B
      (pixMean A.header.height A.header.width B) (pixMean A.header.height A.header.width B) ≠ 0 := by
    intro h0
    rw [devSum_self_eq_zero_iff] at h0
    obtain ⟨i, hi, j, hj, e⟩ := h10
    obtain ⟨i2, hi2, j2, hj2, e2⟩ := h200
    have k1 := h0 i hi j hj
    have k2 := h0 i2 hi2 j2 hj2
    rw [hB i hi j hj, e] at k1
    rw [hB i2 hi2 j2 hj2, e2] at k2
    simp only [↓reduceIte] at k1
    have : ((1 : Nat) : Int) = (((if 200 = 10 then 1 else 0 : Nat)) : Int) := k1.trans k2.symm
    simp at this
  have hAB : devSum A.header.height A.header.width A B
      (pixMean A.header.height A.header.width A) (pixMean A.header.height A.header.width B) ≠ 0 := by
    rw [hdev, hmA, hmB]
    rcases Nat.lt_or_ge a c with hac | hac
    · rw [roundDiv_small hac]
      have := roundDiv_mean_ge hac
      have h1 : (0 : Int) < a := by exact_mod_cast ha
      have h2 : ((10 : Int) - (roundDiv (10 * a + 200 * c) (a + c) : Nat)) < 0 := by omega
      simp only [Nat.cast_zero, sub_zero, mul_one, sub_self, mul_zero, add_zero]
      exact mul_ne_zero h1.ne' h2.ne
    · rw [roundDiv_large hac hc]
      have := roundDiv_mean_lt hac ha
      have h1 : (0 : Int) < c := by exact_mod_cast hc
      have h2 : (0 : Int) < ((200 : Int) - (roundDiv (10 * a + 200 * c) (a + c) : Nat)) := by omega
      simp only [Nat.cast_one, sub_self, mul_zero, zero_add, zero_sub]
      exact mul_ne_zero h1.ne' (mul_ne_zero h2.ne' (by norm_num))
  rw [corr2d_of_dims A B hw hh, if_neg (mul_ne_zero hAA hBB)]
  exact ⟨_, rfl, Int.natAbs_pos.2 hAB⟩

theorem getPix_thresholdImage (image R : PGMImage) (t : Int) (hR : GoodBuf image R)
    {i j : Nat} (hi : i < image.header.height) (hj : j < image.header.width) :
    getPix (thresholdImage ⟨image, R⟩ t).result i j = thresholdValue (getPix image i j) t := by
  obtain ⟨_, _, _, h4⟩ := thresholdImage_inv ⟨image, R⟩ t hR.2.2
  rw [getPix_eq_rowsGet, h4 i hi j hj]
  rcases thresholdValue_cases (getPix image i j) t with e | e <;> rw [e]

theorem corrAt_eq_of_corr2d (image R : PGMImage) (t : Nat) (c : CorrValue)
    (h : corr2d image (thresholdImage ⟨image, R⟩ (t : Int)).result = Except.ok c) :
    corrAt image R t = c := by
  unfold corrAt
  rw [h]

/-- C8: for a grid whose pixels are each 10 or 200, both present, `thresholdImageSequence`
returns a threshold `t` with `10 ≤ t < 200`; binarising at `t` marks exactly the 10-valued
pixels as foreground (1) and exactly the 200-valued pixels as background (0), and the
correlation at `t` is the maximum over all thresholds. -/
theorem thresholdImageSequence_two_level (image : PGMImage)
    (hpix : ∀ i < image.header.height, ∀ j < image.header.width,
      getPix image i j = 10 ∨ getPix image i j = 200)
    (h10 : ∃ i < image.header.height, ∃ j < image.header.width, getPix image i j = 10)
    (h200 : ∃ i < image.header.height, ∃ j < image.header.width, getPix image i j = 200) :
    ∃ (result : PGMImage) (c : Nat → CorrValue) (t : Nat),
      copyPGM image = Except.ok result ∧
      (∀ u : Nat, corr2d image (thresholdImage ⟨image, result⟩ (u : Int)).result =
        Except.ok (c u)) ∧
      thresholdImageSequence image = Except.ok t ∧ 10 ≤ t ∧ t < 200 ∧
      (∀ i < image.header.height, ∀ j < image.header.width,
        (getPix (thresholdImage ⟨image, result⟩ (t : Int)).result i j = 1 ↔
          getPix image i j = 10) ∧
        (getPix (thresholdImage ⟨image, result⟩ (t : Int)).result i j = 0 ↔
          getPix image i j = 200)) ∧
      (∀ u ≤ 255, ((c u).num : ℝ) / Real.sqrt ((c u).den2 : ℝ) ≤
        ((c t).num : ℝ) / Real.sqrt ((c t).den2 : ℝ)) := by
  have hh : image.header.height ≠ 0 := by
    obtain ⟨i, hi, _⟩ := h10; omega
  have hw : image.header.width ≠ 0 := by
    obtain ⟨i, _, j, hj, _⟩ := h10; omega
  obtain ⟨result, t, hcopy, hgood, hseq, h1, h2, h3⟩ := sequence_first_max image hh hw
  -- the binarised image at each threshold
  have hbin : ∀ (u : Nat) (i : Nat), i < image.header.height → ∀ j < image.header.width,
      getPix (thresholdImage ⟨image, result⟩ (u : Int)).result i j =
        thresholdValue (getPix image i j) (u : Int) :=
    fun u i hi j hj => getPix_thresholdImage image result u hgood hi hj
  have hdims : ∀ u : Nat,
      image.header.width = (thresholdImage ⟨image, result⟩ (u : Int)).result.header.width ∧
      image.header.height = (thresholdImage ⟨image, result⟩ (u : Int)).result.header.height :=
    fun u => ⟨(thresholdImage_goodBuf image result u hgood).2.1.symm,
      (thresholdImage_goodBuf image result u hgood).2.2.1.symm⟩
  -- thresholds below 10 and from 200 on give a uniform binarised image
  have hzero : ∀ u : Nat, u < 10 ∨ 200 ≤ u → corrAt image result u = ⟨0, 1⟩ := by
    intro u hu
    apply corrAt_eq_of_corr2d
    refine (corr2d_zero_of_uniform image _ (hdims u).1 (hdims u).2 (Or.inr ?_)).2
    rcases hu with hu | hu
    · refine ⟨0, fun i hi j hj => ?_⟩
      rw [hbin u i hi j hj]
      unfold thresholdValue WHITEPIX
      rw [if_pos]
      rcases hpix i hi j hj with e | e <;> rw [e] <;> omega
    · refine ⟨1, fun i hi j hj => ?_⟩
      rw [hbin u i hi j hj]
      unfold thresholdValue BLACKPIX
      rw [if_neg]
      rcases hpix i hi j hj with e | e <;> rw [e] <;> omega
  -- thresholds in [10, 200) all give the binarised image of threshold 10
  have hmid : ∀ u : Nat, 10 ≤ u → u < 200 →
      ∀ i < image.header.height, ∀ j < image.header.width,
        getPix (thresholdImage ⟨image, result⟩ (u : Int)).result i j =
          if getPix image i j = 10 then 1 else 0 := by
    intro u hu1 hu2 i hi j hj
    rw [hbin u i hi j hj]
    unfold thresholdValue WHITEPIX BLACKPIX
    rcases hpix i hi j hj with e | e
    · rw [e, if_neg (by omega), if_pos rfl]
    · rw [e, if_pos (by omega), if_neg (by decide)]
  have hsame : ∀ u : Nat, 10 ≤ u → u < 200 → corrAt image result u = corrAt image result 10 := by
    intro u hu1 hu2
    apply corrAt_eq_of_corr2d
    rw [← (corrAt_spec image result 10 hgood).1]
    apply corr2d_congr_right
    · rw [← (hdims u).1, ← (hdims 10).1]
    · rw [← (hdims u).2, ← (hdims 10).2]
    · intro i hi j hj
      rw [hmid u hu1 hu2 i hi j hj, hmid 10 le_rfl (by decide) i hi j hj]
  have hpos : 0 < ((corrAt image result 10).num : ℝ) /
      Real.sqrt ((corrAt image result 10).den2 : ℝ) := by
    obtain ⟨c, hc, hcpos⟩ := two_level_corr_pos image
      (thresholdImage ⟨image, result⟩ ((10 : Nat) : Int)).result (hdims 10).1 (hdims 10).2
      hpix h10 h200 (hmid 10 le_rfl (by decide))
    have e := corrAt_eq_of_corr2d image result 10 c hc
    have hden := (corrAt_spec image result 10 hgood).2.1
    rw [e] at hden ⊢
    exact div_pos (by exact_mod_cast hcpos) (Real.sqrt_pos.2 (by exact_mod_cast hden))
  have hz0 : ∀ u : Nat, u < 10 ∨ 200 ≤ u →
      ((corrAt image result u).num : ℝ) / Real.sqrt ((corrAt image result u).den2 : ℝ) = 0 := by
    intro u hu
    rw [hzero u hu]
    simp
  -- the same in the `double` values that the loop compares
  have hposD : 0 < (corrAt image result 10).toDouble := by
    obtain ⟨c, hc, hcpos⟩ := two_level_corr_pos image
      (thresholdImage ⟨image, result⟩ ((10 : Nat) : Int)).result (hdims 10).1 (hdims 10).2
      hpix h10 h200 (hmid 10 le_rfl (by decide))
    have e := corrAt_eq_of_corr2d image result 10 c hc
    have hden := (corrAt_spec image result 10 hgood).2.1
    rw [e] at hden ⊢
    exact toDouble_pos c hcpos hden
  have hz0D : ∀ u : Nat, u < 10 ∨ 200 ≤ u → (corrAt image result u).toDouble = 0 := by
    intro u hu
    rw [hzero u hu]
    exact toDouble_zero _ rfl
  have ht : t = 10 := by
    rcases Nat.lt_trichotomy t 10 with hlt | heq | hgt
    · have := h2 10 (by decide)
      rw [hz0D t (Or.inl hlt)] at this
      exact absurd hposD (not_lt.2 this)
    · exact heq
    · have hlt := h3 10 hgt
      rcases Nat.lt_or_ge t 200 with h200 | h200
      · rw [hsame t (by omega) h200] at hlt
        exact absurd hlt (lt_irrefl _)
      · rw [hz0D t (Or.inr h200)] at hlt
        exact absurd hposD (not_lt.2 hlt.le)
  subst ht
  refine ⟨result, corrAt image result, 10, hcopy,
    fun u => (corrAt_spec image result u hgood).1, hseq, le_rfl, by decide, ?_,
    fun u hu => ?_⟩
  · intro i hi j hj
    rw [hmid 10 le_rfl (by decide) i hi j hj]
    rcases hpix i hi j hj with e | e <;> simp [e]
  · by_cases hu1 : u < 10 ∨ 200 ≤ u
    · rw [hz0 u hu1]
      exact hpos.le
    · rw [hsame u (by omega) (by omega)]

/-! ## Component labelling: `ConnectedComponentLabeling` -/

theorem fillRow_inv (v : Nat → Nat) (h w y : Nat) (hy : y < h) (m : Nat) (hm : m ≤ w - 1)
    (rows0 : List (List Nat)) (hs : Shaped rows0 h w) :
    Shaped ((List.range' 1 m).foldl (fun bm x => setPix bm y x (v x)) rows0) h w ∧
    ∀ y2 x2, rowsGet ((List.range' 1 m).foldl (fun bm x => setPix bm y x (v x)) rows0) y2 x2 =
      if y2 = y ∧ 1 ≤ x2 ∧ x2 < 1 + m then v x2 else rowsGet rows0 y2 x2 := by
  induction m with
  | zero =>
    refine ⟨hs, fun y2 x2 => ?_⟩
    rw [if_neg (by omega)]
    rfl
  | succ m ih =>
    obtain ⟨h1, h2⟩ := ih (by omega)
    rw [List.range'_1_concat, List.foldl_append]
    simp only [List.foldl_cons, List.foldl_nil]
    refine ⟨setPix_shaped h1 _ _ _, fun y2 x2 => ?_⟩
    rw [rowsGet_setPix h1 hy (by omega : 1 + m < w), h2]
    by_cases c1 : y2 = y ∧ x2 = 1 + m
    · rw [if_pos c1, if_pos ⟨c1.1, by omega, by omega⟩, c1.2]
    · rw [if_neg c1]
      by_cases c2 : y2 = y ∧ 1 ≤ x2 ∧ x2 < 1 + m
      · rw [if_pos c2, if_pos ⟨c2.1, c2.2.1, by omega⟩]
      · rw [if_neg c2, if_neg (by omega)]

theorem fillRows_inv (v : Nat → Nat → Nat) (h w : Nat) (n : Nat) (hn : n ≤ h - 1)
    (rows0 : List (List Nat)) (hs : Shaped rows0 h w) :
    Shaped ((List.range' 1 n).foldl
      (fun bm y => (List.range' 1 (w - 2)).foldl (fun bm x => setPix bm y x (v y x)) bm)
      rows0) h w ∧
    ∀ y2 x2, rowsGet ((List.range' 1 n).foldl
      (fun bm y => (List.range' 1 (w - 2)).foldl (fun bm x => setPix bm y x (v y x)) bm)
      rows0) y2 x2 =
      if (1 ≤ y2 ∧ y2 < 1 + n) ∧ 1 ≤ x2 ∧ x2 < 1 + (w - 2) then v y2 x2
      else rowsGet rows0 y2 x2 := by
  induction n with
  | zero =>
    refine ⟨hs, fun y2 x2 => ?_⟩
    rw [if_neg (by omega)]
    rfl
  | succ n ih =>
    obtain ⟨h1, h2⟩ := ih (by omega)
    rw [List.range'_1_concat, List.foldl_append]
    simp only [List.foldl_cons, List.foldl_nil]
    obtain ⟨k1, k2⟩ := fillRow_inv (v (1 + n)) h w (1 + n) (by omega) (w - 2) (by omega) _ h1
    refine ⟨k1, fun y2 x2 => ?_⟩
    rw [k2, h2]
    by_cases c1 : y2 = 1 + n ∧ 1 ≤ x2 ∧ x2 < 1 + (w - 2)
    · rw [if_pos c1, if_pos ⟨⟨by omega, by omega⟩, c1.2⟩, c1.1]
    · rw [if_neg c1]
      by_cases c2 : (1 ≤ y2 ∧ y2 < 1 + n) ∧ 1 ≤ x2 ∧ x2 < 1 + (w - 2)
      · rw [if_pos c2, if_pos ⟨⟨c2.1.1, by omega⟩, c2.2⟩]
      · rw [if_neg c2, if_neg (by omega)]

theorem shaped_replicate (h w : Nat) : Shaped (List.replicate h (List.replicate w 0)) h w := by
  refine ⟨by simp, fun row hrow => ?_⟩
  rw [List.eq_of_mem_replicate hrow]
  simp

theorem rowsGet_replicate (h w y x : Nat) :
    rowsGet (List.replicate h (List.replicate w 0)) y x = 0 := by
  unfold rowsGet
  simp only [List.getD_eq_getElem?_getD, List.getElem?_replicate]
  by_cases hy : y < h
  · by_cases hx : x < w <;> simp [hy, hx]
  · simp [hy]

theorem validatePGM_bitmap (image : PGMImage) :
    Shaped (validatePGM image).1 image.header.height image.header.width ∧
    ∀ y x, rowsGet (validatePGM image).1 y x =
      if (1 ≤ y ∧ y < 1 + (image.header.height - 2)) ∧ 1 ≤ x ∧ x < 1 + (image.header.width - 2)
      then getPix image y x else 0 := by
  obtain ⟨h1, h2⟩ := fillRows_inv (fun y x => getPix image y x) image.header.height
    image.header.width (image.header.height - 2) (by omega) _
    (shaped_replicate image.header.height image.header.width)
  refine ⟨h1, fun y x => ?_⟩
  unfold validatePGM
  simp only []
  rw [h2, rowsGet_replicate]

theorem labelPixel_background (bitmap : List (List Nat)) (fuel cy cx : Nat) (st : ScanState)
    (hb : rowsGet bitmap cy cx ≠ BLACKPIX) (hl : st.labelindex = 0) :
    labelPixel bitmap fuel cy st cx = Except.ok st := by
  unfold labelPixel
  rw [if_neg hb, if_neg (by simp [hl])]

theorem scanRow_background (bitmap : List (List Nat)) (fuel cy : Nat) (cxs : List Nat)
    (st : ScanState) (hb : ∀ cx ∈ cxs, rowsGet bitmap cy cx ≠ BLACKPIX)
    (hl : st.labelindex = 0) : scanRow bitmap fuel cy cxs st = Except.ok st := by
  induction cxs with
  | nil => rfl
  | cons cx rest ih =>
    unfold scanRow
    rw [labelPixel_background bitmap fuel cy cx st (hb cx (List.mem_cons_self _ _)) hl]
    exact ih (fun c hc => hb c (List.mem_cons_of_mem _ hc))

theorem scanRows_background (bitmap : List (List Nat)) (fuel width : Nat) (cys : List Nat)
    (st : ScanState)
    (hb : ∀ cy ∈ cys, ∀ cx ∈ List.range' 1 (width - 2), rowsGet bitmap cy cx ≠ BLACKPIX)
    (hl : st.labelindex = 0) : scanRows bitmap fuel width cys st = Except.ok st := by
  induction cys with
  | nil => rfl
  | cons cy rest ih =>
    unfold scanRows
    have e : ({ st with labelindex := 0 } : ScanState) = st := by
      cases st; simp only at hl; subst hl; rfl
    rw [e, scanRow_background bitmap fuel cy _ st (hb cy (List.mem_cons_self _ _)) hl]
    exact ih (fun c hc => hb c (List.mem_cons_of_mem _ hc))

/-- C10: on a mask with no foreground pixel in its scanned interior,
`ConnectedComponentLabeling` returns normally with count 0 and an empty centroid list. -/
theorem ccl_no_foreground (image : PGMImage)
    (hno : ∀ y x, 1 ≤ y → y + 1 < image.header.height → 1 ≤ x → x + 1 < image.header.width →
      getPix image y x ≠ BLACKPIX) :
    ∃ r : LabelResult, ConnectedComponentLabeling image = Except.ok r ∧
      r.ccCount = 0 ∧ r.cents = [] := by
  have hscan : scanRows (validatePGM image).1 (16 * image.header.height * image.header.width + 16)
      image.header.width (List.range' 1 (image.header.height - 2))
      ⟨(validatePGM image).2, 0, 0, 0, []⟩ = Except.ok ⟨(validatePGM image).2, 0, 0, 0, []⟩ := by
    apply scanRows_background _ _ _ _ _ _ rfl
    intro cy hcy cx hcx
    rw [List.mem_range'_1] at hcy hcx
    rw [(validatePGM_bitmap image).2, if_pos ⟨⟨hcy.1, hcy.2⟩, hcx.1, hcx.2⟩]
    exact hno cy cx hcy.1 (by omega) hcx.1 (by omega)
  refine ⟨⟨[], 0, 0⟩, ?_, rfl, rfl⟩
  unfold ConnectedComponentLabeling
  simp only [hscan]
  rfl

/-! ## Component labelling: the raster scan -/

theorem labelPixel_cases (bitmap : List (List Nat)) (fuel cy cx : Nat) (st st1 : ScanState)
    (h : labelPixel bitmap fuel cy st cx = Except.ok st1) :
    (st1.pointbuff = st.pointbuff ∧ st1.count = st.count ∧
      st1.ConnectedComponentsCount = st.ConnectedComponentsCount) ∨
    (rowsGet bitmap cy cx = BLACKPIX ∧ st1.pointbuff = st.pointbuff ++ [(cx, cy)] ∧
      st1.count = st.count + 1 ∧
      st1.ConnectedComponentsCount = st.ConnectedComponentsCount + 1 ∧ st.count + 1 < 500) := by
  unfold labelPixel at h
  by_cases hb : rowsGet bitmap cy cx = BLACKPIX
  · rw [if_pos hb] at h
    by_cases hl : st.labelindex ≠ 0
    · rw [if_pos hl] at h
      cases h
      exact Or.inl ⟨rfl, rfl, rfl⟩
    · rw [if_neg hl] at h
      simp only at h
      by_cases h0 : getLabel st.labelmap cy cx = 0
      · rw [if_pos h0] at h
        cases hct : ContourTracing bitmap st.labelmap fuel cy cx
            ((st.ConnectedComponentsCount + 1 : Nat) : Int) 0 with
        | none => rw [hct] at h; cases h
        | some lm =>
          rw [hct] at h
          simp only at h
          by_cases hc : st.count + 1 ≥ 500
          · rw [if_pos hc] at h; cases h
          · rw [if_neg hc] at h
            cases h
            exact Or.inr ⟨hb, rfl, rfl, rfl, by omega⟩
      · rw [if_neg h0] at h
        cases h
        exact Or.inl ⟨rfl, rfl, rfl⟩
  · rw [if_neg hb] at h
    by_cases hl : st.labelindex ≠ 0
    · rw [if_pos hl] at h
      by_cases h0 : getLabel st.labelmap cy cx = 0
      · rw [if_pos h0] at h
        cases hct : ContourTracing bitmap st.labelmap fuel cy (cx - 1) st.labelindex 1 with
        | none => rw [hct] at h; cases h
        | some lm =>
          rw [hct] at h
          cases h
          exact Or.inl ⟨rfl, rfl, rfl⟩
      · rw [if_neg h0] at h
        cases h
        exact Or.inl ⟨rfl, rfl, rfl⟩
    · rw [if_neg hl] at h
      cases h
      exact Or.inl ⟨rfl, rfl, rfl⟩

theorem labelPixel_inv (bitmap : List (List Nat)) (height width fuel cy cx : Nat)
    (st st1 : ScanState) (hcy : 1 ≤ cy ∧ cy < 1 + (height - 2))
    (hcx : 1 ≤ cx ∧ cx < 1 + (width - 2))
    (inv : ScanInv bitmap height width st cy cx)
    (h : labelPixel bitmap fuel cy st cx = Except.ok st1) :
    ScanInv bitmap height width st1 cy (cx + 1) := by
  have hstep : ∀ p, rasterLt p (cx, cy) → rasterLt p (cx + 1, cy) := by
    intro p hp
    rcases hp with hp | ⟨hp1, hp2⟩
    · exact Or.inl hp
    · exact Or.inr ⟨hp1, Nat.lt_succ_of_lt hp2⟩
  rcases labelPixel_cases bitmap fuel cy cx st st1 h with ⟨e1, e2, e3⟩ | ⟨hb, e1, e2, e3, hcap⟩
  · refine ⟨by rw [e2, e1]; exact inv.count_eq, by rw [e3, e1]; exact inv.cc_eq,
      by rw [e1]; exact inv.lt_cap, by rw [e1]; exact inv.sorted, ?_, by rw [e1]; exact inv.fg⟩
    intro p hp
    rw [e1] at hp
    exact hstep p (inv.before p hp)
  · have hlen : st1.pointbuff.length = st.pointbuff.length + 1 := by rw [e1]; simp
    refine ⟨by rw [e2, hlen, inv.count_eq], by rw [e3, hlen, inv.cc_eq],
      by rw [hlen, ← inv.count_eq]; exact hcap, ?_, ?_, ?_⟩
    · rw [e1, List.pairwise_append]
      refine ⟨inv.sorted, List.pairwise_singleton _ _, ?_⟩
      intro a ha b hb2
      rw [List.mem_singleton] at hb2
      rw [hb2]
      exact inv.before a ha
    · intro p hp
      rw [e1, List.mem_append, List.mem_singleton] at hp
      rcases hp with hp | hp
      · exact hstep p (inv.before p hp)
      · rw [hp]; exact Or.inr ⟨rfl, Nat.lt_succ_self cx⟩
    · intro p hp
      rw [e1, List.mem_append, List.mem_singleton] at hp
      rcases hp with hp | hp
      · exact inv.fg p hp
      · rw [hp]; exact ⟨hb, hcy.1, hcy.2, hcx.1, hcx.2⟩

theorem scanRow_inv (bitmap : List (List Nat)) (height width fuel cy : Nat)
    (hcy : 1 ≤ cy ∧ cy < 1 + (height - 2)) (n : Nat) :
    ∀ (a : Nat) (st st1 : ScanState), 1 ≤ a → a + n ≤ 1 + (width - 2) →
      ScanInv bitmap height width st cy a →
      scanRow bitmap fuel cy (List.range' a n) st = Except.ok st1 →
      ScanInv bitmap height width st1 cy (a + n) := by
  induction n with
  | zero =>
    intro a st st1 _ _ inv h
    unfold scanRow at h
    simp only [List.range'_zero] at h
    cases h
    exact inv
  | succ n ih =>
    intro a st st1 ha hn inv h
    rw [List.range'_succ] at h
    unfold scanRow at h
    cases hp : labelPixel bitmap fuel cy st a with
    | error e => rw [hp] at h; cases h
    | ok st2 =>
      rw [hp] at h
      simp only at h
      have inv2 := labelPixel_inv bitmap height width fuel cy a st st2 hcy ⟨ha, by omega⟩ inv hp
      have := ih (a + 1) st2 st1 (by omega) (by omega) inv2 h
      rw [show a + (n + 1) = a + 1 + n by omega]
      exact this

theorem scanRows_inv (bitmap : List (List Nat)) (height width fuel : Nat) (n : Nat) :
    ∀ (a : Nat) (st st1 : ScanState), 1 ≤ a → a + n ≤ 1 + (height - 2) →
      ScanInv bitmap height width st a 1 →
      scanRows bitmap fuel width (List.range' a n) st = Except.ok st1 →
      ScanInv bitmap height width st1 (a + n) 1 := by
  induction n with
  | zero =>
    intro a st st1 _ _ inv h
    unfold scanRows at h
    simp only [List.range'_zero] at h
    cases h
    exact inv
  | succ n ih =>
    intro a st st1 ha hn inv h
    rw [List.range'_succ] at h
    unfold scanRows at h
    cases hp : scanRow bitmap fuel a (List.range' 1 (width - 2)) { st with labelindex := 0 } with
    | error e => rw [hp] at h; cases h
    | ok st2 =>
      rw [hp] at h
      simp only at h
      have inv0 : ScanInv bitmap height width { st with labelindex := 0 } a 1 :=
        ⟨inv.count_eq, inv.cc_eq, inv.lt_cap, inv.sorted, inv.before, inv.fg⟩
      have inv2 := scanRow_inv bitmap height width fuel a ⟨ha, by omega⟩ (width - 2) 1
        _ st2 le_rfl le_rfl inv0 hp
      have inv3 : ScanInv bitmap height width st2 (a + 1) 1 := by
        refine ⟨inv2.count_eq, inv2.cc_eq, inv2.lt_cap, inv2.sorted, ?_, inv2.fg⟩
        intro p hp2
        rcases inv2.before p hp2 with hlt | ⟨heq, _⟩
        · exact Or.inl (Nat.lt_succ_of_lt hlt)
        · exact Or.inl (by rw [heq]; exact Nat.lt_succ_self a)
      have := ih (a + 1) st2 st1 (by omega) (by omega) inv3 h
      rw [show a + (n + 1) = a + 1 + n by omega]
      exact this

theorem zipWith_createCents (k : Nat) (pb : List (Nat × Nat)) :
    (createCents pb.length k).zipWith
      (fun c p => { c with x := (p.1 : Int), y := (p.2 : Int) }) pb =
    pb.map (fun p => ⟨(p.1 : Int), (p.2 : Int), 0, List.replicate k 0⟩) := by
  unfold createCents
  induction pb with
  | nil => rfl
  | cons p rest ih =>
    simp only [List.length_cons, List.replicate_succ, List.zipWith_cons_cons, List.map_cons]
    rw [ih]

theorem ccl_ok_unfold (image : PGMImage) (r : LabelResult)
    (h : ConnectedComponentLabeling image = Except.ok r) :
    ∃ st : ScanState,
      ScanInv (validatePGM image).1 image.header.height image.header.width st
        (1 + (image.header.height - 2)) 1 ∧
      r.ccCount = st.pointbuff.length ∧ r.k = Nat.sqrt (r.ccCount / 2) ∧
      r.cents = st.pointbuff.map
        (fun p => ⟨(p.1 : Int), (p.2 : Int), 0, List.replicate r.k 0⟩) := by
  unfold ConnectedComponentLabeling at h
  simp only at h
  cases hs : scanRows (validatePGM image).1 (16 * image.header.height * image.header.width + 16)
      image.header.width (List.range' 1 (image.header.height - 2))
      ⟨(validatePGM image).2, 0, 0, 0, []⟩ with
  | error e => rw [hs] at h; cases h
  | ok st =>
    rw [hs] at h
    simp only at h
    have inv0 : ScanInv (validatePGM image).1 image.header.height image.header.width
        ⟨(validatePGM image).2, 0, 0, 0, []⟩ 1 1 :=
      ⟨rfl, rfl, Nat.zero_lt_succ 499, List.Pairwise.nil, fun p hp => absurd hp (List.not_mem_nil p),
        fun p hp => absurd hp (List.not_mem_nil p)⟩
    have inv := scanRows_inv _ image.header.height image.header.width _
      (image.header.height - 2) 1 _ st le_rfl le_rfl inv0 hs
    refine ⟨st, inv, ?_, ?_, ?_⟩
    · cases h; exact inv.cc_eq
    · cases h; rfl
    · cases h
      simp only
      rw [inv.cc_eq]
      exact zipWith_createCents _ _

theorem floor_sqrt_half (n : Nat) :
    ⌊Real.sqrt ((n : ℝ) / 2)⌋₊ = Nat.sqrt (n / 2) := by
  rw [Nat.floor_eq_iff (Real.sqrt_nonneg _)]
  have h1 : Nat.sqrt (n / 2) ^ 2 ≤ n / 2 := Nat.sqrt_le' _
  have h2 : n / 2 < (Nat.sqrt (n / 2) + 1) ^ 2 := Nat.lt_succ_sqrt' _
  have h3 : 2 * (n / 2) ≤ n := Nat.mul_div_le n 2
  have h4 : n < 2 * (n / 2) + 2 := by omega
  constructor
  · rw [Real.le_sqrt (Nat.cast_nonneg _) (by positivity)]
    have : ((Nat.sqrt (n / 2) ^ 2 : Nat) : ℝ) ≤ ((n / 2 : Nat) : ℝ) := by exact_mod_cast h1
    have h3r : (2 : ℝ) * ((n / 2 : Nat) : ℝ) ≤ (n : ℝ) := by exact_mod_cast h3
    push_cast at this
    linarith
  · rw [Real.sqrt_lt' (by positivity)]
    have h2r : ((n / 2 : Nat) : ℝ) + 1 ≤ ((Nat.sqrt (n / 2) + 1 : Nat) : ℝ) ^ 2 := by
      exact_mod_cast h2
    have h4r : (n : ℝ) < 2 * ((n / 2 : Nat) : ℝ) + 2 := by exact_mod_cast h4
    push_cast at h2r
    linarith

/-- C11 (amended): the cluster count `k` returned by `ConnectedComponentLabeling` is
`floor(sqrt(count / 2))` for the exact quotient `count / 2`; this is
`max(1, floor(sqrt(count / 2)))` when `count ≥ 2`, and it is 0 when `count ≤ 1`. -/
theorem ccl_k_value (image : PGMImage) (r : LabelResult)
    (h : ConnectedComponentLabeling image = Except.ok r) :
    r.k = ⌊Real.sqrt ((r.ccCount : ℝ) / 2)⌋₊ ∧
    (2 ≤ r.ccCount → r.k = max 1 ⌊Real.sqrt ((r.ccCount : ℝ) / 2)⌋₊) ∧
    (r.ccCount ≤ 1 → r.k = 0) := by
  obtain ⟨st, _, _, hk, _⟩ := ccl_ok_unfold image r h
  rw [floor_sqrt_half, hk]
  refine ⟨rfl, ?_, ?_⟩
  · intro h2
    have : 1 ≤ Nat.sqrt (r.ccCount / 2) := by
      rw [Nat.le_sqrt]
      omega
    omega
  · intro h1
    have : r.ccCount / 2 = 0 := by omega
    rw [this]
    rfl

/-- Whenever `ConnectedComponentLabeling` returns, the count and the number of centroids
are below 500, so no frame is labelled with 500 centroids: the too-many-components exit
is taken as soon as the 500th component is recorded. -/
theorem ccl_count_lt_cap (image : PGMImage) (r : LabelResult)
    (h : ConnectedComponentLabeling image = Except.ok r) :
    r.ccCount < 500 ∧ r.cents.length < 500 := by
  obtain ⟨st, inv, hc, _, hcents⟩ := ccl_ok_unfold image r h
  refine ⟨by rw [hc]; exact inv.lt_cap, ?_⟩
  rw [hcents, List.length_map]
  exact inv.lt_cap

/-- C13: the centroid list returned by `ConnectedComponentLabeling` has as many entries
as the returned count, is in raster order (row, then column), and each entry is a
foreground pixel of the scanned interior. -/
theorem ccl_centroids_raster (image : PGMImage) (r : LabelResult)
    (h : ConnectedComponentLabeling image = Except.ok r) :
    r.cents.length = r.ccCount ∧
    (∀ i j, i < j → j < r.cents.length →
      (r.cents.getD i noCentroid).y < (r.cents.getD j noCentroid).y ∨
      ((r.cents.getD i noCentroid).y = (r.cents.getD j noCentroid).y ∧
        (r.cents.getD i noCentroid).x < (r.cents.getD j noCentroid).x)) ∧
    (∀ c ∈ r.cents, ∃ y x : Nat, c.y = (y : Int) ∧ c.x = (x : Int) ∧
      1 ≤ y ∧ y + 1 < image.header.height ∧ 1 ≤ x ∧ x + 1 < image.header.width ∧
      getPix image y x = BLACKPIX) := by
  obtain ⟨st, inv, hc, _, hcents⟩ := ccl_ok_unfold image r h
  have hlen : r.cents.length = st.pointbuff.length := by rw [hcents, List.length_map]
  refine ⟨by rw [hlen, hc], ?_, ?_⟩
  · intro i j hij hj
    have hj2 : j < st.pointbuff.length := by rw [← hlen]; exact hj
    have hi2 : i < st.pointbuff.length := by omega
    have hs := List.pairwise_iff_getElem.1 inv.sorted i j hi2 hj2 hij
    have ei : r.cents.getD i noCentroid =
        ⟨((st.pointbuff[i]).1 : Int), ((st.pointbuff[i]).2 : Int), 0, List.replicate r.k 0⟩ := by
      rw [List.getD_eq_getElem _ _ (by omega)]
      simp only [hcents, List.getElem_map]
    have ej : r.cents.getD j noCentroid =
        ⟨((st.pointbuff[j]).1 : Int), ((st.pointbuff[j]).2 : Int), 0, List.replicate r.k 0⟩ := by
      rw [List.getD_eq_getElem _ _ hj]
      simp only [hcents, List.getElem_map]
    rw [ei, ej]
    show ((st.pointbuff[i]).2 : Int) < ((st.pointbuff[j]).2 : Int) ∨
      (((st.pointbuff[i]).2 : Int) = ((st.pointbuff[j]).2 : Int) ∧
        ((st.pointbuff[i]).1 : Int) < ((st.pointbuff[j]).1 : Int))
    rcases hs with hs | ⟨hs1, hs2⟩
    · exact Or.inl (by exact_mod_cast hs)
    · exact Or.inr ⟨by exact_mod_cast hs1, by exact_mod_cast hs2⟩
  · intro c hcm
    rw [hcents, List.mem_map] at hcm
    obtain ⟨p, hp, rfl⟩ := hcm
    obtain ⟨hb, h1, h2, h3, h4⟩ := inv.fg p hp
    refine ⟨p.2, p.1, rfl, rfl, h1, by omega, h3, by omega, ?_⟩
    rw [(validatePGM_bitmap image).2, if_pos ⟨⟨h1, h2⟩, h3, h4⟩] at hb
    exact hb

/-! ## Component labelling: masks of isolated pixels -/

theorem getD_set_gen {α : Type} (l : List α) (i j : Nat) (a d : α) :
    (l.set i a).getD j d = if j = i ∧ i < l.length then a else l.getD j d := by
  simp only [List.getD_eq_getElem?_getD, List.getElem?_set]
  by_cases h : i = j
  · subst h
    by_cases h2 : i < l.length
    · simp [h2]
    · simp [h2, List.getElem?_eq_none (Nat.le_of_not_lt h2)]
  · have : ¬ j = i := fun e => h e.symm
    simp [h, this]

theorem getLabel_setLabel_ne (lm : List (List Int)) (y x y2 x2 : Nat) (v : Int)
    (h : ¬ (y2 = y ∧ x2 = x)) :
    getLabel (setLabel lm y x v) y2 x2 = getLabel lm y2 x2 := by
  unfold getLabel setLabel
  rw [getD_set_gen]
  by_cases h1 : y2 = y ∧ y < lm.length
  · rw [if_pos h1, getD_set_gen, if_neg (fun hx => h ⟨h1.1, hx.1⟩), h1.1]
  · rw [if_neg h1]

theorem searchDirection_mem (dir : Nat) (h : dir < 8) :
    SearchDirection.getD dir (0, 0) ∈ SearchDirection := by
  have hlen : dir < SearchDirection.length := by simpa [SearchDirection] using h
  rw [List.getD_eq_getElem _ _ hlen]
  exact List.getElem_mem _

theorem tracerLoop_isolated (bitmap : List (List Nat)) (n : Nat) :
    ∀ s : TraceState, s.tracingdirection < 8 → Isolated bitmap s.cy s.cx →
      (tracerLoop bitmap n s).cy = s.cy ∧ (tracerLoop bitmap n s).cx = s.cx ∧
      ∀ y x, rowsGet bitmap y x ≠ 0 →
        getLabel (tracerLoop bitmap n s).labelmap y x = getLabel s.labelmap y x := by
  induction n with
  | zero => intro s _ _; exact ⟨rfl, rfl, fun _ _ _ => rfl⟩
  | succ n ih =>
    intro s hd hiso
    have hwhite := hiso _ (searchDirection_mem s.tracingdirection hd)
    unfold tracerLoop
    simp only [hwhite, ↓reduceIte]
    obtain ⟨h1, h2, h3⟩ := ih
      { s with
        labelmap := setLabel s.labelmap
          ((s.cy : Int) + (SearchDirection.getD s.tracingdirection (0, 0)).1).toNat
          ((s.cx : Int) + (SearchDirection.getD s.tracingdirection (0, 0)).2).toNat (-1)
        tracingdirection := (s.tracingdirection + 1) % 8 }
      (Nat.mod_lt _ (by decide)) hiso
    refine ⟨h1, h2, fun y x hfg => ?_⟩
    rw [h3 y x hfg]
    apply getLabel_setLabel_ne
    rintro ⟨rfl, rfl⟩
    exact hfg hwhite

theorem contourTracing_isolated (bitmap : List (List Nat)) (labelmap : List (List Int))
    (fuel cy cx : Nat) (labelindex : Int) (dir : Nat) (hd : dir < 8)
    (hiso : Isolated bitmap cy cx) :
    ∃ lm, ContourTracing bitmap labelmap fuel cy cx labelindex dir = some lm ∧
      ∀ y x, rowsGet bitmap y x ≠ 0 → getLabel lm y x = getLabel labelmap y x := by
  obtain ⟨h1, h2, h3⟩ := tracerLoop_isolated bitmap 7 ⟨labelmap, cy, cx, dir⟩ hd hiso
  unfold ContourTracing Tracer
  simp only [h1, h2, ne_eq, not_true_eq_false, or_self, ↓reduceIte]
  exact ⟨_, rfl, h3⟩

theorem labelPixel_sparse (bitmap : List (List Nat)) (hsp : Sparse bitmap)
    (hbin : Binary bitmap) (fuel cy cx : Nat) (hcx : 1 ≤ cx) (st : ScanState)
    (inv : SparseInv bitmap st cy cx) :
    (rowsGet bitmap cy cx = BLACKPIX ∧ 500 ≤ st.count + 1 ∧
      labelPixel bitmap fuel cy st cx = Except.error MgError.tooManyComponents) ∨
    (∃ st1, labelPixel bitmap fuel cy st cx = Except.ok st1 ∧
      st1.count = st.count + (if rowsGet bitmap cy cx = BLACKPIX then 1 else 0) ∧
      SparseInv bitmap st1 cy (cx + 1)) := by
  have hnb : ∀ y x, ¬ rasterLt (x, y) (cx + 1, cy) → ¬ rasterLt (x, y) (cx, cy) := by
    intro y x h1 h2
    apply h1
    rcases h2 with h2 | ⟨h2, h3⟩
    · exact Or.inl h2
    · exact Or.inr ⟨h2, Nat.lt_succ_of_lt h3⟩
  by_cases hb : rowsGet bitmap cy cx = BLACKPIX
  · have hfg : rowsGet bitmap cy cx ≠ 0 := by rw [hb]; decide
    have hl0 : st.labelindex = 0 := by
      by_contra hne
      have h1 := inv.prev hne
      have h2 := hsp cy cx hfg (0, -1) (by simp [SearchDirection])
      have e1 : ((cy : Int) + ((0 : Int), (-1 : Int)).1).toNat = cy := by simp
      have e2 : ((cx : Int) + ((0 : Int), (-1 : Int)).2).toNat = cx - 1 := by
        simp only
        omega
      rw [e1, e2] at h2
      exact h1 h2
    have hlab : getLabel st.labelmap cy cx = 0 :=
      inv.ahead cy cx hfg (by unfold rasterLt; simp)
    obtain ⟨lm, hct, hpres⟩ := contourTracing_isolated bitmap st.labelmap fuel cy cx
      ((st.ConnectedComponentsCount + 1 : Nat) : Int) 0 (by decide) (hsp cy cx hfg)
    unfold labelPixel
    rw [if_pos hb, if_neg (by simp [hl0])]
    simp only [hlab, ↓reduceIte, hct]
    by_cases hcap : st.count + 1 ≥ 500
    · rw [if_pos hcap]
      exact Or.inl ⟨hb, hcap, rfl⟩
    · rw [if_neg hcap]
      refine Or.inr ⟨_, rfl, by simp [hb], ?_, ?_, by show st.count + 1 < 500; omega⟩
      · intro y x hyx hnot
        show getLabel (setLabel lm cy cx _) y x = 0
        rw [getLabel_setLabel_ne, hpres y x hyx]
        · exact inv.ahead y x hyx (hnb y x hnot)
        · rintro ⟨rfl, rfl⟩
          exact hnot (Or.inr ⟨rfl, Nat.lt_succ_self _⟩)
      · intro _
        show rowsGet bitmap cy (cx + 1 - 1) ≠ 0
        rw [Nat.add_sub_cancel]
        exact hfg
  · right
    have hw : rowsGet bitmap cy cx = 0 := hbin cy cx hb
    have hprev : rowsGet bitmap cy (cx + 1 - 1) = 0 := by rw [Nat.add_sub_cancel]; exact hw
    unfold labelPixel
    rw [if_neg hb]
    by_cases hl : st.labelindex ≠ 0
    · rw [if_pos hl]
      by_cases h0 : getLabel st.labelmap cy cx = 0
      · rw [if_pos h0]
        obtain ⟨lm, hct, hpres⟩ := contourTracing_isolated bitmap st.labelmap fuel cy (cx - 1)
          st.labelindex 1 (by decide) (hsp cy (cx - 1) (inv.prev hl))
        rw [hct]
        refine ⟨_, rfl, by simp [hb], ?_, fun h => absurd rfl h, inv.below⟩
        intro y x hyx hnot
        show getLabel lm y x = 0
        rw [hpres y x hyx]
        exact inv.ahead y x hyx (hnb y x hnot)
      · rw [if_neg h0]
        exact ⟨_, rfl, by simp [hb],
          fun y x hyx hnot => inv.ahead y x hyx (hnb y x hnot), fun h => absurd rfl h, inv.below⟩
    · rw [if_neg hl]
      refine ⟨_, rfl, by simp [hb],
        fun y x hyx hnot => inv.ahead y x hyx (hnb y x hnot), fun h => absurd h hl, inv.below⟩

theorem fgIn_cons (bitmap : List (List Nat)) (cy a : Nat) (l : List Nat) :
    fgIn bitmap cy (a :: l) =
      (if rowsGet bitmap cy a = BLACKPIX then 1 else 0) + fgIn bitmap cy l := by
  unfold fgIn
  by_cases h : rowsGet bitmap cy a = BLACKPIX
  · simp [h, Nat.add_comm]
  · simp [h]

theorem scanRow_sparse (bitmap : List (List Nat)) (hsp : Sparse bitmap)
    (hbin : Binary bitmap) (fuel cy : Nat) (n : Nat) :
    ∀ (a : Nat) (st : ScanState), 1 ≤ a → SparseInv bitmap st cy a →
      (500 ≤ st.count + fgIn bitmap cy (List.range' a n) ∧
        scanRow bitmap fuel cy (List.range' a n) st =
          Except.error MgError.tooManyComponents) ∨
      (∃ st1, scanRow bitmap fuel cy (List.range' a n) st = Except.ok st1 ∧
        st1.count = st.count + fgIn bitmap cy (List.range' a n) ∧
        SparseInv bitmap st1 cy (a + n)) := by
  induction n with
  | zero =>
    intro a st _ inv
    right
    exact ⟨st, rfl, rfl, inv⟩
  | succ n ih =>
    intro a st ha inv
    rw [List.range'_succ, fgIn_cons]
    unfold scanRow
    rcases labelPixel_sparse bitmap hsp hbin fuel cy a ha st inv with
      ⟨hb, hcap, herr⟩ | ⟨st1, hok, hcount, inv1⟩
    · left
      rw [herr, if_pos hb]
      exact ⟨by omega, rfl⟩
    · rw [hok]
      simp only
      rcases ih (a + 1) st1 (by omega) inv1 with ⟨hcap, herr⟩ | ⟨st2, hok2, hcount2, inv2⟩
      · left
        exact ⟨by omega, herr⟩
      · right
        refine ⟨st2, hok2, by omega, ?_⟩
        rw [show a + (n + 1) = a + 1 + n by omega]
        exact inv2

theorem scanRows_sparse (bitmap : List (List Nat)) (hsp : Sparse bitmap)
    (hbin : Binary bitmap) (fuel width : Nat) (n : Nat) :
    ∀ (a : Nat) (st : ScanState), SparseRowInv bitmap st a →
      (500 ≤ st.count + fgTotal bitmap (List.range' a n) (List.range' 1 (width - 2)) ∧
        scanRows bitmap fuel width (List.range' a n) st =
          Except.error MgError.tooManyComponents) ∨
      (∃ st1, scanRows bitmap fuel width (List.range' a n) st = Except.ok st1 ∧
        st1.count =
          st.count + fgTotal bitmap (List.range' a n) (List.range' 1 (width - 2)) ∧
        SparseRowInv bitmap st1 (a + n)) := by
  induction n with
  | zero =>
    intro a st inv
    right
    exact ⟨st, rfl, rfl, inv⟩
  | succ n ih =>
    intro a st inv
    have e : fgTotal bitmap (List.range' a (n + 1)) (List.range' 1 (width - 2)) =
        fgIn bitmap a (List.range' 1 (width - 2)) +
          fgTotal bitmap (List.range' (a + 1) n) (List.range' 1 (width - 2)) := by
      unfold fgTotal
      rw [List.range'_succ, List.map_cons, List.sum_cons]
    rw [e, List.range'_succ]
    unfold scanRows
    have inv0 : SparseInv bitmap { st with labelindex := 0 } a 1 :=
      ⟨fun y x hfg hnot => inv.ahead y x hfg (by
          by_contra hlt
          exact hnot (Or.inl (Nat.lt_of_not_le hlt))),
        fun h => absurd rfl h, inv.below⟩
    rcases scanRow_sparse bitmap hsp hbin fuel a (width - 2) 1 _ le_rfl inv0 with
      ⟨hcap, herr⟩ | ⟨st1, hok, hcount, inv1⟩
    · left
      rw [herr]
      exact ⟨by have : ({ st with labelindex := 0 } : ScanState).count = st.count := rfl
                omega, rfl⟩
    · rw [hok]
      simp only
      have hc1 : st1.count = st.count + fgIn bitmap a (List.range' 1 (width - 2)) := hcount
      have inv2 : SparseRowInv bitmap st1 (a + 1) :=
        ⟨fun y x hfg hle => inv1.ahead y x hfg (by
            rintro (hlt | ⟨heq, _⟩)
            · exact absurd hlt (by simp only; omega)
            · exact absurd heq (by simp only; omega)),
          inv1.below⟩
      rcases ih (a + 1) st1 inv2 with ⟨hcap, herr⟩ | ⟨st2, hok2, hcount2, inv3⟩
      · left
        exact ⟨by omega, herr⟩
      · right
        refine ⟨st2, hok2, by omega, ?_⟩
        rw [show a + (n + 1) = a + 1 + n by omega]
        exact inv3

theorem getLabel_replicate (height width y x : Nat) :
    getLabel (List.replicate height (List.replicate width (0 : Int))) y x = 0 := by
  unfold getLabel
  simp only [List.getD_eq_getElem?_getD, List.getElem?_replicate]
  by_cases hy : y < height
  · by_cases hx : x < width
    · simp [hy, hx]
    · simp [hy, hx]
  · simp [hy]

theorem getD_map_range {α : Type} (n i : Nat) (f : Nat → α) (d : α) :
    ((List.range n).map f).getD i d = if i < n then f i else d := by
  simp only [List.getD_eq_getElem?_getD, List.getElem?_map, List.getElem?_range]
  by_cases h : i < n
  · simp [h, List.getElem?_range h]
  · have e : (List.range n)[i]? = none :=
      List.getElem?_eq_none (by rw [List.length_range]; omega)
    simp [h, e]

theorem getPix_dotMask (height width y x : Nat) :
    getPix (dotMask height width) y x =
      if y < height ∧ x < width then (y % 2) * (x % 2) else 0 := by
  unfold getPix dotMask
  show (((List.range height).map
      (fun y => (List.range width).map (fun x => (y % 2) * (x % 2)))).getD y []).getD x 0
        % 256 = _
  rw [getD_map_range]
  by_cases hy : y < height
  · rw [if_pos hy, getD_map_range]
    by_cases hx : x < width
    · rw [if_pos hx, if_pos ⟨hy, hx⟩]
      have h1 : y % 2 < 2 := Nat.mod_lt _ (by decide)
      have h2 : x % 2 < 2 := Nat.mod_lt _ (by decide)
      have h3 : y % 2 * (x % 2) ≤ 1 * 1 :=
        Nat.mul_le_mul (Nat.le_of_lt_succ h1) (Nat.le_of_lt_succ h2)
      have h4 : y % 2 * (x % 2) < 256 := Nat.lt_of_le_of_lt h3 (by decide)
      exact Nat.mod_eq_of_lt h4
    · rw [if_neg hx, if_neg (fun h => hx h.2)]
  · rw [if_neg hy, if_neg (fun h => hy h.1)]
    rfl

theorem dotMask_bitmap (height width y x : Nat) :
    rowsGet (validatePGM (dotMask height width)).1 y x =
      if (1 ≤ y ∧ y < 1 + (height - 2)) ∧ 1 ≤ x ∧ x < 1 + (width - 2)
      then (y % 2) * (x % 2) else 0 := by
  rw [(validatePGM_bitmap (dotMask height width)).2, getPix_dotMask]
  show (if (1 ≤ y ∧ y < 1 + (height - 2)) ∧ 1 ≤ x ∧ x < 1 + (width - 2)
      then (if y < height ∧ x < width then (y % 2) * (x % 2) else 0) else 0) = _
  by_cases h : (1 ≤ y ∧ y < 1 + (height - 2)) ∧ 1 ≤ x ∧ x < 1 + (width - 2)
  · rw [if_pos h, if_pos h, if_pos ⟨by omega, by omega⟩]
  · rw [if_neg h, if_neg h]

theorem dotMask_fg (height width y x : Nat)
    (h : rowsGet (validatePGM (dotMask height width)).1 y x ≠ 0) :
    1 ≤ y ∧ 1 ≤ x ∧ y % 2 = 1 ∧ x % 2 = 1 := by
  rw [dotMask_bitmap] at h
  by_cases hc : (1 ≤ y ∧ y < 1 + (height - 2)) ∧ 1 ≤ x ∧ x < 1 + (width - 2)
  · rw [if_pos hc] at h
    have h1 : y % 2 ≠ 0 := fun e => h (by rw [e, Nat.zero_mul])
    have h2 : x % 2 ≠ 0 := fun e => h (by rw [e, Nat.mul_zero])
    exact ⟨hc.1.1, hc.2.1, by omega, by omega⟩
  · rw [if_neg hc] at h
    exact absurd rfl h

theorem dotMask_bg (height width y x : Nat) (h : y % 2 = 0 ∨ x % 2 = 0) :
    rowsGet (validatePGM (dotMask height width)).1 y x = 0 := by
  rw [dotMask_bitmap]
  split
  · rcases h with h | h
    · rw [h, Nat.zero_mul]
    · rw [h, Nat.mul_zero]
  · rfl

theorem dotMask_sparse (height width : Nat) :
    Sparse (validatePGM (dotMask height width)).1 := by
  intro y x hfg d hd
  obtain ⟨hy, hx, hy2, hx2⟩ := dotMask_fg height width y x hfg
  simp only [SearchDirection, List.mem_cons, List.mem_singleton, List.not_mem_nil,
    or_false] at hd
  rcases hd with rfl | rfl | rfl | rfl | rfl | rfl | rfl | rfl
  · exact dotMask_bg _ _ _ _ (Or.inr (by simp only; omega))
  · exact dotMask_bg _ _ _ _ (Or.inr (by simp only; omega))
  · exact dotMask_bg _ _ _ _ (Or.inl (by simp only; omega))
  · exact dotMask_bg _ _ _ _ (Or.inr (by simp only; omega))
  · exact dotMask_bg _ _ _ _ (Or.inr (by simp only; omega))
  · exact dotMask_bg _ _ _ _ (Or.inr (by simp only; omega))
  · exact dotMask_bg _ _ _ _ (Or.inl (by simp only; omega))
  · exact dotMask_bg _ _ _ _ (Or.inr (by simp only; omega))

theorem dotMask_binary (height width : Nat) :
    Binary (validatePGM (dotMask height width)).1 := by
  intro y x h
  by_contra h0
  obtain ⟨_, _, hy2, hx2⟩ := dotMask_fg height width y x h0
  apply h
  rw [dotMask_bitmap] at h0 ⊢
  split
  · rw [hy2, hx2]; rfl
  · rename_i hc
    rw [if_neg hc] at h0
    exact absurd rfl h0

theorem dotMask_count :
    fgTotal (validatePGM (dotMask 41 51)).1 (List.range' 1 ((dotMask 41 51).header.height - 2))
      (List.range' 1 ((dotMask 41 51).header.width - 2)) = 500 := by
  unfold fgTotal fgIn
  simp only [dotMask_bitmap]
  decide!

/-- C12 (what the code does): on a mask whose foreground pixels are all isolated, so
that each one is a component of its own, `ConnectedComponentLabeling` fails with the
too-many-components error exactly when there are 500 or more of them; with fewer it
returns one centroid for each. -/
theorem ccl_sparse_cap (image : PGMImage) (hsp : Sparse (validatePGM image).1)
    (hbin : Binary (validatePGM image).1) :
    (ConnectedComponentLabeling image = Except.error MgError.tooManyComponents ↔
      500 ≤ fgTotal (validatePGM image).1 (List.range' 1 (image.header.height - 2))
        (List.range' 1 (image.header.width - 2))) ∧
    (fgTotal (validatePGM image).1 (List.range' 1 (image.header.height - 2))
        (List.range' 1 (image.header.width - 2)) < 500 →
      ∃ r, ConnectedComponentLabeling image = Except.ok r ∧
        r.ccCount = fgTotal (validatePGM image).1
          (List.range' 1 (image.header.height - 2))
          (List.range' 1 (image.header.width - 2)) ∧
        r.cents.length = r.ccCount) := by
  have inv0 : SparseRowInv (validatePGM image).1 ⟨(validatePGM image).2, 0, 0, 0, []⟩ 1 :=
    ⟨fun y x _ _ => getLabel_replicate _ _ y x, Nat.zero_lt_succ 499⟩
  have hscan := scanRows_sparse (validatePGM image).1 hsp hbin
    (16 * image.header.height * image.header.width + 16) image.header.width
    (image.header.height - 2) 1 _ inv0
  have hz : (⟨(validatePGM image).2, 0, 0, 0, []⟩ : ScanState).count = 0 := rfl
  rw [hz, Nat.zero_add] at hscan
  have hok : fgTotal (validatePGM image).1 (List.range' 1 (image.header.height - 2))
        (List.range' 1 (image.header.width - 2)) < 500 →
      ∃ r, ConnectedComponentLabeling image = Except.ok r ∧
        r.ccCount = fgTotal (validatePGM image).1
          (List.range' 1 (image.header.height - 2))
          (List.range' 1 (image.header.width - 2)) ∧
        r.cents.length = r.ccCount := by
    intro hlt
    rcases hscan with ⟨hcap, _⟩ | ⟨st1, hok, hcount, _⟩
    · omega
    · have hinv0 : ScanInv (validatePGM image).1 image.header.height image.header.width
          ⟨(validatePGM image).2, 0, 0, 0, []⟩ 1 1 :=
        ⟨rfl, rfl, Nat.zero_lt_succ 499, List.Pairwise.nil,
          fun p hp => absurd hp (List.not_mem_nil p),
          fun p hp => absurd hp (List.not_mem_nil p)⟩
      have inv := scanRows_inv _ image.header.height image.header.width _
        (image.header.height - 2) 1 _ st1 le_rfl le_rfl hinv0 hok
      unfold ConnectedComponentLabeling
      simp only [hok]
      refine ⟨_, rfl, ?_, ?_⟩
      · show st1.ConnectedComponentsCount = _
        rw [← hcount, inv.cc_eq, inv.count_eq]
      · show ((createCents st1.ConnectedComponentsCount _).zipWith _ st1.pointbuff).length =
          st1.ConnectedComponentsCount
        rw [inv.cc_eq, zipWith_createCents, List.length_map]
  refine ⟨⟨fun herr => ?_, fun hcap => ?_⟩, hok⟩
  · by_contra hlt
    obtain ⟨r, hr, _⟩ := hok (Nat.lt_of_not_le hlt)
    rw [hr] at herr
    cases herr
  · rcases hscan with ⟨_, herr⟩ | ⟨st1, _, hcount, inv1⟩
    · unfold ConnectedComponentLabeling
      simp only [herr]
    · have := inv1.below
      omega

/-! ## Clustering: `sortCentroids`, `adjustRandomCentroid`, `kmeans` -/

theorem minScan_spec (d : List Nat) (k m0 : Nat) (hm0 : m0 < k) :
    minScan d k m0 < k ∧ ∀ b < k, d.getD (minScan d k m0) 0 ≤ d.getD b 0 := by
  have key : ∀ n, n ≤ k →
      (List.range n).foldl
        (fun minIndex b => if d.getD b 0 < d.getD minIndex 0 then b else minIndex) m0 < k ∧
      ∀ b < n, d.getD ((List.range n).foldl
        (fun minIndex b => if d.getD b 0 < d.getD minIndex 0 then b else minIndex) m0) 0
          ≤ d.getD b 0 := by
    intro n
    induction n with
    | zero => intro _; exact ⟨hm0, fun b hb => absurd hb (Nat.not_lt_zero b)⟩
    | succ n ih =>
      intro hn
      obtain ⟨h1, h2⟩ := ih (by omega)
      rw [List.range_succ, List.foldl_append]
      simp only [List.foldl_cons, List.foldl_nil]
      split
      · rename_i hlt
        refine ⟨by omega, fun b hb => ?_⟩
        rcases Nat.lt_succ_iff_lt_or_eq.1 hb with hb | hb
        · exact le_trans hlt.le (h2 b hb)
        · rw [hb]
      · rename_i hlt
        refine ⟨h1, fun b hb => ?_⟩
        rcases Nat.lt_succ_iff_lt_or_eq.1 hb with hb | hb
        · exact h2 b hb
        · rw [hb]; exact not_lt.1 hlt
  exact key k le_rfl

theorem getD_set_centroid (l : List Centroid) (i j : Nat) (c : Centroid) :
    (l.set i c).getD j noCentroid = if j = i ∧ i < l.length then c else l.getD j noCentroid := by
  simp only [List.getD_eq_getElem?_getD, List.getElem?_set]
  by_cases h : i = j
  · subst h
    by_cases h2 : i < l.length
    · simp [h2]
    · simp [h2, List.getElem?_eq_none (Nat.le_of_not_lt h2)]
  · have : ¬ j = i := fun e => h e.symm
    simp [h, this]

theorem sortLoop_inv (k : Nat) (hk : 1 ≤ k) (cents : List Centroid) (n : Nat)
    (hn : n ≤ cents.length) :
    ((List.range n).foldl
      (fun (st : List Centroid × Nat) (a : Nat) =>
        let minIndex := minScan (st.1.getD a noCentroid).distances k st.2
        (st.1.set a { st.1.getD a noCentroid with kGroup := (minIndex : Int) }, minIndex))
      (cents, 0)).2 < k ∧
    ((List.range n).foldl
      (fun (st : List Centroid × Nat) (a : Nat) =>
        let minIndex := minScan (st.1.getD a noCentroid).distances k st.2
        (st.1.set a { st.1.getD a noCentroid with kGroup := (minIndex : Int) }, minIndex))
      (cents, 0)).1.length = cents.length ∧
    ∀ i, i < cents.length →
      (i < n → ∃ m : Nat, m < k ∧
        ((List.range n).foldl
          (fun (st : List Centroid × Nat) (a : Nat) =>
            let minIndex := minScan (st.1.getD a noCentroid).distances k st.2
            (st.1.set a { st.1.getD a noCentroid with kGroup := (minIndex : Int) }, minIndex))
          (cents, 0)).1.getD i noCentroid = { cents.getD i noCentroid with kGroup := (m : Int) } ∧
        ∀ b < k, (cents.getD i noCentroid).distances.getD m 0 ≤
          (cents.getD i noCentroid).distances.getD b 0) ∧
      (n ≤ i →
        ((List.range n).foldl
          (fun (st : List Centroid × Nat) (a : Nat) =>
            let minIndex := minScan (st.1.getD a noCentroid).distances k st.2
            (st.1.set a { st.1.getD a noCentroid with kGroup := (minIndex : Int) }, minIndex))
          (cents, 0)).1.getD i noCentroid = cents.getD i noCentroid) := by
  induction n with
  | zero =>
    refine ⟨by simpa using hk, rfl, fun i _ => ⟨fun h => absurd h (Nat.not_lt_zero i), fun _ => rfl⟩⟩
  | succ n ih =>
    obtain ⟨h1, h2, h3⟩ := ih (by omega)
    rw [List.range_succ, List.foldl_append]
    simp only [List.foldl_cons, List.foldl_nil]
    generalize (List.range n).foldl
      (fun (st : List Centroid × Nat) (a : Nat) =>
        let minIndex := minScan (st.1.getD a noCentroid).distances k st.2
        (st.1.set a { st.1.getD a noCentroid with kGroup := (minIndex : Int) }, minIndex))
      (cents, 0) = st at h1 h2 h3 ⊢
    have hcur : st.1.getD n noCentroid = cents.getD n noCentroid := (h3 n (by omega)).2 le_rfl
    obtain ⟨hm1, hm2⟩ := minScan_spec (st.1.getD n noCentroid).distances k st.2 h1
    refine ⟨hm1, by rw [List.length_set]; exact h2, fun i hi => ⟨fun hin => ?_, fun hin => ?_⟩⟩
    · rw [getD_set_centroid]
      by_cases hc : i = n
      · rw [if_pos ⟨hc, by rw [h2]; omega⟩]
        refine ⟨_, hm1, ?_, ?_⟩
        · rw [hc, hcur]
        · rw [hc, ← hcur]; exact hm2
      · rw [if_neg (fun h => hc h.1)]
        exact (h3 i hi).1 (by omega)
    · rw [getD_set_centroid, if_neg (fun h => by omega)]
      exact (h3 i hi).2 (by omega)

theorem kmeansBody_loopCount (numCents k : Nat) (st : KmeansState) :
    (kmeansBody numCents k st).loopCount = st.loopCount + 1 := rfl

theorem kmeansBody_equivilent (numCents k : Nat) (st : KmeansState)
    (h : 500 ≤ st.loopCount + 1) : (kmeansBody numCents k st).equivilent = true := by
  unfold kmeansBody
  simp only [ge_iff_le, h, ↓reduceIte]

theorem iterate_loopCount (numCents k : Nat) (st : KmeansState) (n : Nat) :
    ((kmeansBody numCents k)^[n] st).loopCount = st.loopCount + n := by
  induction n generalizing st with
  | zero => rfl
  | succ n ih =>
    rw [Function.iterate_succ_apply, ih, kmeansBody_loopCount]
    omega

theorem kmeansWhile_stops (numCents k : Nat) (fuel : Nat) :
    ∀ st : KmeansState,
      (st.loopCount < 500 ∨ (st.equivilent = true ∧ st.loopCount ≤ 500)) →
      500 - st.loopCount < fuel →
      ∃ n, st.loopCount + n ≤ 500 ∧
        kmeansWhile numCents k fuel st = some ((kmeansBody numCents k)^[n] st) ∧
        ((kmeansBody numCents k)^[n] st).equivilent = true ∧
        ∀ m < n, ((kmeansBody numCents k)^[m] st).equivilent = false := by
  induction fuel with
  | zero => intro st _ hf; exact absurd hf (Nat.not_lt_zero _)
  | succ fuel ih =>
    intro st hst hf
    unfold kmeansWhile
    by_cases he : st.equivilent = false
    · rw [if_pos he]
      have hlt : st.loopCount < 500 := by
        rcases hst with h | h
        · exact h
        · rw [he] at h; cases h.1
      have hnext : (kmeansBody numCents k st).loopCount < 500 ∨
          ((kmeansBody numCents k st).equivilent = true ∧
            (kmeansBody numCents k st).loopCount ≤ 500) := by
        by_cases h5 : 500 ≤ st.loopCount + 1
        · exact Or.inr ⟨kmeansBody_equivilent numCents k st h5,
            by rw [kmeansBody_loopCount]; omega⟩
        · exact Or.inl (by rw [kmeansBody_loopCount]; omega)
      obtain ⟨n, hn1, hn2, hn3, hn4⟩ := ih (kmeansBody numCents k st) hnext
        (by rw [kmeansBody_loopCount]; omega)
      rw [kmeansBody_loopCount] at hn1
      refine ⟨n + 1, by omega, ?_, ?_, ?_⟩
      · rw [Function.iterate_succ_apply]; exact hn2
      · rw [Function.iterate_succ_apply]; exact hn3
      · intro m hm
        cases m with
        | zero => exact he
        | succ m =>
          rw [Function.iterate_succ_apply]
          exact hn4 m (by omega)
    · rw [if_neg he]
      have ht : st.equivilent = true := by
        cases hh : st.equivilent
        · exact absurd hh he
        · rfl
      exact ⟨0, by rcases hst with h | h <;> omega, rfl, ht,
        fun m hm => absurd hm (Nat.not_lt_zero m)⟩

/-- C16: for every centroid list, `k` and seeded centres, the convergence loop of
`kmeans` stops after `n ≤ 500` executions of its body: the state returned is the `n`-fold
image of the entry state under the body (so it holds the assignment computed last), the
loop condition held before each of the `n` executions, and more fuel changes nothing. -/
theorem kmeans_loop_bound (numCents k : Nat) (cents : List Centroid)
    (rCent : List RandomCentroid) :
    ∃ (n : Nat) (st : KmeansState), n ≤ 500 ∧
      kmeansSeeded numCents k cents rCent = some st ∧
      st = (kmeansBody numCents k)^[n] (kmeansEntry numCents k cents rCent) ∧
      st.loopCount = n ∧ st.equivilent = true ∧
      (∀ m < n, ((kmeansBody numCents k)^[m]
        (kmeansEntry numCents k cents rCent)).equivilent = false) ∧
      (0 < n → st.cents = sortCentroids numCents k
        ((kmeansBody numCents k)^[n - 1] (kmeansEntry numCents k cents rCent)).cents) ∧
      (∀ fuel, 501 ≤ fuel →
        kmeansWhile numCents k fuel (kmeansEntry numCents k cents rCent) = some st) := by
  have h0 : (kmeansEntry numCents k cents rCent).loopCount = 0 := rfl
  have hex : ∀ fuel, 501 ≤ fuel → ∃ n, n ≤ 500 ∧
      kmeansWhile numCents k fuel (kmeansEntry numCents k cents rCent) =
        some ((kmeansBody numCents k)^[n] (kmeansEntry numCents k cents rCent)) ∧
      ((kmeansBody numCents k)^[n] (kmeansEntry numCents k cents rCent)).equivilent = true ∧
      ∀ m < n, ((kmeansBody numCents k)^[m]
        (kmeansEntry numCents k cents rCent)).equivilent = false := by
    intro fuel hf
    obtain ⟨n, hn1, hn2, hn3, hn4⟩ := kmeansWhile_stops numCents k fuel
      (kmeansEntry numCents k cents rCent) (Or.inl (by rw [h0]; decide)) (by rw [h0]; omega)
    exact ⟨n, by rw [h0] at hn1; omega, hn2, hn3, hn4⟩
  obtain ⟨n, hn1, hn2, hn3, hn4⟩ := hex 501 le_rfl
  refine ⟨n, _, hn1, hn2, rfl, ?_, hn3, hn4, ?_, ?_⟩
  · rw [iterate_loopCount, h0, Nat.zero_add]
  · intro hpos
    obtain ⟨m, rfl⟩ : ∃ m, n = m + 1 := ⟨n - 1, by omega⟩
    rw [Function.iterate_succ_apply', Nat.add_sub_cancel]
    rfl
  · intro fuel hf
    obtain ⟨n2, _, hm2, hm3, hm4⟩ := hex fuel hf
    have hnn : n2 = n := by
      rcases Nat.lt_trichotomy n2 n with h | h | h
      · have := hn4 n2 h
        rw [hm3] at this
        cases this
      · exact h
      · have := hm4 n h
        rw [hn3] at this
        cases this
    rw [hm2, hnn]

/-! ## Density and shift: `calcClusterDensity`, `detectShift` -/

theorem foldl_append_singleton {α : Type} (g : Nat → α) (n : Nat) (init : List α) :
    (List.range n).foldl (fun acc i => acc ++ [g i]) init = init ++ (List.range n).map g := by
  induction n with
  | zero => simp
  | succ n ih =>
    rw [List.range_succ, List.foldl_append, ih]
    simp

theorem map_range_getD (l : List Centroid) (f : Centroid → Nat) :
    (List.range l.length).map (fun i => f (l.getD i noCentroid)) = l.map f := by
  apply List.ext_getElem
  · simp
  · intro i h1 h2
    simp only [List.getElem_map, List.getElem_range]
    rw [List.getD_eq_getElem _ _ (by simpa using h1)]

theorem densityLoop_value (centList : List Centroid)
    (hin : ∀ c ∈ centList, 0 ≤ c.kGroup ∧ c.kGroup.toNat < c.distances.length) (n : Nat)
    (hn : n ≤ centList.length) :
    (List.range n).foldl
      (fun (acc : Except MgError (List Nat)) i =>
        match acc with
        | Except.error e => Except.error e
        | Except.ok roots =>
          if i < centList.length ∧ 0 ≤ (centList.getD i noCentroid).kGroup ∧
              (centList.getD i noCentroid).kGroup.toNat <
                (centList.getD i noCentroid).distances.length then
            Except.ok (roots ++ [((centList.getD i noCentroid).distances).getD
              (centList.getD i noCentroid).kGroup.toNat 0])
          else Except.error MgError.outOfBounds) (Except.ok []) =
      Except.ok ((List.range n).map
        (fun i => (centList.getD i noCentroid).distances.getD
          (centList.getD i noCentroid).kGroup.toNat 0)) := by
  induction n with
  | zero => rfl
  | succ n ih =>
    rw [List.range_succ, List.foldl_append, ih (by omega)]
    have hmem : centList.getD n noCentroid ∈ centList := by
      rw [List.getD_eq_getElem _ _ (by omega)]
      exact List.getElem_mem _
    have h := hin _ hmem
    simp only [List.foldl_cons, List.foldl_nil, List.map_append, List.map_cons, List.map_nil]
    rw [if_pos ⟨by omega, h.1, h.2⟩]

theorem calcClusterDensity_ok (centList : List Centroid)
    (hin : ∀ c ∈ centList, 0 ≤ c.kGroup ∧ c.kGroup.toNat < c.distances.length) :
    calcClusterDensity centList.length centList =
      Except.ok ⟨centList.map (fun c => c.distances.getD c.kGroup.toNat 0),
        centList.length⟩ := by
  unfold calcClusterDensity
  simp only []
  rw [densityLoop_value centList hin centList.length (le_refl _)]
  simp only []
  rw [map_range_getD centList (fun c => c.distances.getD c.kGroup.toNat 0)]

/-- C18 (amended): `calcClusterDensity` has no empty-input error.  For the empty list it
returns the quotient `0.0 / 0`, and for every centroid list in which each `kGroup` is an
index of the centroid's `distances` array it returns the sum of `distances[kGroup]` over
all centroids divided by their number. -/
theorem calcClusterDensity_value (centList : List Centroid)
    (hin : ∀ c ∈ centList, 0 ≤ c.kGroup ∧ c.kGroup.toNat < c.distances.length) :
    calcClusterDensity centList.length centList =
      Except.ok ⟨centList.map (fun c => c.distances.getD c.kGroup.toNat 0), centList.length⟩ ∧
    (∀ e, calcClusterDensity centList.length centList ≠ Except.error e) ∧
    calcClusterDensity 0 [] = Except.ok ⟨[], 0⟩ := by
  have h := calcClusterDensity_ok centList hin
  refine ⟨h, fun e he => ?_, rfl⟩
  rw [h] at he
  cases he

/-- The centroid list of a frame with one component has `k = 0`, so no distance slots,
and `kGroup = 0`: `calcClusterDensity` reads `distances[0]` outside the array. -/
theorem calcClusterDensity_one_component :
    createCents 1 0 = [⟨0, 0, 0, []⟩] ∧
    calcClusterDensity 1 [⟨1, 1, 0, []⟩] = Except.error MgError.outOfBounds := by
  refine ⟨rfl, rfl⟩

theorem foldl_const_pair (f : Nat → Int × Int) (hf : ∀ i, f i = (0, 0)) (l : List Nat) :
    l.foldl (fun _ i => f i) (0, 0) = (0, 0) := by
  induction l using List.reverseRecOn with
  | nil => rfl
  | append_singleton l a _ => rw [List.foldl_append]; simp [hf]

/-- C20: for a non-empty centroid list `A`, `detectShift(A, A)` returns the shift
(0, 0). -/
theorem detectShift_self (A : List Centroid) (hA : A ≠ []) :
    detectShift A A.length A A.length = ⟨some 0, some 0⟩ := by
  have hlen : A.length ≠ 0 := fun h => hA (List.length_eq_zero.1 h)
  unfold detectShift
  simp only [le_refl, ↓reduceIte, sub_self, hlen]
  rw [foldl_const_pair (fun _ => (0, 0)) (fun _ => rfl)]
  simp

/-! ## Downlink selection: `downlinkData` -/

/-- Values of `roundDouble` against the binary64 encodings of well-known constants: `.01`
is `0x1.47ae147ae147bp-7`, `0.1` is `0x1.999999999999ap-4`, a ratio of small powers of two
is exact, and `2^53 + 1` and `2^53 + 3`, which lie halfway between two doubles, go to the
even neighbours `2^53` and `2^53 + 4`. -/
theorem roundDouble_samples :
    roundDouble (1 / 100) = 5764607523034235 / 576460752303423488 ∧
    roundDouble (1 / 10) = 3602879701896397 / 36028797018963968 ∧
    roundDouble (-(1 / 3)) = -(6004799503160661 / 18014398509481984) ∧
    roundDouble (5 / 2) = 5 / 2 ∧
    roundDouble 123456789 = 123456789 ∧
    roundDouble (2 ^ 53 + 1) = 2 ^ 53 ∧
    roundDouble (2 ^ 53 + 3) = 2 ^ 53 + 4 := by
  refine ⟨by decide!, by decide!, by decide!, by decide!, by decide!, by decide!, by decide!⟩

theorem scoreSearch_inv (score : List (Option ℚ)) (index : Nat) (m : Nat) :
    SearchInv score index m
      ((List.range' 1 m).foldl
        (fun (s : ℚ × Nat) (i : Nat) =>
          match score.getD i none with
          | some v => if v > s.1 then (v, i) else s
          | none => s)
        (0, index)) := by
  induction m with
  | zero =>
    left
    exact ⟨rfl, fun j h1 h2 => by omega⟩
  | succ m ih =>
    rw [List.range'_1_concat, List.foldl_append]
    simp only [List.foldl_cons, List.foldl_nil]
    generalize (List.range' 1 m).foldl
        (fun (s : ℚ × Nat) (i : Nat) =>
          match score.getD i none with
          | some v => if v > s.1 then (v, i) else s
          | none => s)
        (0, index) = r at ih ⊢
    cases hs : score.getD (1 + m) none with
    | none =>
      simp only
      rcases ih with ⟨h1, h2⟩ | ⟨h1, h2, h3, h4, h5, h6⟩
      · left
        refine ⟨h1, fun j hj1 hj2 v hv => ?_⟩
        by_cases hj : j ≤ m
        · exact h2 j hj1 hj v hv
        · have : j = 1 + m := by omega
          rw [this, hs] at hv
          cases hv
      · right
        refine ⟨h1, by omega, h3, h4, fun j hj1 hj2 v hv => ?_, h6⟩
        by_cases hj : j ≤ m
        · exact h5 j hj1 hj v hv
        · have : j = 1 + m := by omega
          rw [this, hs] at hv
          cases hv
    | some w =>
      simp only
      by_cases hw : w > r.1
      · rw [if_pos hw]
        right
        have hr0 : 0 ≤ r.1 := by
          rcases ih with ⟨h1, _⟩ | ⟨_, _, _, h4, _, _⟩
          · rw [h1]
          · exact le_of_lt h4
        have hall : ∀ j, 1 ≤ j → j ≤ m → ∀ v, score.getD j none = some v → v ≤ r.1 := by
          rcases ih with ⟨h1, h2⟩ | ⟨_, _, _, _, h5, _⟩
          · intro j hj1 hj2 v hv
            rw [h1]
            exact h2 j hj1 hj2 v hv
          · exact h5
        refine ⟨by show 1 ≤ 1 + m; omega, by show 1 + m ≤ m + 1; omega, hs,
          lt_of_le_of_lt hr0 hw, fun j hj1 hj2 v hv => ?_, fun j hj1 hj2 v hv => ?_⟩
        · by_cases hj : j ≤ m
          · exact le_of_lt (lt_of_le_of_lt (hall j hj1 hj v hv) hw)
          · have : j = 1 + m := by omega
            rw [this, hs] at hv
            cases hv
            exact le_refl _
        · have hj : j ≤ m := by
            have : j < 1 + m := hj2
            omega
          exact lt_of_le_of_lt (hall j hj1 hj v hv) hw
      · rw [if_neg hw]
        have hw2 : w ≤ r.1 := not_lt.1 hw
        rcases ih with ⟨h1, h2⟩ | ⟨h1, h2, h3, h4, h5, h6⟩
        · left
          refine ⟨h1, fun j hj1 hj2 v hv => ?_⟩
          by_cases hj : j ≤ m
          · exact h2 j hj1 hj v hv
          · have : j = 1 + m := by omega
            rw [this, hs] at hv
            cases hv
            rw [h1] at hw2
            exact hw2
        · right
          refine ⟨h1, by omega, h3, h4, fun j hj1 hj2 v hv => ?_, h6⟩
          by_cases hj : j ≤ m
          · exact h5 j hj1 hj v hv
          · have : j = 1 + m := by omega
            rw [this, hs] at hv
            cases hv
            exact hw2

theorem scoreSearch_searchInv (numImages : Nat) (score : List (Option ℚ)) (index : Nat) :
    SearchInv score index (numImages - 2) (scoreSearch numImages score index) :=
  scoreSearch_inv score index (numImages - 2)

theorem downlinkImage_flag (index : Nat) (st : DownlinkState) (j : Nat)
    (h : st.downlinked.getD j false = true) :
    (downlinkImage index st).downlinked.getD j false = true := by
  show (st.downlinked.set index true).getD j false = true
  rw [getD_set_gen]
  split
  · rfl
  · exact h

theorem downlinkImage_inv (numImages index : Nat) (st : DownlinkState)
    (hi : index < numImages) (inv : DownlinkInv numImages st) :
    DownlinkInv numImages (downlinkImage index st) := by
  refine ⟨?_, ?_, ?_⟩
  · show (st.downlinked.set index true).length = numImages
    rw [List.length_set]; exact inv.len_flags
  · show (st.score.set index (some 0)).length = numImages
    rw [List.length_set]; exact inv.len_score
  · intro i hi2
    have hi3 : (st.downlinked.set index true).getD i false = true := hi2
    show (st.score.set index (some 0)).getD i none = some 0
    rw [getD_set_gen] at hi3 ⊢
    by_cases hc : i = index
    · rw [if_pos ⟨hc, by rw [inv.len_score]; exact hi⟩]
    · rw [if_neg (fun h => hc h.1)] at hi3 ⊢
      exact inv.zeroed i hi3

theorem downlinkIfNew_ok (numImages : Nat) (i : Int) (st st1 : DownlinkState)
    (h : downlinkIfNew numImages i st = Except.ok st1) :
    0 ≤ i ∧ i < (numImages : Int) ∧
      (st1 = st ∨ (st.downlinked.getD i.toNat false = false ∧
        st1 = downlinkImage i.toNat st)) := by
  unfold downlinkIfNew at h
  by_cases hb : 0 ≤ i ∧ i < (numImages : Int)
  · rw [if_pos hb] at h
    refine ⟨hb.1, hb.2, ?_⟩
    by_cases hf : st.downlinked.getD i.toNat false = false
    · rw [if_pos hf] at h
      cases h
      exact Or.inr ⟨hf, rfl⟩
    · rw [if_neg hf] at h
      cases h
      exact Or.inl rfl
  · rw [if_neg hb] at h
    cases h

theorem downlinkIfNew_inv (numImages : Nat) (i : Int) (st st1 : DownlinkState)
    (inv : DownlinkInv numImages st) (h : downlinkIfNew numImages i st = Except.ok st1) :
    DownlinkInv numImages st1 ∧
    (∀ j, st.downlinked.getD j false = true → st1.downlinked.getD j false = true) ∧
    st1.index = st.index ∧ st1.maxTries = st.maxTries := by
  obtain ⟨h0, h1, h2⟩ := downlinkIfNew_ok numImages i st st1 h
  rcases h2 with rfl | ⟨_, rfl⟩
  · exact ⟨inv, fun _ hj => hj, rfl, rfl⟩
  · refine ⟨downlinkImage_inv numImages _ st (by omega) inv,
      fun j hj => downlinkImage_flag _ st j hj, rfl, rfl⟩

theorem downlinkAttempt_inv (numImages : Nat) (st st1 : DownlinkState)
    (inv : DownlinkInv numImages st) (h : downlinkAttempt numImages st = Except.ok st1) :
    DownlinkInv numImages st1 ∧
    (∀ j, st.downlinked.getD j false = true → st1.downlinked.getD j false = true) ∧
    st1.index = (scoreSearch numImages st.score st.index).2 ∧
    st1.maxTries = st.maxTries + 1 := by
  unfold downlinkAttempt at h
  simp only at h
  cases ha : downlinkIfNew numImages
      (((scoreSearch numImages st.score st.index).2 : Int) - 1)
      { st with index := (scoreSearch numImages st.score st.index).2,
                maxTries := st.maxTries + 1 } with
  | error e => rw [ha] at h; cases h
  | ok sa =>
    rw [ha] at h
    simp only at h
    cases hb : downlinkIfNew numImages
        ((scoreSearch numImages st.score st.index).2 : Int) sa with
    | error e => rw [hb] at h; cases h
    | ok sb =>
      rw [hb] at h
      simp only at h
      have inv0 : DownlinkInv numImages
          { st with index := (scoreSearch numImages st.score st.index).2,
                    maxTries := st.maxTries + 1 } :=
        ⟨inv.len_flags, inv.len_score, inv.zeroed⟩
      obtain ⟨ia, ma, xa, ta⟩ := downlinkIfNew_inv numImages _ _ sa inv0 ha
      obtain ⟨ib, mb, xb, tb⟩ := downlinkIfNew_inv numImages _ sa sb ia hb
      obtain ⟨ic, mc, xc, tc⟩ := downlinkIfNew_inv numImages _ sb st1 ib h
      refine ⟨ic, fun j hj => mc j (mb j (ma j hj)), ?_, ?_⟩
      · rw [xc, xb, xa]
      · rw [tc, tb, ta]

theorem downlinkPasses_succ (numImages : Nat) (quota : Int) (n : Nat) (st : DownlinkState) :
    downlinkPasses numImages quota (n + 1) st =
      if downlinkGuard quota st = true then
        match downlinkAttempt numImages st with
        | Except.error e => Except.error e
        | Except.ok st1 => downlinkPasses numImages quota n st1
      else Except.ok st := rfl

theorem downlinkPasses_stopped (numImages : Nat) (quota : Int) (n : Nat)
    (st : DownlinkState) (h : downlinkGuard quota st = false) :
    downlinkPasses numImages quota n st = Except.ok st := by
  cases n with
  | zero => rfl
  | succ n =>
    unfold downlinkPasses
    rw [if_neg (by rw [h]; decide)]

theorem downlinkPasses_add (numImages : Nat) (quota : Int) (m d : Nat) :
    ∀ st st1, downlinkPasses numImages quota m st = Except.ok st1 →
      downlinkPasses numImages quota (m + d) st = downlinkPasses numImages quota d st1 := by
  induction m with
  | zero =>
    intro st st1 h
    cases h
    rw [Nat.zero_add]
  | succ m ih =>
    intro st st1 h
    rw [show m + 1 + d = (m + d) + 1 by omega, downlinkPasses_succ]
    rw [downlinkPasses_succ] at h
    by_cases hg : downlinkGuard quota st = true
    · rw [if_pos hg] at h ⊢
      cases ha : downlinkAttempt numImages st with
      | error e => rw [ha] at h; cases h
      | ok sa =>
        rw [ha] at h
        exact ih sa st1 h
    · rw [if_neg hg] at h ⊢
      cases h
      rw [downlinkPasses_stopped numImages quota d st (by simpa using hg)]

theorem downlinkPasses_inv (numImages : Nat) (quota : Int) (n : Nat) :
    ∀ st st1, DownlinkInv numImages st →
      downlinkPasses numImages quota n st = Except.ok st1 →
      DownlinkInv numImages st1 ∧
      (∀ j, st.downlinked.getD j false = true → st1.downlinked.getD j false = true) := by
  induction n with
  | zero =>
    intro st st1 inv h
    cases h
    exact ⟨inv, fun _ hj => hj⟩
  | succ n ih =>
    intro st st1 inv h
    unfold downlinkPasses at h
    by_cases hg : downlinkGuard quota st = true
    · rw [if_pos hg] at h
      cases ha : downlinkAttempt numImages st with
      | error e => rw [ha] at h; cases h
      | ok sa =>
        rw [ha] at h
        obtain ⟨ia, ma, _, _⟩ := downlinkAttempt_inv numImages st sa inv ha
        obtain ⟨ib, mb⟩ := ih sa st1 ia h
        exact ⟨ib, fun j hj => mb j (ma j hj)⟩
    · rw [if_neg hg] at h
      cases h
      exact ⟨inv, fun _ hj => hj⟩

theorem downlinkWhile_passes (numImages : Nat) (quota : Int) (fuel : Nat) :
    ∀ st st1, downlinkWhile numImages quota fuel st = Except.ok st1 →
      downlinkPasses numImages quota fuel st = Except.ok st1 ∧
      downlinkGuard quota st1 = false := by
  induction fuel with
  | zero =>
    intro st st1 h
    cases h
  | succ fuel ih =>
    intro st st1 h
    unfold downlinkWhile at h
    unfold downlinkPasses
    by_cases hg : downlinkGuard quota st = true
    · rw [if_pos hg] at h ⊢
      cases ha : downlinkAttempt numImages st with
      | error e => rw [ha] at h; cases h
      | ok sa =>
        rw [ha] at h
        exact ih sa st1 h
    · rw [if_neg hg] at h ⊢
      cases h
      exact ⟨rfl, by simpa using hg⟩

theorem foldl_set_length {α : Type} (f : Nat → α) (l : List Nat) :
    ∀ sc : List α, (l.foldl (fun (sc : List α) (i : Nat) => sc.set i (f i)) sc).length =
      sc.length := by
  induction l with
  | nil => intro sc; rfl
  | cons a l ih =>
    intro sc
    rw [List.foldl_cons, ih, List.length_set]

theorem foldl_set_getD_other {α : Type} (f : Nat → α) (d : α) (j : Nat) (l : List Nat)
    (hj : j ∉ l) :
    ∀ sc : List α, (l.foldl (fun (sc : List α) (i : Nat) => sc.set i (f i)) sc).getD j d =
      sc.getD j d := by
  induction l with
  | nil => intro sc; rfl
  | cons a l ih =>
    intro sc
    rw [List.foldl_cons, ih (fun h => hj (List.mem_cons_of_mem _ h)), getD_set_gen,
      if_neg (fun h => hj (by rw [h.1]; exact List.mem_cons_self _ _))]

theorem downlinkEntry_flag (acceleration : List Shift) (kDistances : List (Option ℚ))
    (numImages : Nat) (pastAcc : Shift) (pastDist : Option ℚ) (j : Nat) :
    (downlinkEntry acceleration kDistances numImages pastAcc pastDist).downlinked.getD j
        false = true ↔ (j = 0 ∨ j = numImages - 1) ∧ j < numImages := by
  show (((List.replicate numImages false).set 0 true).set (numImages - 1) true).getD j
    false = true ↔ _
  rw [getD_set_gen, getD_set_gen, List.length_set, List.length_replicate]
  by_cases h1 : j = numImages - 1 ∧ numImages - 1 < numImages
  · rw [if_pos h1]
    exact ⟨fun _ => ⟨Or.inr h1.1, by omega⟩, fun _ => rfl⟩
  · rw [if_neg h1]
    by_cases h0 : j = 0 ∧ 0 < numImages
    · rw [if_pos h0]
      exact ⟨fun _ => ⟨Or.inl h0.1, by omega⟩, fun _ => rfl⟩
    · rw [if_neg h0, List.getD_eq_getElem?_getD, List.getElem?_replicate]
      constructor
      · intro h
        split at h <;> simp at h
      · rintro ⟨hj | hj, hlt⟩
        · exact absurd ⟨hj, by omega⟩ h0
        · exact absurd ⟨hj, by omega⟩ h1

theorem downlinkEntry_score (acceleration : List Shift) (kDistances : List (Option ℚ))
    (numImages : Nat) (pastAcc : Shift) (pastDist : Option ℚ) (j : Nat)
    (hj : (j = 0 ∨ j = numImages - 1) ∧ j < numImages) :
    (downlinkEntry acceleration kDistances numImages pastAcc pastDist).score.getD j none =
      some 0 := by
  show ((List.range' 1 (numImages - 2)).foldl
    (fun (score : List (Option ℚ)) (i : Nat) =>
      score.set i (frameScore acceleration kDistances pastAcc pastDist i))
    (((List.replicate numImages (none : Option ℚ)).set 0 (some 0)).set
      (numImages - 1) (some 0))).getD j none = some 0
  rw [foldl_set_getD_other]
  · rw [getD_set_gen, getD_set_gen, List.length_set, List.length_replicate]
    by_cases h1 : j = numImages - 1 ∧ numImages - 1 < numImages
    · rw [if_pos h1]
    · rw [if_neg h1]
      rcases hj with ⟨hj | hj, hlt⟩
      · rw [if_pos ⟨hj, by omega⟩]
      · exact absurd ⟨hj, by omega⟩ h1
  · intro hm
    rw [List.mem_range'_1] at hm
    omega

theorem downlinkEntry_inv (acceleration : List Shift) (kDistances : List (Option ℚ))
    (numImages : Nat) (pastAcc : Shift) (pastDist : Option ℚ) :
    DownlinkInv numImages
      (downlinkEntry acceleration kDistances numImages pastAcc pastDist) := by
  refine ⟨?_, ?_, ?_⟩
  · show (((List.replicate numImages false).set 0 true).set (numImages - 1) true).length = _
    rw [List.length_set, List.length_set, List.length_replicate]
  · show ((List.range' 1 (numImages - 2)).foldl
      (fun (score : List (Option ℚ)) (i : Nat) =>
        score.set i (frameScore acceleration kDistances pastAcc pastDist i))
      (((List.replicate numImages (none : Option ℚ)).set 0 (some 0)).set
        (numImages - 1) (some 0))).length = _
    rw [foldl_set_length, List.length_set, List.length_set, List.length_replicate]
  · intro i hi
    exact downlinkEntry_score acceleration kDistances numImages pastAcc pastDist i
      ((downlinkEntry_flag acceleration kDistances numImages pastAcc pastDist i).1 hi)

theorem endpointsPinned_of_inv (numImages : Nat) (st : DownlinkState)
    (inv : DownlinkInv numImages st) (h0 : st.downlinked.getD 0 false = true)
    (h1 : st.downlinked.getD (numImages - 1) false = true) :
    EndpointsPinned numImages st :=
  ⟨h0, h1, inv.zeroed 0 h0, inv.zeroed (numImages - 1) h1⟩

theorem scoreSearch_endpoints (numImages : Nat) (score : List (Option ℚ))
    (v w : Option ℚ) (index : Nat) :
    scoreSearch numImages ((score.set 0 v).set (numImages - 1) w) index =
      scoreSearch numImages score index := by
  unfold scoreSearch
  apply List.foldl_ext
  intro s i hi
  rw [List.mem_range'_1] at hi
  rw [getD_set_gen, if_neg (by omega), getD_set_gen, if_neg (by omega)]

theorem downlinkPasses_entry (downlinkPercentage : Int) (acceleration : List Shift)
    (kDistances : List (Option ℚ)) (numImages : Nat) (pastAcc : Shift)
    (pastDist : Option ℚ) (h1 : 1 ≤ numImages) (n : Nat) (st : DownlinkState)
    (h : downlinkPasses numImages (images2Downlink numImages downlinkPercentage) n
      (downlinkEntry acceleration kDistances numImages pastAcc pastDist) = Except.ok st) :
    DownlinkInv numImages st ∧ EndpointsPinned numImages st := by
  obtain ⟨inv, mono⟩ := downlinkPasses_inv numImages _ n _ st
    (downlinkEntry_inv acceleration kDistances numImages pastAcc pastDist) h
  refine ⟨inv, endpointsPinned_of_inv numImages st inv (mono 0 ?_) (mono _ ?_)⟩
  · exact (downlinkEntry_flag acceleration kDistances numImages pastAcc pastDist 0).2
      ⟨Or.inl rfl, by omega⟩
  · exact (downlinkEntry_flag acceleration kDistances numImages pastAcc pastDist _).2
      ⟨Or.inr rfl, by omega⟩

/-- C21: with at least two frames, at every point of the selection loop of
`downlinkData`, and in the state it returns, frame 0 and frame `numImages - 1` are in the
transmit set with score 0; and the maximum search does not depend on the scores stored
at those two indices. -/
theorem downlinkData_endpoints (downlinkPercentage : Int) (acceleration : List Shift)
    (kDistances : List (Option ℚ)) (numImages : Nat) (pastAcc : Shift)
    (pastDist : Option ℚ) (h2 : 2 ≤ numImages) :
    (∀ n st, downlinkPasses numImages (images2Downlink numImages downlinkPercentage) n
        (downlinkEntry acceleration kDistances numImages pastAcc pastDist) = Except.ok st →
      EndpointsPinned numImages st) ∧
    (∀ st, downlinkData downlinkPercentage acceleration kDistances numImages pastAcc
        pastDist = Except.ok st → EndpointsPinned numImages st) ∧
    (∀ (score : List (Option ℚ)) (v w : Option ℚ) (index : Nat),
      scoreSearch numImages ((score.set 0 v).set (numImages - 1) w) index =
        scoreSearch numImages score index) := by
  refine ⟨fun n st h => ?_, fun st h => ?_, fun score v w index =>
    scoreSearch_endpoints numImages score v w index⟩
  · exact (downlinkPasses_entry downlinkPercentage acceleration kDistances numImages
      pastAcc pastDist (by omega) n st h).2
  · unfold downlinkData at h
    exact (downlinkPasses_entry downlinkPercentage acceleration kDistances numImages
      pastAcc pastDist (by omega) 1001 st (downlinkWhile_passes _ _ _ _ _ h).1).2

/-- C24: at every point of the selection loop of `downlinkData`, every frame in the
transmit set has score 0, and a frame that is in the transmit set after `m` passes is
still in it after any later pass. -/
theorem downlinkData_transmitted (downlinkPercentage : Int) (acceleration : List Shift)
    (kDistances : List (Option ℚ)) (numImages : Nat) (pastAcc : Shift)
    (pastDist : Option ℚ) (m d : Nat) (stm std : DownlinkState)
    (hm : downlinkPasses numImages (images2Downlink numImages downlinkPercentage) m
      (downlinkEntry acceleration kDistances numImages pastAcc pastDist) = Except.ok stm)
    (hd : downlinkPasses numImages (images2Downlink numImages downlinkPercentage) (m + d)
      (downlinkEntry acceleration kDistances numImages pastAcc pastDist) = Except.ok std) :
    (∀ i, stm.downlinked.getD i false = true → stm.score.getD i none = some 0) ∧
    (∀ i, stm.downlinked.getD i false = true → std.downlinked.getD i false = true) := by
  obtain ⟨inv, _⟩ := downlinkPasses_inv numImages _ m _ stm
    (downlinkEntry_inv acceleration kDistances numImages pastAcc pastDist) hm
  rw [downlinkPasses_add numImages _ m d _ stm hm] at hd
  exact ⟨inv.zeroed, (downlinkPasses_inv numImages _ d stm std inv hd).2⟩

theorem downlinkIfNew_total (numImages : Nat) (i : Int) (st : DownlinkState)
    (h0 : 0 ≤ i) (h1 : i < (numImages : Int)) :
    ∃ st1, downlinkIfNew numImages i st = Except.ok st1 := by
  unfold downlinkIfNew
  rw [if_pos ⟨h0, h1⟩]
  by_cases hf : st.downlinked.getD i.toNat false = false
  · rw [if_pos hf]; exact ⟨_, rfl⟩
  · rw [if_neg hf]; exact ⟨_, rfl⟩

theorem downlinkAttempt_total (numImages : Nat) (st : DownlinkState)
    (h1 : 1 ≤ (scoreSearch numImages st.score st.index).2)
    (h2 : (scoreSearch numImages st.score st.index).2 + 2 ≤ numImages) :
    ∃ st1, downlinkAttempt numImages st = Except.ok st1 := by
  unfold downlinkAttempt
  simp only
  obtain ⟨sa, ha⟩ := downlinkIfNew_total numImages
    (((scoreSearch numImages st.score st.index).2 : Int) - 1)
    { st with index := (scoreSearch numImages st.score st.index).2,
              maxTries := st.maxTries + 1 } (by omega) (by omega)
  rw [ha]
  obtain ⟨sb, hb⟩ := downlinkIfNew_total numImages
    ((scoreSearch numImages st.score st.index).2 : Int) sa (by omega) (by omega)
  simp only [hb]
  exact downlinkIfNew_total numImages _ sb (by omega) (by omega)

theorem scoreSearch_index (numImages : Nat) (score : List (Option ℚ)) (index : Nat) :
    (scoreSearch numImages score index).2 = index ∨
    (1 ≤ (scoreSearch numImages score index).2 ∧
      (scoreSearch numImages score index).2 + 2 ≤ numImages) := by
  rcases scoreSearch_searchInv numImages score index with ⟨h, _⟩ | ⟨h1, h2, _⟩
  · left; rw [h]
  · right; exact ⟨h1, by omega⟩

theorem scoreSearch_none (numImages : Nat) (score : List (Option ℚ)) (index : Nat)
    (h : ∀ j, 1 ≤ j → j + 2 ≤ numImages → ∀ v, score.getD j none = some v → v ≤ 0) :
    scoreSearch numImages score index = (0, index) := by
  rcases scoreSearch_searchInv numImages score index with ⟨h1, _⟩ | ⟨h1, h2, h3, h4, _⟩
  · exact h1
  · exact absurd (h _ h1 (by omega) _ h3) (not_le.2 h4)

theorem scoreSearch_some (numImages : Nat) (score : List (Option ℚ)) (index : Nat)
    (h : ∃ j v, 1 ≤ j ∧ j + 2 ≤ numImages ∧ score.getD j none = some v ∧ 0 < v) :
    1 ≤ (scoreSearch numImages score index).2 ∧
    (scoreSearch numImages score index).2 + 2 ≤ numImages ∧
    score.getD (scoreSearch numImages score index).2 none =
      some (scoreSearch numImages score index).1 ∧
    0 < (scoreSearch numImages score index).1 ∧
    (∀ j, 1 ≤ j → j + 2 ≤ numImages → ∀ v, score.getD j none = some v →
      v ≤ (scoreSearch numImages score index).1) ∧
    (∀ j, 1 ≤ j → j < (scoreSearch numImages score index).2 →
      ∀ v, score.getD j none = some v → v < (scoreSearch numImages score index).1) := by
  obtain ⟨j, v, hj1, hj2, hv, hpos⟩ := h
  rcases scoreSearch_searchInv numImages score index with ⟨_, h2⟩ | ⟨h1, h2, h3, h4, h5, h6⟩
  · exact absurd (h2 j hj1 (by omega) v hv) (not_le.2 hpos)
  · exact ⟨h1, by omega, h3, h4, fun j hj1 hj2 v hv => h5 j hj1 (by omega) v hv, h6⟩

theorem downlinkGuard_true (quota : Int) (st : DownlinkState) :
    downlinkGuard quota st = true ↔ (st.downlinkCount : Int) < quota ∧ st.maxTries < 1000 := by
  unfold downlinkGuard
  simp

theorem downlinkGuard_false (quota : Int) (st : DownlinkState) :
    downlinkGuard quota st = false ↔ quota ≤ (st.downlinkCount : Int) ∨ 1000 ≤ st.maxTries := by
  rw [← Bool.not_eq_true, downlinkGuard_true]
  constructor
  · intro h
    by_cases hc : (st.downlinkCount : Int) < quota
    · right
      by_contra hm
      exact h ⟨hc, by omega⟩
    · left; omega
  · rintro (h | h) ⟨h1, h2⟩ <;> omega

theorem downlinkWhile_fuel (numImages : Nat) (quota : Int) (fuel : Nat) :
    ∀ st, DownlinkInv numImages st → st.maxTries ≤ 1000 → 1000 < st.maxTries + fuel →
      downlinkWhile numImages quota fuel st ≠ Except.error DownlinkError.outOfFuel ∧
      ∀ st1, downlinkWhile numImages quota fuel st = Except.ok st1 →
        st1.maxTries ≤ 1000 ∧ downlinkGuard quota st1 = false := by
  induction fuel with
  | zero =>
    intro st _ h1 h2
    omega
  | succ fuel ih =>
    intro st inv h1 h2
    unfold downlinkWhile
    by_cases hg : downlinkGuard quota st = true
    · rw [if_pos hg]
      have hlt := ((downlinkGuard_true quota st).1 hg).2
      cases ha : downlinkAttempt numImages st with
      | error e =>
        simp only
        obtain ⟨sa0, hsa0⟩ | hne : (∃ s, downlinkAttempt numImages st = Except.ok s) ∨
            e = DownlinkError.outOfBounds := by
          right
          unfold downlinkAttempt at ha
          simp only at ha
          cases e with
          | outOfBounds => rfl
          | outOfFuel =>
            exfalso
            have key : ∀ (i : Int) (s : DownlinkState),
                downlinkIfNew numImages i s ≠ Except.error DownlinkError.outOfFuel := by
              intro i s
              unfold downlinkIfNew
              split
              · split <;> simp
              · simp
            split at ha
            · rename_i e1 he1
              cases ha
              exact key _ _ he1
            · split at ha
              · rename_i e2 he2
                cases ha
                exact key _ _ he2
              · exact key _ _ ha
        · rw [ha] at hsa0; cases hsa0
        · rw [hne]
          exact ⟨by simp, fun st1 h => by cases h⟩
      | ok sa =>
        simp only
        obtain ⟨ia, _, _, ta⟩ := downlinkAttempt_inv numImages st sa inv ha
        exact ih sa ia (by omega) (by omega)
    · rw [if_neg hg]
      exact ⟨by simp, fun st1 h => by
        cases h
        exact ⟨h1, by simpa using hg⟩⟩

theorem downlinkWhile_total (numImages : Nat) (quota : Int) (fuel : Nat) :
    ∀ st, DownlinkInv numImages st → st.maxTries ≤ 1000 → 1000 < st.maxTries + fuel →
      (1 ≤ st.index ∧ st.index + 2 ≤ numImages) →
      ∃ st1, downlinkWhile numImages quota fuel st = Except.ok st1 := by
  induction fuel with
  | zero =>
    intro st _ h1 h2
    omega
  | succ fuel ih =>
    intro st inv h1 h2 hidx
    unfold downlinkWhile
    by_cases hg : downlinkGuard quota st = true
    · rw [if_pos hg]
      have hlt := ((downlinkGuard_true quota st).1 hg).2
      have hr : 1 ≤ (scoreSearch numImages st.score st.index).2 ∧
          (scoreSearch numImages st.score st.index).2 + 2 ≤ numImages := by
        rcases scoreSearch_index numImages st.score st.index with h | h
        · rw [h]; exact hidx
        · exact h
      obtain ⟨sa, ha⟩ := downlinkAttempt_total numImages st hr.1 hr.2
      rw [ha]
      simp only
      obtain ⟨ia, _, xa, ta⟩ := downlinkAttempt_inv numImages st sa inv ha
      exact ih sa ia (by omega) (by omega) (by rw [xa]; exact hr)
    · rw [if_neg hg]
      exact ⟨st, rfl⟩

/-- C23 (what the code does): the search of an attempt that starts from the scores
`score` and the previous `index`.  When no interior score is greater than 0 the index is
left as it was (0 in the first attempt, which is no interior index); when some interior
score is greater than 0 the index chosen is the smallest interior index whose score is
the greatest interior score. -/
theorem scoreSearch_choice (numImages : Nat) (score : List (Option ℚ)) (index : Nat) :
    ((∀ j, 1 ≤ j → j + 2 ≤ numImages → ∀ v, score.getD j none = some v → v ≤ 0) →
      (scoreSearch numImages score index).2 = index) ∧
    ((∃ j v, 1 ≤ j ∧ j + 2 ≤ numImages ∧ score.getD j none = some v ∧ 0 < v) →
      1 ≤ (scoreSearch numImages score index).2 ∧
      (scoreSearch numImages score index).2 + 2 ≤ numImages ∧
      score.getD (scoreSearch numImages score index).2 none =
        some (scoreSearch numImages score index).1 ∧
      (∀ j, 1 ≤ j → j + 2 ≤ numImages → ∀ v, score.getD j none = some v →
        v ≤ (scoreSearch numImages score index).1) ∧
      (∀ j, 1 ≤ j → j < (scoreSearch numImages score index).2 →
        ∀ v, score.getD j none = some v → v < (scoreSearch numImages score index).1)) := by
  refine ⟨fun h => ?_, fun h => ?_⟩
  · rw [scoreSearch_none numImages score index h]
  · obtain ⟨h1, h2, h3, _, h5, h6⟩ := scoreSearch_some numImages score index h
    exact ⟨h1, h2, h3, h5, h6⟩

/-- C25 (what the code does): the selection loop of `downlinkData` never needs more than
the 1001 units of fuel; when it returns, at most 1000 attempts were made and either the
transmitted count has reached the quota or exactly 1000 attempts were made.  The run
does not return, but leaves the arrays at `downlinked[-1]` in its first attempt, exactly
when the quota is above 2 and no interior score is greater than 0. -/
theorem downlinkData_attempts (downlinkPercentage : Int) (acceleration : List Shift)
    (kDistances : List (Option ℚ)) (numImages : Nat) (pastAcc : Shift)
    (pastDist : Option ℚ) :
    downlinkData downlinkPercentage acceleration kDistances numImages pastAcc pastDist ≠
      Except.error DownlinkError.outOfFuel ∧
    (∀ st, downlinkData downlinkPercentage acceleration kDistances numImages pastAcc
        pastDist = Except.ok st →
      st.maxTries ≤ 1000 ∧
      (images2Downlink numImages downlinkPercentage ≤ (st.downlinkCount : Int) ∨
        st.maxTries = 1000)) ∧
    (downlinkData downlinkPercentage acceleration kDistances numImages pastAcc pastDist =
        Except.error DownlinkError.outOfBounds ↔
      2 < images2Downlink numImages downlinkPercentage ∧
      ∀ j, 1 ≤ j → j + 2 ≤ numImages → ∀ v,
        (downlinkEntry acceleration kDistances numImages pastAcc pastDist).score.getD j
          none = some v → v ≤ 0) := by
  have inv := downlinkEntry_inv acceleration kDistances numImages pastAcc pastDist
  have hm : (downlinkEntry acceleration kDistances numImages pastAcc pastDist).maxTries
      = 0 := rfl
  have hc : (downlinkEntry acceleration kDistances numImages pastAcc pastDist).downlinkCount
      = 2 := rfl
  have hx : (downlinkEntry acceleration kDistances numImages pastAcc pastDist).index
      = 0 := rfl
  obtain ⟨hfuel, hexit⟩ := downlinkWhile_fuel numImages
    (images2Downlink numImages downlinkPercentage) 1001 _ inv (by rw [hm]; omega)
    (by rw [hm]; omega)
  unfold downlinkData
  refine ⟨hfuel, fun st h => ?_, ?_⟩
  · obtain ⟨h1, h2⟩ := hexit st h
    refine ⟨h1, ?_⟩
    rcases (downlinkGuard_false _ st).1 h2 with h3 | h3
    · exact Or.inl h3
    · exact Or.inr (by omega)
  · constructor
    · intro herr
      by_contra hcon
      have hok : ∃ st1, downlinkWhile numImages
          (images2Downlink numImages downlinkPercentage) 1001
          (downlinkEntry acceleration kDistances numImages pastAcc pastDist) =
            Except.ok st1 := by
        by_cases hq : 2 < images2Downlink numImages downlinkPercentage
        · have hpos : ∃ j v, 1 ≤ j ∧ j + 2 ≤ numImages ∧
              (downlinkEntry acceleration kDistances numImages pastAcc pastDist).score.getD
                j none = some v ∧ 0 < v := by
            by_contra hno
            apply hcon
            refine ⟨hq, fun j hj1 hj2 v hv => ?_⟩
            by_contra hv0
            exact hno ⟨j, v, hj1, hj2, hv, not_le.1 hv0⟩
          obtain ⟨r1, r2, _⟩ := scoreSearch_some numImages _ 0 hpos
          rw [show (1001 : Nat) = 1000 + 1 from rfl]
          unfold downlinkWhile
          have hg : downlinkGuard (images2Downlink numImages downlinkPercentage)
              (downlinkEntry acceleration kDistances numImages pastAcc pastDist) = true :=
            (downlinkGuard_true _ _).2 ⟨by rw [hc]; exact_mod_cast hq, by rw [hm]; omega⟩
          rw [if_pos hg]
          obtain ⟨sa, ha⟩ := downlinkAttempt_total numImages _ (by rw [hx]; exact r1)
            (by rw [hx]; exact r2)
          rw [ha]
          simp only
          obtain ⟨ia, _, xa, ta⟩ := downlinkAttempt_inv numImages _ sa inv ha
          exact downlinkWhile_total numImages _ 1000 sa ia (by omega) (by omega)
            (by rw [xa, hx]; exact ⟨r1, r2⟩)
        · rw [show (1001 : Nat) = 1000 + 1 from rfl]
          unfold downlinkWhile
          have hg : ¬ downlinkGuard (images2Downlink numImages downlinkPercentage)
              (downlinkEntry acceleration kDistances numImages pastAcc pastDist) = true := by
            rw [downlinkGuard_true, hc]
            intro h
            exact hq (by exact_mod_cast h.1)
          rw [if_neg hg]
          exact ⟨_, rfl⟩
      obtain ⟨st1, h1⟩ := hok
      rw [h1] at herr
      cases herr
    · rintro ⟨hq, hno⟩
      rw [show (1001 : Nat) = 1000 + 1 from rfl]
      unfold downlinkWhile
      have hg : downlinkGuard (images2Downlink numImages downlinkPercentage)
          (downlinkEntry acceleration kDistances numImages pastAcc pastDist) = true :=
        (downlinkGuard_true _ _).2 ⟨by rw [hc]; exact_mod_cast hq, by rw [hm]; omega⟩
      rw [if_pos hg]
      have hs := scoreSearch_none numImages _ 0 hno
      unfold downlinkAttempt
      simp only [hx, hs]
      unfold downlinkIfNew
      simp

/-- C22 (what the code does): the quota is the truncated `double` product
`numImages * (downlinkPercentage * .01)`; for 5 frames at 40 percent it is 2, but for 50
frames at 58 percent it is 28, one below `floor(50 * 58 / 100) = 29`. -/
theorem images2Downlink_rounding :
    images2Downlink 5 40 = 2 ∧ images2Downlink 50 58 = 28 ∧ (50 * 58 / 100 : Nat) = 29 ∧
    roundDouble ((58 : ℚ) * roundDouble (1 / 100)) = 5224175567749775 / 9007199254740992 ∧
    roundDouble ((50 : ℚ) * (5224175567749775 / 9007199254740992)) =
      8162774324609023 / 281474976710656 := by
  refine ⟨by decide!, by decide!, by decide, by decide!, by decide!⟩

/-! ## Component labelling: border pixels -/

theorem validatePGM_interior (image1 image2 : PGMImage)
    (hw : image1.header.width = image2.header.width)
    (hh : image1.header.height = image2.header.height)
    (hpix : ∀ y x, 1 ≤ y → y + 1 < image1.header.height → 1 ≤ x →
      x + 1 < image1.header.width → getPix image1 y x = getPix image2 y x) :
    validatePGM image1 = validatePGM image2 := by
  unfold validatePGM
  simp only [← hw, ← hh]
  congr 1
  apply List.foldl_ext
  intro bm y hy
  apply List.foldl_ext
  intro bm2 x hx
  rw [List.mem_range'_1] at hy hx
  rw [hpix y x hy.1 (by omega) hx.1 (by omega)]

/-- C30: two images of the same size that agree on all interior pixels (rows
`1 .. height - 2`, columns `1 .. width - 2`) get the same result from
`ConnectedComponentLabeling`: the same count, the same `k` and the same centroid list, or
the same error. -/
theorem ccl_border_independent (image1 image2 : PGMImage)
    (hw : image1.header.width = image2.header.width)
    (hh : image1.header.height = image2.header.height)
    (hpix : ∀ y x, 1 ≤ y → y + 1 < image1.header.height → 1 ≤ x →
      x + 1 < image1.header.width → getPix image1 y x = getPix image2 y x) :
    ConnectedComponentLabeling image1 = ConnectedComponentLabeling image2 := by
  unfold ConnectedComponentLabeling
  simp only [validatePGM_interior image1 image2 hw hh hpix, hw, hh]

/-! ## Clustering: `compareCents` and the seeds of `kmeans` -/

theorem foldl_count_filter (P : Nat → Prop) [DecidablePred P] (l : List Nat) :
    ∀ c : Nat, l.foldl (fun count j => if P j then count + 1 else count) c =
      c + (l.filter (fun j => decide (P j))).length := by
  induction l with
  | nil => intro c; rfl
  | cons a l ih =>
    intro c
    rw [List.foldl_cons, ih]
    by_cases h : P a
    · simp [h]; omega
    · simp [h]

theorem foldl_add_sum (f : Nat → Nat) (l : List Nat) :
    ∀ c : Nat, l.foldl (fun count i => count + f i) c = c + (l.map f).sum := by
  induction l with
  | nil => intro c; rfl
  | cons a l ih =>
    intro c
    rw [List.foldl_cons, ih, List.map_cons, List.sum_cons]
    omega

theorem sum_eq_length_iff (f : Nat → Nat) (l : List Nat) (hf : ∀ i ∈ l, f i ≤ 1) :
    (l.map f).sum = l.length ↔ ∀ i ∈ l, f i = 1 := by
  induction l with
  | nil => simp
  | cons a l ih =>
    have ha := hf a (List.mem_cons_self _ _)
    have hl : ∀ i ∈ l, f i ≤ 1 := fun i hi => hf i (List.mem_cons_of_mem _ hi)
    have hle : (l.map f).sum ≤ l.length := by
      clear ih hf ha
      induction l with
      | nil => simp
      | cons b l ih2 =>
        have := hl b (List.mem_cons_self _ _)
        have := ih2 (fun i hi => hl i (List.mem_cons_of_mem _ hi))
        simp only [List.map_cons, List.sum_cons, List.length_cons]
        omega
    simp only [List.map_cons, List.sum_cons, List.length_cons, List.mem_cons, forall_eq_or_imp]
    rw [← ih hl]
    omega

theorem filter_length_le_one (P : Nat → Prop) [DecidablePred P] (k : Nat)
    (huniq : ∀ i j, i < k → j < k → P i → P j → i = j) :
    ((List.range k).filter (fun j => decide (P j))).length ≤ 1 ∧
    (((List.range k).filter (fun j => decide (P j))).length = 1 ↔ ∃ j, j < k ∧ P j) := by
  by_cases hex : ∃ j, j < k ∧ P j
  · obtain ⟨j0, hj0, hp0⟩ := hex
    have e : (List.range k).filter (fun j => decide (P j)) =
        (List.range k).filter (fun j => j == j0) := by
      apply List.filter_congr
      intro j hj
      rw [List.mem_range] at hj
      by_cases hp : P j
      · have hjj := huniq j j0 hj hj0 hp hp0
        rw [hjj]
        simp [hp0]
      · have hne : j ≠ j0 := fun h => hp (h ▸ hp0)
        simp [hp, hne]
    have e2 : ((List.range k).filter (fun j => j == j0)).length = 1 := by
      rw [← List.countP_eq_length_filter]
      exact List.count_eq_one_of_mem (List.nodup_range k) (List.mem_range.2 hj0)
    rw [e, e2]
    exact ⟨le_refl 1, fun _ => ⟨j0, hj0, hp0⟩, fun _ => rfl⟩
  · have e : (List.range k).filter (fun j => decide (P j)) = [] := by
      rw [List.filter_eq_nil_iff]
      intro j hj hp
      rw [List.mem_range] at hj
      exact hex ⟨j, hj, by simpa using hp⟩
    rw [e]
    exact ⟨by simp, fun h => by simp at h, fun h => absurd h hex⟩

theorem compareCents_count (rCents1 rCents2 : List RandomCentroid) (k : Nat) :
    compareCents rCents1 rCents2 k =
      decide (((List.range k).map (fun i => ((List.range k).filter
        (fun j => decide ((rCents1.getD i ⟨0, 0⟩).x = (rCents2.getD j ⟨0, 0⟩).x ∧
          (rCents1.getD i ⟨0, 0⟩).y = (rCents2.getD j ⟨0, 0⟩).y))).length)).sum = k) := by
  unfold compareCents
  simp only
  have e : ∀ (count i : Nat), (List.range k).foldl
      (fun count j =>
        if (rCents1.getD i ⟨0, 0⟩).x = (rCents2.getD j ⟨0, 0⟩).x ∧
            (rCents1.getD i ⟨0, 0⟩).y = (rCents2.getD j ⟨0, 0⟩).y then count + 1
        else count) count = count + ((List.range k).filter
        (fun j => decide ((rCents1.getD i ⟨0, 0⟩).x = (rCents2.getD j ⟨0, 0⟩).x ∧
          (rCents1.getD i ⟨0, 0⟩).y = (rCents2.getD j ⟨0, 0⟩).y))).length := by
    intro count i
    exact foldl_count_filter (fun j => (rCents1.getD i ⟨0, 0⟩).x = (rCents2.getD j ⟨0, 0⟩).x ∧
          (rCents1.getD i ⟨0, 0⟩).y = (rCents2.getD j ⟨0, 0⟩).y) (List.range k) count
  simp only [e]
  rw [foldl_add_sum, Nat.zero_add]

/-- C27 (amended): when the first `k` centres of `rCents2` are pairwise distinct,
`compareCents` returns true exactly when every centre `rCents1[i]`, `i < k`, equals in
`x` and `y` some centre `rCents2[j]`, `j < k`, at whatever index; in particular an array
of pairwise distinct centres compares equal to itself. -/
theorem compareCents_members (rCents1 rCents2 : List RandomCentroid) (k : Nat)
    (hdist : ∀ i j, i < k → j < k →
      rCents2.getD i ⟨0, 0⟩ = rCents2.getD j ⟨0, 0⟩ → i = j) :
    (compareCents rCents1 rCents2 k = true ↔
      ∀ i, i < k → ∃ j, j < k ∧ (rCents1.getD i ⟨0, 0⟩).x = (rCents2.getD j ⟨0, 0⟩).x ∧
        (rCents1.getD i ⟨0, 0⟩).y = (rCents2.getD j ⟨0, 0⟩).y) ∧
    compareCents rCents2 rCents2 k = true := by
  have huniq : ∀ (c : RandomCentroid) (i j : Nat), i < k → j < k →
      (c.x = (rCents2.getD i ⟨0, 0⟩).x ∧ c.y = (rCents2.getD i ⟨0, 0⟩).y) →
      (c.x = (rCents2.getD j ⟨0, 0⟩).x ∧ c.y = (rCents2.getD j ⟨0, 0⟩).y) → i = j := by
    intro c i j hi hj h1 h2
    apply hdist i j hi hj
    cases hci : rCents2.getD i ⟨0, 0⟩ with
    | mk xi yi =>
      cases hcj : rCents2.getD j ⟨0, 0⟩ with
      | mk xj yj =>
        rw [hci] at h1
        rw [hcj] at h2
        simp only at h1 h2
        rw [← h1.1, ← h1.2, ← h2.1, ← h2.2]
  have key : ∀ a : List RandomCentroid, compareCents a rCents2 k = true ↔
      ∀ i, i < k → ∃ j, j < k ∧ (a.getD i ⟨0, 0⟩).x = (rCents2.getD j ⟨0, 0⟩).x ∧
        (a.getD i ⟨0, 0⟩).y = (rCents2.getD j ⟨0, 0⟩).y := by
    intro a
    rw [compareCents_count, decide_eq_true_iff]
    have hle : ∀ i ∈ List.range k, ((List.range k).filter
        (fun j => decide ((a.getD i ⟨0, 0⟩).x = (rCents2.getD j ⟨0, 0⟩).x ∧
          (a.getD i ⟨0, 0⟩).y = (rCents2.getD j ⟨0, 0⟩).y))).length ≤ 1 :=
      fun i _ => (filter_length_le_one _ k (huniq (a.getD i ⟨0, 0⟩))).1
    have hsum := sum_eq_length_iff (fun i => ((List.range k).filter
        (fun j => decide ((a.getD i ⟨0, 0⟩).x = (rCents2.getD j ⟨0, 0⟩).x ∧
          (a.getD i ⟨0, 0⟩).y = (rCents2.getD j ⟨0, 0⟩).y))).length) (List.range k) hle
    rw [List.length_range] at hsum
    rw [hsum]
    constructor
    · intro h i hi
      exact (filter_length_le_one _ k (huniq (a.getD i ⟨0, 0⟩))).2.1 (h i (List.mem_range.2 hi))
    · intro h i hi
      exact (filter_length_le_one _ k (huniq (a.getD i ⟨0, 0⟩))).2.2 (h i (List.mem_range.1 hi))
  exact ⟨key rCents1, (key rCents2).2 (fun i hi => ⟨i, hi, rfl, rfl⟩)⟩

theorem swappedCents_distinct : ∀ i j, i < 2 → j < 2 →
    ([⟨1, 1⟩, ⟨0, 0⟩] : List RandomCentroid).getD i ⟨0, 0⟩ =
      ([⟨1, 1⟩, ⟨0, 0⟩] : List RandomCentroid).getD j ⟨0, 0⟩ → i = j := by
  intro i j hi hj h
  interval_cases i <;> interval_cases j <;> first | rfl | exact absurd h (by decide)

/-- C27 (as stated, refuted): two arrays that hold the same two centres in opposite
order compare equal, although the centres at index 0 differ. -/
theorem compareCents_swapped :
    compareCents [⟨0, 0⟩, ⟨1, 1⟩] [⟨1, 1⟩, ⟨0, 0⟩] 2 = true ∧
    ¬ (∀ i, i < 2 →
      (([⟨0, 0⟩, ⟨1, 1⟩] : List RandomCentroid).getD i ⟨0, 0⟩).x =
        (([⟨1, 1⟩, ⟨0, 0⟩] : List RandomCentroid).getD i ⟨0, 0⟩).x ∧
      (([⟨0, 0⟩, ⟨1, 1⟩] : List RandomCentroid).getD i ⟨0, 0⟩).y =
        (([⟨1, 1⟩, ⟨0, 0⟩] : List RandomCentroid).getD i ⟨0, 0⟩).y) := by
  refine ⟨by decide, fun h => ?_⟩
  have := (h 0 (by decide)).1
  revert this
  decide

theorem valueInArray_false (val : Int) (arr : List Int) (arrSize : Nat)
    (h : ValueInArray val arr arrSize = false) :
    ∀ i, i < arrSize → arr.getD i 0 ≠ val := by
  intro i hi heq
  unfold ValueInArray at h
  rw [List.any_eq_false] at h
  have := h i (List.mem_range.2 hi)
  rw [heq] at this
  exact this (beq_self_eq_true val)

theorem drawIndex_spec (k : Nat) (randCentInd : List Int) (rands : List Nat) :
    ∀ (random : Int) (rest : List Nat),
      drawIndex k randCentInd rands = some (random, rest) →
      0 ≤ random ∧ random ≤ (k : Int) ∧ ValueInArray random randCentInd k = false := by
  induction rands with
  | nil =>
    intro random rest h
    cases h
  | cons r rs ih =>
    intro random rest h
    unfold drawIndex at h
    by_cases hv : ValueInArray ((r % (k + 1) : Nat) : Int) randCentInd k = true
    · rw [if_pos hv] at h
      exact ih random rest h
    · rw [if_neg hv] at h
      cases h
      have hlt : r % (k + 1) < k + 1 := Nat.mod_lt _ (Nat.succ_pos k)
      refine ⟨Int.natCast_nonneg _, by omega, by simpa using hv⟩

theorem seedLoop_inv (k : Nat) (n : Nat) :
    ∀ (a : Nat) (randCentInd r : List Int) (rands : List Nat), a + n ≤ k →
      SeedInv k randCentInd a →
      seedLoop k (List.range' a n) randCentInd rands = some r →
      SeedInv k r (a + n) := by
  induction n with
  | zero =>
    intro a randCentInd r rands _ inv h
    unfold seedLoop at h
    simp only [List.range'_zero] at h
    cases h
    exact inv
  | succ n ih =>
    intro a randCentInd r rands hk inv h
    rw [List.range'_succ] at h
    unfold seedLoop at h
    cases hd : drawIndex k randCentInd rands with
    | none => rw [hd] at h; cases h
    | some p =>
      obtain ⟨random, rest⟩ := p
      rw [hd] at h
      simp only at h
      obtain ⟨h0, h1, hv⟩ := drawIndex_spec k randCentInd rands random rest hd
      have hne := valueInArray_false random randCentInd k hv
      have inv2 : SeedInv k (randCentInd.set a random) (a + 1) := by
        refine ⟨by rw [List.length_set]; exact inv.len, fun i hi => ?_, fun i j hij hj => ?_⟩
        · rw [getD_set_gen]
          by_cases hia : i = a
          · rw [if_pos ⟨hia, by rw [inv.len]; omega⟩]
            exact ⟨h0, h1⟩
          · rw [if_neg (fun hc => hia hc.1)]
            exact inv.range i (by omega)
        · rw [getD_set_gen, getD_set_gen, if_neg (fun hc => by omega)]
          by_cases hja : j = a
          · rw [if_pos ⟨hja, by rw [inv.len]; omega⟩]
            exact hne i (by omega)
          · rw [if_neg (fun hc => hja hc.1)]
            exact inv.distinct i j hij (by omega)
      have := ih (a + 1) _ r rest (by omega) inv2 h
      rw [show a + (n + 1) = a + 1 + n by omega]
      exact this

/-- C28 (amended): when the sampling loop of `kmeans` ends, the `k` seed indices are
pairwise distinct and each lies between 0 and `k`, the value `k` included; for every
`numCents > k`, as at the call of `kmeans`, each lies in `[0, numCents)` and is the index
of an existing centroid. -/
theorem seedLoop_indices (k : Nat) (randCentInd0 r : List Int) (rands : List Nat)
    (hlen : randCentInd0.length = k)
    (h : seedLoop k (List.range k) randCentInd0 rands = some r) :
    r.length = k ∧
    (∀ i, i < k → 0 ≤ r.getD i 0 ∧ r.getD i 0 ≤ (k : Int)) ∧
    (∀ i j, i < j → j < k → r.getD i 0 ≠ r.getD j 0) ∧
    (∀ numCents, k < numCents → ∀ i, i < k →
      0 ≤ r.getD i 0 ∧ r.getD i 0 < (numCents : Int)) := by
  rw [List.range_eq_range'] at h
  have inv0 : SeedInv k randCentInd0 0 :=
    ⟨hlen, fun i hi => absurd hi (Nat.not_lt_zero i), fun i j _ hj => absurd hj (Nat.not_lt_zero j)⟩
  have inv := seedLoop_inv k k 0 randCentInd0 r rands (by omega) inv0 h
  rw [Nat.zero_add] at inv
  refine ⟨inv.len, inv.range, inv.distinct, fun numCents hn i hi => ?_⟩
  have := inv.range i hi
  exact ⟨this.1, by omega⟩

/-- C28 (as stated, refuted): with `k = numCents = 2` and `rand()` returning 0 and then 2
the sampling loop ends with the seed indices 0 and 2, and 2 is not below `numCents`; so it
is not the case that the seed indices lie in `[0, numCents)` for every `numCents ≥ k`. -/
theorem seedLoop_index_past_end :
    seedLoop 2 (List.range 2) [-1, -1] [0, 2] = some [0, 2] ∧
    ¬ ∀ (randCentInd0 r : List Int) (rands : List Nat), randCentInd0.length = 2 →
      seedLoop 2 (List.range 2) randCentInd0 rands = some r →
      ∀ i, i < 2 → 0 ≤ r.getD i 0 ∧ r.getD i 0 < ((2 : Nat) : Int) := by
  have h : seedLoop 2 (List.range 2) [-1, -1] [0, 2] = some [0, 2] := by decide
  refine ⟨h, fun hall => ?_⟩
  have := (hall [-1, -1] [0, 2] [0, 2] rfl h 1 (by decide)).2
  exact absurd this (by decide)

/-! ## Clustering: ties in `sortCentroids`, distances after `kmeans` -/

theorem minScan_keeps (d : List Nat) (k m0 : Nat)
    (h : ∀ b, b < k → d.getD m0 0 ≤ d.getD b 0) : minScan d k m0 = m0 := by
  unfold minScan
  have key : ∀ l : List Nat, (∀ b ∈ l, b < k) →
      l.foldl (fun minIndex b => if d.getD b 0 < d.getD minIndex 0 then b else minIndex) m0
        = m0 := by
    intro l
    induction l with
    | nil => intro _; rfl
    | cons b l ih =>
      intro hl
      rw [List.foldl_cons, if_neg (not_lt.2 (h b (hl b (List.mem_cons_self _ _))))]
      exact ih (fun b2 hb2 => hl b2 (List.mem_cons_of_mem _ hb2))
  exact key (List.range k) (fun b hb => List.mem_range.1 hb)

theorem sortLoop_carried (k : Nat) (cents : List Centroid) (n : Nat)
    (hn : n ≤ cents.length) :
    ((List.range n).foldl
      (fun (st : List Centroid × Nat) (a : Nat) =>
        let minIndex := minScan (st.1.getD a noCentroid).distances k st.2
        (st.1.set a { st.1.getD a noCentroid with kGroup := (minIndex : Int) }, minIndex))
      (cents, 0)).2 = carriedIndex k cents n ∧
    ((List.range n).foldl
      (fun (st : List Centroid × Nat) (a : Nat) =>
        let minIndex := minScan (st.1.getD a noCentroid).distances k st.2
        (st.1.set a { st.1.getD a noCentroid with kGroup := (minIndex : Int) }, minIndex))
      (cents, 0)).1.length = cents.length ∧
    ∀ i,
      ((List.range n).foldl
        (fun (st : List Centroid × Nat) (a : Nat) =>
          let minIndex := minScan (st.1.getD a noCentroid).distances k st.2
          (st.1.set a { st.1.getD a noCentroid with kGroup := (minIndex : Int) }, minIndex))
        (cents, 0)).1.getD i noCentroid =
      if i < n then
        { cents.getD i noCentroid with kGroup := (carriedIndex k cents (i + 1) : Int) }
      else cents.getD i noCentroid := by
  induction n with
  | zero =>
    exact ⟨rfl, rfl, fun i => by simp⟩
  | succ n ih =>
    obtain ⟨h1, h2, h3⟩ := ih (by omega)
    rw [List.range_succ, List.foldl_append]
    simp only [List.foldl_cons, List.foldl_nil]
    generalize (List.range n).foldl
      (fun (st : List Centroid × Nat) (a : Nat) =>
        let minIndex := minScan (st.1.getD a noCentroid).distances k st.2
        (st.1.set a { st.1.getD a noCentroid with kGroup := (minIndex : Int) }, minIndex))
      (cents, 0) = st at h1 h2 h3 ⊢
    have hcur : st.1.getD n noCentroid = cents.getD n noCentroid := by
      rw [h3 n, if_neg (Nat.lt_irrefl n)]
    refine ⟨?_, ?_, fun i => ?_⟩
    · show minScan (st.1.getD n noCentroid).distances k st.2 = carriedIndex k cents (n + 1)
      rw [hcur, h1]
      rfl
    · show (st.1.set n _).length = cents.length
      rw [List.length_set, h2]
    · show (st.1.set n _).getD i noCentroid = _
      rw [getD_set_centroid]
      by_cases hi : i = n
      · rw [if_pos ⟨hi, by rw [h2]; omega⟩, if_pos (by omega), hcur, h1, hi]
        rfl
      · rw [if_neg (fun hc => hi hc.1), h3 i]
        by_cases hlt : i < n
        · rw [if_pos hlt, if_pos (by omega)]
        · rw [if_neg hlt, if_neg (by omega)]

/-- C26 (what the code does): the scan of `sortCentroids` for centroid `a` starts from
the `kGroup` just given to centroid `a - 1` (from 0 for the first centroid), and a scan
that starts at an index of least distance stays there: a centroid keeps the cluster of
its predecessor whenever that cluster is among its nearest, also when a cluster of lower
index is as near. -/
theorem sortCentroids_carried (numCent k : Nat) (cents : List Centroid)
    (hn : numCent ≤ cents.length) (a : Nat) (ha : a < numCent) :
    (sortCentroids numCent k cents).getD a noCentroid =
      { cents.getD a noCentroid with
        kGroup := (minScan (cents.getD a noCentroid).distances k
          (if a = 0 then 0
            else ((sortCentroids numCent k cents).getD (a - 1) noCentroid).kGroup.toNat) :
            Nat) } ∧
    (∀ (d : List Nat) (m0 : Nat), (∀ b, b < k → d.getD m0 0 ≤ d.getD b 0) →
      minScan d k m0 = m0) := by
  refine ⟨?_, fun d m0 h => minScan_keeps d k m0 h⟩
  obtain ⟨_, _, h3⟩ := sortLoop_carried k cents numCent hn
  unfold sortCentroids sortLoop
  rw [h3 a, if_pos ha]
  cases a with
  | zero => rfl
  | succ a =>
    rw [if_neg (Nat.succ_ne_zero a), Nat.add_sub_cancel, h3 a, if_pos (by omega)]
    simp only [Int.toNat_ofNat]
    rfl

set_option maxRecDepth 100000 in
/-- C29 (code at the failing input): two centroids, `k = 1`, `rand()` giving 0, so the
seed is (0, 0).  The loop body runs once; the centre stood at (5, 5) before the final
re-centring (`tmpCent`), at distance `sqrt 50` from both centroids, but the distances
`kmeans` leaves are `sqrt 0` and `sqrt 200`, those to the seed. -/
theorem kmeans_stale_distances :
    kmeansSeeded 2 1 centsOne [⟨0, 0⟩] =
      some ⟨[⟨0, 0, 0, [0]⟩, ⟨10, 10, 0, [200]⟩], [⟨5, 5⟩], [⟨5, 5⟩], true, 1⟩ ∧
    kmeans 1 centsOne 2 [0] [-1] noCentroid =
      some [⟨0, 0, 0, [0]⟩, ⟨10, 10, 0, [200]⟩] ∧
    calcDist 5 5 0 0 = 50 ∧ calcDist 5 5 10 10 = 50 ∧
    calcDist 0 0 0 0 = 0 ∧ calcDist 0 0 10 10 = 200 := by
  refine ⟨by decide!, by decide!, by decide, by decide, by decide, by decide⟩

theorem sortCentroids_sameDistances (numCent k : Nat) (cents : List Centroid)
    (hn : numCent ≤ cents.length) : SameDistances cents (sortCentroids numCent k cents) := by
  obtain ⟨_, h2, h3⟩ := sortLoop_carried k cents numCent hn
  unfold sortCentroids sortLoop
  refine ⟨h2, fun j => ?_⟩
  rw [h3 j]
  split <;> exact ⟨rfl, rfl, rfl⟩

theorem sameDistances_trans {c1 c2 c3 : List Centroid} (h12 : SameDistances c1 c2)
    (h23 : SameDistances c2 c3) : SameDistances c1 c3 := by
  refine ⟨h23.1.trans h12.1, fun j => ?_⟩
  obtain ⟨a1, a2, a3⟩ := h12.2 j
  obtain ⟨b1, b2, b3⟩ := h23.2 j
  exact ⟨b1.trans a1, b2.trans a2, b3.trans a3⟩

theorem kmeansWhile_sameDistances (numCents k : Nat) (fuel : Nat) :
    ∀ st st1 : KmeansState, numCents ≤ st.cents.length →
      kmeansWhile numCents k fuel st = some st1 → SameDistances st.cents st1.cents := by
  induction fuel with
  | zero =>
    intro st st1 _ h
    cases h
  | succ fuel ih =>
    intro st st1 hn h
    unfold kmeansWhile at h
    by_cases he : st.equivilent = false
    · rw [if_pos he] at h
      have hs := sortCentroids_sameDistances numCents k st.cents hn
      have hb : (kmeansBody numCents k st).cents = sortCentroids numCents k st.cents := rfl
      have := ih (kmeansBody numCents k st) st1 (by rw [hb, hs.1]; exact hn) h
      rw [hb] at this
      exact sameDistances_trans hs this
    · rw [if_neg he] at h
      cases h
      exact ⟨rfl, fun j => ⟨rfl, rfl, rfl⟩⟩

theorem fillInner_spec (rCent : List RandomCentroid) (i : Nat) (c0 : List Centroid)
    (n : Nat) (hn : n ≤ c0.length) :
    ((List.range n).foldl
      (fun (cents : List Centroid) (j : Nat) =>
        cents.set j
          { cents.getD j noCentroid with
            distances := (cents.getD j noCentroid).distances.set i
              (calcDist (rCent.getD i ⟨0, 0⟩).x (rCent.getD i ⟨0, 0⟩).y
                (cents.getD j noCentroid).x (cents.getD j noCentroid).y) }) c0).length =
      c0.length ∧
    ∀ j, ((List.range n).foldl
      (fun (cents : List Centroid) (j : Nat) =>
        cents.set j
          { cents.getD j noCentroid with
            distances := (cents.getD j noCentroid).distances.set i
              (calcDist (rCent.getD i ⟨0, 0⟩).x (rCent.getD i ⟨0, 0⟩).y
                (cents.getD j noCentroid).x (cents.getD j noCentroid).y) }) c0).getD j
        noCentroid =
      if j < n then
        { c0.getD j noCentroid with
          distances := (c0.getD j noCentroid).distances.set i
            (calcDist (rCent.getD i ⟨0, 0⟩).x (rCent.getD i ⟨0, 0⟩).y
              (c0.getD j noCentroid).x (c0.getD j noCentroid).y) }
      else c0.getD j noCentroid := by
  induction n with
  | zero => exact ⟨rfl, fun j => by simp⟩
  | succ n ih =>
    obtain ⟨h1, h2⟩ := ih (by omega)
    rw [List.range_succ, List.foldl_append]
    simp only [List.foldl_cons, List.foldl_nil]
    generalize (List.range n).foldl
      (fun (cents : List Centroid) (j : Nat) =>
        cents.set j
          { cents.getD j noCentroid with
            distances := (cents.getD j noCentroid).distances.set i
              (calcDist (rCent.getD i ⟨0, 0⟩).x (rCent.getD i ⟨0, 0⟩).y
                (cents.getD j noCentroid).x (cents.getD j noCentroid).y) }) c0 = c at h1 h2 ⊢
    have hcur : c.getD n noCentroid = c0.getD n noCentroid := by
      rw [h2 n, if_neg (Nat.lt_irrefl n)]
    refine ⟨by rw [List.length_set, h1], fun j => ?_⟩
    rw [getD_set_centroid]
    by_cases hj : j = n
    · rw [if_pos ⟨hj, by rw [h1]; omega⟩, if_pos (by omega), hcur, hj]
    · rw [if_neg (fun hc => hj hc.1), h2 j]
      by_cases hlt : j < n
      · rw [if_pos hlt, if_pos (by omega)]
      · rw [if_neg hlt, if_neg (by omega)]

theorem fillDistances_spec (numCents : Nat) (rCent : List RandomCentroid)
    (cents : List Centroid) (hn : numCents ≤ cents.length) (m : Nat) :
    ((List.range m).foldl
      (fun cents i => (List.range numCents).foldl
        (fun (cents : List Centroid) (j : Nat) =>
          cents.set j
            { cents.getD j noCentroid with
              distances := (cents.getD j noCentroid).distances.set i
                (calcDist (rCent.getD i ⟨0, 0⟩).x (rCent.getD i ⟨0, 0⟩).y
                  (cents.getD j noCentroid).x (cents.getD j noCentroid).y) }) cents)
      cents).length = cents.length ∧
    ∀ j, j < numCents →
      (((List.range m).foldl
        (fun cents i => (List.range numCents).foldl
          (fun (cents : List Centroid) (j : Nat) =>
            cents.set j
              { cents.getD j noCentroid with
                distances := (cents.getD j noCentroid).distances.set i
                  (calcDist (rCent.getD i ⟨0, 0⟩).x (rCent.getD i ⟨0, 0⟩).y
                    (cents.getD j noCentroid).x (cents.getD j noCentroid).y) }) cents)
        cents).getD j noCentroid).x = (cents.getD j noCentroid).x ∧
      (((List.range m).foldl
        (fun cents i => (List.range numCents).foldl
          (fun (cents : List Centroid) (j : Nat) =>
            cents.set j
              { cents.getD j noCentroid with
                distances := (cents.getD j noCentroid).distances.set i
                  (calcDist (rCent.getD i ⟨0, 0⟩).x (rCent.getD i ⟨0, 0⟩).y
                    (cents.getD j noCentroid).x (cents.getD j noCentroid).y) }) cents)
        cents).getD j noCentroid).y = (cents.getD j noCentroid).y ∧
      (((List.range m).foldl
        (fun cents i => (List.range numCents).foldl
          (fun (cents : List Centroid) (j : Nat) =>
            cents.set j
              { cents.getD j noCentroid with
                distances := (cents.getD j noCentroid).distances.set i
                  (calcDist (rCent.getD i ⟨0, 0⟩).x (rCent.getD i ⟨0, 0⟩).y
                    (cents.getD j noCentroid).x (cents.getD j noCentroid).y) }) cents)
        cents).getD j noCentroid).distances.length =
          (cents.getD j noCentroid).distances.length ∧
      ∀ i, i < m → i < (cents.getD j noCentroid).distances.length →
        (((List.range m).foldl
          (fun cents i => (List.range numCents).foldl
            (fun (cents : List Centroid) (j : Nat) =>
              cents.set j
                { cents.getD j noCentroid with
                  distances := (cents.getD j noCentroid).distances.set i
                    (calcDist (rCent.getD i ⟨0, 0⟩).x (rCent.getD i ⟨0, 0⟩).y
                      (cents.getD j noCentroid).x (cents.getD j noCentroid).y) }) cents)
          cents).getD j noCentroid).distances.getD i 0 =
        calcDist (rCent.getD i ⟨0, 0⟩).x (rCent.getD i ⟨0, 0⟩).y
          (cents.getD j noCentroid).x (cents.getD j noCentroid).y := by
  induction m with
  | zero =>
    exact ⟨rfl, fun j _ => ⟨rfl, rfl, rfl, fun i hi => absurd hi (Nat.not_lt_zero i)⟩⟩
  | succ m ih =>
    obtain ⟨h1, h2⟩ := ih
    rw [List.range_succ, List.foldl_append]
    simp only [List.foldl_cons, List.foldl_nil]
    generalize (List.range m).foldl
      (fun cents i => (List.range numCents).foldl
        (fun (cents : List Centroid) (j : Nat) =>
          cents.set j
            { cents.getD j noCentroid with
              distances := (cents.getD j noCentroid).distances.set i
                (calcDist (rCent.getD i ⟨0, 0⟩).x (rCent.getD i ⟨0, 0⟩).y
                  (cents.getD j noCentroid).x (cents.getD j noCentroid).y) }) cents)
      cents = c at h1 h2 ⊢
    obtain ⟨g1, g2⟩ := fillInner_spec rCent m c numCents (by rw [h1]; exact hn)
    refine ⟨by rw [g1, h1], fun j hj => ?_⟩
    obtain ⟨hx, hy, hl, hd⟩ := h2 j hj
    rw [g2 j, if_pos hj]
    refine ⟨hx, hy, by show ((c.getD j noCentroid).distances.set m _).length = _
                       rw [List.length_set, hl], fun i hi hil => ?_⟩
    show ((c.getD j noCentroid).distances.set m _).getD i 0 = _
    rw [getD_set_list]
    by_cases him : i = m
    · rw [if_pos ⟨him, by rw [hl, ← him]; exact hil⟩, hx, hy, him]
    · rw [if_neg (fun hc => him hc.1)]
      exact hd i (by omega) hil

/-- The distances that `kmeans` leaves in the centroids are those to the seed centres
`rCent` it started from, whatever the number of passes of its loop: the loop sorts and
re-centres, and computes no distance. -/
theorem kmeansSeeded_distances (numCents k : Nat) (cents : List Centroid)
    (rCent : List RandomCentroid) (st : KmeansState) (hn : numCents ≤ cents.length)
    (h : kmeansSeeded numCents k cents rCent = some st) :
    ∀ j i, j < numCents → i < k → i < (cents.getD j noCentroid).distances.length →
      (st.cents.getD j noCentroid).distances.getD i 0 =
        calcDist (rCent.getD i ⟨0, 0⟩).x (rCent.getD i ⟨0, 0⟩).y
          (cents.getD j noCentroid).x (cents.getD j noCentroid).y := by
  intro j i hj hi hil
  obtain ⟨f1, f2⟩ := fillDistances_spec numCents rCent cents hn k
  have hfill : (fillDistances numCents k rCent cents).length = cents.length := f1
  have hs1 := sortCentroids_sameDistances numCents k (fillDistances numCents k rCent cents)
    (by rw [hfill]; exact hn)
  have he : (kmeansEntry numCents k cents rCent).cents =
      sortCentroids numCents k (fillDistances numCents k rCent cents) := rfl
  unfold kmeansSeeded at h
  have hs2 := kmeansWhile_sameDistances numCents k 501 _ st
    (by rw [he, hs1.1, hfill]; exact hn) h
  rw [he] at hs2
  have hs := sameDistances_trans hs1 hs2
  rw [(hs.2 j).2.2]
  exact (f2 j hj).2.2.2 i hi hil

/-! ## Downlink selection: indices and counts -/

theorem count_set_true (l : List Bool) (i : Nat) (hi : i < l.length)
    (hf : l.getD i false = false) : (l.set i true).count true = l.count true + 1 := by
  induction l generalizing i with
  | nil => simp at hi
  | cons a l ih =>
    cases i with
    | zero =>
      have ha : a = false := by simpa using hf
      subst ha
      simp
    | succ i =>
      have hi2 : i < l.length := by simpa using hi
      have hf2 : l.getD i false = false := by simpa using hf
      have := ih i hi2 hf2
      simp only [List.set_cons_succ, List.count_cons, this]
      omega

theorem downlinkIfNew_count (numImages : Nat) (i : Int) (st st1 : DownlinkState)
    (hlen : st.downlinked.length = numImages)
    (h : downlinkIfNew numImages i st = Except.ok st1) :
    st1.downlinked.length = numImages ∧
    (st.downlinkCount ≤ st1.downlinkCount ∧ st1.downlinkCount ≤ st.downlinkCount + 1) ∧
    (st.downlinkCount = st.downlinked.count true →
      st1.downlinkCount = st1.downlinked.count true) ∧
    (st.downlinked.getD i.toNat false = false →
      st1.downlinkCount = st.downlinkCount + 1 ∧ st1.downlinked.getD i.toNat false = true) ∧
    (∀ j, j ≠ i.toNat → st1.downlinked.getD j false = st.downlinked.getD j false) := by
  obtain ⟨h0, h1, _⟩ := downlinkIfNew_ok numImages i st st1 h
  unfold downlinkIfNew at h
  rw [if_pos ⟨h0, h1⟩] at h
  by_cases hf : st.downlinked.getD i.toNat false = false
  · rw [if_pos hf] at h
    cases h
    have hlt : i.toNat < st.downlinked.length := by rw [hlen]; omega
    refine ⟨by show (st.downlinked.set i.toNat true).length = numImages
               rw [List.length_set]; exact hlen,
      ⟨Nat.le_succ _, le_refl _⟩, fun hc => ?_, fun _ => ⟨rfl, ?_⟩, fun j hj => ?_⟩
    · show st.downlinkCount + 1 = (st.downlinked.set i.toNat true).count true
      rw [count_set_true _ _ hlt hf, hc]
    · show (st.downlinked.set i.toNat true).getD i.toNat false = true
      rw [getD_set_gen, if_pos ⟨rfl, hlt⟩]
    · show (st.downlinked.set i.toNat true).getD j false = st.downlinked.getD j false
      rw [getD_set_gen, if_neg (fun hc => hj hc.1)]
  · rw [if_neg hf] at h
    cases h
    exact ⟨hlen, ⟨le_refl _, Nat.le_succ _⟩, fun hc => hc, fun hf2 => absurd hf2 hf,
      fun j _ => rfl⟩

theorem downlinkAttempt_count (numImages : Nat) (st st1 : DownlinkState)
    (hlen : st.downlinked.length = numImages)
    (h : downlinkAttempt numImages st = Except.ok st1) :
    (st.downlinkCount ≤ st1.downlinkCount ∧ st1.downlinkCount ≤ st.downlinkCount + 3) ∧
    (st.downlinkCount = st.downlinked.count true →
      st1.downlinkCount = st1.downlinked.count true) ∧
    (st.downlinked.getD (scoreSearch numImages st.score st.index).2 false = false →
      1 ≤ (scoreSearch numImages st.score st.index).2 →
      st.downlinkCount < st1.downlinkCount ∧
      st1.downlinked.getD (scoreSearch numImages st.score st.index).2 false = true) := by
  unfold downlinkAttempt at h
  simp only at h
  cases ha : downlinkIfNew numImages
      (((scoreSearch numImages st.score st.index).2 : Int) - 1)
      { st with index := (scoreSearch numImages st.score st.index).2,
                maxTries := st.maxTries + 1 } with
  | error e => rw [ha] at h; cases h
  | ok sa =>
    rw [ha] at h
    simp only at h
    cases hb : downlinkIfNew numImages
        ((scoreSearch numImages st.score st.index).2 : Int) sa with
    | error e => rw [hb] at h; cases h
    | ok sb =>
      rw [hb] at h
      simp only at h
      obtain ⟨la, ca, ea, _, oa⟩ := downlinkIfNew_count numImages _
        { st with index := (scoreSearch numImages st.score st.index).2,
                  maxTries := st.maxTries + 1 } sa hlen ha
      obtain ⟨lb, cb, eb, nb, ob⟩ := downlinkIfNew_count numImages _ sa sb la hb
      obtain ⟨lc, cc, ec, _, oc⟩ := downlinkIfNew_count numImages _ sb st1 lb h
      have ca1 : st.downlinkCount ≤ sa.downlinkCount := ca.1
      have ca2 : sa.downlinkCount ≤ st.downlinkCount + 1 := ca.2
      refine ⟨⟨by omega, by omega⟩, fun hc => ec (eb (ea hc)), fun hf h1 => ?_⟩
      have hfa : sa.downlinked.getD (scoreSearch numImages st.score st.index).2 false
          = false := by
        have := oa (scoreSearch numImages st.score st.index).2 (by omega)
        rw [this]
        exact hf
      have hnb := nb (by simpa using hfa)
      simp only [Int.toNat_ofNat] at hnb
      refine ⟨by omega, ?_⟩
      have := oc (scoreSearch numImages st.score st.index).2 (by omega)
      rw [this]
      exact hnb.2

theorem downlinkEntry_count (acceleration : List Shift) (kDistances : List (Option ℚ))
    (numImages : Nat) (pastAcc : Shift) (pastDist : Option ℚ) (h2 : 2 ≤ numImages) :
    (downlinkEntry acceleration kDistances numImages pastAcc pastDist).downlinkCount =
      (downlinkEntry acceleration kDistances numImages pastAcc pastDist).downlinked.count
        true := by
  show 2 = (((List.replicate numImages false).set 0 true).set (numImages - 1) true).count true
  have h0 : (List.replicate numImages false).count true = 0 := by
    rw [List.count_replicate]
    simp
  have g0 : (List.replicate numImages false).getD 0 false = false := by
    rw [List.getD_eq_getElem?_getD, List.getElem?_replicate]
    split <;> rfl
  have h1 : ((List.replicate numImages false).set 0 true).count true = 1 := by
    rw [count_set_true _ 0 (by rw [List.length_replicate]; omega) g0, h0]
  have g1 : ((List.replicate numImages false).set 0 true).getD (numImages - 1) false
      = false := by
    rw [getD_set_gen, if_neg (by omega), List.getD_eq_getElem?_getD,
      List.getElem?_replicate]
    split <;> rfl
  rw [count_set_true _ (numImages - 1)
    (by rw [List.length_set, List.length_replicate]; omega) g1, h1]

theorem downlinkPasses_countInv (numImages : Nat) (quota : Int) (n : Nat) :
    ∀ st st1, DownlinkCountInv numImages st →
      downlinkPasses numImages quota n st = Except.ok st1 →
      DownlinkCountInv numImages st1 := by
  induction n with
  | zero =>
    intro st st1 inv h
    cases h
    exact inv
  | succ n ih =>
    intro st st1 inv h
    rw [downlinkPasses_succ] at h
    by_cases hg : downlinkGuard quota st = true
    · rw [if_pos hg] at h
      cases ha : downlinkAttempt numImages st with
      | error e => rw [ha] at h; cases h
      | ok sa =>
        rw [ha] at h
        obtain ⟨ia, _, _, _⟩ := downlinkAttempt_inv numImages st sa inv.inv ha
        obtain ⟨_, ca, _⟩ := downlinkAttempt_count numImages st sa inv.inv.len_flags ha
        exact ih sa st1 ⟨ia, ca inv.count⟩ h
    · rw [if_neg hg] at h
      cases h
      exact inv

theorem downlinkWhile_overshoot (numImages : Nat) (quota : Int) (fuel : Nat) :
    ∀ st st1, DownlinkInv numImages st →
      downlinkWhile numImages quota fuel st = Except.ok st1 →
      st1.downlinkCount = st.downlinkCount ∨ (st1.downlinkCount : Int) ≤ quota + 2 := by
  induction fuel with
  | zero =>
    intro st st1 _ h
    cases h
  | succ fuel ih =>
    intro st st1 inv h
    unfold downlinkWhile at h
    by_cases hg : downlinkGuard quota st = true
    · rw [if_pos hg] at h
      have hlt := ((downlinkGuard_true quota st).1 hg).1
      cases ha : downlinkAttempt numImages st with
      | error e => rw [ha] at h; cases h
      | ok sa =>
        rw [ha] at h
        obtain ⟨ia, _, _, _⟩ := downlinkAttempt_inv numImages st sa inv ha
        obtain ⟨ca, _, _⟩ := downlinkAttempt_count numImages st sa inv.len_flags ha
        rcases ih sa st1 ia h with h1 | h1
        · right
          rw [h1]
          have := ca.2
          omega
        · exact Or.inr h1
    · rw [if_neg hg] at h
      cases h
      exact Or.inl rfl

/-- C35: with at least three frames, when `downlinkData` returns, the count of
transmitted frames is at most `max(2, quota + 2)`, and it is the number of frames in the
transmit set. -/
theorem downlinkData_overshoot (downlinkPercentage : Int) (acceleration : List Shift)
    (kDistances : List (Option ℚ)) (numImages : Nat) (pastAcc : Shift)
    (pastDist : Option ℚ) (h3 : 3 ≤ numImages) (st : DownlinkState)
    (h : downlinkData downlinkPercentage acceleration kDistances numImages pastAcc
      pastDist = Except.ok st) :
    (st.downlinkCount : Int) ≤ max 2 (images2Downlink numImages downlinkPercentage + 2) ∧
    st.downlinked.count true = st.downlinkCount := by
  have inv := downlinkEntry_inv acceleration kDistances numImages pastAcc pastDist
  unfold downlinkData at h
  constructor
  · rcases downlinkWhile_overshoot numImages _ 1001 _ st inv h with h1 | h1
    · have hc : (downlinkEntry acceleration kDistances numImages pastAcc
          pastDist).downlinkCount = 2 := rfl
      rw [h1, hc]
      exact le_max_left _ _
    · exact le_trans h1 (le_max_right _ _)
  · have cinv : DownlinkCountInv numImages
        (downlinkEntry acceleration kDistances numImages pastAcc pastDist) :=
      ⟨inv, downlinkEntry_count acceleration kDistances numImages pastAcc pastDist
        (by omega)⟩
    exact (downlinkPasses_countInv numImages _ 1001 _ st cinv
      (downlinkWhile_passes _ _ _ _ _ h).1).count.symm

/-- C36: in a state that the loop of `downlinkData` reaches and in which some interior
frame has a score above 0, the frame chosen by the attempt is not yet transmitted, the
attempt runs inside the arrays, transmits that frame, and the count and the transmit
set grow. -/
theorem downlinkAttempt_progress (downlinkPercentage : Int) (acceleration : List Shift)
    (kDistances : List (Option ℚ)) (numImages : Nat) (pastAcc : Shift)
    (pastDist : Option ℚ) (n : Nat) (st : DownlinkState)
    (hreach : downlinkPasses numImages (images2Downlink numImages downlinkPercentage) n
      (downlinkEntry acceleration kDistances numImages pastAcc pastDist) = Except.ok st)
    (hpos : ∃ j v, 1 ≤ j ∧ j + 2 ≤ numImages ∧ st.score.getD j none = some v ∧ 0 < v) :
    st.downlinked.getD (scoreSearch numImages st.score st.index).2 false = false ∧
    ∃ st1, downlinkAttempt numImages st = Except.ok st1 ∧
      st1.downlinked.getD (scoreSearch numImages st.score st.index).2 false = true ∧
      st.downlinkCount < st1.downlinkCount ∧
      st.downlinked.count true < st1.downlinked.count true := by
  have h3 : 3 ≤ numImages := by
    obtain ⟨j, _, h1, h2, _⟩ := hpos
    omega
  have cinv0 : DownlinkCountInv numImages
      (downlinkEntry acceleration kDistances numImages pastAcc pastDist) :=
    ⟨downlinkEntry_inv acceleration kDistances numImages pastAcc pastDist,
      downlinkEntry_count acceleration kDistances numImages pastAcc pastDist (by omega)⟩
  have cinv := downlinkPasses_countInv numImages _ n _ st cinv0 hreach
  obtain ⟨r1, r2, r3, r4, _⟩ := scoreSearch_some numImages st.score st.index hpos
  have hflag : st.downlinked.getD (scoreSearch numImages st.score st.index).2 false
      = false := by
    cases hb : st.downlinked.getD (scoreSearch numImages st.score st.index).2 false with
    | false => rfl
    | true =>
      have hz := cinv.inv.zeroed _ hb
      rw [r3] at hz
      have hz2 := Option.some.inj hz
      rw [hz2] at r4
      exact absurd r4 (lt_irrefl 0)
  obtain ⟨st1, h1⟩ := downlinkAttempt_total numImages st r1 r2
  obtain ⟨_, ce, hp⟩ := downlinkAttempt_count numImages st st1 cinv.inv.len_flags h1
  obtain ⟨p1, p2⟩ := hp hflag r1
  refine ⟨hflag, st1, h1, p2, p1, ?_⟩
  rw [← cinv.count, ← ce cinv.count]
  exact p1

/-- C33 (what the code does): the index an attempt of `downlinkData` uses.  When some
interior score is above 0 it is an interior index; when none is, it is the index the
attempt started with, and in the first attempt, where that is 0, the attempt reads
`downlinked[-1]`. -/
theorem downlinkAttempt_index (numImages : Nat) (st : DownlinkState) :
    ((∃ j v, 1 ≤ j ∧ j + 2 ≤ numImages ∧ st.score.getD j none = some v ∧ 0 < v) →
      1 ≤ (scoreSearch numImages st.score st.index).2 ∧
      (scoreSearch numImages st.score st.index).2 + 2 ≤ numImages) ∧
    ((∀ j, 1 ≤ j → j + 2 ≤ numImages → ∀ v, st.score.getD j none = some v → v ≤ 0) →
      (scoreSearch numImages st.score st.index).2 = st.index ∧
      (st.index = 0 →
        downlinkAttempt numImages st = Except.error DownlinkError.outOfBounds)) := by
  refine ⟨fun h => ?_, fun h => ?_⟩
  · obtain ⟨r1, r2, _⟩ := scoreSearch_some numImages st.score st.index h
    exact ⟨r1, r2⟩
  · have hs := scoreSearch_none numImages st.score st.index h
    refine ⟨by rw [hs], fun h0 => ?_⟩
    rw [h0] at hs
    unfold downlinkAttempt
    simp only [h0, hs]
    unfold downlinkIfNew
    simp

theorem accList_length (numImages : Nat) (shiftPrev : Shift) (shifts : List Shift) :
    (shifts.foldl
      (fun (st : (List Shift × Shift) × Nat) (shift : Shift) =>
        let acc :=
          if 0 < st.2 ∧ st.1.1.length < numImages - 2 then
            st.1.1 ++ [⟨dblSub st.1.2.x shift.x, dblSub st.1.2.y shift.y⟩]
          else st.1.1
        ((acc, shift), st.2 + 1))
      (([], shiftPrev), 0)).2 = shifts.length ∧
    (shifts.foldl
      (fun (st : (List Shift × Shift) × Nat) (shift : Shift) =>
        let acc :=
          if 0 < st.2 ∧ st.1.1.length < numImages - 2 then
            st.1.1 ++ [⟨dblSub st.1.2.x shift.x, dblSub st.1.2.y shift.y⟩]
          else st.1.1
        ((acc, shift), st.2 + 1))
      (([], shiftPrev), 0)).1.1.length = min (shifts.length - 1) (numImages - 2) := by
  induction shifts using List.reverseRecOn with
  | nil => exact ⟨rfl, by simp⟩
  | append_singleton l a ih =>
    obtain ⟨h1, h2⟩ := ih
    rw [List.foldl_append]
    simp only [List.foldl_cons, List.foldl_nil, List.length_append, List.length_singleton]
    generalize l.foldl
      (fun (st : (List Shift × Shift) × Nat) (shift : Shift) =>
        let acc :=
          if 0 < st.2 ∧ st.1.1.length < numImages - 2 then
            st.1.1 ++ [⟨dblSub st.1.2.x shift.x, dblSub st.1.2.y shift.y⟩]
          else st.1.1
        ((acc, shift), st.2 + 1))
      (([], shiftPrev), 0) = st at h1 h2 ⊢
    refine ⟨by rw [h1], ?_⟩
    by_cases hc : 0 < st.2 ∧ st.1.1.length < numImages - 2
    · rw [if_pos hc, List.length_append, List.length_singleton, h2]
      have := hc.1
      have := hc.2
      omega
    · rw [if_neg hc, h2]
      have : ¬ (0 < l.length ∧ min (l.length - 1) (numImages - 2) < numImages - 2) := by
        rw [← h2, ← h1]; exact hc
      omega

theorem foldl_set_getD_mem {α : Type} (f : Nat → α) (d : α) (i : Nat) (l : List Nat)
    (hi : i ∈ l) :
    ∀ sc : List α, i < sc.length →
      (l.foldl (fun (sc : List α) (i : Nat) => sc.set i (f i)) sc).getD i d = f i := by
  induction l with
  | nil => exact absurd hi (List.not_mem_nil i)
  | cons a l ih =>
    intro sc hlen
    rw [List.foldl_cons]
    by_cases hl : i ∈ l
    · exact ih hl _ (by rw [List.length_set]; exact hlen)
    · have ha : i = a := by
        rcases List.mem_cons.1 hi with h | h
        · exact h
        · exact absurd h hl
      rw [foldl_set_getD_other f d i l hl, getD_set_gen, if_pos ⟨ha, by rw [← ha]; exact hlen⟩,
        ha]

theorem downlinkEntry_interior_score (acceleration : List Shift)
    (kDistances : List (Option ℚ)) (numImages : Nat) (pastAcc : Shift)
    (pastDist : Option ℚ) (i : Nat) (h1 : 1 ≤ i) (h2 : i + 2 ≤ numImages) :
    (downlinkEntry acceleration kDistances numImages pastAcc pastDist).score.getD i none =
      frameScore acceleration kDistances pastAcc pastDist i := by
  show ((List.range' 1 (numImages - 2)).foldl
    (fun (score : List (Option ℚ)) (i : Nat) =>
      score.set i (frameScore acceleration kDistances pastAcc pastDist i))
    (((List.replicate numImages (none : Option ℚ)).set 0 (some 0)).set
      (numImages - 1) (some 0))).getD i none = _
  apply foldl_set_getD_mem
  · rw [List.mem_range'_1]; omega
  · rw [List.length_set, List.length_set, List.length_replicate]; omega

/-- C34 (what the code does): for `numImages ≥ 3` the frame loop of `SciAnalysis` hands
`numImages - 2` accelerations to `downlinkData`, at the indices `0 .. numImages - 3`; the
scoring loop reads the indices `1 .. numImages - 2`, so the score of the last interior
frame is computed from the memory after the array (`pastAcc`), not from an acceleration
that was computed. -/
theorem accList_read_past_end (numImages : Nat) (h3 : 3 ≤ numImages) (shifts : List Shift)
    (hs : shifts.length = numImages - 1) (shiftPrev : Shift)
    (kDistances : List (Option ℚ)) (pastAcc : Shift) (pastDist : Option ℚ) :
    (accList numImages shifts shiftPrev).length = numImages - 2 ∧
    numImages - 2 ∈ List.range' 1 (numImages - 2) ∧
    (downlinkEntry (accList numImages shifts shiftPrev) kDistances numImages pastAcc
        pastDist).score.getD (numImages - 2) none =
      dblAdd (dblMul (kDistances.getD (numImages - 2) pastDist) (some (1 / 2)))
        (dblMul (dblAdd pastAcc.x pastAcc.y) (some (1 / 2))) := by
  have hlen : (accList numImages shifts shiftPrev).length = numImages - 2 := by
    unfold accList
    rw [(accList_length numImages shiftPrev shifts).2, hs]
    omega
  refine ⟨hlen, by rw [List.mem_range'_1]; omega, ?_⟩
  rw [downlinkEntry_interior_score _ _ _ _ _ _ (by omega) (by omega)]
  unfold frameScore
  have e : (accList numImages shifts shiftPrev).getD (numImages - 2) pastAcc = pastAcc :=
    List.getD_eq_default _ _ (by rw [hlen])
  rw [e]

/-! ## Component labelling: the traces stay inside the grid -/

theorem validatePGM_zeroBorder (image : PGMImage) :
    ZeroBorder (validatePGM image).1 image.header.height image.header.width := by
  intro y x h
  rw [(validatePGM_bitmap image).2] at h
  split at h
  · rename_i hc
    omega
  · exact absurd rfl h

theorem searchDirection_small (dir : Nat) :
    -1 ≤ (SearchDirection.getD dir (0, 0)).1 ∧ (SearchDirection.getD dir (0, 0)).1 ≤ 1 ∧
    -1 ≤ (SearchDirection.getD dir (0, 0)).2 ∧ (SearchDirection.getD dir (0, 0)).2 ≤ 1 := by
  by_cases h : dir < 8
  · interval_cases dir <;> decide
  · have e : SearchDirection.getD dir (0, 0) = (0, 0) :=
      List.getD_eq_default _ _ (by simp [SearchDirection]; omega)
    rw [e]
    decide

theorem tracerLoop_inside (bitmap : List (List Nat)) (height width : Nat)
    (hz : ZeroBorder bitmap height width) (n : Nat) :
    ∀ s : TraceState, inInterior height width s.cy s.cx = true →
      tracerLoopInside bitmap height width n s = true ∧
      inInterior height width (tracerLoop bitmap n s).cy (tracerLoop bitmap n s).cx = true := by
  induction n with
  | zero =>
    intro s hs
    exact ⟨rfl, hs⟩
  | succ n ih =>
    intro s hs
    have hs2 : 1 ≤ s.cy ∧ s.cy + 1 < height ∧ 1 ≤ s.cx ∧ s.cx + 1 < width := by
      simpa [inInterior] using hs
    obtain ⟨d1, d2, d3, d4⟩ := searchDirection_small s.tracingdirection
    have hg : inGrid height width ((s.cy : Int) + (SearchDirection.getD s.tracingdirection
        (0, 0)).1) ((s.cx : Int) + (SearchDirection.getD s.tracingdirection (0, 0)).2)
        = true := by
      unfold inGrid
      rw [decide_eq_true_iff]
      omega
    unfold tracerLoopInside tracerLoop
    simp only [hs, hg, Bool.true_and]
    by_cases hw : rowsGet bitmap
        ((s.cy : Int) + (SearchDirection.getD s.tracingdirection (0, 0)).1).toNat
        ((s.cx : Int) + (SearchDirection.getD s.tracingdirection (0, 0)).2).toNat = 0
    · rw [if_pos hw, if_pos hw]
      exact ih _ hs
    · rw [if_neg hw, if_neg hw]
      have := hz _ _ hw
      have hi : inInterior height width
          ((s.cy : Int) + (SearchDirection.getD s.tracingdirection (0, 0)).1).toNat
          ((s.cx : Int) + (SearchDirection.getD s.tracingdirection (0, 0)).2).toNat
          = true := by
        unfold inInterior
        rw [decide_eq_true_iff]
        exact this
      exact ⟨hi, hi⟩

theorem contourLoop_inside (bitmap : List (List Nat)) (height width : Nat)
    (hz : ZeroBorder bitmap height width) (labelindex : Int) (sy sx fy fx : Nat)
    (fuel : Nat) :
    ∀ (s : TraceState) (flag : Bool), inInterior height width s.cy s.cx = true →
      contourLoopInside bitmap height width labelindex sy sx fy fx fuel s flag = true := by
  induction fuel with
  | zero => intro s flag _; rfl
  | succ fuel ih =>
    intro s flag hs
    have hs2 : 1 ≤ s.cy ∧ s.cy + 1 < height ∧ 1 ≤ s.cx ∧ s.cx + 1 < width := by
      simpa [inInterior] using hs
    have hg : inGrid height width (s.cy : Int) (s.cx : Int) = true := by
      unfold inGrid
      rw [decide_eq_true_iff]
      omega
    obtain ⟨t1, t2⟩ := tracerLoop_inside bitmap height width hz 7
      { s with tracingdirection := (s.tracingdirection + 6) % 8
               labelmap := setLabel s.labelmap s.cy s.cx labelindex } hs
    unfold contourLoopInside
    simp only [hg, t1, Bool.true_and]
    have t3 : inInterior height width
        (Tracer bitmap { s with tracingdirection := (s.tracingdirection + 6) % 8
                                labelmap := setLabel s.labelmap s.cy s.cx labelindex }).cy
        (Tracer bitmap { s with tracingdirection := (s.tracingdirection + 6) % 8
                                labelmap := setLabel s.labelmap s.cy s.cx labelindex }).cx
        = true := t2
    split
    · exact ih _ _ t3
    · split
      · split
        · rfl
        · exact ih _ _ t3
      · exact ih _ _ t3

theorem contourTracing_inside (bitmap : List (List Nat)) (height width : Nat)
    (hz : ZeroBorder bitmap height width) (labelmap : List (List Int))
    (fuel cy cx : Nat) (labelindex : Int) (dir : Nat)
    (hs : inInterior height width cy cx = true) :
    ContourTracingInside bitmap height width labelmap fuel cy cx labelindex dir = true := by
  obtain ⟨t1, t2⟩ := tracerLoop_inside bitmap height width hz 7 ⟨labelmap, cy, cx, dir⟩ hs
  unfold ContourTracingInside
  simp only [t1, Bool.true_and]
  split
  · exact contourLoop_inside bitmap height width hz labelindex cy cx _ _ fuel _ false t2
  · rfl

theorem labelPixel_inside (bitmap : List (List Nat)) (height width : Nat)
    (hz : ZeroBorder bitmap height width) (fuel cy cx : Nat) (st : ScanState)
    (hcy : 1 ≤ cy ∧ cy + 1 < height) (hcx : 1 ≤ cx ∧ cx + 1 < width)
    (hprev : st.labelindex ≠ 0 → 2 ≤ cx) :
    labelPixelInside bitmap height width fuel cy st cx = true := by
  have hi : inInterior height width cy cx = true := by
    unfold inInterior
    rw [decide_eq_true_iff]
    exact ⟨hcy.1, hcy.2, hcx.1, hcx.2⟩
  unfold labelPixelInside
  split
  · split
    · rfl
    · split
      · exact contourTracing_inside bitmap height width hz _ fuel cy cx _ 0 hi
      · rfl
  · split
    · rename_i hl
      split
      · have h2 := hprev hl
        have hi2 : inInterior height width cy (cx - 1) = true := by
          unfold inInterior
          rw [decide_eq_true_iff]
          exact ⟨hcy.1, hcy.2, by omega, by omega⟩
        rw [contourTracing_inside bitmap height width hz _ fuel cy (cx - 1) _ 1 hi2]
        simp only [Bool.and_true, decide_eq_true_eq]
        omega
      · rfl
    · rfl

theorem scanRow_inside (bitmap : List (List Nat)) (height width : Nat)
    (hz : ZeroBorder bitmap height width) (fuel cy : Nat)
    (hcy : 1 ≤ cy ∧ cy + 1 < height) (n : Nat) :
    ∀ (a : Nat) (st : ScanState), 1 ≤ a → a + n < width + 1 - 1 →
      (st.labelindex ≠ 0 → 2 ≤ a) →
      scanRowInside bitmap height width fuel cy (List.range' a n) st = true := by
  induction n with
  | zero =>
    intro a st _ _ _
    rfl
  | succ n ih =>
    intro a st ha hn hprev
    rw [List.range'_succ]
    unfold scanRowInside
    rw [labelPixel_inside bitmap height width hz fuel cy a st hcy ⟨ha, by omega⟩ hprev,
      Bool.true_and]
    cases hp : labelPixel bitmap fuel cy st a with
    | error e => rfl
    | ok st1 =>
      simp only
      exact ih (a + 1) st1 (by omega) (by omega) (fun _ => by omega)

theorem scanRows_inside (bitmap : List (List Nat)) (height width : Nat)
    (hz : ZeroBorder bitmap height width) (fuel : Nat) (n : Nat) :
    ∀ (a : Nat) (st : ScanState), 1 ≤ a → a + n < height + 1 - 1 →
      scanRowsInside bitmap height width fuel (List.range' a n) st = true := by
  induction n with
  | zero =>
    intro a st _ _
    rfl
  | succ n ih =>
    intro a st ha hn
    rw [List.range'_succ]
    unfold scanRowsInside
    have hrow : scanRowInside bitmap height width fuel a (List.range' 1 (width - 2))
        { st with labelindex := 0 } = true := by
      by_cases hw : width - 2 = 0
      · rw [hw]
        rfl
      · exact scanRow_inside bitmap height width hz fuel a ⟨ha, by omega⟩ (width - 2) 1 _
          le_rfl (by omega) (fun h => absurd rfl h)
    rw [hrow, Bool.true_and]
    cases hp : scanRow bitmap fuel a (List.range' 1 (width - 2)) { st with labelindex := 0 } with
    | error e => rfl
    | ok st1 =>
      simp only
      exact ih (a + 1) st1 (by omega) (by omega)

/-- C32: during `ConnectedComponentLabeling`, every position that `Tracer` and
`ContourTracing` read or write is a position of the grid, and the traced pixel is always
in the interior: the border of the bitmap is 0, and a trace moves only to a pixel that is
not 0. -/
theorem ccl_tracing_inside (image : PGMImage) :
    tracingInside image = true ∧
    ZeroBorder (validatePGM image).1 image.header.height image.header.width := by
  refine ⟨?_, validatePGM_zeroBorder image⟩
  unfold tracingInside
  by_cases hh : image.header.height - 2 = 0
  · rw [hh]
    rfl
  · exact scanRows_inside _ _ _ (validatePGM_zeroBorder image) _ _ 1 _ le_rfl (by omega)

/-- The check is not idle: a trace started on the border of a grid whose border is not
kept at 0 is reported as leaving the interior. -/
theorem contourTracingInside_border :
    ContourTracingInside [[1, 1], [1, 1]] 2 2 [[0, 0], [0, 0]] 10 0 0 1 0 = false := by
  decide

/-! ## Component labelling: termination of `ContourTracing` -/

theorem tracerLoop_white (bitmap : List (List Nat)) (n : Nat) :
    ∀ s : TraceState, s.tracingdirection < 8 →
      (∀ i, i < n → pixelAt bitmap (neighbour s.cy s.cx ((s.tracingdirection + i) % 8)) = 0) →
      (tracerLoop bitmap n s).ctrl = (s.cy, s.cx, (s.tracingdirection + n) % 8) := by
  induction n with
  | zero =>
    intro s hd _
    show (s.cy, s.cx, s.tracingdirection) = _
    rw [Nat.add_zero, Nat.mod_eq_of_lt hd]
  | succ n ih =>
    intro s hd hw
    have h0 := hw 0 (Nat.succ_pos n)
    rw [Nat.add_zero, Nat.mod_eq_of_lt hd] at h0
    unfold tracerLoop
    have h0b : rowsGet bitmap
        ((s.cy : Int) + (SearchDirection.getD s.tracingdirection (0, 0)).1).toNat
        ((s.cx : Int) + (SearchDirection.getD s.tracingdirection (0, 0)).2).toNat = 0 := h0
    simp only [h0b, ↓reduceIte]
    rw [ih _ (Nat.mod_lt _ (by decide)) (fun i hi => by
      have := hw (i + 1) (by omega)
      have e : ((s.tracingdirection + 1) % 8 + i) % 8 = (s.tracingdirection + (i + 1)) % 8 := by
        omega
      show pixelAt bitmap (neighbour s.cy s.cx (((s.tracingdirection + 1) % 8 + i) % 8)) = 0
      rw [e]
      exact this)]
    show (s.cy, s.cx, ((s.tracingdirection + 1) % 8 + n) % 8) = _
    have e : ((s.tracingdirection + 1) % 8 + n) % 8 = (s.tracingdirection + (n + 1)) % 8 := by
      omega
    rw [e]

theorem tracerLoop_found (bitmap : List (List Nat)) (n : Nat) :
    ∀ (s : TraceState) (k : Nat), s.tracingdirection < 8 → k < n →
      (∀ i, i < k → pixelAt bitmap (neighbour s.cy s.cx ((s.tracingdirection + i) % 8)) = 0) →
      pixelAt bitmap (neighbour s.cy s.cx ((s.tracingdirection + k) % 8)) ≠ 0 →
      (tracerLoop bitmap n s).ctrl =
        ((neighbour s.cy s.cx ((s.tracingdirection + k) % 8)).1,
          (neighbour s.cy s.cx ((s.tracingdirection + k) % 8)).2,
          (s.tracingdirection + k) % 8) := by
  induction n with
  | zero =>
    intro s k _ hk
    omega
  | succ n ih =>
    intro s k hd hk hw hf
    cases k with
    | zero =>
      simp only [Nat.add_zero, Nat.mod_eq_of_lt hd] at hf ⊢
      unfold tracerLoop
      have hfb : ¬ rowsGet bitmap
          ((s.cy : Int) + (SearchDirection.getD s.tracingdirection (0, 0)).1).toNat
          ((s.cx : Int) + (SearchDirection.getD s.tracingdirection (0, 0)).2).toNat = 0 := hf
      simp only [hfb, ↓reduceIte]
      rfl
    | succ k =>
      unfold tracerLoop
      have h0 := hw 0 (Nat.succ_pos k)
      rw [Nat.add_zero, Nat.mod_eq_of_lt hd] at h0
      have h0b : rowsGet bitmap
          ((s.cy : Int) + (SearchDirection.getD s.tracingdirection (0, 0)).1).toNat
          ((s.cx : Int) + (SearchDirection.getD s.tracingdirection (0, 0)).2).toNat = 0 := h0
      simp only [h0b, ↓reduceIte]
      have e : ∀ i, ((s.tracingdirection + 1) % 8 + i) % 8 =
          (s.tracingdirection + (i + 1)) % 8 := fun i => by omega
      refine (ih _ k (Nat.mod_lt _ (by decide)) (by omega)
        (fun i hi => ?_) ?_).trans ?_
      · show pixelAt bitmap (neighbour s.cy s.cx (((s.tracingdirection + 1) % 8 + i) % 8)) = 0
        rw [e]
        exact hw (i + 1) (by omega)
      · show pixelAt bitmap (neighbour s.cy s.cx (((s.tracingdirection + 1) % 8 + k) % 8)) ≠ 0
        rw [e]
        exact hf
      · show ((neighbour s.cy s.cx (((s.tracingdirection + 1) % 8 + k) % 8)).1,
          (neighbour s.cy s.cx (((s.tracingdirection + 1) % 8 + k) % 8)).2,
          ((s.tracingdirection + 1) % 8 + k) % 8) = _
        rw [e]

theorem firstHit_le (bitmap : List (List Nat)) (cy cx : Nat) (n : Nat) :
    ∀ dir, firstHit bitmap cy cx dir n ≤ n := by
  induction n with
  | zero => intro dir; exact le_refl 0
  | succ n ih =>
    intro dir
    unfold firstHit
    split
    · exact Nat.succ_le_succ (ih _)
    · exact Nat.zero_le _

theorem firstHit_white (bitmap : List (List Nat)) (cy cx : Nat) (n : Nat) :
    ∀ dir i, i < firstHit bitmap cy cx dir n →
      pixelAt bitmap (neighbour cy cx ((dir + i) % 8)) = 0 := by
  induction n with
  | zero =>
    intro dir i hi
    exact absurd hi (Nat.not_lt_zero i)
  | succ n ih =>
    intro dir i hi
    unfold firstHit at hi
    split at hi
    · rename_i h0
      cases i with
      | zero => exact h0
      | succ i =>
        have := ih (dir + 1) i (by omega)
        rw [show dir + 1 + i = dir + (i + 1) by omega] at this
        exact this
    · omega

theorem firstHit_fg (bitmap : List (List Nat)) (cy cx : Nat) (n : Nat) :
    ∀ dir, firstHit bitmap cy cx dir n < n →
      pixelAt bitmap (neighbour cy cx ((dir + firstHit bitmap cy cx dir n) % 8)) ≠ 0 := by
  induction n with
  | zero =>
    intro dir h
    exact absurd h (Nat.not_lt_zero _)
  | succ n ih =>
    intro dir h
    unfold firstHit at h ⊢
    split
    · rename_i h0
      rw [if_pos h0] at h
      have := ih (dir + 1) (by omega)
      rw [show dir + 1 + firstHit bitmap cy cx (dir + 1) n =
        dir + (firstHit bitmap cy cx (dir + 1) n + 1) by omega] at this
      exact this
    · rename_i h0
      exact h0

/-- The pixel and direction that `Tracer` returns, in terms of `firstHit`. -/
theorem tracer_ctrl (bitmap : List (List Nat)) (s : TraceState)
    (hd : s.tracingdirection < 8) :
    (Tracer bitmap s).ctrl = tracerCtrl bitmap s.cy s.cx s.tracingdirection := by
  unfold Tracer tracerCtrl
  by_cases h : firstHit bitmap s.cy s.cx s.tracingdirection 7 < 7
  · simp only [if_pos h]
    exact tracerLoop_found bitmap 7 s _ hd h
      (fun i hi => firstHit_white bitmap s.cy s.cx 7 _ i hi)
      (firstHit_fg bitmap s.cy s.cx 7 _ h)
  · simp only [if_neg h]
    have e : firstHit bitmap s.cy s.cx s.tracingdirection 7 = 7 :=
      Nat.le_antisymm (firstHit_le bitmap s.cy s.cx 7 _) (Nat.le_of_not_lt h)
    exact tracerLoop_white bitmap 7 s hd (fun i hi =>
      firstHit_white bitmap s.cy s.cx 7 _ i (by rw [e]; exact hi))

theorem tracedState_succ (bitmap : List (List Nat)) (labelindex : Int) (s : TraceState)
    (n : Nat) :
    tracedState bitmap labelindex s (n + 1) =
      tracedState bitmap labelindex (traceStep bitmap labelindex s) n :=
  Function.iterate_succ_apply _ _ _

theorem contourLoop_succ (bitmap : List (List Nat)) (labelindex : Int) (sy sx fy fx : Nat)
    (hne : ¬ (fx = sx ∧ fy = sy)) (fuel : Nat) (s : TraceState) (flag : Bool) :
    contourLoop bitmap labelindex sy sx fy fx (fuel + 1) s flag =
      if flag = true ∧ (traceStep bitmap labelindex s).cx = fx ∧
          (traceStep bitmap labelindex s).cy = fy then
        some (traceStep bitmap labelindex s).labelmap
      else contourLoop bitmap labelindex sy sx fy fx fuel (traceStep bitmap labelindex s)
        (decide ((traceStep bitmap labelindex s).cx = sx ∧
          (traceStep bitmap labelindex s).cy = sy)) := by
  rw [contourLoop]
  show (if (traceStep bitmap labelindex s).cx = sx ∧ (traceStep bitmap labelindex s).cy = sy
      then contourLoop bitmap labelindex sy sx fy fx fuel (traceStep bitmap labelindex s) true
      else if flag = true then
        (if (traceStep bitmap labelindex s).cx = fx ∧ (traceStep bitmap labelindex s).cy = fy
          then some (traceStep bitmap labelindex s).labelmap
          else contourLoop bitmap labelindex sy sx fy fx fuel (traceStep bitmap labelindex s)
            false)
      else contourLoop bitmap labelindex sy sx fy fx fuel (traceStep bitmap labelindex s)
        flag) = _
  by_cases hS : (traceStep bitmap labelindex s).cx = sx ∧ (traceStep bitmap labelindex s).cy = sy
  · have hF : ¬ ((traceStep bitmap labelindex s).cx = fx ∧
        (traceStep bitmap labelindex s).cy = fy) := by
      intro hF
      exact hne ⟨hF.1.symm.trans hS.1, hF.2.symm.trans hS.2⟩
    rw [if_pos hS, if_neg (fun h => hF h.2), decide_eq_true hS]
  · rw [if_neg hS, decide_eq_false hS]
    cases flag with
    | true =>
      by_cases hF : (traceStep bitmap labelindex s).cx = fx ∧
          (traceStep bitmap labelindex s).cy = fy
      · rw [if_pos rfl, if_pos hF, if_pos ⟨rfl, hF⟩]
      · rw [if_pos rfl, if_neg hF, if_neg (fun h => hF h.2)]
    | false =>
      rw [if_neg (by decide), if_neg (fun h => absurd h.1 (by decide))]

theorem returnedAt_succ (bitmap : List (List Nat)) (labelindex : Int) (sy sx fy fx : Nat)
    (s : TraceState) (flag : Bool) (j : Nat) :
    ReturnedAt bitmap labelindex sy sx fy fx s flag (j + 1) ↔
      ReturnedAt bitmap labelindex sy sx fy fx (traceStep bitmap labelindex s)
        (decide ((traceStep bitmap labelindex s).cx = sx ∧
          (traceStep bitmap labelindex s).cy = sy)) j := by
  unfold ReturnedAt
  rw [if_neg (Nat.succ_ne_zero j), tracedState_succ, tracedState_succ bitmap labelindex s (j + 1)]
  cases j with
  | zero =>
    rw [if_pos rfl]
    simp [tracedState]
  | succ j =>
    rw [if_neg (Nat.succ_ne_zero j)]

/-- The loop of `ContourTracing` returns a label map exactly when, within the fuel, there
is a first pass before which the trace is back at the start and which reaches the pixel
`(fy, fx)`; the label map is the one after that pass. -/
theorem contourLoop_some_iff (bitmap : List (List Nat)) (labelindex : Int)
    (sy sx fy fx : Nat) (hne : ¬ (fx = sx ∧ fy = sy)) (fuel : Nat) :
    ∀ (s : TraceState) (flag : Bool) (lm : List (List Int)),
      contourLoop bitmap labelindex sy sx fy fx fuel s flag = some lm ↔
        ∃ j, j < fuel ∧ ReturnedAt bitmap labelindex sy sx fy fx s flag j ∧
          (∀ i, i < j → ¬ ReturnedAt bitmap labelindex sy sx fy fx s flag i) ∧
          lm = (tracedState bitmap labelindex s (j + 1)).labelmap := by
  induction fuel with
  | zero =>
    intro s flag lm
    rw [contourLoop]
    constructor
    · intro h
      cases h
    · rintro ⟨j, hj, _⟩
      exact absurd hj (Nat.not_lt_zero j)
  | succ fuel ih =>
    intro s flag lm
    rw [contourLoop_succ bitmap labelindex sy sx fy fx hne]
    have h0 : ReturnedAt bitmap labelindex sy sx fy fx s flag 0 ↔
        (flag = true ∧ (traceStep bitmap labelindex s).cx = fx ∧
          (traceStep bitmap labelindex s).cy = fy) := by
      unfold ReturnedAt
      rw [if_pos rfl]
      rfl
    by_cases hstop : flag = true ∧ (traceStep bitmap labelindex s).cx = fx ∧
        (traceStep bitmap labelindex s).cy = fy
    · rw [if_pos hstop]
      constructor
      · intro h
        refine ⟨0, Nat.succ_pos _, h0.2 hstop, fun i hi => absurd hi (Nat.not_lt_zero i), ?_⟩
        exact (Option.some.inj h).symm
      · rintro ⟨j, _, hr, hfirst, hlm⟩
        cases j with
        | zero => rw [hlm]; rfl
        | succ j => exact absurd (h0.2 hstop) (hfirst 0 (Nat.succ_pos j))
    · rw [if_neg hstop, ih]
      constructor
      · rintro ⟨j, hj, hr, hfirst, hlm⟩
        refine ⟨j + 1, Nat.succ_lt_succ hj,
          (returnedAt_succ bitmap labelindex sy sx fy fx s flag j).2 hr, ?_, ?_⟩
        · intro i hi
          cases i with
          | zero => exact fun h => hstop (h0.1 h)
          | succ i =>
            intro h
            exact hfirst i (by omega)
              ((returnedAt_succ bitmap labelindex sy sx fy fx s flag i).1 h)
        · rw [hlm, tracedState_succ bitmap labelindex s (j + 1)]
      · rintro ⟨j, hj, hr, hfirst, hlm⟩
        cases j with
        | zero => exact absurd (h0.1 hr) hstop
        | succ j =>
          refine ⟨j, by omega,
            (returnedAt_succ bitmap labelindex sy sx fy fx s flag j).1 hr, ?_, ?_⟩
          · intro i hi h
            exact hfirst (i + 1) (by omega)
              ((returnedAt_succ bitmap labelindex sy sx fy fx s flag i).2 h)
          · rw [hlm, tracedState_succ bitmap labelindex s (j + 1)]

theorem traceStep_ctrl (bitmap : List (List Nat)) (labelindex : Int) (s : TraceState) :
    (traceStep bitmap labelindex s).ctrl = ctrlStep bitmap s.ctrl := by
  unfold traceStep
  rw [tracer_ctrl bitmap _ (Nat.mod_lt _ (by decide))]
  rfl

theorem tracedState_ctrl (bitmap : List (List Nat)) (labelindex : Int) (n : Nat) :
    ∀ s : TraceState,
      (tracedState bitmap labelindex s n).ctrl = (ctrlStep bitmap)^[n] s.ctrl := by
  induction n with
  | zero => intro s; rfl
  | succ n ih =>
    intro s
    rw [tracedState_succ, ih, traceStep_ctrl, Function.iterate_succ_apply]

theorem neighbour_int (y x d : Nat) (hy : 1 ≤ y) (hx : 1 ≤ x) :
    ((neighbour y x d).1 : Int) = (y : Int) + (SearchDirection.getD d (0, 0)).1 ∧
    ((neighbour y x d).2 : Int) = (x : Int) + (SearchDirection.getD d (0, 0)).2 := by
  have h := searchDirection_small d
  unfold neighbour
  constructor
  · exact Int.toNat_of_nonneg (by omega)
  · exact Int.toNat_of_nonneg (by omega)

theorem neighbour_comp (y x d e f : Nat) (hy : 1 ≤ y) (hx : 1 ≤ x)
    (hy2 : 1 ≤ (neighbour y x d).1) (hx2 : 1 ≤ (neighbour y x d).2)
    (h1 : (SearchDirection.getD d (0, 0)).1 + (SearchDirection.getD e (0, 0)).1 =
      (SearchDirection.getD f (0, 0)).1)
    (h2 : (SearchDirection.getD d (0, 0)).2 + (SearchDirection.getD e (0, 0)).2 =
      (SearchDirection.getD f (0, 0)).2) :
    neighbour (neighbour y x d).1 (neighbour y x d).2 e = neighbour y x f := by
  have a := neighbour_int y x d hy hx
  have b := neighbour_int (neighbour y x d).1 (neighbour y x d).2 e hy2 hx2
  have c := neighbour_int y x f hy hx
  apply Prod.ext
  · have : ((neighbour (neighbour y x d).1 (neighbour y x d).2 e).1 : Int) =
        ((neighbour y x f).1 : Int) := by
      rw [b.1, a.1, c.1, ← h1]; ring
    exact Int.ofNat_inj.1 this
  · have : ((neighbour (neighbour y x d).1 (neighbour y x d).2 e).2 : Int) =
        ((neighbour y x f).2 : Int) := by
      rw [b.2, a.2, c.2, ← h2]; ring
    exact Int.ofNat_inj.1 this

theorem neighbour_back (y x d : Nat) (hd : d < 8) (hy : 1 ≤ y) (hx : 1 ≤ x)
    (hy2 : 1 ≤ (neighbour y x d).1) (hx2 : 1 ≤ (neighbour y x d).2) :
    neighbour (neighbour y x d).1 (neighbour y x d).2 ((d + 4) % 8) = (y, x) := by
  have a := neighbour_int y x d hy hx
  have b := neighbour_int (neighbour y x d).1 (neighbour y x d).2 ((d + 4) % 8) hy2 hx2
  have h1 : (SearchDirection.getD d (0, 0)).1 +
      (SearchDirection.getD ((d + 4) % 8) (0, 0)).1 = 0 := by
    interval_cases d <;> decide
  have h2 : (SearchDirection.getD d (0, 0)).2 +
      (SearchDirection.getD ((d + 4) % 8) (0, 0)).2 = 0 := by
    interval_cases d <;> decide
  apply Prod.ext
  · have : ((neighbour (neighbour y x d).1 (neighbour y x d).2 ((d + 4) % 8)).1 : Int) =
        (y : Int) := by
      rw [b.1, a.1]; linarith
    exact Int.ofNat_inj.1 this
  · have : ((neighbour (neighbour y x d).1 (neighbour y x d).2 ((d + 4) % 8)).2 : Int) =
        (x : Int) := by
      rw [b.2, a.2]; linarith
    exact Int.ofNat_inj.1 this

theorem neighbour_ne (y x d : Nat) (hd : d < 8) (hy : 1 ≤ y) (hx : 1 ≤ x) :
    ¬ ((neighbour y x d).2 = x ∧ (neighbour y x d).1 = y) := by
  have a := neighbour_int y x d hy hx
  rintro ⟨h2, h1⟩
  rw [h1] at a
  rw [h2] at a
  have h : ¬ ((SearchDirection.getD d (0, 0)).1 = 0 ∧
      (SearchDirection.getD d (0, 0)).2 = 0) := by
    interval_cases d <;> decide
  exact h ⟨by linarith [a.1], by linarith [a.2]⟩

theorem searchDirection_odd (d : Nat) (hd : d < 8) (hp : d % 2 = 1) :
    (SearchDirection.getD d (0, 0)).1 + (SearchDirection.getD ((d + 5) % 8) (0, 0)).1 =
      (SearchDirection.getD ((d + 7) % 8) (0, 0)).1 ∧
    (SearchDirection.getD d (0, 0)).2 + (SearchDirection.getD ((d + 5) % 8) (0, 0)).2 =
      (SearchDirection.getD ((d + 7) % 8) (0, 0)).2 := by
  interval_cases d <;> first | decide | exact absurd hp (by decide)

theorem searchDirection_even (d : Nat) (hd : d < 8) (hp : d % 2 = 0) :
    ((SearchDirection.getD d (0, 0)).1 + (SearchDirection.getD ((d + 5) % 8) (0, 0)).1 =
      (SearchDirection.getD ((d + 6) % 8) (0, 0)).1 ∧
    (SearchDirection.getD d (0, 0)).2 + (SearchDirection.getD ((d + 5) % 8) (0, 0)).2 =
      (SearchDirection.getD ((d + 6) % 8) (0, 0)).2) ∧
    ((SearchDirection.getD d (0, 0)).1 + (SearchDirection.getD ((d + 6) % 8) (0, 0)).1 =
      (SearchDirection.getD ((d + 7) % 8) (0, 0)).1 ∧
    (SearchDirection.getD d (0, 0)).2 + (SearchDirection.getD ((d + 6) % 8) (0, 0)).2 =
      (SearchDirection.getD ((d + 7) % 8) (0, 0)).2) := by
  interval_cases d <;> first | decide | exact absurd hp (by decide)

/-- A move from the foreground pixel `(y, x)` in the direction `d` to a foreground pixel
arrives there in the sense of `Arrived`, when the neighbour of `(y, x)` one direction before
`d` is background and, for an even `d`, the neighbour two directions before `d` as well. -/
theorem arrived_of_move (bitmap : List (List Nat)) (height width : Nat)
    (hz : ZeroBorder bitmap height width) (y x d : Nat) (hd : d < 8)
    (hp : pixelAt bitmap (y, x) ≠ 0)
    (hq : pixelAt bitmap (neighbour y x d) ≠ 0)
    (hw1 : pixelAt bitmap (neighbour y x ((d + 7) % 8)) = 0)
    (hw2 : d % 2 = 0 → pixelAt bitmap (neighbour y x ((d + 6) % 8)) = 0) :
    Arrived bitmap ((neighbour y x d).1, (neighbour y x d).2, d) := by
  have hin := hz y x hp
  have hin2 := hz (neighbour y x d).1 (neighbour y x d).2 hq
  have hy : 1 ≤ y := hin.1
  have hx : 1 ≤ x := hin.2.2.1
  have hy2 : 1 ≤ (neighbour y x d).1 := hin2.1
  have hx2 : 1 ≤ (neighbour y x d).2 := hin2.2.2.1
  refine ⟨hd, hq, ?_, ?_, ?_⟩
  · show pixelAt bitmap (neighbour (neighbour y x d).1 (neighbour y x d).2 ((d + 4) % 8)) ≠ 0
    rw [neighbour_back y x d hd hy hx hy2 hx2]
    exact hp
  · show pixelAt bitmap (neighbour (neighbour y x d).1 (neighbour y x d).2 ((d + 5) % 8)) = 0
    rcases Nat.mod_two_eq_zero_or_one d with he | ho
    · have g := (searchDirection_even d hd he).1
      rw [neighbour_comp y x d ((d + 5) % 8) ((d + 6) % 8) hy hx hy2 hx2 g.1 g.2]
      exact hw2 he
    · have g := searchDirection_odd d hd ho
      rw [neighbour_comp y x d ((d + 5) % 8) ((d + 7) % 8) hy hx hy2 hx2 g.1 g.2]
      exact hw1
  · intro he
    show pixelAt bitmap (neighbour (neighbour y x d).1 (neighbour y x d).2 ((d + 6) % 8)) = 0
    have g := (searchDirection_even d hd he).2
    rw [neighbour_comp y x d ((d + 6) % 8) ((d + 7) % 8) hy hx hy2 hx2 g.1 g.2]
    exact hw1

/-- One pass from a pixel arrived at: `Tracer` moves, by `k < 7` background probes, to a
foreground neighbour. -/
theorem ctrlStep_spec (bitmap : List (List Nat)) (c : Nat × Nat × Nat)
    (ha : Arrived bitmap c) :
    ∃ k, k < 7 ∧
      ctrlStep bitmap c = ((neighbour c.1 c.2.1 ((c.2.2 + 6 + k) % 8)).1,
        (neighbour c.1 c.2.1 ((c.2.2 + 6 + k) % 8)).2, (c.2.2 + 6 + k) % 8) ∧
      (∀ i, i < k → pixelAt bitmap (neighbour c.1 c.2.1 ((c.2.2 + 6 + i) % 8)) = 0) ∧
      pixelAt bitmap (neighbour c.1 c.2.1 ((c.2.2 + 6 + k) % 8)) ≠ 0 := by
  obtain ⟨hd, _, hprev, _, _⟩ := ha
  have e : ∀ i, ((c.2.2 + 6) % 8 + i) % 8 = (c.2.2 + 6 + i) % 8 := fun i => by omega
  have hw := firstHit_white bitmap c.1 c.2.1 7 ((c.2.2 + 6) % 8)
  have hk : firstHit bitmap c.1 c.2.1 ((c.2.2 + 6) % 8) 7 < 7 := by
    by_contra hk
    have h7 : firstHit bitmap c.1 c.2.1 ((c.2.2 + 6) % 8) 7 = 7 :=
      Nat.le_antisymm (firstHit_le bitmap c.1 c.2.1 7 _) (Nat.le_of_not_lt hk)
    have := hw 6 (by rw [h7]; decide)
    rw [e, show (c.2.2 + 6 + 6) % 8 = (c.2.2 + 4) % 8 by omega] at this
    exact hprev this
  refine ⟨firstHit bitmap c.1 c.2.1 ((c.2.2 + 6) % 8) 7, hk, ?_, ?_, ?_⟩
  · unfold ctrlStep tracerCtrl
    simp only [if_pos hk, e]
  · intro i hi
    rw [← e]
    exact hw i hi
  · rw [← e]
    exact firstHit_fg bitmap c.1 c.2.1 7 _ hk

theorem ctrlStep_arrived (bitmap : List (List Nat)) (height width : Nat)
    (hz : ZeroBorder bitmap height width) (c : Nat × Nat × Nat) (ha : Arrived bitmap c) :
    Arrived bitmap (ctrlStep bitmap c) := by
  obtain ⟨k, hk, hstep, hwhite, hfg⟩ := ctrlStep_spec bitmap c ha
  obtain ⟨hd, hp, hprev, hw5, hw6⟩ := ha
  rw [hstep]
  have hk0 : k = 0 → c.2.2 % 2 = 1 := by
    intro h0
    rcases Nat.mod_two_eq_zero_or_one c.2.2 with he | ho
    · rw [h0] at hfg
      exact absurd (hw6 he) hfg
    · exact ho
  apply arrived_of_move bitmap height width hz c.1 c.2.1 _ (Nat.mod_lt _ (by decide)) hp hfg
  · by_cases h0 : k = 0
    · rw [show ((c.2.2 + 6 + k) % 8 + 7) % 8 = (c.2.2 + 5) % 8 by omega]
      exact hw5
    · rw [show ((c.2.2 + 6 + k) % 8 + 7) % 8 = (c.2.2 + 6 + (k - 1)) % 8 by omega]
      exact hwhite (k - 1) (by omega)
  · intro he
    by_cases h0 : k = 0
    · have := hk0 h0
      omega
    · by_cases h1 : k = 1
      · rw [show ((c.2.2 + 6 + k) % 8 + 6) % 8 = (c.2.2 + 5) % 8 by omega]
        exact hw5
      · rw [show ((c.2.2 + 6 + k) % 8 + 6) % 8 = (c.2.2 + 6 + (k - 2)) % 8 by omega]
        exact hwhite (k - 2) (by omega)

theorem ctrlStep_back (bitmap : List (List Nat)) (height width : Nat)
    (hz : ZeroBorder bitmap height width) (c : Nat × Nat × Nat) (ha : Arrived bitmap c) :
    neighbour (ctrlStep bitmap c).1 (ctrlStep bitmap c).2.1
      (((ctrlStep bitmap c).2.2 + 4) % 8) = (c.1, c.2.1) := by
  obtain ⟨k, hk, hstep, hwhite, hfg⟩ := ctrlStep_spec bitmap c ha
  have hin := hz c.1 c.2.1 ha.2.1
  have hin2 := hz _ _ hfg
  rw [hstep]
  exact neighbour_back c.1 c.2.1 _ (Nat.mod_lt _ (by decide)) hin.1 hin.2.2.1 hin2.1 hin2.2.2.1

theorem ctrlStep_injective (bitmap : List (List Nat)) (height width : Nat)
    (hz : ZeroBorder bitmap height width) (c1 c2 : Nat × Nat × Nat)
    (h1 : Arrived bitmap c1) (h2 : Arrived bitmap c2)
    (h : ctrlStep bitmap c1 = ctrlStep bitmap c2) : c1 = c2 := by
  have b1 := ctrlStep_back bitmap height width hz c1 h1
  have b2 := ctrlStep_back bitmap height width hz c2 h2
  rw [h, b2] at b1
  have hy : c1.1 = c2.1 := (congrArg Prod.fst b1).symm
  have hx : c1.2.1 = c2.2.1 := (congrArg Prod.snd b1).symm
  obtain ⟨k1, hk1, hs1, hwh1, hf1⟩ := ctrlStep_spec bitmap c1 h1
  obtain ⟨k2, hk2, hs2, hwh2, hf2⟩ := ctrlStep_spec bitmap c2 h2
  rw [hs1, hs2] at h
  have hdir : (c1.2.2 + 6 + k1) % 8 = (c2.2.2 + 6 + k2) % 8 :=
    congrArg (fun c => c.2.2) h
  obtain ⟨hd1, _, hprev1, hw51, _⟩ := h1
  obtain ⟨hd2, _, hprev2, hw52, _⟩ := h2
  rw [hy, hx] at hprev1 hw51 hwh1
  have hd : c1.2.2 = c2.2.2 := by
    rcases Nat.lt_trichotomy k1 k2 with hlt | heq | hgt
    · exfalso
      by_cases hone : k2 = k1 + 1
      · rw [show (c1.2.2 + 4) % 8 = (c2.2.2 + 5) % 8 by omega] at hprev1
        exact hprev1 hw52
      · rw [show (c1.2.2 + 4) % 8 = (c2.2.2 + 6 + (k2 - k1 - 2)) % 8 by omega] at hprev1
        exact hprev1 (hwh2 (k2 - k1 - 2) (by omega))
    · omega
    · exfalso
      by_cases hone : k1 = k2 + 1
      · rw [show (c2.2.2 + 4) % 8 = (c1.2.2 + 5) % 8 by omega] at hprev2
        exact hprev2 hw51
      · rw [show (c2.2.2 + 4) % 8 = (c1.2.2 + 6 + (k1 - k2 - 2)) % 8 by omega] at hprev2
        exact hprev2 (hwh1 (k1 - k2 - 2) (by omega))
  exact Prod.ext hy (Prod.ext hx hd)

theorem iterate_cancel {α : Type} (f : α → α) (P : α → Prop)
    (hP : ∀ a, P a → P (f a))
    (hinj : ∀ a b, P a → P b → f a = f b → a = b) (a0 : α) (h0 : P a0) (m : Nat) :
    ∀ i, f^[i] a0 = f^[i + m] a0 → a0 = f^[m] a0 := by
  have hall : ∀ n, P (f^[n] a0) := by
    intro n
    induction n with
    | zero => exact h0
    | succ n ih =>
      rw [Function.iterate_succ_apply']
      exact hP _ ih
  intro i
  induction i with
  | zero =>
    intro h
    rw [Nat.zero_add] at h
    exact h
  | succ i ih =>
    intro h
    rw [show i + 1 + m = (i + m) + 1 by omega, Function.iterate_succ_apply',
      Function.iterate_succ_apply'] at h
    exact ih (hinj _ _ (hall i) (hall (i + m)) h)

/-- A map that keeps a property, is injective on it, and whose points with the property
lie in a finite set, brings every such point back to itself within the size of the set. -/
theorem iterate_returns {α : Type} [DecidableEq α] (f : α → α) (P : α → Prop)
    (B : Finset α) (hB : ∀ a, P a → a ∈ B) (hP : ∀ a, P a → P (f a))
    (hinj : ∀ a b, P a → P b → f a = f b → a = b) (a0 : α) (h0 : P a0) :
    ∃ n, 0 < n ∧ n ≤ B.card ∧ f^[n] a0 = a0 := by
  have hall : ∀ n, P (f^[n] a0) := by
    intro n
    induction n with
    | zero => exact h0
    | succ n ih =>
      rw [Function.iterate_succ_apply']
      exact hP _ ih
  obtain ⟨i, hi, j, hj, hne, heq⟩ :=
    Finset.exists_ne_map_eq_of_card_lt_of_maps_to
      (show B.card < (Finset.range (B.card + 1)).card by rw [Finset.card_range]; omega)
      (fun n _ => hB _ (hall n))
  rw [Finset.mem_range] at hi hj
  rcases Nat.lt_or_gt_of_ne hne with hlt | hgt
  · refine ⟨j - i, by omega, by omega, ?_⟩
    have := iterate_cancel f P hP hinj a0 h0 (j - i) i
      (by rw [show i + (j - i) = j by omega]; exact heq)
    exact this.symm
  · refine ⟨i - j, by omega, by omega, ?_⟩
    have := iterate_cancel f P hP hinj a0 h0 (i - j) j
      (by rw [show j + (i - j) = i by omega]; exact heq.symm)
    exact this.symm

theorem arrived_mem (bitmap : List (List Nat)) (height width : Nat)
    (hz : ZeroBorder bitmap height width) (c : Nat × Nat × Nat) (ha : Arrived bitmap c) :
    c ∈ Finset.range height ×ˢ (Finset.range width ×ˢ Finset.range 8) := by
  have hin := hz c.1 c.2.1 ha.2.1
  simp only [Finset.mem_product, Finset.mem_range]
  exact ⟨by omega, by omega, ha.1⟩

/-- From a pixel arrived at, the passes of the loop of `ContourTracing` come back to the
same pixel and direction within `8 * height * width` passes. -/
theorem ctrlStep_returns (bitmap : List (List Nat)) (height width : Nat)
    (hz : ZeroBorder bitmap height width) (c : Nat × Nat × Nat) (ha : Arrived bitmap c) :
    ∃ n, 0 < n ∧ n ≤ 8 * height * width ∧ (ctrlStep bitmap)^[n] c = c := by
  obtain ⟨n, hn, hle, hret⟩ := iterate_returns (ctrlStep bitmap) (Arrived bitmap)
    (Finset.range height ×ˢ (Finset.range width ×ˢ Finset.range 8))
    (arrived_mem bitmap height width hz)
    (ctrlStep_arrived bitmap height width hz)
    (ctrlStep_injective bitmap height width hz) c ha
  refine ⟨n, hn, ?_, hret⟩
  rw [Finset.card_product, Finset.card_product, Finset.card_range, Finset.card_range,
    Finset.card_range] at hle
  calc n ≤ height * (width * 8) := hle
    _ = 8 * height * width := by ring

theorem iterate_arrived (bitmap : List (List Nat)) (height width : Nat)
    (hz : ZeroBorder bitmap height width) (c : Nat × Nat × Nat) (ha : Arrived bitmap c)
    (n : Nat) : Arrived bitmap ((ctrlStep bitmap)^[n] c) := by
  induction n with
  | zero => exact ha
  | succ n ih =>
    rw [Function.iterate_succ_apply']
    exact ctrlStep_arrived bitmap height width hz _ ih

theorem neighbour_right (cy cx : Nat) : neighbour cy cx 0 = (cy, cx + 1) := by
  unfold neighbour
  apply Prod.ext
  · show ((cy : Int) + 0).toNat = cy
    omega
  · show ((cx : Int) + 1).toNat = cx + 1
    omega

theorem neighbour_up (cy cx : Nat) : neighbour cy cx 6 = (cy - 1, cx) := by
  unfold neighbour
  apply Prod.ext
  · show ((cy : Int) + -1).toNat = cy - 1
    omega
  · show ((cx : Int) + 0).toNat = cx
    omega

theorem neighbour_upRight (cy cx : Nat) : neighbour cy cx 7 = (cy - 1, cx + 1) := by
  unfold neighbour
  apply Prod.ext
  · show ((cy : Int) + -1).toNat = cy - 1
    omega
  · show ((cx : Int) + 1).toNat = cx + 1
    omega

/-- The first call of `Tracer` in `ContourTracing`: it leaves the start alone or arrives
at a neighbour, whose predecessor is the start. -/
theorem tracerCtrl_start (bitmap : List (List Nat)) (height width : Nat)
    (hz : ZeroBorder bitmap height width) (cy cx dir : Nat)
    (hfg : rowsGet bitmap cy cx ≠ 0)
    (hdir :
      (dir = 0 ∧ rowsGet bitmap (cy - 1) cx = 0 ∧ rowsGet bitmap (cy - 1) (cx + 1) = 0) ∨
      (dir = 1 ∧ rowsGet bitmap cy (cx + 1) = 0)) :
    ((tracerCtrl bitmap cy cx dir).1 = cy ∧ (tracerCtrl bitmap cy cx dir).2.1 = cx) ∨
    (Arrived bitmap (tracerCtrl bitmap cy cx dir) ∧
      neighbour (tracerCtrl bitmap cy cx dir).1 (tracerCtrl bitmap cy cx dir).2.1
        (((tracerCtrl bitmap cy cx dir).2.2 + 4) % 8) = (cy, cx)) := by
  have hin := hz cy cx hfg
  by_cases hk : firstHit bitmap cy cx dir 7 < 7
  · right
    have hw := firstHit_white bitmap cy cx 7 dir
    have hf := firstHit_fg bitmap cy cx 7 dir hk
    have hin2 := hz _ _ hf
    have e : tracerCtrl bitmap cy cx dir =
        ((neighbour cy cx ((dir + firstHit bitmap cy cx dir 7) % 8)).1,
          (neighbour cy cx ((dir + firstHit bitmap cy cx dir 7) % 8)).2,
          (dir + firstHit bitmap cy cx dir 7) % 8) := by
      unfold tracerCtrl
      simp only [if_pos hk]
    rw [e]
    refine ⟨arrived_of_move bitmap height width hz cy cx _ (Nat.mod_lt _ (by decide)) hfg hf
      ?_ ?_, neighbour_back cy cx _ (Nat.mod_lt _ (by decide)) hin.1 hin.2.2.1 hin2.1
        hin2.2.2.1⟩
    · by_cases h0 : firstHit bitmap cy cx dir 7 = 0
      · rcases hdir with ⟨hd, _, hur⟩ | ⟨hd, hr⟩
        · rw [h0, hd, show ((0 + 0) % 8 + 7) % 8 = 7 by decide, neighbour_upRight]
          exact hur
        · rw [h0, hd, show ((1 + 0) % 8 + 7) % 8 = 0 by decide, neighbour_right]
          exact hr
      · rw [show ((dir + firstHit bitmap cy cx dir 7) % 8 + 7) % 8 =
          (dir + (firstHit bitmap cy cx dir 7 - 1)) % 8 by omega]
        exact hw _ (by omega)
    · intro he
      by_cases h0 : firstHit bitmap cy cx dir 7 = 0
      · rcases hdir with ⟨hd, hu, _⟩ | ⟨hd, _⟩
        · rw [h0, hd, show ((0 + 0) % 8 + 6) % 8 = 6 by decide, neighbour_up]
          exact hu
        · rw [h0, hd] at he
          exact absurd he (by decide)
      · by_cases h1 : firstHit bitmap cy cx dir 7 = 1
        · rcases hdir with ⟨hd, _, _⟩ | ⟨hd, hr⟩
          · rw [h1, hd] at he
            exact absurd he (by decide)
          · rw [h1, hd, show ((1 + 1) % 8 + 6) % 8 = 0 by decide, neighbour_right]
            exact hr
        · rw [show ((dir + firstHit bitmap cy cx dir 7) % 8 + 6) % 8 =
            (dir + (firstHit bitmap cy cx dir 7 - 2)) % 8 by omega]
          exact hw _ (by omega)
  · left
    unfold tracerCtrl
    simp only [if_neg hk]
    exact ⟨trivial, trivial⟩

theorem exists_first (P : Nat → Prop) (n : Nat) (h : P n) :
    ∃ j, j ≤ n ∧ P j ∧ ∀ i, i < j → ¬ P i := by
  classical
  exact ⟨Nat.find ⟨n, h⟩, Nat.find_min' _ h, Nat.find_spec _, fun i hi => Nat.find_min _ hi⟩

theorem returnedAt_iff (bitmap : List (List Nat)) (labelindex : Int) (cy cx : Nat)
    (s0 : TraceState) (hne : ¬ (s0.cx = cx ∧ s0.cy = cy)) (j : Nat) :
    ReturnedAt bitmap labelindex cy cx s0.cy s0.cx s0 false j ↔
      BackAtStart bitmap labelindex cy cx s0 j := by
  unfold ReturnedAt BackAtStart
  cases j with
  | zero =>
    rw [if_pos rfl]
    constructor
    · intro h
      exact absurd h.1 (by decide)
    · intro h
      exact absurd ⟨h.1, h.2.1⟩ hne
  | succ j =>
    rw [if_neg (Nat.succ_ne_zero j)]
    exact and_assoc

theorem contourTracing_unfold (bitmap : List (List Nat)) (labelmap : List (List Int))
    (fuel cy cx : Nat) (labelindex : Int) (dir : Nat) :
    ContourTracing bitmap labelmap fuel cy cx labelindex dir =
      if (Tracer bitmap ⟨labelmap, cy, cx, dir⟩).cx ≠ cx ∨
          (Tracer bitmap ⟨labelmap, cy, cx, dir⟩).cy ≠ cy then
        contourLoop bitmap labelindex cy cx (Tracer bitmap ⟨labelmap, cy, cx, dir⟩).cy
          (Tracer bitmap ⟨labelmap, cy, cx, dir⟩).cx fuel
          (Tracer bitmap ⟨labelmap, cy, cx, dir⟩) false
      else some (Tracer bitmap ⟨labelmap, cy, cx, dir⟩).labelmap := rfl

/-- C31 (amended): on a bitmap whose border is background, `ContourTracing` from a
foreground start pixel terminates, with start direction 0 when the pixels above and
above-right of the start are background and with start direction 1 when the pixel to the
right of the start is background: with fuel of at least `8 * height * width` it returns a
label map. When the first call of `Tracer` does not move, it returns at once; otherwise the
loop stops after pass `j + 1`, where `j < 8 * height * width` is the first number of passes
after which the trace is back at the start pixel and the next pass reaches the first pixel
visited after the start. -/
theorem contourTracing_terminates (bitmap : List (List Nat)) (height width : Nat)
    (hz : ZeroBorder bitmap height width) (labelmap : List (List Int)) (cy cx : Nat)
    (labelindex : Int) (dir : Nat) (hfg : rowsGet bitmap cy cx ≠ 0)
    (hdir :
      (dir = 0 ∧ rowsGet bitmap (cy - 1) cx = 0 ∧ rowsGet bitmap (cy - 1) (cx + 1) = 0) ∨
      (dir = 1 ∧ rowsGet bitmap cy (cx + 1) = 0))
    (fuel : Nat) (hfuel : 8 * height * width ≤ fuel) :
    (¬ ((Tracer bitmap ⟨labelmap, cy, cx, dir⟩).cx ≠ cx ∨
        (Tracer bitmap ⟨labelmap, cy, cx, dir⟩).cy ≠ cy) →
      ContourTracing bitmap labelmap fuel cy cx labelindex dir =
        some (Tracer bitmap ⟨labelmap, cy, cx, dir⟩).labelmap) ∧
    (((Tracer bitmap ⟨labelmap, cy, cx, dir⟩).cx ≠ cx ∨
        (Tracer bitmap ⟨labelmap, cy, cx, dir⟩).cy ≠ cy) →
      ∃ j, j < 8 * height * width ∧
        BackAtStart bitmap labelindex cy cx (Tracer bitmap ⟨labelmap, cy, cx, dir⟩) j ∧
        (∀ i, i < j →
          ¬ BackAtStart bitmap labelindex cy cx (Tracer bitmap ⟨labelmap, cy, cx, dir⟩) i) ∧
        ContourTracing bitmap labelmap fuel cy cx labelindex dir =
          some (tracedState bitmap labelindex (Tracer bitmap ⟨labelmap, cy, cx, dir⟩)
            (j + 1)).labelmap) := by
  have hd8 : dir < 8 := by
    rcases hdir with ⟨hd, _⟩ | ⟨hd, _⟩ <;> rw [hd] <;> decide
  have hc : (Tracer bitmap ⟨labelmap, cy, cx, dir⟩).ctrl = tracerCtrl bitmap cy cx dir :=
    tracer_ctrl bitmap ⟨labelmap, cy, cx, dir⟩ hd8
  rw [contourTracing_unfold]
  generalize Tracer bitmap ⟨labelmap, cy, cx, dir⟩ = s0 at hc ⊢
  constructor
  · intro hstay
    rw [if_neg hstay]
  · intro hmv
    rw [if_pos hmv]
    have hne : ¬ (s0.cx = cx ∧ s0.cy = cy) := by
      rintro ⟨h1, h2⟩
      rcases hmv with h | h
      · exact h h1
      · exact h h2
    rcases tracerCtrl_start bitmap height width hz cy cx dir hfg hdir with hst | ⟨harr, hback⟩
    · rw [← hc] at hst
      exact absurd ⟨hst.2, hst.1⟩ hne
    · rw [← hc] at harr hback
      obtain ⟨n, hn, hle, hret⟩ := ctrlStep_returns bitmap height width hz s0.ctrl harr
      have hn1 : n - 1 + 1 = n := by omega
      have e1 : (tracedState bitmap labelindex s0 (n - 1 + 1)).ctrl = s0.ctrl := by
        rw [hn1, tracedState_ctrl, hret]
      have e2 : (tracedState bitmap labelindex s0 (n - 1)).ctrl =
          (ctrlStep bitmap)^[n - 1] s0.ctrl := tracedState_ctrl bitmap labelindex (n - 1) s0
      have b := ctrlStep_back bitmap height width hz _
        (iterate_arrived bitmap height width hz s0.ctrl harr (n - 1))
      have e3 : ctrlStep bitmap ((ctrlStep bitmap)^[n - 1] s0.ctrl) = s0.ctrl := by
        rw [← Function.iterate_succ_apply' (ctrlStep bitmap) (n - 1) s0.ctrl]
        show (ctrlStep bitmap)^[n - 1 + 1] s0.ctrl = s0.ctrl
        rw [hn1, hret]
      rw [e3, hback, ← e2] at b
      have hQ : BackAtStart bitmap labelindex cy cx s0 (n - 1) :=
        ⟨(congrArg Prod.snd b).symm, (congrArg Prod.fst b).symm,
          congrArg (fun c => c.2.1) e1, congrArg (fun c => c.1) e1⟩
      obtain ⟨j, hj, hQj, hfirst⟩ :=
        exists_first (BackAtStart bitmap labelindex cy cx s0) (n - 1) hQ
      refine ⟨j, by omega, hQj, hfirst, ?_⟩
      exact (contourLoop_some_iff bitmap labelindex cy cx s0.cy s0.cx hne fuel s0 false _).2
        ⟨j, by omega, (returnedAt_iff bitmap labelindex cy cx s0 hne j).2 hQj,
          fun i hi h => hfirst i hi ((returnedAt_iff bitmap labelindex cy cx s0 hne i).1 h),
          rfl⟩

/-- When the pixel and direction of the trace stay in a set in which no pass from the start
pixel reaches the first pixel visited, `ContourTracing` returns no label map. -/
theorem contourTracing_no_return (bitmap : List (List Nat)) (cy cx dir : Nat) (hd : dir < 8)
    (P : Nat × Nat × Nat → Prop) (h0 : P (tracerCtrl bitmap cy cx dir))
    (hstep : ∀ c, P c → P (ctrlStep bitmap c))
    (hmv : ¬ ((tracerCtrl bitmap cy cx dir).2.1 = cx ∧ (tracerCtrl bitmap cy cx dir).1 = cy))
    (hbad : ∀ c, P c → c.2.1 = cx → c.1 = cy →
      ¬ ((ctrlStep bitmap c).2.1 = (tracerCtrl bitmap cy cx dir).2.1 ∧
        (ctrlStep bitmap c).1 = (tracerCtrl bitmap cy cx dir).1))
    (fuel : Nat) (labelmap : List (List Int)) (labelindex : Int) :
    ContourTracing bitmap labelmap fuel cy cx labelindex dir = none := by
  have hc : (Tracer bitmap ⟨labelmap, cy, cx, dir⟩).ctrl = tracerCtrl bitmap cy cx dir :=
    tracer_ctrl bitmap ⟨labelmap, cy, cx, dir⟩ hd
  rw [contourTracing_unfold]
  generalize Tracer bitmap ⟨labelmap, cy, cx, dir⟩ = s0 at hc ⊢
  rw [← hc] at h0 hmv hbad
  have hne : ¬ (s0.cx = cx ∧ s0.cy = cy) := hmv
  have hor : s0.cx ≠ cx ∨ s0.cy ≠ cy := by
    by_cases h : s0.cx = cx
    · exact Or.inr (fun h2 => hne ⟨h, h2⟩)
    · exact Or.inl h
  rw [if_pos hor]
  have hall : ∀ n, P ((ctrlStep bitmap)^[n] s0.ctrl) := by
    intro n
    induction n with
    | zero => exact h0
    | succ n ih =>
      rw [Function.iterate_succ_apply']
      exact hstep _ ih
  cases hres : contourLoop bitmap labelindex cy cx s0.cy s0.cx fuel s0 false with
  | none => rfl
  | some lm =>
    exfalso
    obtain ⟨j, _, hr, _, _⟩ :=
      (contourLoop_some_iff bitmap labelindex cy cx s0.cy s0.cx hne fuel s0 false lm).1 hres
    obtain ⟨hx, hy, hx2, hy2⟩ := (returnedAt_iff bitmap labelindex cy cx s0 hne j).1 hr
    have e1 := tracedState_ctrl bitmap labelindex j s0
    have e2 := tracedState_ctrl bitmap labelindex (j + 1) s0
    rw [Function.iterate_succ_apply', ← e1] at e2
    have hP := hall j
    rw [← e1] at hP
    refine hbad _ hP hx hy ?_
    rw [← e2]
    exact ⟨hx2, hy2⟩

/-- C31 (as stated, refuted): without a condition on the neighbours of the start pixel
`ContourTracing` need not stop.  On the L-shaped mask the trace from the corner pixel
(1, 1) with start direction 1 never stops, and on the stair-shaped mask neither does the
trace from the pixel (2, 1) with start direction 0: whatever the fuel, no label map is
returned. -/
theorem contourTracing_loops :
    (¬ ∃ (fuel : Nat) (labelmap lm : List (List Int)) (labelindex : Int),
      ContourTracing cornerMask labelmap fuel 1 1 labelindex 1 = some lm) ∧
    (¬ ∃ (fuel : Nat) (labelmap lm : List (List Int)) (labelindex : Int),
      ContourTracing stairMask labelmap fuel 2 1 labelindex 0 = some lm) := by
  constructor
  · rintro ⟨fuel, labelmap, lm, labelindex, h⟩
    have := contourTracing_no_return cornerMask 1 1 1 (by decide)
      (fun c => c ∈ [(2, 1, 2), (1, 1, 6), (1, 2, 0), (2, 1, 3)]) (by decide)
      (by
        intro c hc
        simp only [List.mem_cons, List.mem_singleton, List.not_mem_nil, or_false] at hc
        rcases hc with rfl | rfl | rfl | rfl <;> decide)
      (by decide)
      (by
        intro c hc
        simp only [List.mem_cons, List.mem_singleton, List.not_mem_nil, or_false] at hc
        rcases hc with rfl | rfl | rfl | rfl <;> decide)
      fuel labelmap labelindex
    rw [this] at h
    cases h
  · rintro ⟨fuel, labelmap, lm, labelindex, h⟩
    have := contourTracing_no_return stairMask 2 1 0 (by decide)
      (fun c => c ∈ [(2, 2, 0), (2, 1, 4), (1, 1, 6), (2, 2, 1)]) (by decide)
      (by
        intro c hc
        simp only [List.mem_cons, List.mem_singleton, List.not_mem_nil, or_false] at hc
        rcases hc with rfl | rfl | rfl | rfl <;> decide)
      (by decide)
      (by
        intro c hc
        simp only [List.mem_cons, List.mem_singleton, List.not_mem_nil, or_false] at hc
        rcases hc with rfl | rfl | rfl | rfl <;> decide)
      fuel labelmap labelindex
    rw [this] at h
    cases h

theorem cornerMask_zeroBorder : ZeroBorder cornerMask 4 4 := by
  intro y x h
  unfold rowsGet cornerMask at h
  rcases y with _ | _ | _ | _ | y <;> rcases x with _ | _ | _ | _ | x <;>
    simp at h ⊢

/-! ## Clustering: one cluster per centroid -/

theorem seeds_cover (k : Nat) (r : List Int)
    (hrange : ∀ i, i < k → 0 ≤ r.getD i 0 ∧ r.getD i 0 < (k : Int))
    (hdist : ∀ i j, i < j → j < k → r.getD i 0 ≠ r.getD j 0) :
    ∀ j, j < k → ∃ i, i < k ∧ r.getD i 0 = (j : Int) := by
  intro j hj
  let f : Fin k → Fin k := fun i =>
    ⟨(r.getD i.1 0).toNat, by have := hrange i.1 i.2; omega⟩
  have hinj : Function.Injective f := by
    intro a b hab
    have h1 : (r.getD a.1 0).toNat = (r.getD b.1 0).toNat := congrArg Fin.val hab
    have ha := hrange a.1 a.2
    have hb := hrange b.1 b.2
    have h2 : r.getD a.1 0 = r.getD b.1 0 := by omega
    apply Fin.ext
    rcases Nat.lt_trichotomy a.1 b.1 with h | h | h
    · exact absurd h2 (hdist a.1 b.1 h b.2)
    · exact h
    · exact absurd h2.symm (hdist b.1 a.1 h a.2)
  obtain ⟨i, hi⟩ := (Finite.injective_iff_surjective.1 hinj) ⟨j, hj⟩
  refine ⟨i.1, i.2, ?_⟩
  have h1 : (r.getD i.1 0).toNat = j := congrArg Fin.val hi
  have := hrange i.1 i.2
  omega

theorem iterate_sameDistances (numCents k : Nat) (st : KmeansState)
    (hn : numCents ≤ st.cents.length) (m : Nat) :
    SameDistances st.cents ((kmeansBody numCents k)^[m] st).cents := by
  induction m with
  | zero => exact ⟨rfl, fun j => ⟨rfl, rfl, rfl⟩⟩
  | succ m ih =>
    rw [Function.iterate_succ_apply']
    have hb : (kmeansBody numCents k ((kmeansBody numCents k)^[m] st)).cents =
        sortCentroids numCents k ((kmeansBody numCents k)^[m] st).cents := rfl
    rw [hb]
    exact sameDistances_trans ih
      (sortCentroids_sameDistances numCents k _ (by rw [ih.1]; exact hn))

/-- The centroid array that `kmeans` leaves is the result of a call of `sortCentroids` on
an array with the distances computed before the loop. -/
theorem kmeansSeeded_last_sort (numCents k : Nat) (cents : List Centroid)
    (rCent : List RandomCentroid) (hn : numCents ≤ cents.length) :
    ∃ (st : KmeansState) (X : List Centroid),
      kmeansSeeded numCents k cents rCent = some st ∧
      SameDistances (fillDistances numCents k rCent cents) X ∧
      st.cents = sortCentroids numCents k X := by
  have h0 : (kmeansEntry numCents k cents rCent).loopCount = 0 := rfl
  obtain ⟨n, _, hn2, _, _⟩ := kmeansWhile_stops numCents k 501
    (kmeansEntry numCents k cents rCent) (Or.inl (by rw [h0]; decide)) (by rw [h0]; omega)
  have hfill : (fillDistances numCents k rCent cents).length = cents.length :=
    (fillDistances_spec numCents rCent cents hn k).1
  have he : (kmeansEntry numCents k cents rCent).cents =
      sortCentroids numCents k (fillDistances numCents k rCent cents) := rfl
  have hs1 := sortCentroids_sameDistances numCents k (fillDistances numCents k rCent cents)
    (by rw [hfill]; exact hn)
  cases n with
  | zero =>
    exact ⟨_, fillDistances numCents k rCent cents, hn2,
      ⟨rfl, fun j => ⟨rfl, rfl, rfl⟩⟩, he⟩
  | succ m =>
    refine ⟨_, ((kmeansBody numCents k)^[m] (kmeansEntry numCents k cents rCent)).cents,
      hn2, ?_, ?_⟩
    · have := iterate_sameDistances numCents k (kmeansEntry numCents k cents rCent)
        (by rw [he, hs1.1, hfill]; exact hn) m
      rw [he] at this
      exact sameDistances_trans hs1 this
    · rw [Function.iterate_succ_apply']
      rfl

theorem calcDist_self (x y : Int) : calcDist x y x y = 0 := by
  unfold calcDist
  simp

/-- C17 (amended): for a non-empty list of centroids clustered with `k` equal to their
number, when the sampling loop of `kmeans` ends and every seed index it chose is below the
number of centroids, `kmeans` returns, every centroid has `kGroup` in range and
`distances[kGroup] = 0`, and `calcClusterDensity` returns the density 0, whatever the
random draws, the contents of the uninitialised index array and the memory after the
centroids. -/
theorem kmeans_every_centroid_seeded (cents : List Centroid) (rands : List Nat)
    (randCentInd0 r : List Int) (past : Centroid) (hne : cents ≠ [])
    (hslots : ∀ c ∈ cents, c.distances.length = cents.length)
    (hlen : randCentInd0.length = cents.length)
    (hseed : seedLoop cents.length (List.range cents.length) randCentInd0 rands = some r)
    (hin : ∀ i, i < cents.length → r.getD i 0 < (cents.length : Int)) :
    ∃ out, kmeans cents.length cents cents.length rands randCentInd0 past = some out ∧
      out.length = cents.length ∧
      (∀ c ∈ out, 0 ≤ c.kGroup ∧ c.kGroup.toNat < c.distances.length ∧
        c.distances.getD c.kGroup.toNat 0 = 0) ∧
      calcClusterDensity cents.length out =
        Except.ok ⟨List.replicate cents.length 0, cents.length⟩ ∧
      ((List.replicate cents.length 0).map (fun d : Nat => Real.sqrt (d : ℝ))).sum /
        (cents.length : ℝ) = 0 := by
  have hk : 1 ≤ cents.length := by
    rcases Nat.eq_zero_or_pos cents.length with h | h
    · exact absurd (List.length_eq_zero.1 h) hne
    · exact h
  -- the seed indices are a permutation of the centroid indices
  have hseed2 := hseed
  rw [List.range_eq_range'] at hseed2
  have inv0 : SeedInv cents.length randCentInd0 0 :=
    ⟨hlen, fun i hi => absurd hi (Nat.not_lt_zero i),
      fun i j _ hj => absurd hj (Nat.not_lt_zero j)⟩
  have inv := seedLoop_inv cents.length cents.length 0 randCentInd0 r rands (by omega) inv0
    hseed2
  rw [Nat.zero_add] at inv
  have hcover := seeds_cover cents.length r
    (fun i hi => ⟨(inv.range i hi).1, hin i hi⟩) inv.distinct
  -- the run of `kmeans`
  obtain ⟨st, X, hrun, hsame, hlast⟩ := kmeansSeeded_last_sort cents.length cents.length cents
    ((List.range cents.length).foldl
      (fun (rCent : List RandomCentroid) i =>
        rCent.set i
          ⟨(cents.getD (r.getD i 0).toNat past).x,
           (cents.getD (r.getD i 0).toNat past).y⟩)
      (List.replicate cents.length ⟨0, 0⟩)) (le_refl _)
  have hkm : kmeans cents.length cents cents.length rands randCentInd0 past =
      some st.cents := by
    unfold kmeans
    rw [hseed]
    simp only []
    rw [hrun]
    rfl
  obtain ⟨hfl, hfill⟩ := fillDistances_spec cents.length
    ((List.range cents.length).foldl
      (fun (rCent : List RandomCentroid) i =>
        rCent.set i
          ⟨(cents.getD (r.getD i 0).toNat past).x,
           (cents.getD (r.getD i 0).toNat past).y⟩)
      (List.replicate cents.length ⟨0, 0⟩)) cents (le_refl _) cents.length
  have hfl2 : (fillDistances cents.length cents.length
      ((List.range cents.length).foldl
        (fun (rCent : List RandomCentroid) i =>
          rCent.set i
            ⟨(cents.getD (r.getD i 0).toNat past).x,
             (cents.getD (r.getD i 0).toNat past).y⟩)
        (List.replicate cents.length ⟨0, 0⟩)) cents).length = cents.length := hfl
  have hXlen : X.length = cents.length := by rw [hsame.1, hfl2]
  obtain ⟨_, hsl, hsort⟩ := sortLoop_inv cents.length hk X cents.length (by rw [hXlen])
  have houtlen : st.cents.length = cents.length := by
    rw [hlast]
    exact hsl.trans hXlen
  -- every centroid
  have hcent : ∀ j, j < cents.length →
      0 ≤ (st.cents.getD j noCentroid).kGroup ∧
      (st.cents.getD j noCentroid).kGroup.toNat < (st.cents.getD j noCentroid).distances.length ∧
      (st.cents.getD j noCentroid).distances.getD
        (st.cents.getD j noCentroid).kGroup.toNat 0 = 0 := by
    intro j hj
    obtain ⟨m, hm, he, hmin⟩ := (hsort j (by rw [hXlen]; exact hj)).1 hj
    have he2 : st.cents.getD j noCentroid = { X.getD j noCentroid with kGroup := (m : Int) } := by
      rw [hlast]
      exact he
    obtain ⟨i, hi, hri⟩ := hcover j hj
    have hslot : (cents.getD j noCentroid).distances.length = cents.length := by
      rw [List.getD_eq_getElem _ _ hj]
      exact hslots _ (List.getElem_mem _)
    obtain ⟨hx, hy, hdl, hd⟩ := hfill j hj
    have hXd : (X.getD j noCentroid).distances =
        ((fillDistances cents.length cents.length
          ((List.range cents.length).foldl
            (fun (rCent : List RandomCentroid) i =>
              rCent.set i
                ⟨(cents.getD (r.getD i 0).toNat past).x,
                 (cents.getD (r.getD i 0).toNat past).y⟩)
            (List.replicate cents.length ⟨0, 0⟩)) cents).getD j noCentroid).distances :=
      (hsame.2 j).2.2
    have hseedi : ((List.range cents.length).foldl
        (fun (rCent : List RandomCentroid) i =>
          rCent.set i
            ⟨(cents.getD (r.getD i 0).toNat past).x,
             (cents.getD (r.getD i 0).toNat past).y⟩)
        (List.replicate cents.length ⟨0, 0⟩)).getD i ⟨0, 0⟩ =
        ⟨(cents.getD j noCentroid).x, (cents.getD j noCentroid).y⟩ := by
      rw [foldl_set_getD_mem
        (fun i => (⟨(cents.getD (r.getD i 0).toNat past).x,
          (cents.getD (r.getD i 0).toNat past).y⟩ : RandomCentroid)) ⟨0, 0⟩ i
        (List.range cents.length) (List.mem_range.2 hi) _ (by simpa using hi)]
      simp only [hri, Int.toNat_ofNat]
      rw [List.getD_eq_getElem _ _ hj, List.getD_eq_getElem _ _ hj]
    have hzero : (X.getD j noCentroid).distances.getD i 0 = 0 := by
      rw [hXd]
      have := hd i hi (by rw [hslot]; exact hi)
      rw [hseedi] at this
      unfold fillDistances
      rw [this]
      exact calcDist_self _ _
    have hmz : (X.getD j noCentroid).distances.getD m 0 = 0 := by
      have := hmin i hi
      omega
    rw [he2]
    refine ⟨Int.natCast_nonneg m, ?_, ?_⟩
    · show ((m : Int)).toNat < (X.getD j noCentroid).distances.length
      rw [Int.toNat_ofNat, hXd]
      unfold fillDistances
      rw [hdl, hslot]
      exact hm
    · show (X.getD j noCentroid).distances.getD ((m : Int)).toNat 0 = 0
      rw [Int.toNat_ofNat]
      exact hmz
  have hall : ∀ c ∈ st.cents, 0 ≤ c.kGroup ∧ c.kGroup.toNat < c.distances.length ∧
      c.distances.getD c.kGroup.toNat 0 = 0 := by
    intro c hc
    obtain ⟨j, hj, rfl⟩ := List.getElem_of_mem hc
    rw [← List.getD_eq_getElem _ noCentroid hj]
    exact hcent j (by rw [← houtlen]; exact hj)
  refine ⟨st.cents, hkm, houtlen, hall, ?_, ?_⟩
  · have := calcClusterDensity_ok st.cents (fun c hc => ⟨(hall c hc).1, (hall c hc).2.1⟩)
    rw [houtlen] at this
    rw [this]
    congr 2
    apply List.eq_replicate_iff.2
    refine ⟨by rw [List.length_map, houtlen], fun x hx => ?_⟩
    obtain ⟨c, hc, rfl⟩ := List.mem_map.1 hx
    exact (hall c hc).2.2
  · simp

/-! ## Threshold selection: a tie broken by rounding -/

set_option maxRecDepth 100000 in
theorem tieImage_corr :
    copyPGM tieImage = Except.ok tieImage ∧
    corr2d tieImage (thresholdImage ⟨tieImage, tieImage⟩ ((0 : Nat) : Int)).result =
      Except.ok ⟨4, 34⟩ ∧
    corr2d tieImage (thresholdImage ⟨tieImage, tieImage⟩ ((3 : Nat) : Int)).result =
      Except.ok ⟨12, 306⟩ ∧
    (⟨4, 34⟩ : CorrValue).toDouble = 386180482071185 / 562949953421312 ∧
    (⟨12, 306⟩ : CorrValue).toDouble = 6178887713138961 / 9007199254740992 := by
  refine ⟨by decide, by decide, by decide, by decide!, by decide!⟩

theorem tieImage_pixels : ∀ i < tieImage.header.height, ∀ j < tieImage.header.width,
    getPix tieImage i j = 0 ∨ getPix tieImage i j = 3 ∨ getPix tieImage i j = 5 := by
  decide

set_option maxRecDepth 100000 in
/-- On the grid `tieImage` the thresholds 0 and 3 have the same correlation, `8 / 17` under
the square root, but in `double` the value at 3 is one unit in the last place higher, and
`thresholdImageSequence` returns 3. -/
theorem thresholdImageSequence_tie : thresholdImageSequence tieImage = Except.ok 3 := by
  obtain ⟨result, t, hcopy, hgood, hseq, h1, h2, h3⟩ :=
    sequence_first_max tieImage (by decide) (by decide)
  obtain ⟨c1, c2, c3, c4, c5⟩ := tieImage_corr
  rw [c1] at hcopy
  have hr : result = tieImage := by
    cases hcopy
    rfl
  subst hr
  have hbin : ∀ (u : Nat) (i : Nat), i < tieImage.header.height →
      ∀ j < tieImage.header.width,
      getPix (thresholdImage ⟨tieImage, tieImage⟩ (u : Int)).result i j =
        thresholdValue (getPix tieImage i j) (u : Int) :=
    fun u i hi j hj => getPix_thresholdImage tieImage tieImage u hgood hi hj
  have hdims : ∀ u : Nat,
      tieImage.header.width =
        (thresholdImage ⟨tieImage, tieImage⟩ (u : Int)).result.header.width ∧
      tieImage.header.height =
        (thresholdImage ⟨tieImage, tieImage⟩ (u : Int)).result.header.height :=
    fun u => ⟨(thresholdImage_goodBuf tieImage tieImage u hgood).2.1.symm,
      (thresholdImage_goodBuf tieImage tieImage u hgood).2.2.1.symm⟩
  have hsame : ∀ u v : Nat,
      (∀ p : Nat, p = 0 ∨ p = 3 ∨ p = 5 →
        thresholdValue p (u : Int) = thresholdValue p (v : Int)) →
      corrAt tieImage tieImage u = corrAt tieImage tieImage v := by
    intro u v h
    apply corrAt_eq_of_corr2d
    rw [← (corrAt_spec tieImage tieImage v hgood).1]
    apply corr2d_congr_right
    · rw [← (hdims u).1, ← (hdims v).1]
    · rw [← (hdims u).2, ← (hdims v).2]
    · intro i hi j hj
      rw [hbin u i hi j hj, hbin v i hi j hj]
      exact h _ (tieImage_pixels i hi j hj)
  have hlow : ∀ u : Nat, u < 3 → corrAt tieImage tieImage u = ⟨4, 34⟩ := by
    intro u hu
    rw [hsame u 0 (fun p hp => by
      unfold thresholdValue
      rcases hp with e | e | e <;> subst e <;> simp <;> omega)]
    exact corrAt_eq_of_corr2d tieImage tieImage 0 _ c2
  have hmid : ∀ u : Nat, 3 ≤ u → u < 5 → corrAt tieImage tieImage u = ⟨12, 306⟩ := by
    intro u hu1 hu2
    rw [hsame u 3 (fun p hp => by
      unfold thresholdValue
      rcases hp with e | e | e <;> subst e <;> simp <;> omega)]
    exact corrAt_eq_of_corr2d tieImage tieImage 3 _ c3
  have hhigh : ∀ u : Nat, 5 ≤ u → corrAt tieImage tieImage u = ⟨0, 1⟩ := by
    intro u hu
    apply corrAt_eq_of_corr2d
    refine (corr2d_zero_of_uniform tieImage _ (hdims u).1 (hdims u).2 (Or.inr ⟨1, ?_⟩)).2
    intro i hi j hj
    rw [hbin u i hi j hj]
    unfold thresholdValue BLACKPIX
    rw [if_neg]
    rcases tieImage_pixels i hi j hj with e | e | e <;> rw [e] <;> omega
  have hlt : (⟨4, 34⟩ : CorrValue).toDouble < (⟨12, 306⟩ : CorrValue).toDouble := by
    rw [c4, c5]
    norm_num
  have hpos : 0 < (⟨12, 306⟩ : CorrValue).toDouble := by
    rw [c5]
    norm_num
  have ht : t = 3 := by
    rcases Nat.lt_or_ge t 3 with hA | hA
    · have := h2 3 (by decide)
      rw [hlow t hA, hmid 3 le_rfl (by decide)] at this
      exact absurd hlt (not_lt.2 this)
    · rcases Nat.lt_or_ge t 5 with hB | hB
      · rcases Nat.eq_or_lt_of_le hA with e | e
        · exact e.symm
        · have := h3 3 e
          rw [hmid t hA hB, hmid 3 le_rfl (by decide)] at this
          exact absurd this (lt_irrefl _)
      · have := h2 3 (by decide)
        rw [hhigh t hB, hmid 3 le_rfl (by decide), toDouble_zero ⟨0, 1⟩ rfl] at this
        exact absurd hpos (not_lt.2 this)
  rw [hseq, ht]

/-- C7 (as stated, refuted): on an image of width 0 the copy of the image exits with the
undefined-header error, so no threshold is returned.  On the grid `tieImage` the thresholds
0 and 3 have the same correlation, `4 / sqrt 34 = 12 / sqrt 306`, but
`thresholdImageSequence` returns 3 and not the smaller threshold 0, because the `double`
value at 3 is higher in the last place. -/
theorem thresholdImageSequence_refuted :
    (thresholdImageSequence ⟨⟨0, 0, 255⟩, []⟩ = Except.error MgError.headerUndefined ∧
      ¬ ∃ t, thresholdImageSequence ⟨⟨0, 0, 255⟩, []⟩ = Except.ok t) ∧
    (thresholdImageSequence tieImage = Except.ok 3 ∧
      corr2d tieImage (thresholdImage ⟨tieImage, tieImage⟩ ((0 : Nat) : Int)).result =
        Except.ok ⟨4, 34⟩ ∧
      corr2d tieImage (thresholdImage ⟨tieImage, tieImage⟩ ((3 : Nat) : Int)).result =
        Except.ok ⟨12, 306⟩ ∧
      (4 : ℝ) / Real.sqrt 34 = 12 / Real.sqrt 306 ∧
      (⟨4, 34⟩ : CorrValue).toDouble < (⟨12, 306⟩ : CorrValue).toDouble) := by
  have h : thresholdImageSequence ⟨⟨0, 0, 255⟩, []⟩ = Except.error MgError.headerUndefined := rfl
  obtain ⟨_, c2, c3, c4, c5⟩ := tieImage_corr
  refine ⟨⟨h, ?_⟩, thresholdImageSequence_tie, c2, c3, ?_, ?_⟩
  · rintro ⟨t, ht⟩
    rw [h] at ht
    cases ht
  · have e : Real.sqrt 306 = 3 * Real.sqrt 34 := by
      rw [show (306 : ℝ) = 3 ^ 2 * 34 by norm_num, Real.sqrt_mul (by positivity),
        Real.sqrt_sq (by norm_num)]
    have hpos : 0 < Real.sqrt 34 := Real.sqrt_pos.2 (by norm_num)
    rw [e]
    field_simp
    ring
  · rw [c4, c5]
    norm_num

/-! ## Instances on the sample inputs -/

/-- Witness for C1 on the grids `imgA` and `imgB`. -/
theorem corr2d_range_witness :
    ∃ c : CorrValue, corr2d imgA imgB = Except.ok c ∧
      0 ≤ (c.num : ℝ) / Real.sqrt (c.den2 : ℝ) ∧ (c.num : ℝ) / Real.sqrt (c.den2 : ℝ) ≤ 1 :=
  corr2d_range imgA imgB rfl rfl

/-- Witness for C2 on the grid `imgA`, whose two pixels differ. -/
theorem corr2d_self_witness :
    ∃ c : CorrValue, corr2d imgA imgA = Except.ok c ∧
      (c.num : ℝ) / Real.sqrt (c.den2 : ℝ) = 1 :=
  corr2d_self imgA 0 0 0 1 (by decide) (by decide) (by decide) (by decide) (by decide)

/-- Witness for C3 on `imgA` against the uniform grid `imgU`. -/
theorem corr2d_uniform_witness :
    devSum imgA.header.height imgA.header.width imgA imgA
        (pixMean imgA.header.height imgA.header.width imgA)
        (pixMean imgA.header.height imgA.header.width imgA)
      * devSum imgA.header.height imgA.header.width imgU imgU
        (pixMean imgA.header.height imgA.header.width imgU)
        (pixMean imgA.header.height imgA.header.width imgU) = 0 ∧
    corr2d imgA imgU = Except.ok ⟨0, 1⟩ ∧
      ((⟨0, 1⟩ : CorrValue).num : ℝ) / Real.sqrt ((⟨0, 1⟩ : CorrValue).den2 : ℝ) = 0 :=
  corr2d_uniform imgA imgU rfl rfl (Or.inr ⟨7, by decide⟩)

/-- Witness for C4 on the grids `imgA` and `imgB`. -/
theorem corr2d_symm_witness :
    ∃ c : CorrValue, corr2d imgA imgB = Except.ok c ∧ corr2d imgB imgA = Except.ok c :=
  corr2d_symm imgA imgB rfl rfl

/-- Witness for C6: thresholding `imgA` at 10 into a buffer of its size. -/
theorem thresholdImage_spec_witness :
    (∀ i < imgA.header.height, ∀ j < imgA.header.width,
      getPix (thresholdImage ⟨imgA, imgB⟩ 10).result i j =
        if (getPix imgA i j : Int) > 10 then 0 else 1) ∧
    (∀ row ∈ (thresholdImage ⟨imgA, imgB⟩ 10).result.image, ∀ v ∈ row, v = 0 ∨ v = 1) ∧
    (thresholdImage ⟨imgA, imgB⟩ 10).image = imgA :=
  thresholdImage_spec ⟨imgA, imgB⟩ 10 ⟨rfl, by decide⟩

/-- Witness for C7 (amended) on the grid `imgA`. -/
theorem thresholdImageSequence_spec_witness :
    ∃ (result : PGMImage) (c : Nat → CorrValue) (t : Nat),
      copyPGM imgA = Except.ok result ∧
      (∀ u : Nat, corr2d imgA (thresholdImage ⟨imgA, result⟩ (u : Int)).result =
        Except.ok (c u)) ∧
      thresholdImageSequence imgA = Except.ok t ∧ t ≤ 255 ∧
      (∀ u ≤ 255, (c u).toDouble ≤ (c t).toDouble) ∧
      (∀ u < t, (c u).toDouble < (c t).toDouble) ∧
      ((∀ u ≤ 255, (c u).toDouble = 0) → t = 0) :=
  thresholdImageSequence_spec imgA (by decide) (by decide)

/-- Witness for C8 on the two-level grid `imgA`. -/
theorem thresholdImageSequence_two_level_witness :
    ∃ (result : PGMImage) (c : Nat → CorrValue) (t : Nat),
      copyPGM imgA = Except.ok result ∧
      (∀ u : Nat, corr2d imgA (thresholdImage ⟨imgA, result⟩ (u : Int)).result =
        Except.ok (c u)) ∧
      thresholdImageSequence imgA = Except.ok t ∧ 10 ≤ t ∧ t < 200 ∧
      (∀ i < imgA.header.height, ∀ j < imgA.header.width,
        (getPix (thresholdImage ⟨imgA, result⟩ (t : Int)).result i j = 1 ↔
          getPix imgA i j = 10) ∧
        (getPix (thresholdImage ⟨imgA, result⟩ (t : Int)).result i j = 0 ↔
          getPix imgA i j = 200)) ∧
      (∀ u ≤ 255, ((c u).num : ℝ) / Real.sqrt ((c u).den2 : ℝ) ≤
        ((c t).num : ℝ) / Real.sqrt ((c t).den2 : ℝ)) :=
  thresholdImageSequence_two_level imgA (by decide) (by decide) (by decide)

/-- Witness for C10 on the all-background mask `zeroMask`. -/
theorem ccl_no_foreground_witness :
    ∃ r : LabelResult, ConnectedComponentLabeling zeroMask = Except.ok r ∧
      r.ccCount = 0 ∧ r.cents = [] :=
  ccl_no_foreground zeroMask (fun y x h1 h2 h3 h4 => by
    have hy : y = 1 ∨ y = 2 := by
      have : y + 1 < 4 := h2
      omega
    have hx : x = 1 ∨ x = 2 := by
      have : x + 1 < 4 := h4
      omega
    rcases hy with rfl | rfl <;> rcases hx with rfl | rfl <;> decide)

set_option maxRecDepth 100000 in
/-- The labelling of `twoBlockMask`: two components, detected in raster order at the
top-left pixel of each block, and `k = 1`. -/
theorem ccl_two_blocks :
    ConnectedComponentLabeling twoBlockMask =
      Except.ok ⟨[⟨2, 2, 0, [0]⟩, ⟨6, 6, 0, [0]⟩], 2, 1⟩ := by
  decide!

/-- C11 (as stated, refuted): on a frame with a single component the labelling returns
`k = 0`, not `max(1, floor(sqrt(1 / 2))) = 1`. -/
theorem ccl_k_one_component :
    ∃ r : LabelResult, ConnectedComponentLabeling oneDotMask = Except.ok r ∧
      r.ccCount = 1 ∧ r.k = 0 ∧ r.k ≠ max 1 ⌊Real.sqrt ((r.ccCount : ℝ) / 2)⌋₊ := by
  refine ⟨⟨[⟨1, 1, 0, []⟩], 1, 0⟩, by decide!, rfl, rfl, ?_⟩
  intro h
  have : 1 ≤ max 1 ⌊Real.sqrt (((1 : Nat) : ℝ) / 2)⌋₊ := le_max_left _ _
  rw [← h] at this
  exact absurd this (by decide)

/-- C15 (code at the failing input): with centroid (0, 0) in cluster 0 and (10, 10) in
cluster 1, `adjustRandomCentroid` returns the centres (0, 5) and (5, 10), not the
cluster means (0, 0) and (10, 10). -/
theorem adjustRandomCentroid_split :
    adjustRandomCentroid 2 2 centsSplit [⟨0, 0⟩, ⟨0, 0⟩] = [⟨0, 5⟩, ⟨5, 10⟩] ∧
      adjustRandomCentroid 2 2 centsSplit [⟨0, 0⟩, ⟨0, 0⟩] ≠ [⟨0, 0⟩, ⟨10, 10⟩] := by
  decide!

set_option maxRecDepth 100000 in
/-- C17 (as stated, refuted): with two centroids, `k = 2` and `rand()` giving 0 and then
2, the second seed index is 2 and the seed is read from `cents[2]`, outside the array.
When that read returns a centroid at (0, 0), centroid (10, 10) is no seed and is left with
`distances[kGroup] = sqrt 200`; so it is not the case that every sequence of draws leaves
every `distances[kGroup]` at 0. -/
theorem kmeans_seed_past_end :
    seedLoop 2 (List.range 2) [-1, -1] [0, 2] = some [0, 2] ∧
    kmeans 2 centsA 2 [0, 2] [-1, -1] noCentroid =
      some [⟨0, 0, 0, [0, 0]⟩, ⟨10, 10, 0, [200, 200]⟩] ∧
    ¬ ∀ (rands : List Nat) (randCentInd0 : List Int) (past : Centroid)
        (out : List Centroid), randCentInd0.length = 2 →
      kmeans 2 centsA 2 rands randCentInd0 past = some out →
      ∀ c ∈ out, c.distances.getD c.kGroup.toNat 0 = 0 := by
  have h : kmeans 2 centsA 2 [0, 2] [-1, -1] noCentroid =
      some [⟨0, 0, 0, [0, 0]⟩, ⟨10, 10, 0, [200, 200]⟩] := by decide!
  refine ⟨by decide, h, fun hall => ?_⟩
  have := hall [0, 2] [-1, -1] noCentroid _ rfl h ⟨10, 10, 0, [200, 200]⟩ (by simp)
  exact absurd this (by decide)

/-- C18 (as stated, refuted): on the empty centroid list `calcClusterDensity` raises no
error; it returns the quotient `0.0 / 0`. -/
theorem calcClusterDensity_empty :
    calcClusterDensity 0 [] = Except.ok ⟨[], 0⟩ ∧
      ∀ e, calcClusterDensity 0 [] ≠ Except.error e := by
  refine ⟨rfl, fun e he => ?_⟩
  cases he

/-- C19 (code at the failing input): the pairs differ by (2, 2) and (0, 0), so the mean
shift is (1, 1); `detectShift` returns (0, 0), the last difference divided by 2. -/
theorem detectShift_last_pair :
    detectShift shiftFrom 2 shiftTo 2 = ⟨some 0, some 0⟩ ∧
      (((2 - 0) + (0 - 0) : ℚ) / 2 = 1) := by
  refine ⟨by decide!, by norm_num⟩

/-- Witness for C11 (amended) on `twoBlockMask`: two components, `k = 1`. -/
theorem ccl_k_value_witness :
    (1 : Nat) = ⌊Real.sqrt (((2 : Nat) : ℝ) / 2)⌋₊ ∧
    (2 ≤ 2 → (1 : Nat) = max 1 ⌊Real.sqrt (((2 : Nat) : ℝ) / 2)⌋₊) ∧
    (2 ≤ 1 → (1 : Nat) = 0) :=
  ccl_k_value twoBlockMask ⟨[⟨2, 2, 0, [0]⟩, ⟨6, 6, 0, [0]⟩], 2, 1⟩ ccl_two_blocks

/-- Witness for C13 on `twoBlockMask`: the centroids (2, 2) and (6, 6). -/
theorem ccl_centroids_raster_witness :
    ([⟨2, 2, 0, [0]⟩, ⟨6, 6, 0, [0]⟩] : List Centroid).length = 2 ∧
    (∀ i j, i < j → j < ([⟨2, 2, 0, [0]⟩, ⟨6, 6, 0, [0]⟩] : List Centroid).length →
      (([⟨2, 2, 0, [0]⟩, ⟨6, 6, 0, [0]⟩] : List Centroid).getD i noCentroid).y <
        (([⟨2, 2, 0, [0]⟩, ⟨6, 6, 0, [0]⟩] : List Centroid).getD j noCentroid).y ∨
      ((([⟨2, 2, 0, [0]⟩, ⟨6, 6, 0, [0]⟩] : List Centroid).getD i noCentroid).y =
          (([⟨2, 2, 0, [0]⟩, ⟨6, 6, 0, [0]⟩] : List Centroid).getD j noCentroid).y ∧
        (([⟨2, 2, 0, [0]⟩, ⟨6, 6, 0, [0]⟩] : List Centroid).getD i noCentroid).x <
          (([⟨2, 2, 0, [0]⟩, ⟨6, 6, 0, [0]⟩] : List Centroid).getD j noCentroid).x)) ∧
    (∀ c ∈ ([⟨2, 2, 0, [0]⟩, ⟨6, 6, 0, [0]⟩] : List Centroid),
      ∃ y x : Nat, c.y = (y : Int) ∧ c.x = (x : Int) ∧
        1 ≤ y ∧ y + 1 < twoBlockMask.header.height ∧
        1 ≤ x ∧ x + 1 < twoBlockMask.header.width ∧
        getPix twoBlockMask y x = BLACKPIX) :=
  ccl_centroids_raster twoBlockMask ⟨[⟨2, 2, 0, [0]⟩, ⟨6, 6, 0, [0]⟩], 2, 1⟩ ccl_two_blocks

/-- Witness for C20 on `centsA`. -/
theorem detectShift_self_witness :
    detectShift centsA centsA.length centsA centsA.length = ⟨some 0, some 0⟩ :=
  detectShift_self centsA (List.cons_ne_nil _ _)

/-- The capacity bound on `twoBlockMask`: two centroids, below 500. -/
theorem ccl_count_lt_cap_witness :
    (2 : Nat) < 500 ∧ ([⟨2, 2, 0, [0]⟩, ⟨6, 6, 0, [0]⟩] : List Centroid).length < 500 :=
  ccl_count_lt_cap twoBlockMask ⟨[⟨2, 2, 0, [0]⟩, ⟨6, 6, 0, [0]⟩], 2, 1⟩ ccl_two_blocks

/-- Witness for C12: the 41 × 51 mask `dotMask 41 51` has 500 isolated foreground pixels,
and labelling it fails with the too-many-components error. -/
theorem ccl_sparse_cap_witness :
    Sparse (validatePGM (dotMask 41 51)).1 ∧ Binary (validatePGM (dotMask 41 51)).1 ∧
    fgTotal (validatePGM (dotMask 41 51)).1
      (List.range' 1 ((dotMask 41 51).header.height - 2))
      (List.range' 1 ((dotMask 41 51).header.width - 2)) = 500 ∧
    ConnectedComponentLabeling (dotMask 41 51) =
      Except.error MgError.tooManyComponents :=
  ⟨dotMask_sparse 41 51, dotMask_binary 41 51, dotMask_count,
    (ccl_sparse_cap (dotMask 41 51) (dotMask_sparse 41 51) (dotMask_binary 41 51)).1.2
      (Nat.le_of_eq dotMask_count.symm)⟩

/-- Witness for C21: the five sample frames at 100 percent. -/
theorem downlinkData_endpoints_witness :
    (2 : Nat) ≤ 5 ∧ EndpointsPinned 5 fiveAfterTwo :=
  ⟨by decide, (downlinkData_endpoints 100 fiveAcc fiveDist 5 ⟨none, none⟩ none
    (by decide)).2.1 fiveAfterTwo (by decide!)⟩

/-- Witness for C24: frame 3 of the five sample frames, transmitted in the first pass,
has score 0 and is still transmitted after the second pass. -/
theorem downlinkData_transmitted_witness :
    fiveAfterOne.score.getD 3 none = some 0 ∧ fiveAfterTwo.downlinked.getD 3 false = true :=
  ⟨(downlinkData_transmitted 100 fiveAcc fiveDist 5 ⟨none, none⟩ none 1 1 fiveAfterOne
      fiveAfterTwo (by decide!) (by decide!)).1 3 rfl,
    (downlinkData_transmitted 100 fiveAcc fiveDist 5 ⟨none, none⟩ none 1 1 fiveAfterOne
      fiveAfterTwo (by decide!) (by decide!)).2 3 rfl⟩

/-- Witness for C23 on the failing input: with the interior score 0 the search leaves
the index at 0, although the interior index 1 holds the greatest interior score. -/
theorem scoreSearch_choice_witness :
    (scoreSearch 3 [some 0, some 0, some 0] 0).2 = 0 :=
  (scoreSearch_choice 3 [some 0, some 0, some 0] 0).1 (fun j h1 h2 v hv => by
    have hj : j = 1 := by omega
    subst hj
    cases hv
    exact le_refl 0)

/-- Witness for C25 on the failing input: three frames with score 0 at 100 percent. -/
theorem downlinkData_attempts_witness :
    downlinkData 100 flatAcc flatDist 3 ⟨none, none⟩ none =
      Except.error DownlinkError.outOfBounds :=
  (downlinkData_attempts 100 flatAcc flatDist 3 ⟨none, none⟩ none).2.2.2
    ⟨by decide!, fun j h1 h2 v hv => by
      have hj : j = 1 := by omega
      subst hj
      have e : (downlinkEntry flatAcc flatDist 3 ⟨none, none⟩ none).score.getD 1 none =
          some 0 := by decide!
      rw [e] at hv
      cases hv
      exact le_refl 0⟩

/-- Witness for C30: `oneDotMask` and `oneDotBorder` differ on the border only. -/
theorem ccl_border_independent_witness :
    ConnectedComponentLabeling oneDotMask = ConnectedComponentLabeling oneDotBorder :=
  ccl_border_independent oneDotMask oneDotBorder rfl rfl (fun y x h1 h2 h3 h4 => by
    have hy : y = 1 := by
      have : y + 1 < 3 := h2
      omega
    have hx : x = 1 := by
      have : x + 1 < 3 := h4
      omega
    subst hy
    subst hx
    rfl)

/-- Witness for C27: the swapped arrays. -/
theorem compareCents_members_witness :
    compareCents [⟨0, 0⟩, ⟨1, 1⟩] [⟨1, 1⟩, ⟨0, 0⟩] 2 = true ∧
    compareCents [⟨1, 1⟩, ⟨0, 0⟩] [⟨1, 1⟩, ⟨0, 0⟩] 2 = true :=
  ⟨((compareCents_members [⟨0, 0⟩, ⟨1, 1⟩] [⟨1, 1⟩, ⟨0, 0⟩] 2 swappedCents_distinct).1).2
      (fun i hi => by
        interval_cases i
        · exact ⟨1, by decide, rfl, rfl⟩
        · exact ⟨0, by decide, rfl, rfl⟩),
    (compareCents_members [⟨0, 0⟩, ⟨1, 1⟩] [⟨1, 1⟩, ⟨0, 0⟩] 2 swappedCents_distinct).2⟩

/-- Witness for C28: with `k = 2`, `numCents = 3` and `rand()` returning 0 and then 2, the
seed indices are 0 and 2, both indices of centroids. -/
theorem seedLoop_indices_witness :
    ([-1, -1] : List Int).length = 2 ∧
    seedLoop 2 (List.range 2) [-1, -1] [0, 2] = some [0, 2] ∧
    (0 ≤ ([0, 2] : List Int).getD 1 0 ∧ ([0, 2] : List Int).getD 1 0 < ((3 : Nat) : Int)) :=
  ⟨rfl, by decide,
    (seedLoop_indices 2 [-1, -1] [0, 2] [0, 2] rfl (by decide)).2.2.2 3 (by decide) 1
      (by decide)⟩

/-- Witness for C26 on the failing input `tieCents`: the first centroid is nearest to
cluster 1; the second is as near to cluster 0 as to cluster 1 and gets cluster 1, while
on its own it gets cluster 0. -/
theorem sortCentroids_carried_witness :
    sortCentroids 2 2 tieCents = [⟨0, 0, 1, [25, 1]⟩, ⟨0, 0, 1, [9, 9]⟩] ∧
    sortCentroids 1 2 [⟨0, 0, 0, [9, 9]⟩] = [⟨0, 0, 0, [9, 9]⟩] ∧
    (sortCentroids 2 2 tieCents).getD 1 noCentroid =
      { tieCents.getD 1 noCentroid with
        kGroup := (minScan (tieCents.getD 1 noCentroid).distances 2
          (if 1 = 0 then 0
            else ((sortCentroids 2 2 tieCents).getD (1 - 1) noCentroid).kGroup.toNat) :
            Nat) } :=
  ⟨by decide, by decide, (sortCentroids_carried 2 2 tieCents (by decide) 1 (by decide)).1⟩

/-- Witness for C34 on three frames: one acceleration is computed, at index 0, and the
score of frame 1 is computed from `acceleration[1]`, past the end. -/
theorem accList_read_past_end_witness :
    accList 3 threeShifts ⟨none, none⟩ = [⟨some (-2), some (-3)⟩] ∧
    (downlinkEntry (accList 3 threeShifts ⟨none, none⟩) [some 4, some 4, some 4] 3
        ⟨some 7, some 9⟩ none).score.getD (3 - 2) none =
      dblAdd (dblMul (([some 4, some 4, some 4] : List (Option ℚ)).getD (3 - 2) none)
          (some (1 / 2)))
        (dblMul (dblAdd (⟨some 7, some 9⟩ : Shift).x (⟨some 7, some 9⟩ : Shift).y)
          (some (1 / 2))) :=
  ⟨by decide!,
    (accList_read_past_end 3 (by decide) threeShifts rfl ⟨none, none⟩
      [some 4, some 4, some 4] ⟨some 7, some 9⟩ none).2.2⟩

/-- Witness for C33 on the failing input: three frames with score 0; the first attempt
keeps the index 0 and reads `downlinked[-1]`. -/
theorem downlinkAttempt_index_witness :
    (scoreSearch 3 (downlinkEntry flatAcc flatDist 3 ⟨none, none⟩ none).score
      (downlinkEntry flatAcc flatDist 3 ⟨none, none⟩ none).index).2 = 0 ∧
    downlinkAttempt 3 (downlinkEntry flatAcc flatDist 3 ⟨none, none⟩ none) =
      Except.error DownlinkError.outOfBounds :=
  ⟨((downlinkAttempt_index 3 (downlinkEntry flatAcc flatDist 3 ⟨none, none⟩ none)).2
      (fun j h1 h2 v hv => by
        have hj : j = 1 := by omega
        subst hj
        have e : (downlinkEntry flatAcc flatDist 3 ⟨none, none⟩ none).score.getD 1 none =
            some 0 := by decide!
        rw [e] at hv
        cases hv
        exact le_refl 0)).1,
    ((downlinkAttempt_index 3 (downlinkEntry flatAcc flatDist 3 ⟨none, none⟩ none)).2
      (fun j h1 h2 v hv => by
        have hj : j = 1 := by omega
        subst hj
        have e : (downlinkEntry flatAcc flatDist 3 ⟨none, none⟩ none).score.getD 1 none =
            some 0 := by decide!
        rw [e] at hv
        cases hv
        exact le_refl 0)).2 rfl⟩

/-- Witness for C35: five frames at 60 percent; the quota is 3 and 4 frames are
transmitted. -/
theorem downlinkData_overshoot_witness :
    ((4 : Nat) : Int) ≤ max 2 (images2Downlink 5 60 + 2) ∧
    fiveAfterOne.downlinked.count true = 4 ∧ images2Downlink 5 60 = 3 :=
  ⟨(downlinkData_overshoot 60 fiveAcc fiveDist 5 ⟨none, none⟩ none (by decide)
      fiveAfterOne (by decide!)).1,
    (downlinkData_overshoot 60 fiveAcc fiveDist 5 ⟨none, none⟩ none (by decide)
      fiveAfterOne (by decide!)).2, by decide!⟩

/-- Witness for C36: the first attempt on the five sample frames. -/
theorem downlinkAttempt_progress_witness :
    (downlinkEntry fiveAcc fiveDist 5 ⟨none, none⟩ none).downlinked.getD
      (scoreSearch 5 (downlinkEntry fiveAcc fiveDist 5 ⟨none, none⟩ none).score
        (downlinkEntry fiveAcc fiveDist 5 ⟨none, none⟩ none).index).2 false = false ∧
    ∃ st1, downlinkAttempt 5 (downlinkEntry fiveAcc fiveDist 5 ⟨none, none⟩ none) =
        Except.ok st1 ∧
      st1.downlinked.getD
        (scoreSearch 5 (downlinkEntry fiveAcc fiveDist 5 ⟨none, none⟩ none).score
          (downlinkEntry fiveAcc fiveDist 5 ⟨none, none⟩ none).index).2 false = true ∧
      (downlinkEntry fiveAcc fiveDist 5 ⟨none, none⟩ none).downlinkCount <
        st1.downlinkCount ∧
      (downlinkEntry fiveAcc fiveDist 5 ⟨none, none⟩ none).downlinked.count true <
        st1.downlinked.count true :=
  downlinkAttempt_progress 100 fiveAcc fiveDist 5 ⟨none, none⟩ none 0
    (downlinkEntry fiveAcc fiveDist 5 ⟨none, none⟩ none) rfl
    ⟨3, 4, by decide, by decide, by decide!, by norm_num⟩

/-- C31 (amended) on the L-shaped mask: the external trace from the pixel (1, 1), whose
upper neighbours are background, moves and stops within the fuel 128. -/
theorem contourTracing_terminates_witness :
    ZeroBorder cornerMask 4 4 ∧ rowsGet cornerMask 1 1 ≠ 0 ∧
    rowsGet cornerMask (1 - 1) 1 = 0 ∧ rowsGet cornerMask (1 - 1) (1 + 1) = 0 ∧
    8 * 4 * 4 ≤ 128 ∧
    ((Tracer cornerMask ⟨cornerLabels, 1, 1, 0⟩).cx ≠ 1 ∨
      (Tracer cornerMask ⟨cornerLabels, 1, 1, 0⟩).cy ≠ 1) ∧
    ((¬ ((Tracer cornerMask ⟨cornerLabels, 1, 1, 0⟩).cx ≠ 1 ∨
        (Tracer cornerMask ⟨cornerLabels, 1, 1, 0⟩).cy ≠ 1) →
      ContourTracing cornerMask cornerLabels 128 1 1 1 0 =
        some (Tracer cornerMask ⟨cornerLabels, 1, 1, 0⟩).labelmap) ∧
    (((Tracer cornerMask ⟨cornerLabels, 1, 1, 0⟩).cx ≠ 1 ∨
        (Tracer cornerMask ⟨cornerLabels, 1, 1, 0⟩).cy ≠ 1) →
      ∃ j, j < 8 * 4 * 4 ∧
        BackAtStart cornerMask 1 1 1 (Tracer cornerMask ⟨cornerLabels, 1, 1, 0⟩) j ∧
        (∀ i, i < j →
          ¬ BackAtStart cornerMask 1 1 1 (Tracer cornerMask ⟨cornerLabels, 1, 1, 0⟩) i) ∧
        ContourTracing cornerMask cornerLabels 128 1 1 1 0 =
          some (tracedState cornerMask 1 (Tracer cornerMask ⟨cornerLabels, 1, 1, 0⟩)
            (j + 1)).labelmap)) :=
  ⟨cornerMask_zeroBorder, by decide, by decide, by decide, by decide, by decide,
    contourTracing_terminates cornerMask 4 4 cornerMask_zeroBorder cornerLabels 1 1 1 0
      (by decide) (Or.inl ⟨rfl, by decide, by decide⟩) 128 (by decide)⟩

/-- Witness for C17: the two centroids of `centsA` with `k = 2` and `rand()` returning 0 and
then 1, so that the seed indices are 0 and 1. -/
theorem kmeans_every_centroid_seeded_witness :
    seedLoop 2 (List.range 2) [-1, -1] [0, 1] = some [0, 1] ∧
    ∃ out, kmeans 2 centsA 2 [0, 1] [-1, -1] noCentroid = some out ∧
      out.length = 2 ∧
      (∀ c ∈ out, 0 ≤ c.kGroup ∧ c.kGroup.toNat < c.distances.length ∧
        c.distances.getD c.kGroup.toNat 0 = 0) ∧
      calcClusterDensity 2 out = Except.ok ⟨[0, 0], 2⟩ ∧
      (([0, 0] : List Nat).map (fun d : Nat => Real.sqrt (d : ℝ))).sum / ((2 : Nat) : ℝ) = 0 :=
  ⟨by decide,
    kmeans_every_centroid_seeded centsA [0, 1] [-1, -1] [0, 1] noCentroid (by decide)
      (by decide) rfl (by decide) (by decide)⟩

/-- Witness for C18: two centroids with two distance slots each, the first in cluster 0
and the second in cluster 1. -/
theorem calcClusterDensity_value_witness :
    (∀ c ∈ ([⟨0, 0, 0, [9, 4]⟩, ⟨3, 4, 1, [25, 16]⟩] : List Centroid),
      0 ≤ c.kGroup ∧ c.kGroup.toNat < c.distances.length) ∧
    calcClusterDensity 2 [⟨0, 0, 0, [9, 4]⟩, ⟨3, 4, 1, [25, 16]⟩] =
      Except.ok ⟨[9, 16], 2⟩ :=
  ⟨by decide,
    (calcClusterDensity_value [⟨0, 0, 0, [9, 4]⟩, ⟨3, 4, 1, [25, 16]⟩] (by decide)).1⟩

end ParticleTracking
